import Mathlib

/-!
# A lattice-Boltzmann (D2Q9) solver: shallow embedding of `lb.go`

The Go program keeps one mutable `Solver` record whose per-cell fields are
flat slices indexed by `x + y*xdim`.  The embedding below follows the source
function by function:

* a Go slice is a `List`; reading or writing outside `0 ≤ i < len` is a
  run-time panic, modelled by `none` in the `Option` monad (`rd`, `wr`);
  `make` with a negative length panics as well;
* a method with receiver `s *Solver` is a function `Solver → Option Solver`;
  statements are sequenced by `andThen`, which stops at the first panic;
* a counting `for` loop is a monadic left fold over the list of values the
  loop variable takes (`upTo`, `downTo`, `upThru`); no loop body assigns the
  grid dimensions, so the loop bounds are read once from the entry state;
* Go's `int` is `Int` (the products `x + y*xdim` of an allocated grid are far
  below `2^63`), and integer division is truncating (`Int.tdiv`);
* `float32` values are idealised as exact rationals (`ℚ`): the theorems are
  statements of real arithmetic, rounding is not modelled.  Division by zero
  follows the field convention `x / 0 = 0`, where `float32` has an infinity
  or a NaN: the statements about the values `Collide` computes at a cell
  assume that the nine densities of the cell do not sum to zero;
* `fmt.Println` produces output only and is left out;
* in `CollideThreaded` and `StreamThreaded` the goroutines are run one after
  the other, in the order in which the source starts them: one schedule of
  the concurrent program.  The goroutines of `CollideThreaded` and the four
  sweeps of `StreamThreaded` touch disjoint parts of the lattice, so every
  schedule of them gives the same result.  The row goroutines of the
  bounce-back loop of `StreamThreaded` do not: they write into the rows of
  their neighbours and share the force accumulators, without a lock.
  `StreamThreadedUnder` runs them read by read and write by write in the
  order a schedule gives, and `SimulateUnder` is a frame under a schedule for
  each pass; under the empty schedule they are `StreamThreaded` and
  `Simulate` (`StreamThreadedUnder_nil`, `SimulateUnder_nil`).  `StreamRows`
  runs the row goroutines to completion in another order, and `countUnder`
  interleaves the load and the store of each `s.barrierCount++`;
* of the application state only the fields the solver reads are kept
  (`AppProperties`); the conversion `int(f)` of a float truncates toward zero;
* `math.Sqrt` has no rational model and is a parameter of the plotting
  functions; the image is the sequence of the `SetRGBA` calls made on it.
-/

namespace LBM

/-! ## Slices and loops -/

/-- Read `a[i]`; a panic (`none`) when `i` is out of range. -/
def rd {α : Type} (a : List α) (i : Int) : Option α :=
  if i < 0 then none else a[i.toNat]?

/-- Write `a[i] = v`; a panic (`none`) when `i` is out of range. -/
def wr {α : Type} (a : List α) (i : Int) (v : α) : Option (List α) :=
  if 0 ≤ i ∧ i.toNat < a.length then some (a.set i.toNat v) else none

/-- Go `make([]T, n)`: a zeroed slice of length `n`, a panic when `n < 0`. -/
def make {α : Type} (z : α) (n : Int) : Option (List α) :=
  if n < 0 then none else some (List.replicate n.toNat z)

/-- Sequencing of two steps either of which may panic: the second runs on the result
of the first. -/
@[noinline]
def andThen {α β : Type} (o : Option α) (f : α → Option β) : Option β := o.bind f

/-- Values of `for v := lo; v < hi; v++`. -/
def upTo (lo hi : Int) : List Int :=
  (List.range (hi - lo).toNat).map (fun (k : Nat) => lo + (k : Int))

/-- Values of `for v := lo; v <= hi; v++`. -/
def upThru (lo hi : Int) : List Int := upTo lo (hi + 1)

/-- Values of `for v := hi; v > lo; v--`. -/
def downTo (hi lo : Int) : List Int :=
  (List.range (hi - lo).toNat).map (fun (k : Nat) => hi - (k : Int))

/-! ## The solver record (`type Solver struct`) -/

/-- Constant `LINE` of the barrier types. -/
def LINE : Int := 0

/-- Constant `CIRCLE` of the barrier types. -/
def CIRCLE : Int := 1

/-- The Go struct `Solver`, field by field. -/
structure Solver where
  xdim : Int
  ydim : Int
  numElements : Int
  flowVel : ℚ
  flowVisc : ℚ
  n0 : List ℚ
  nN : List ℚ
  nS : List ℚ
  nE : List ℚ
  nW : List ℚ
  nNE : List ℚ
  nSE : List ℚ
  nNW : List ℚ
  nSW : List ℚ
  rho : List ℚ
  ux : List ℚ
  uy : List ℚ
  curl : List ℚ
  running : Bool
  time : Int
  stepsPerFrame : Int
  one9th : ℚ
  one36th : ℚ
  four9ths : ℚ
  barrier : List Bool
  barrierCount : Int
  barrierxSum : Int
  barrierySum : Int
  barrierFx : ℚ
  barrierFy : ℚ
  nColors : Int
  redList : List Int
  greenList : List Int
  blueList : List Int
  dragging : Bool
  oldTouchX : ℚ
  oldTouchY : ℚ

/-! ## Equilibrium and initialisation -/

/-- Method `Solver.SetEquilibrium`: set all densities of cell `(x, y)` to their
equilibrium values for a velocity and a density (`newrho = -1` keeps the
density stored in the cell). -/
def SetEquilibrium (s : Solver) (x y : Int) (newux newuy newrho : ℚ) : Option Solver :=
  let i : Int := x + (y * s.xdim)
  andThen (if newrho = -1 then rd s.rho i else some newrho) fun newrho =>
  let ux3 : ℚ := 3 * newux
  let uy3 : ℚ := 3 * newuy
  let ux2 : ℚ := newux * newux
  let uy2 : ℚ := newuy * newuy
  let uxuy2 : ℚ := 2 * newux * newuy
  let u2 : ℚ := ux2 + uy2
  let u215 : ℚ := 1.5 * u2
  andThen (wr s.n0 i (s.four9ths * newrho * (1 - u215))) fun n0 =>
  andThen (wr s.nE i (s.one9th * newrho * (1 + ux3 + 4.5 * ux2 - u215))) fun nE =>
  andThen (wr s.nW i (s.one9th * newrho * (1 - ux3 + 4.5 * ux2 - u215))) fun nW =>
  andThen (wr s.nN i (s.one9th * newrho * (1 + uy3 + 4.5 * uy2 - u215))) fun nN =>
  andThen (wr s.nS i (s.one9th * newrho * (1 - uy3 + 4.5 * uy2 - u215))) fun nS =>
  andThen (wr s.nNE i (s.one36th * newrho * (1 + ux3 + uy3 + 4.5 * (u2 + uxuy2) - u215))) fun nNE =>
  andThen (wr s.nSE i (s.one36th * newrho * (1 + ux3 - uy3 + 4.5 * (u2 - uxuy2) - u215))) fun nSE =>
  andThen (wr s.nNW i (s.one36th * newrho * (1 - ux3 + uy3 + 4.5 * (u2 - uxuy2) - u215))) fun nNW =>
  andThen (wr s.nSW i (s.one36th * newrho * (1 - ux3 - uy3 + 4.5 * (u2 + uxuy2) - u215))) fun nSW =>
  andThen (wr s.rho i newrho) fun rho =>
  andThen (wr s.ux i newux) fun ux =>
  andThen (wr s.uy i newuy) fun uy =>
  some { s with n0 := n0, nE := nE, nW := nW, nN := nN, nS := nS, nNE := nNE, nSE := nSE,
                nNW := nNW, nSW := nSW, rho := rho, ux := ux, uy := uy }

/-- Method `Solver.InitSolver`: set the parameters and allocate every per-cell slice with
`xmax * ymax` zeroed entries.  The palette lists, `dragging` and nothing else are kept. -/
def InitSolver (s : Solver) (xmax ymax : Int) (fVel fVisc : ℚ) : Option Solver :=
  let numElements : Int := xmax * ymax
  andThen (make false numElements) fun barrier =>
  andThen (make (0 : ℚ) numElements) fun n0 =>
  andThen (make (0 : ℚ) numElements) fun nN =>
  andThen (make (0 : ℚ) numElements) fun nS =>
  andThen (make (0 : ℚ) numElements) fun nE =>
  andThen (make (0 : ℚ) numElements) fun nW =>
  andThen (make (0 : ℚ) numElements) fun nNE =>
  andThen (make (0 : ℚ) numElements) fun nSE =>
  andThen (make (0 : ℚ) numElements) fun nNW =>
  andThen (make (0 : ℚ) numElements) fun nSW =>
  andThen (make (0 : ℚ) numElements) fun rho =>
  andThen (make (0 : ℚ) numElements) fun ux =>
  andThen (make (0 : ℚ) numElements) fun uy =>
  andThen (make (0 : ℚ) numElements) fun curl =>
  some { s with xdim := xmax, ydim := ymax, numElements := numElements,
                flowVel := fVel, flowVisc := fVisc, nColors := 256,
                time := 0, running := false, stepsPerFrame := 3,
                barrier := barrier, barrierCount := 0, barrierxSum := 0, barrierySum := 0,
                barrierFx := 0, barrierFy := 0, oldTouchX := -1, oldTouchY := -1,
                n0 := n0, nN := nN, nS := nS, nE := nE, nW := nW, nNE := nNE, nSE := nSE,
                nNW := nNW, nSW := nSW, rho := rho, ux := ux, uy := uy, curl := curl,
                one9th := 1.0 / 9.0, one36th := 1.0 / 36.0, four9ths := 4.0 / 9.0 }

/-- Method `Solver.ClearBarriers`. -/
def ClearBarriers (s : Solver) : Option Solver :=
  (upTo 0 s.ydim).foldlM (fun st y =>
    (upTo 0 s.xdim).foldlM (fun st x =>
      andThen (wr st.barrier (x + y * s.xdim) false) fun b =>
      some { st with barrier := b }) st) s

/-- Method `Solver.CreateBarrier`.  `int(math.Ceil(float64(s.ydim / 3)))` is the integer
quotient `s.ydim / 3` (the division is on `int`, so `Ceil` finds a whole number), and the
`math.Pow`/`math.Abs` expression of the circle is exact on the small integers it is given;
any other `barrierType` paints nothing. -/
def CreateBarrier (s : Solver) (barrierType : Int) : Option Solver :=
  if barrierType = LINE then
    let barrierSize : Int := 8
    (upThru (s.ydim.tdiv 2 - barrierSize) (s.ydim.tdiv 2 + barrierSize)).foldlM (fun st y =>
      let x : Int := s.ydim.tdiv 3
      andThen (wr st.barrier (x + y * s.xdim) true) fun b =>
      some { st with barrier := b }) s
  else if barrierType = CIRCLE then
    let xo : Int := s.ydim.tdiv 3
    let yo : Int := s.ydim.tdiv 2
    let r : Int := 6
    let r2 : Int := r ^ 2
    (upThru (xo - r) (xo + r)).foldlM (fun st i =>
      (upThru (yo - r) (yo + r)).foldlM (fun st j =>
        if abs ((i - xo) ^ 2) + (j - yo) ^ 2 - r2 ≤ r then
          andThen (wr st.barrier (i + j * s.xdim) true) fun b =>
          some { st with barrier := b }
        else some st) st) s
  else some s

/-- Go integer division `a / b`: truncating, a panic when `b = 0`. -/
def quo (a b : Int) : Option Int := if b = 0 then none else some (a.tdiv b)

/-- The colour `(r, g, b)` that `CreateColorMap` computes for palette index `c`. -/
def jet (nColors c : Int) : Option (Int × Int × Int) :=
  if c < nColors.tdiv 8 then
    andThen (quo (255 * (c + nColors.tdiv 8)) (nColors.tdiv 4)) fun b => some (0, 0, b)
  else if c < (3 * nColors).tdiv 8 then
    andThen (quo (255 * (c - nColors.tdiv 8)) (nColors.tdiv 4)) fun g => some (0, g, 255)
  else if c < (5 * nColors).tdiv 8 then
    andThen (quo (255 * (c - (3 * nColors).tdiv 8)) (nColors.tdiv 4)) fun r =>
      some (r, 255, 255 - r)
  else if c < (7 * nColors).tdiv 8 then
    andThen (quo (255 * ((7 * nColors).tdiv 8 - c)) (nColors.tdiv 4)) fun g => some (255, g, 0)
  else
    andThen (quo (255 * ((9 * nColors).tdiv 8 - c)) (nColors.tdiv 4)) fun r => some (r, 0, 0)

/-- Method `Solver.CreateColorMap`: allocate the three palette lists with `nColors + 2`
entries, fill indices `0 .. nColors` and make index `nColors + 1` black. -/
def CreateColorMap (s : Solver) : Option Solver :=
  andThen (make (0 : Int) (s.nColors + 2)) fun redList =>
  andThen (make (0 : Int) (s.nColors + 2)) fun greenList =>
  andThen (make (0 : Int) (s.nColors + 2)) fun blueList =>
  let s0 : Solver := { s with redList := redList, greenList := greenList, blueList := blueList }
  andThen ((upThru 0 s.nColors).foldlM (fun st c =>
      andThen (jet s.nColors c) fun rgb =>
      andThen (wr st.redList c rgb.1) fun rl =>
      andThen (wr st.greenList c rgb.2.1) fun gl =>
      andThen (wr st.blueList c rgb.2.2) fun bl =>
      some { st with redList := rl, greenList := gl, blueList := bl }) s0) fun st =>
  andThen (wr st.redList (s.nColors + 1) 0) fun rl =>
  andThen (wr st.greenList (s.nColors + 1) 0) fun gl =>
  andThen (wr st.blueList (s.nColors + 1) 0) fun bl =>
  some { st with redList := rl, greenList := gl, blueList := bl }

/-- Method `Solver.InitFluid`: every cell to equilibrium at the inlet velocity with unit
density, and its curl to zero. -/
def InitFluid (s : Solver) : Option Solver :=
  let u0 : ℚ := s.flowVel
  (upTo 0 s.ydim).foldlM (fun st y =>
    (upTo 0 s.xdim).foldlM (fun st x =>
      andThen (SetEquilibrium st x y u0 0 1) fun st =>
      andThen (wr st.curl (x + y * s.xdim) 0.0) fun curl =>
      some { st with curl := curl }) st) s

/-- Method `Solver.InitalizeLattice`. -/
def InitalizeLattice (s : Solver) (xmax ymax : Int) (fVel fVisc : ℚ) (barrierType : Int) :
    Option Solver :=
  andThen (InitSolver s xmax ymax fVel fVisc) fun s =>
  andThen (ClearBarriers s) fun s =>
  andThen (CreateBarrier s barrierType) fun s =>
  andThen (CreateColorMap s) fun s =>
  InitFluid s

/-- Method `Solver.SetBoundaries`. -/
def SetBoundaries (s : Solver) : Option Solver :=
  let u0 : ℚ := s.flowVel
  andThen ((upTo 0 s.xdim).foldlM (fun st x =>
      andThen (SetEquilibrium st x 0 u0 0 1) fun st =>
      SetEquilibrium st x (s.ydim - 1) u0 0 1) s) fun s1 =>
  (upTo 1 (s.ydim - 1)).foldlM (fun st y =>
    andThen (SetEquilibrium st 0 y u0 0 1) fun st =>
    SetEquilibrium st (s.xdim - 1) y u0 0 1) s1

/-! ## Collision -/

/-- Body of the two loops of `Collide` (and of `CollideThreaded`) at the lattice site
`(x, y)`.  The nine densities of the site are read once: the source reads each of them
again only before its own update.  When the nine densities sum to zero, `1.0 / thisrho`
is `0` here and an infinity or a NaN in the source. -/
def collideSite (omega : ℚ) (dim : Int) (s : Solver) (x y : Int) : Option Solver :=
  let i : Int := x + y * dim
  andThen (rd s.n0 i) fun n0 =>
  andThen (rd s.nN i) fun nN =>
  andThen (rd s.nS i) fun nS =>
  andThen (rd s.nE i) fun nE =>
  andThen (rd s.nW i) fun nW =>
  andThen (rd s.nNW i) fun nNW =>
  andThen (rd s.nNE i) fun nNE =>
  andThen (rd s.nSW i) fun nSW =>
  andThen (rd s.nSE i) fun nSE =>
  let thisrho : ℚ := n0 + nN + nS + nE + nW + nNW + nNE + nSW + nSE
  andThen (wr s.rho i thisrho) fun rho =>
  let invThisRho : ℚ := 1.0 / thisrho
  let thisux : ℚ := (nE + nNE + nSE - nW - nNW - nSW) * invThisRho
  andThen (wr s.ux i thisux) fun ux =>
  let thisuy : ℚ := (nN + nNE + nNW - nS - nSE - nSW) * invThisRho
  andThen (wr s.uy i thisuy) fun uy =>
  let one9thrho : ℚ := s.one9th * thisrho
  let one36thrho : ℚ := s.one36th * thisrho
  let ux3 : ℚ := 3 * thisux
  let uy3 : ℚ := 3 * thisuy
  let ux2 : ℚ := thisux * thisux
  let uy2 : ℚ := thisuy * thisuy
  let uxuy2 : ℚ := 2 * thisux * thisuy
  let u2 : ℚ := ux2 + uy2
  let u215 : ℚ := 1.5 * u2
  andThen (wr s.n0 i (n0 + omega * (s.four9ths * thisrho * (1 - u215) - n0))) fun a0 =>
  andThen (wr s.nE i (nE + omega * (one9thrho * (1 + ux3 + 4.5 * ux2 - u215) - nE))) fun aE =>
  andThen (wr s.nW i (nW + omega * (one9thrho * (1 - ux3 + 4.5 * ux2 - u215) - nW))) fun aW =>
  andThen (wr s.nN i (nN + omega * (one9thrho * (1 + uy3 + 4.5 * uy2 - u215) - nN))) fun aN =>
  andThen (wr s.nS i (nS + omega * (one9thrho * (1 - uy3 + 4.5 * uy2 - u215) - nS))) fun aS =>
  andThen (wr s.nNE i
    (nNE + omega * (one36thrho * (1 + ux3 + uy3 + 4.5 * (u2 + uxuy2) - u215) - nNE))) fun aNE =>
  andThen (wr s.nSE i
    (nSE + omega * (one36thrho * (1 + ux3 - uy3 + 4.5 * (u2 - uxuy2) - u215) - nSE))) fun aSE =>
  andThen (wr s.nNW i
    (nNW + omega * (one36thrho * (1 - ux3 + uy3 + 4.5 * (u2 - uxuy2) - u215) - nNW))) fun aNW =>
  andThen (wr s.nSW i
    (nSW + omega * (one36thrho * (1 - ux3 - uy3 + 4.5 * (u2 + uxuy2) - u215) - nSW))) fun aSW =>
  some { s with rho := rho, ux := ux, uy := uy, n0 := a0, nE := aE, nW := aW, nN := aN,
                nS := aS, nNE := aNE, nSE := aSE, nNW := aNW, nSW := aSW }

/-- Body of the last loop of `Collide`: at the right end of row `y`, copy the three
left-flowing densities from the site to the left. -/
def outflowRow (dim : Int) (s : Solver) (y : Int) : Option Solver :=
  andThen (rd s.nW (dim - 2 + y * dim)) fun v =>
  andThen (wr s.nW (dim - 1 + y * dim) v) fun nW =>
  let s1 : Solver := { s with nW := nW }
  andThen (rd s1.nNW (dim - 2 + y * dim)) fun v =>
  andThen (wr s1.nNW (dim - 1 + y * dim) v) fun nNW =>
  let s2 : Solver := { s1 with nNW := nNW }
  andThen (rd s2.nSW (dim - 2 + y * dim)) fun v =>
  andThen (wr s2.nSW (dim - 1 + y * dim) v) fun nSW =>
  some { s2 with nSW := nSW }

/-- Method `Solver.Collide`. -/
def Collide (s : Solver) : Option Solver :=
  let viscosity : ℚ := s.flowVisc
  let omega : ℚ := 1.0 / (3 * viscosity + 0.5)
  andThen ((upTo 1 (s.ydim - 1)).foldlM (fun st y =>
      (upTo 1 (s.xdim - 1)).foldlM (fun st x => collideSite omega s.xdim st x y) st) s) fun s1 =>
  (upTo 1 (s.ydim - 2)).foldlM (fun st y => outflowRow s.xdim st y) s1

/-! ## Streaming -/

/-- First loop of `Stream`: start in the NW corner, move the north-moving and the
northwest-moving particles. -/
def streamNW (s : Solver) : Option Solver :=
  (downTo (s.ydim - 2) 0).foldlM (fun st y =>
    (upTo 1 (s.xdim - 1)).foldlM (fun st x =>
      andThen (rd st.nN (x + (y - 1) * s.xdim)) fun v =>
      andThen (wr st.nN (x + y * s.xdim) v) fun nN =>
      andThen (rd st.nNW (x + 1 + (y - 1) * s.xdim)) fun w =>
      andThen (wr st.nNW (x + y * s.xdim) w) fun nNW =>
      some { st with nN := nN, nNW := nNW }) st) s

/-- Second loop of `Stream`: start in the NE corner, move the east-moving and the
northeast-moving particles. -/
def streamNE (s : Solver) : Option Solver :=
  (downTo (s.ydim - 2) 0).foldlM (fun st y =>
    (downTo (s.xdim - 2) 0).foldlM (fun st x =>
      andThen (rd st.nE (x - 1 + y * s.xdim)) fun v =>
      andThen (wr st.nE (x + y * s.xdim) v) fun nE =>
      andThen (rd st.nNE (x - 1 + (y - 1) * s.xdim)) fun w =>
      andThen (wr st.nNE (x + y * s.xdim) w) fun nNE =>
      some { st with nE := nE, nNE := nNE }) st) s

/-- Third loop of `Stream`: start in the SE corner, move the south-moving and the
southeast-moving particles. -/
def streamSE (s : Solver) : Option Solver :=
  (upTo 1 (s.ydim - 1)).foldlM (fun st y =>
    (downTo (s.xdim - 2) 0).foldlM (fun st x =>
      andThen (rd st.nS (x + (y + 1) * s.xdim)) fun v =>
      andThen (wr st.nS (x + y * s.xdim) v) fun nS =>
      andThen (rd st.nSE (x - 1 + (y + 1) * s.xdim)) fun w =>
      andThen (wr st.nSE (x + y * s.xdim) w) fun nSE =>
      some { st with nS := nS, nSE := nSE }) st) s

/-- Fourth loop of `Stream`: start in the SW corner, move the west-moving and the
southwest-moving particles. -/
def streamSW (s : Solver) : Option Solver :=
  (upTo 1 (s.ydim - 1)).foldlM (fun st y =>
    (upTo 1 (s.xdim - 1)).foldlM (fun st x =>
      andThen (rd st.nW (x + 1 + y * s.xdim)) fun v =>
      andThen (wr st.nW (x + y * s.xdim) v) fun nW =>
      andThen (rd st.nSW (x + 1 + (y + 1) * s.xdim)) fun w =>
      andThen (wr st.nSW (x + y * s.xdim) w) fun nSW =>
      some { st with nW := nW, nSW := nSW }) st) s

/-- Body of the bounce-back loop of `Stream` (and of `StreamThreaded`) at the site
`(x, y)`: at a barrier site, each density that streamed into the barrier is written to
the neighbour it came from, in the reverse direction, and the force accumulators are
updated.  The eight densities of the site that enter the force are read once, after the
eight writes. -/
def bounceSite (dim : Int) (s : Solver) (x y : Int) : Option Solver :=
  andThen (rd s.barrier (x + y * dim)) fun isBarrier =>
  if isBarrier then
    let index : Int := x + y * dim
    andThen (rd s.nW index) fun v =>
    andThen (wr s.nE (x + 1 + y * dim) v) fun nE =>
    let s1 : Solver := { s with nE := nE }
    andThen (rd s1.nE index) fun v =>
    andThen (wr s1.nW (x - 1 + y * dim) v) fun nW =>
    let s2 : Solver := { s1 with nW := nW }
    andThen (rd s2.nS index) fun v =>
    andThen (wr s2.nN (x + (y + 1) * dim) v) fun nN =>
    let s3 : Solver := { s2 with nN := nN }
    andThen (rd s3.nN index) fun v =>
    andThen (wr s3.nS (x + (y - 1) * dim) v) fun nS =>
    let s4 : Solver := { s3 with nS := nS }
    andThen (rd s4.nSW index) fun v =>
    andThen (wr s4.nNE (x + 1 + (y + 1) * dim) v) fun nNE =>
    let s5 : Solver := { s4 with nNE := nNE }
    andThen (rd s5.nSE index) fun v =>
    andThen (wr s5.nNW (x - 1 + (y + 1) * dim) v) fun nNW =>
    let s6 : Solver := { s5 with nNW := nNW }
    andThen (rd s6.nNW index) fun v =>
    andThen (wr s6.nSE (x + 1 + (y - 1) * dim) v) fun nSE =>
    let s7 : Solver := { s6 with nSE := nSE }
    andThen (rd s7.nNE index) fun v =>
    andThen (wr s7.nSW (x - 1 + (y - 1) * dim) v) fun nSW =>
    let s8 : Solver := { s7 with nSW := nSW }
    andThen (rd s8.nE index) fun fE =>
    andThen (rd s8.nNE index) fun fNE =>
    andThen (rd s8.nSE index) fun fSE =>
    andThen (rd s8.nW index) fun fW =>
    andThen (rd s8.nNW index) fun fNW =>
    andThen (rd s8.nSW index) fun fSW =>
    andThen (rd s8.nN index) fun fN =>
    andThen (rd s8.nS index) fun fS =>
    some { s8 with barrierCount := s8.barrierCount + 1,
                   barrierxSum := s8.barrierxSum + x,
                   barrierySum := s8.barrierySum + y,
                   barrierFx := s8.barrierFx + (fE + fNE + fSE - fW - fNW - fSW),
                   barrierFy := s8.barrierFy + (fN + fNE + fNW - fS - fSE - fSW) }
  else some s

/-- Fifth loop of `Stream`: bounce-back from barriers, interior rows in ascending order. -/
def bounceBack (s : Solver) : Option Solver :=
  (upTo 1 (s.ydim - 1)).foldlM (fun st y =>
    (upTo 1 (s.xdim - 1)).foldlM (fun st x => bounceSite s.xdim st x y) st) s

/-- Method `Solver.Stream`: move particles along their directions of motion. -/
def Stream (s : Solver) : Option Solver :=
  let s0 : Solver := { s with barrierCount := 0, barrierxSum := 0, barrierySum := 0,
                              barrierFx := 0.0, barrierFy := 0.0 }
  andThen (streamNW s0) fun s1 =>
  andThen (streamNE s1) fun s2 =>
  andThen (streamSE s2) fun s3 =>
  andThen (streamSW s3) fun s4 =>
  bounceBack s4

/-! ## Stability monitor -/

/-- Method `Solver.CheckFlowStability`: look at the middle row only; when some density
there is not positive, re-initialise the fluid. -/
def CheckFlowStability (s : Solver) : Option Solver :=
  andThen ((upTo 0 s.xdim).foldlM (fun stable x =>
      let index : Int := x + s.ydim.tdiv 2 * s.xdim
      andThen (rd s.rho index) fun r =>
      some (if r ≤ 0 then false else stable)) true) fun stable =>
  if !stable then InitFluid s else some s

/-! ## Vocabulary of the statements -/

/-- The twelve per-cell values the physics reads and writes. -/
structure Cell where
  n0 : ℚ
  nN : ℚ
  nS : ℚ
  nE : ℚ
  nW : ℚ
  nNE : ℚ
  nSE : ℚ
  nNW : ℚ
  nSW : ℚ
  rho : ℚ
  ux : ℚ
  uy : ℚ
deriving DecidableEq

/-- The cell stored at flat index `i`, when `i` is in range of all twelve slices. -/
def cellAt (s : Solver) (i : Int) : Option Cell :=
  andThen (rd s.n0 i) fun n0 =>
  andThen (rd s.nN i) fun nN =>
  andThen (rd s.nS i) fun nS =>
  andThen (rd s.nE i) fun nE =>
  andThen (rd s.nW i) fun nW =>
  andThen (rd s.nNE i) fun nNE =>
  andThen (rd s.nSE i) fun nSE =>
  andThen (rd s.nNW i) fun nNW =>
  andThen (rd s.nSW i) fun nSW =>
  andThen (rd s.rho i) fun rho =>
  andThen (rd s.ux i) fun ux =>
  andThen (rd s.uy i) fun uy =>
  some ⟨n0, nN, nS, nE, nW, nNE, nSE, nNW, nSW, rho, ux, uy⟩

/-- Sum of the nine directional densities of a cell. -/
def Cell.mass (c : Cell) : ℚ :=
  c.n0 + c.nN + c.nS + c.nE + c.nW + c.nNE + c.nSE + c.nNW + c.nSW

/-- The D2Q9 equilibrium weight times `rho (1 + 3 e·u + 4.5 (e·u)^2 - 1.5 u·u)` for the
lattice direction `(ex, ey)`. -/
def feq (w ex ey ux uy rho : ℚ) : ℚ :=
  w * rho * (1 + 3 * (ex * ux + ey * uy) + 9 / 2 * (ex * ux + ey * uy) ^ 2
    - 3 / 2 * (ux ^ 2 + uy ^ 2))

/-- The D2Q9 equilibrium cell for velocity `(ux, uy)` and density `rho`: weight `4/9` at
rest, `1/9` along the axes and `1/36` along the diagonals. -/
def equilibrium (ux uy rho : ℚ) : Cell where
  n0 := feq (4 / 9) 0 0 ux uy rho
  nN := feq (1 / 9) 0 1 ux uy rho
  nS := feq (1 / 9) 0 (-1) ux uy rho
  nE := feq (1 / 9) 1 0 ux uy rho
  nW := feq (1 / 9) (-1) 0 ux uy rho
  nNE := feq (1 / 36) 1 1 ux uy rho
  nSE := feq (1 / 36) 1 (-1) ux uy rho
  nNW := feq (1 / 36) (-1) 1 ux uy rho
  nSW := feq (1 / 36) (-1) (-1) ux uy rho
  rho := rho
  ux := ux
  uy := uy

/-- A well-formed lattice: positive dimensions, every per-cell slice of length
`xdim * ydim`, and the three weights as `InitSolver` sets them. -/
def WellFormed (s : Solver) : Prop :=
  0 < s.xdim ∧ 0 < s.ydim ∧ s.numElements = s.xdim * s.ydim ∧
  (s.n0.length = (s.xdim * s.ydim).toNat ∧ s.nN.length = (s.xdim * s.ydim).toNat ∧
   s.nS.length = (s.xdim * s.ydim).toNat ∧ s.nE.length = (s.xdim * s.ydim).toNat ∧
   s.nW.length = (s.xdim * s.ydim).toNat ∧ s.nNE.length = (s.xdim * s.ydim).toNat ∧
   s.nSE.length = (s.xdim * s.ydim).toNat ∧ s.nNW.length = (s.xdim * s.ydim).toNat ∧
   s.nSW.length = (s.xdim * s.ydim).toNat ∧ s.rho.length = (s.xdim * s.ydim).toNat ∧
   s.ux.length = (s.xdim * s.ydim).toNat ∧ s.uy.length = (s.xdim * s.ydim).toNat ∧
   s.curl.length = (s.xdim * s.ydim).toNat ∧ s.barrier.length = (s.xdim * s.ydim).toNat) ∧
  s.one9th = 1 / 9 ∧ s.one36th = 1 / 36 ∧ s.four9ths = 4 / 9

/-- Relaxation of a cell toward the equilibrium of its own density and velocity, by the
fraction `omega`: the BGK collision. -/
def relax (omega : ℚ) (c : Cell) : Cell :=
  let rho : ℚ := c.n0 + c.nN + c.nS + c.nE + c.nW + c.nNW + c.nNE + c.nSW + c.nSE
  let ux : ℚ := (c.nE + c.nNE + c.nSE - c.nW - c.nNW - c.nSW) / rho
  let uy : ℚ := (c.nN + c.nNE + c.nNW - c.nS - c.nSE - c.nSW) / rho
  let e : Cell := equilibrium ux uy rho
  { n0 := c.n0 + omega * (e.n0 - c.n0)
    nN := c.nN + omega * (e.nN - c.nN)
    nS := c.nS + omega * (e.nS - c.nS)
    nE := c.nE + omega * (e.nE - c.nE)
    nW := c.nW + omega * (e.nW - c.nW)
    nNE := c.nNE + omega * (e.nNE - c.nNE)
    nSE := c.nSE + omega * (e.nSE - c.nSE)
    nNW := c.nNW + omega * (e.nNW - c.nNW)
    nSW := c.nSW + omega * (e.nSW - c.nSW)
    rho := rho
    ux := ux
    uy := uy }

/-- The cell `collideSite` computes from the cell `c` it reads, written with the
intermediate values of the source (`w9`, `w36`, `w49` stand for the three weights). -/
def relaxSite (w9 w36 w49 omega : ℚ) (c : Cell) : Cell :=
  let thisrho : ℚ := c.n0 + c.nN + c.nS + c.nE + c.nW + c.nNW + c.nNE + c.nSW + c.nSE
  let invThisRho : ℚ := 1.0 / thisrho
  let thisux : ℚ := (c.nE + c.nNE + c.nSE - c.nW - c.nNW - c.nSW) * invThisRho
  let thisuy : ℚ := (c.nN + c.nNE + c.nNW - c.nS - c.nSE - c.nSW) * invThisRho
  let one9thrho : ℚ := w9 * thisrho
  let one36thrho : ℚ := w36 * thisrho
  let ux3 : ℚ := 3 * thisux
  let uy3 : ℚ := 3 * thisuy
  let ux2 : ℚ := thisux * thisux
  let uy2 : ℚ := thisuy * thisuy
  let uxuy2 : ℚ := 2 * thisux * thisuy
  let u2 : ℚ := ux2 + uy2
  let u215 : ℚ := 1.5 * u2
  { n0 := c.n0 + omega * (w49 * thisrho * (1 - u215) - c.n0)
    nN := c.nN + omega * (one9thrho * (1 + uy3 + 4.5 * uy2 - u215) - c.nN)
    nS := c.nS + omega * (one9thrho * (1 - uy3 + 4.5 * uy2 - u215) - c.nS)
    nE := c.nE + omega * (one9thrho * (1 + ux3 + 4.5 * ux2 - u215) - c.nE)
    nW := c.nW + omega * (one9thrho * (1 - ux3 + 4.5 * ux2 - u215) - c.nW)
    nNE := c.nNE + omega * (one36thrho * (1 + ux3 + uy3 + 4.5 * (u2 + uxuy2) - u215) - c.nNE)
    nSE := c.nSE + omega * (one36thrho * (1 + ux3 - uy3 + 4.5 * (u2 - uxuy2) - u215) - c.nSE)
    nNW := c.nNW + omega * (one36thrho * (1 - ux3 + uy3 + 4.5 * (u2 - uxuy2) - u215) - c.nNW)
    nSW := c.nSW + omega * (one36thrho * (1 - ux3 - uy3 + 4.5 * (u2 + uxuy2) - u215) - c.nSW)
    rho := thisrho
    ux := thisux
    uy := thisuy }

/-- The solver with its twelve per-cell slices of the physics emptied: what is left is
everything a per-cell update does not touch. -/
def frame (s : Solver) : Solver :=
  { s with n0 := [], nN := [], nS := [], nE := [], nW := [], nNE := [], nSE := [],
           nNW := [], nSW := [], rho := [], ux := [], uy := [] }

/-- The solver `InitSolver` leaves when its allocations succeed. -/
def allocated (s : Solver) (xmax ymax : Int) (fVel fVisc : ℚ) : Solver :=
  { s with xdim := xmax, ydim := ymax, numElements := xmax * ymax,
           flowVel := fVel, flowVisc := fVisc, nColors := 256,
           time := 0, running := false, stepsPerFrame := 3,
           barrier := List.replicate (xmax * ymax).toNat false,
           barrierCount := 0, barrierxSum := 0, barrierySum := 0,
           barrierFx := 0, barrierFy := 0, oldTouchX := -1, oldTouchY := -1,
           n0 := List.replicate (xmax * ymax).toNat 0,
           nN := List.replicate (xmax * ymax).toNat 0,
           nS := List.replicate (xmax * ymax).toNat 0,
           nE := List.replicate (xmax * ymax).toNat 0,
           nW := List.replicate (xmax * ymax).toNat 0,
           nNE := List.replicate (xmax * ymax).toNat 0,
           nSE := List.replicate (xmax * ymax).toNat 0,
           nNW := List.replicate (xmax * ymax).toNat 0,
           nSW := List.replicate (xmax * ymax).toNat 0,
           rho := List.replicate (xmax * ymax).toNat 0,
           ux := List.replicate (xmax * ymax).toNat 0,
           uy := List.replicate (xmax * ymax).toNat 0,
           curl := List.replicate (xmax * ymax).toNat 0,
           one9th := 1 / 9, one36th := 1 / 36, four9ths := 4 / 9 }

/-- The frame without the curl: what `InitFluid` does not touch. -/
def frameC (s : Solver) : Solver := { frame s with curl := [] }

/-- All twelve per-cell slices of the physics have length `n`. -/
def Sized (s : Solver) (n : Nat) : Prop :=
  s.n0.length = n ∧ s.nN.length = n ∧ s.nS.length = n ∧ s.nE.length = n ∧
  s.nW.length = n ∧ s.nNE.length = n ∧ s.nSE.length = n ∧ s.nNW.length = n ∧
  s.nSW.length = n ∧ s.rho.length = n ∧ s.ux.length = n ∧ s.uy.length = n

/-- The three lattice weights hold the values `InitSolver` gives them. -/
def Weights (s : Solver) : Prop :=
  s.one9th = 1 / 9 ∧ s.one36th = 1 / 36 ∧ s.four9ths = 4 / 9

/-- The solver with the cell at position `k` of the twelve slices replaced by `c`. -/
def putCell (s : Solver) (k : Nat) (c : Cell) : Solver :=
  { s with n0 := s.n0.set k c.n0, nE := s.nE.set k c.nE, nW := s.nW.set k c.nW,
           nN := s.nN.set k c.nN, nS := s.nS.set k c.nS, nNE := s.nNE.set k c.nNE,
           nSE := s.nSE.set k c.nSE, nNW := s.nNW.set k c.nNW, nSW := s.nSW.set k c.nSW,
           rho := s.rho.set k c.rho, ux := s.ux.set k c.ux, uy := s.uy.set k c.uy }

/-- A 3 x 3 lattice at rest with unit density and no barrier (viscosity 1/50). -/
def rest3 : Solver where
  xdim := 3
  ydim := 3
  numElements := 9
  flowVel := 0
  flowVisc := 1 / 50
  n0 := List.replicate 9 (4 / 9)
  nN := List.replicate 9 (1 / 9)
  nS := List.replicate 9 (1 / 9)
  nE := List.replicate 9 (1 / 9)
  nW := List.replicate 9 (1 / 9)
  nNE := List.replicate 9 (1 / 36)
  nSE := List.replicate 9 (1 / 36)
  nNW := List.replicate 9 (1 / 36)
  nSW := List.replicate 9 (1 / 36)
  rho := List.replicate 9 1
  ux := List.replicate 9 0
  uy := List.replicate 9 0
  curl := List.replicate 9 0
  running := false
  time := 0
  stepsPerFrame := 3
  one9th := 1 / 9
  one36th := 1 / 36
  four9ths := 4 / 9
  barrier := List.replicate 9 false
  barrierCount := 0
  barrierxSum := 0
  barrierySum := 0
  barrierFx := 0
  barrierFy := 0
  nColors := 256
  redList := []
  greenList := []
  blueList := []
  dragging := false
  oldTouchX := -1
  oldTouchY := -1

/-- The lattice `rest3` after the density of its centre cell was forced below zero. -/
def sunk3 : Solver := { rest3 with rho := [1, 1, 1, 1, -1 / 2, 1, 1, 1, 1] }

/-! ## Vocabulary of streaming -/

/-- One in-place copy `a[d] = a[d + δ]`. -/
def shift (δ : Int) (a : List ℚ) (d : Int) : Option (List ℚ) :=
  andThen (rd a (d + δ)) fun v => wr a d v

/-- The eight directions of motion of the D2Q9 lattice. -/
inductive Dir where
  | N
  | S
  | E
  | W
  | NE
  | SE
  | NW
  | SW
deriving DecidableEq

/-- Step in `x` of a direction of motion. -/
def Dir.dx : Dir → Int
  | .E => 1
  | .NE => 1
  | .SE => 1
  | .W => -1
  | .NW => -1
  | .SW => -1
  | .N => 0
  | .S => 0

/-- Step in `y` of a direction of motion (north is `+1`). -/
def Dir.dy : Dir → Int
  | .N => 1
  | .NE => 1
  | .NW => 1
  | .S => -1
  | .SE => -1
  | .SW => -1
  | .E => 0
  | .W => 0

/-- The reverse direction. -/
def Dir.opp : Dir → Dir
  | .N => .S
  | .S => .N
  | .E => .W
  | .W => .E
  | .NE => .SW
  | .SW => .NE
  | .NW => .SE
  | .SE => .NW

/-- The slice of the densities moving in a direction. -/
def dens (s : Solver) : Dir → List ℚ
  | .N => s.nN
  | .S => s.nS
  | .E => s.nE
  | .W => s.nW
  | .NE => s.nNE
  | .SE => s.nSE
  | .NW => s.nNW
  | .SW => s.nSW

/-- The solver with the eight slices of moving densities emptied: what the four sweeps
of `Stream` do not touch. -/
def still (s : Solver) : Solver :=
  { s with nN := [], nS := [], nE := [], nW := [], nNE := [], nSE := [], nNW := [], nSW := [] }

/-- Flat index of the neighbour of `(x, y)` in a direction, as `Stream` writes it. -/
def target (dim x y : Int) : Dir → Int
  | .E => x + 1 + y * dim
  | .W => x - 1 + y * dim
  | .N => x + (y + 1) * dim
  | .S => x + (y - 1) * dim
  | .NE => x + 1 + (y + 1) * dim
  | .NW => x - 1 + (y + 1) * dim
  | .SE => x + 1 + (y - 1) * dim
  | .SW => x - 1 + (y - 1) * dim

/-- The solver without its moving densities and without the force accumulators: what
`Stream` does not touch. -/
def quiet (s : Solver) : Solver :=
  { still s with barrierCount := 0, barrierxSum := 0, barrierySum := 0,
                 barrierFx := 0, barrierFy := 0 }

/-- The solver with the five force accumulators reset, as at the start of `Stream`. -/
def resetForce (s : Solver) : Solver :=
  { s with barrierCount := 0, barrierxSum := 0, barrierySum := 0,
           barrierFx := 0.0, barrierFy := 0.0 }

/-- A 5 x 5 lattice at rest with one barrier site, at the centre `(2, 2)`. -/
def post5 : Solver where
  xdim := 5
  ydim := 5
  numElements := 25
  flowVel := 0
  flowVisc := 1 / 50
  n0 := List.replicate 25 (4 / 9)
  nN := List.replicate 25 (1 / 9)
  nS := List.replicate 25 (1 / 9)
  nE := List.replicate 25 (1 / 9)
  nW := List.replicate 25 (1 / 9)
  nNE := List.replicate 25 (1 / 36)
  nSE := List.replicate 25 (1 / 36)
  nNW := List.replicate 25 (1 / 36)
  nSW := List.replicate 25 (1 / 36)
  rho := List.replicate 25 1
  ux := List.replicate 25 0
  uy := List.replicate 25 0
  curl := List.replicate 25 0
  running := false
  time := 0
  stepsPerFrame := 3
  one9th := 1 / 9
  one36th := 1 / 36
  four9ths := 4 / 9
  barrier := (List.replicate 25 false).set 12 true
  barrierCount := 0
  barrierxSum := 0
  barrierySum := 0
  barrierFx := 0
  barrierFy := 0
  nColors := 256
  redList := []
  greenList := []
  blueList := []
  dragging := false
  oldTouchX := -1
  oldTouchY := -1

/-! ## Interaction -/

/-- The fields of `AppProperties` that the solver reads: the position and the drag flag
of its `TouchHandler`, and the size of a simulation square in pixels. -/
structure AppProperties where
  TouchX : ℚ
  TouchY : ℚ
  TouchDrag : Bool
  PxPerSimSquare : Int

/-- Go conversion `int(f)` of a floating-point value: the fraction is discarded
(truncation toward zero). -/
def toInt (q : ℚ) : Int := q.num.tdiv (q.den : Int)

/-- Function `TouchToGrid` of `lb.go`.  The two results are returned in the order
`gridY, gridX`, as in the source. -/
def TouchToGrid (props : AppProperties) : Int × Int :=
  let gridX : Int := toInt (props.TouchX / (props.PxPerSimSquare : ℚ))
  let gridY : Int := toInt (props.TouchY / (props.PxPerSimSquare : ℚ)) - 1
  (gridY, gridX)

/-- The record `DragFluidProperties`. -/
structure DragFluidProperties where
  pushX : Int
  pushY : Int
  pushUX : ℚ
  pushUY : ℚ

/-- Method `Solver.DragFluidCheck`: is the user dragging the fluid?  The result is the
solver with `dragging`, `oldTouchX` and `oldTouchY` updated, and the returned record. -/
def DragFluidCheck (s : Solver) (props : AppProperties) : Solver × DragFluidProperties :=
  let touchX : ℚ := props.TouchX
  let touchY : ℚ := props.TouchY
  let touchDrag : Bool := props.TouchDrag
  let s0 : Solver := { s with dragging := false }
  if touchDrag then
    if s0.oldTouchX ≥ 0 then
      let g : Int × Int := TouchToGrid props
      let pushX : Int := g.1
      let pushY : Int := g.2
      let pushUX : ℚ :=
        (touchX - s0.oldTouchX) / (props.PxPerSimSquare : ℚ) / (s0.stepsPerFrame : ℚ)
      let pushUY : ℚ :=
        -(touchY - s0.oldTouchY) / (props.PxPerSimSquare : ℚ) / (s0.stepsPerFrame : ℚ)
      let pushUX : ℚ := if |pushUX| > 0.1 then 0.1 else pushUX
      let pushUY : ℚ := if |pushUY| > 0.1 then 0.1 else pushUY
      ({ s0 with dragging := true, oldTouchX := touchX, oldTouchY := touchY },
        { pushX := pushX, pushY := pushY, pushUX := pushUX, pushUY := pushUY })
    else
      ({ s0 with oldTouchX := touchX, oldTouchY := touchY },
        { pushX := 0, pushY := 0, pushUX := 0, pushUY := 0 })
  else
    ({ s0 with oldTouchX := -1, oldTouchY := -1 },
      { pushX := 0, pushY := 0, pushUX := 0, pushUY := 0 })

/-- Method `Solver.DragFluid`: push the fluid at the cells of a small disc around
`(pushX, pushY)`, unless the centre is within the margin of an edge. -/
def DragFluid (s : Solver) (pushX pushY : Int) (pushUX pushUY : ℚ) : Option Solver :=
  let margin : Int := 3
  if (pushX > margin) ∧ (pushX < s.xdim - 1 - margin) ∧ (pushY > margin) ∧
      (pushY < s.ydim - 1 - margin) then
    andThen ((upThru (-1) 1).foldlM (fun st dx =>
        andThen (SetEquilibrium st (pushX + dx) (pushY + 2) pushUX pushUY (-1.0)) fun st =>
        SetEquilibrium st (pushX + dx) (pushY - 2) pushUX pushUY (-1.0)) s) fun s1 =>
    (upThru (-2) 2).foldlM (fun st dx =>
      (upThru (-1) 1).foldlM (fun st dy =>
        SetEquilibrium st (pushX + dx) (pushY + dy) pushUX pushUY (-1.0)) st) s1
  else some s

/-- Method `Solver.CollideThreaded`: the loop body of `Collide`, one goroutine per
interior row, and, once all of them have finished, the outflow loop.  A goroutine reads
and writes the sites of its own row only, so the rows are run here one after the other,
in the order in which the source starts them. -/
def CollideThreaded (s : Solver) : Option Solver :=
  let viscosity : ℚ := s.flowVisc
  let omega : ℚ := 1.0 / (3 * viscosity + 0.5)
  andThen ((upTo 1 (s.ydim - 1)).foldlM (fun st yy =>
      (upTo 1 (s.xdim - 1)).foldlM (fun st x => collideSite omega s.xdim st x yy) st) s) fun s1 =>
  (upTo 1 (s.ydim - 2)).foldlM (fun st y => outflowRow s.xdim st y) s1

/-- Method `Solver.StreamThreaded`: the four sweeps of `Stream`, each in a goroutine of
its own (no two of them touch the same slice), and, once all four have finished, the
bounce-back loop with one goroutine per interior row.  The goroutines are run here one
after the other, in the order in which the source starts them; `StreamThreadedUnder`
runs the row goroutines under any schedule, and under the empty one it is this function
on every well-formed lattice (`StreamThreadedUnder_nil`). -/
def StreamThreaded (s : Solver) : Option Solver :=
  let s0 : Solver := { s with barrierCount := 0, barrierxSum := 0, barrierySum := 0,
                              barrierFx := 0.0, barrierFy := 0.0 }
  andThen (streamNW s0) fun s1 =>
  andThen (streamNE s1) fun s2 =>
  andThen (streamSE s2) fun s3 =>
  andThen (streamSW s3) fun s4 =>
  (upTo 1 (s4.ydim - 1)).foldlM (fun st yy =>
    (upTo 1 (s4.xdim - 1)).foldlM (fun st x => bounceSite s4.xdim st x yy) st) s4

/-- One pass of the loop of `Simulate`: collide, stream, push the fluid when the user
drags it, count the step. -/
def subStep (dragProperties : DragFluidProperties) (s : Solver) : Option Solver :=
  andThen (CollideThreaded s) fun s =>
  andThen (StreamThreaded s) fun s =>
  andThen (if s.dragging then
      DragFluid s dragProperties.pushX dragProperties.pushY dragProperties.pushUX
        dragProperties.pushUY
    else some s) fun s =>
  some { s with time := s.time + 1 }

/-- Method `Solver.Simulate`: one frame. -/
def Simulate (s : Solver) (props : AppProperties) : Option Solver :=
  andThen (SetBoundaries s) fun s =>
  let r : Solver × DragFluidProperties := DragFluidCheck s props
  andThen ((upTo 0 r.1.stepsPerFrame).foldlM (fun st _ => subStep r.2 st) r.1) fun s =>
  CheckFlowStability s

/-! ## Plotting -/

/-- Method `Solver.ComputeCurl`: the curl (times two) of the velocity field, at the
interior sites only. -/
def ComputeCurl (s : Solver) : Option Solver :=
  (upTo 1 (s.ydim - 1)).foldlM (fun st y =>
    (upTo 1 (s.xdim - 1)).foldlM (fun st x =>
      andThen (rd st.uy (x + 1 + y * s.xdim)) fun a =>
      andThen (rd st.uy (x - 1 + y * s.xdim)) fun b =>
      andThen (rd st.ux (x + (y + 1) * s.xdim)) fun c =>
      andThen (rd st.ux (x + (y - 1) * s.xdim)) fun e =>
      andThen (wr st.curl (x + y * s.xdim) (a - b - c + e)) fun curl =>
      some { st with curl := curl }) st) s

/-- The palette index `cIndex` that the loop body of `PlotToImage` computes for the
cell `(x, y)`.  The square root of `math.Sqrt` is a parameter. -/
def plotIndex (sqrt : ℚ → ℚ) (s : Solver) (plotType x y : Int) : Option Int :=
  let contrast : ℚ := 1.2
  andThen (rd s.barrier (x + y * s.xdim)) fun isBarrier =>
  if isBarrier then some (s.nColors + 1)
  else
    andThen (
      if plotType = 0 then
        andThen (rd s.rho (x + y * s.xdim)) fun rho =>
        some (toInt ((s.nColors : ℚ) * ((rho - 1) * 6 * contrast + 0.5)))
      else if plotType = 1 then
        andThen (rd s.ux (x + y * s.xdim)) fun ux =>
        some (toInt ((s.nColors : ℚ) * ((ux * 2.0 * contrast) + 0.5)))
      else if plotType = 2 then
        andThen (rd s.uy (x + y * s.xdim)) fun uy =>
        some (toInt ((s.nColors : ℚ) * ((uy * 2.0 * contrast) + 0.5)))
      else if plotType = 3 then
        andThen (rd s.ux (x + y * s.xdim)) fun ux =>
        andThen (rd s.uy (x + y * s.xdim)) fun uy =>
        let speed : ℚ := sqrt (ux * ux + uy * uy)
        some (toInt ((s.nColors : ℚ) * (speed * 4 * contrast)))
      else
        andThen (rd s.curl (x + y * s.xdim)) fun curl =>
        some (toInt ((s.nColors : ℚ) * (curl * 5 * contrast + 0.5)))) fun cIndex =>
    let cIndex : Int := if cIndex < 0 then 0 else cIndex
    let cIndex : Int := if cIndex > s.nColors then s.nColors else cIndex
    some cIndex

/-- One call of `rgba.SetRGBA`: the position and the four channels of the colour. -/
structure Pixel where
  x : Int
  y : Int
  r : Int
  g : Int
  b : Int
  a : Int
deriving DecidableEq

/-- Loop body of `PlotToImage`: the colour of the cell `(x, y)`; `uint8` keeps the low
eight bits of a palette entry. -/
def plotPixel (sqrt : ℚ → ℚ) (s : Solver) (plotType x y : Int) : Option Pixel :=
  andThen (plotIndex sqrt s plotType x y) fun cIndex =>
  andThen (rd s.redList cIndex) fun r =>
  andThen (rd s.greenList cIndex) fun g =>
  andThen (rd s.blueList cIndex) fun b =>
  some { x := x, y := y, r := r % 256, g := g % 256, b := b % 256, a := 255 }

/-- Method `Solver.PlotToImage`: plot the selected flow property.  The image is the
sequence of the `SetRGBA` calls, in the order in which they are made. -/
def PlotToImage (sqrt : ℚ → ℚ) (s : Solver) (rgba : List Pixel) (plotType : Int) :
    Option (Solver × List Pixel) :=
  andThen (if plotType = 4 then ComputeCurl s else some s) fun s =>
  andThen ((upTo 0 s.ydim).foldlM (fun img y =>
      (upTo 0 s.xdim).foldlM (fun img x =>
        andThen (plotPixel sqrt s plotType x y) fun p => some (img ++ [p])) img) rgba) fun img =>
  some (s, img)

/-! ## Vocabulary of the interaction -/

/-- The cell that `SetEquilibrium` with the sentinel density `-1` leaves: the equilibrium
of the given velocity and of the density stored in the cell. -/
def push (ux uy : ℚ) (c : Cell) : Cell := equilibrium ux uy c.rho

/-- The cells `DragFluid` visits around `(pushX, pushY)`, in order. -/
def footprint (pushX pushY : Int) : List (Int × Int) :=
  ((upThru (-1) 1).flatMap fun dx => [(pushX + dx, pushY + 2), (pushX + dx, pushY - 2)]) ++
    ((upThru (-2) 2).flatMap fun dx => (upThru (-1) 1).map fun dy => (dy, dx)).map
      fun p => (pushX + p.2, pushY + p.1)

/-- The disc of `DragFluid`: three cells two rows above and two rows below the centre,
and five cells in each of the three rows in between. -/
def inDisc (pushX pushY x y : Int) : Prop :=
  (pushX - 1 ≤ x ∧ x ≤ pushX + 1 ∧ (y = pushY + 2 ∨ y = pushY - 2)) ∨
    (pushX - 2 ≤ x ∧ x ≤ pushX + 2 ∧ pushY - 1 ≤ y ∧ y ≤ pushY + 1)

/-- The value `v` limited to the interval from `lo` to `hi`. -/
def clamp (v lo hi : ℚ) : ℚ := if v < lo then lo else if v > hi then hi else v

/-- The lattice `rest3` while a drag is in progress: the pointer was last seen at
`(200, 100)`. -/
def held3 : Solver := { rest3 with oldTouchX := 200, oldTouchY := 100 }

/-- A drag sample: the pointer is down at `(100, 100)`, ten pixels to the square. -/
def swipe : AppProperties where
  TouchX := 100
  TouchY := 100
  TouchDrag := true
  PxPerSimSquare := 10

/-- A sample without a drag: the pointer is up, at its initial position. -/
def idle : AppProperties where
  TouchX := -99
  TouchY := -99
  TouchDrag := false
  PxPerSimSquare := 10

/-- The lattice `post5` with a palette of 258 entries. -/
def plot5 : Solver :=
  { post5 with redList := List.replicate 258 0, greenList := List.replicate 258 0,
               blueList := List.replicate 258 255 }

/-- The cell `c` at the right end of a row after the outflow copy from the cell `l` to
its left: the three left-flowing densities are those of `l`. -/
def outflow (c l : Cell) : Cell := { c with nW := l.nW, nNW := l.nNW, nSW := l.nSW }

/-! ## Vocabulary of the frame loop -/

/-- The invariant of the data model at the interior cells: the stored density is the sum
of the nine directional densities. -/
def Balanced (s : Solver) : Prop :=
  ∀ x y, 1 ≤ x → x ≤ s.xdim - 2 → 1 ≤ y → y ≤ s.ydim - 2 →
    ∃ c, cellAt s (x + y * s.xdim) = some c ∧ c.rho = c.mass

/-- The inlet column `x = 0` holds the inlet velocity `(flowVel, 0)`. -/
def Inlet (s : Solver) : Prop :=
  ∀ y, 0 ≤ y → y < s.ydim →
    rd s.ux (0 + y * s.xdim) = some s.flowVel ∧ rd s.uy (0 + y * s.xdim) = some 0

/-- The state in which collision number `k + 1` of a call of `Simulate` starts: the
boundary conditions and the drag check have been run, and `k` passes of the loop. -/
def beforeCollision (s : Solver) (props : AppProperties) (k : Nat) : Option Solver :=
  andThen (SetBoundaries s) fun s =>
  let r : Solver × DragFluidProperties := DragFluidCheck s props
  (upTo 0 (k : Int)).foldlM (fun st _ => subStep r.2 st) r.1

/-- A 5 x 5 lattice at rest with unit density and no barrier. -/
def calm5 : Solver := { post5 with barrier := List.replicate 25 false }

/-- The lattice `calm5` with the density doubled in the cell `(3, 1)`, next to the right
edge. -/
def bump5 : Solver := putCell calm5 8 (equilibrium 0 0 2)

/-! ## Vocabulary of reachability -/

/-- The operations that a caller may run on a lattice. -/
inductive Op where
  | setBoundaries : Op
  | collide : Op
  | stream : Op
  | dragFluid (pushX pushY : Int) (pushUX pushUY : ℚ) : Op
  | checkFlowStability : Op

/-- The method an operation stands for. -/
def Op.apply : Op → Solver → Option Solver
  | .setBoundaries, s => SetBoundaries s
  | .collide, s => Collide s
  | .stream, s => Stream s
  | .dragFluid pushX pushY pushUX pushUY, s => DragFluid s pushX pushY pushUX pushUY
  | .checkFlowStability, s => CheckFlowStability s

/-- A sequence of operations, run from left to right. -/
def runOps (ops : List Op) (s : Solver) : Option Solver :=
  ops.foldlM (fun st o => o.apply st) s

/-- Whether the stored densities are up to date after a sequence of operations, given
whether they were before it: a `Collide` recomputes them, a `Stream` moves the densities
and leaves them as they were. -/
def settled : Bool → List Op → Bool
  | b, [] => b
  | _, .collide :: ops => settled true ops
  | _, .stream :: ops => settled false ops
  | b, .setBoundaries :: ops => settled b ops
  | b, .dragFluid _ _ _ _ :: ops => settled b ops
  | b, .checkFlowStability :: ops => settled b ops

/-- A 9 x 9 lattice as `InitSolver` leaves it, all densities zero. -/
def blank9 : Solver := allocated rest3 9 9 0 (1 / 50)

/-! ## Vocabulary of the row workers -/

/-- The bounce-back loop with the interior rows run in the order `rows`: the body of the
goroutine that `StreamThreaded` starts for a row, one row after the other. -/
def bounceRows (rows : List Int) (s : Solver) : Option Solver :=
  rows.foldlM (fun st yy =>
    (upTo 1 (s.xdim - 1)).foldlM (fun st x => bounceSite s.xdim st x yy) st) s

/-- Method `Solver.StreamThreaded` with the row goroutines of its bounce-back loop each
run to completion, one after the other; `order` rearranges the order `1 .. ydim - 2` in
which the source starts them. -/
def StreamRows (order : List Int → List Int) (s : Solver) : Option Solver :=
  let s0 : Solver := { s with barrierCount := 0, barrierxSum := 0, barrierySum := 0,
                              barrierFx := 0.0, barrierFy := 0.0 }
  andThen (streamNW s0) fun s1 =>
  andThen (streamNE s1) fun s2 =>
  andThen (streamSE s2) fun s3 =>
  andThen (streamSW s3) fun s4 =>
  bounceRows (order (upTo 1 (s4.ydim - 1))) s4

/-- A 4 x 4 lattice with two barrier sites, one above the other, at `(1, 1)` and `(1, 2)`;
the north-moving density is `2` everywhere, the south-moving one `1`. -/
def twin4 : Solver :=
  { rest3 with xdim := 4, ydim := 4, numElements := 16,
               n0 := List.replicate 16 4, nN := List.replicate 16 2,
               nS := List.replicate 16 1, nE := List.replicate 16 1,
               nW := List.replicate 16 1, nNE := List.replicate 16 1,
               nSE := List.replicate 16 1, nNW := List.replicate 16 1,
               nSW := List.replicate 16 1, rho := List.replicate 16 13,
               ux := List.replicate 16 0, uy := List.replicate 16 (1 / 13),
               curl := List.replicate 16 0,
               barrier := ((List.replicate 16 false).set 5 true).set 9 true }

/-- The interior barrier sites `(x, y)`, in the order in which the bounce-back loop of
`Stream` visits them. -/
def barrierSites (s : Solver) : List (Int × Int) :=
  ((upTo 1 (s.ydim - 1)).flatMap fun y => (upTo 1 (s.xdim - 1)).map fun x => (x, y)).filter
    fun p => decide (rd s.barrier (p.1 + p.2 * s.xdim) = some true)

/-- The two memory accesses of the statement `s.barrierCount++`.  The row goroutines of
`StreamThreaded` run it on the shared solver without a lock and without an atomic
operation, so the accesses of different goroutines may interleave. -/
inductive Access where
  | load
  | store
deriving DecidableEq

/-- A row goroutine of the bounce-back loop of `StreamThreaded`, as far as `barrierCount`
is concerned: the value it has loaded, and the accesses it still has to make. -/
structure CountWorker where
  reg : Int
  todo : List Access
deriving DecidableEq

/-- The accesses to `barrierCount` of the goroutine of row `y`: one `s.barrierCount++`
for each barrier site of the row. -/
def countAccesses (s : Solver) (y : Int) : List Access :=
  (upTo 1 (s.xdim - 1)).flatMap fun x =>
    if rd s.barrier (x + y * s.xdim) = some true then [Access.load, Access.store] else []

/-- The row goroutines that `StreamThreaded` starts, in the order `yy = 1 .. ydim - 2`. -/
def countWorkers (s : Solver) : List CountWorker :=
  (upTo 1 (s.ydim - 1)).map fun yy => { reg := 0, todo := countAccesses s yy }

/-- One step of the goroutine number `k`: its next access to `barrierCount`.  A load
copies the shared counter, a store writes the loaded value plus one.  A goroutine that
has finished does nothing. -/
def countStep (st : Int × List CountWorker) (k : Nat) : Int × List CountWorker :=
  match st.2[k]? with
  | some { reg := _, todo := Access.load :: rest } =>
      (st.1, st.2.set k { reg := st.1, todo := rest })
  | some { reg := reg, todo := Access.store :: rest } =>
      (reg + 1, st.2.set k { reg := reg, todo := rest })
  | _ => st

/-- The shared counter and the goroutines after the schedule `sched`, which names the
goroutine that makes each step; `StreamThreaded` sets the counter to `0` before it
starts them. -/
def countUnder (s : Solver) (sched : List Nat) : Int × List CountWorker :=
  sched.foldl countStep (0, countWorkers s)

/-- A 5 x 5 lattice at rest with no barrier, the density doubled in the cell `(3, 3)`,
next to the right edge in the last interior row. -/
def high5 : Solver := putCell calm5 18 (equilibrium 0 0 2)

/-! ## Vocabulary of the curl -/

/-- The operations that a caller may run on a lattice, `ComputeCurl` among them. -/
inductive Act where
  | op (o : Op) : Act
  | computeCurl : Act

/-- The method an operation stands for. -/
def Act.apply : Act → Solver → Option Solver
  | .op o, s => o.apply s
  | .computeCurl, s => ComputeCurl s

/-- A sequence of operations, run from left to right. -/
def runActs (acts : List Act) (s : Solver) : Option Solver :=
  acts.foldlM (fun st a => a.apply st) s

/-- The curl is zero in every border cell of the grid. -/
def BorderCurlZero (s : Solver) : Prop :=
  ∀ x y, 0 ≤ x → x < s.xdim → 0 ≤ y → y < s.ydim →
    (x = 0 ∨ x = s.xdim - 1 ∨ y = 0 ∨ y = s.ydim - 1) → rd s.curl (x + y * s.xdim) = some 0

/-! ## Vocabulary of the palette -/

/-- The five colour bands of `CreateColorMap` for 256 colours: first and last index. -/
def bands : List (Int × Int) := [(0, 31), (32, 95), (96, 159), (160, 223), (224, 256)]

/-- The entries of the palette list `a` at the indices `lo .. hi` never decrease, or
never increase, as the index grows. -/
def MonotoneBand (a : List Int) (lo hi : Int) : Prop :=
  (∀ c c' v v', lo ≤ c → c ≤ c' → c' ≤ hi → rd a c = some v → rd a c' = some v' → v ≤ v') ∨
    (∀ c c' v v', lo ≤ c → c ≤ c' → c' ≤ hi → rd a c = some v → rd a c' = some v' → v' ≤ v)

/-- The colour `(r, g, b)` of index `c` in a palette of 256 colours, band by band: the
closed form of `jet 256 c` for `0 ≤ c ≤ 256`. -/
def jetBands (c : Int) : Int × Int × Int :=
  if c < 32 then (0, 0, 255 * (c + 32) / 64)
  else if c < 96 then (0, 255 * (c - 32) / 64, 255)
  else if c < 160 then (255 * (c - 96) / 64, 255, 255 - 255 * (c - 96) / 64)
  else if c < 224 then (255, 255 * (224 - c) / 64, 0)
  else (255 * (288 - c) / 64, 0, 0)

/-- The lattice `post5` with the palette of 256 colours not yet made. -/
def bare5 : Solver := { post5 with redList := [], greenList := [], blueList := [] }

/-! ## Vocabulary of the fixed point -/

/-- The nine directional densities of a cell, in the order of the fields of `Cell`. -/
def Cell.flows (c : Cell) : List ℚ :=
  [c.n0, c.nN, c.nS, c.nE, c.nW, c.nNE, c.nSE, c.nNW, c.nSW]

/-- The density of a cell that moves in a direction. -/
def Cell.dens (c : Cell) : Dir → ℚ
  | .N => c.nN
  | .S => c.nS
  | .E => c.nE
  | .W => c.nW
  | .NE => c.nNE
  | .SE => c.nSE
  | .NW => c.nNW
  | .SW => c.nSW

/-! ## Sample lattices with densities that differ from cell to cell -/

/-- A cell that is not in equilibrium: density sum `12`, more density moving east and
north than west and south; its stored `rho`, `ux` and `uy` are stale zeros. -/
def lopsided : Cell where
  n0 := 1
  nN := 2
  nS := 1
  nE := 3
  nW := 1
  nNE := 1
  nSE := 1
  nNW := 1
  nSW := 1
  rho := 0
  ux := 0
  uy := 0

/-- The lattice `rest3` with the cell `lopsided` at its centre `(1, 1)`. -/
def skew3 : Solver := putCell rest3 4 lopsided

/-- The lattice `rest3`, at rest, in a wind tunnel whose inlet velocity is `1/10`: no
border cell holds the inlet equilibrium yet. -/
def gust3 : Solver := { rest3 with flowVel := 1 / 10 }

/-- The lattice `bump5` in a wind tunnel whose inlet velocity is `1/10`: no border cell
holds the inlet equilibrium yet. -/
def gust5 : Solver := { bump5 with flowVel := 1 / 10 }

/-- A 5 x 5 lattice whose moving densities are all different: the density at flat index
`i` is `100 + i` northwards, `200 + i` southwards, `300 + i` eastwards, `400 + i`
westwards, `500 + i`, `600 + i`, `700 + i` and `800 + i` to the north-east, south-east,
north-west and south-west; one barrier site, at the centre `(2, 2)`. -/
def wall5 : Solver :=
  { post5 with
    nN := [100, 101, 102, 103, 104,
           105, 106, 107, 108, 109,
           110, 111, 112, 113, 114,
           115, 116, 117, 118, 119,
           120, 121, 122, 123, 124],
    nS := [200, 201, 202, 203, 204,
           205, 206, 207, 208, 209,
           210, 211, 212, 213, 214,
           215, 216, 217, 218, 219,
           220, 221, 222, 223, 224],
    nE := [300, 301, 302, 303, 304,
           305, 306, 307, 308, 309,
           310, 311, 312, 313, 314,
           315, 316, 317, 318, 319,
           320, 321, 322, 323, 324],
    nW := [400, 401, 402, 403, 404,
           405, 406, 407, 408, 409,
           410, 411, 412, 413, 414,
           415, 416, 417, 418, 419,
           420, 421, 422, 423, 424],
    nNE := [500, 501, 502, 503, 504,
            505, 506, 507, 508, 509,
            510, 511, 512, 513, 514,
            515, 516, 517, 518, 519,
            520, 521, 522, 523, 524],
    nSE := [600, 601, 602, 603, 604,
            605, 606, 607, 608, 609,
            610, 611, 612, 613, 614,
            615, 616, 617, 618, 619,
            620, 621, 622, 623, 624],
    nNW := [700, 701, 702, 703, 704,
            705, 706, 707, 708, 709,
            710, 711, 712, 713, 714,
            715, 716, 717, 718, 719,
            720, 721, 722, 723, 724],
    nSW := [800, 801, 802, 803, 804,
            805, 806, 807, 808, 809,
            810, 811, 812, 813, 814,
            815, 816, 817, 818, 819,
            820, 821, 822, 823, 824] }

/-- The lattice `wall5` without its barrier. -/
def flow5 : Solver := { wall5 with barrier := List.replicate 25 false }

/-- A 9 x 9 lattice at rest with unit density and no barrier (viscosity 1/50). -/
def rest9 : Solver :=
  { blank9 with
    n0 := List.replicate 81 (4 / 9),
    nN := List.replicate 81 (1 / 9),
    nS := List.replicate 81 (1 / 9),
    nE := List.replicate 81 (1 / 9),
    nW := List.replicate 81 (1 / 9),
    nNE := List.replicate 81 (1 / 36),
    nSE := List.replicate 81 (1 / 36),
    nNW := List.replicate 81 (1 / 36),
    nSW := List.replicate 81 (1 / 36),
    rho := List.replicate 81 1 }

/-- A 5 x 5 lattice without barrier and with zero curl whose velocities differ from cell
to cell: at flat index `i`, `ux = i` and `uy = i * i`. -/
def shear5 : Solver :=
  { calm5 with
    ux := [0, 1, 2, 3, 4,
           5, 6, 7, 8, 9,
           10, 11, 12, 13, 14,
           15, 16, 17, 18, 19,
           20, 21, 22, 23, 24],
    uy := [0, 1, 4, 9, 16,
           25, 36, 49, 64, 81,
           100, 121, 144, 169, 196,
           225, 256, 289, 324, 361,
           400, 441, 484, 529, 576] }

/-! ## The row goroutines of `StreamThreaded`, access by access -/

/-- One step of a row goroutine of the bounce-back loop of `StreamThreaded`: a read or a
write of the shared solver.  An assignment `s.nE[j] = s.nW[i]` is a `load` followed by a
`store`; `s.barrierCount++` is `getCount` followed by `putCount`;
`s.barrierFx += a + b + c - d - e - f` is `getFx`, three `plus`, three `minus` and
`putFx`.  Between two steps of one goroutine any other goroutine may run. -/
inductive Micro where
  | load (d : Dir) (i : Int)
  | store (d : Dir) (i : Int)
  | getCount
  | putCount
  | getXSum
  | putXSum (x : Int)
  | getYSum
  | putYSum (y : Int)
  | getFx
  | getFy
  | plus (d : Dir) (i : Int)
  | minus (d : Dir) (i : Int)
  | putFx
  | putFy

/-- The private values of a row goroutine: the density it has loaded, the sum it is
building, and the counter it has loaded. -/
structure Regs where
  reg : ℚ
  acc : ℚ
  ireg : Int

/-- A row goroutine: its private values and the steps it still has to make. -/
structure Worker where
  regs : Regs
  todo : List Micro

/-- The solver with the slice of the densities moving in a direction replaced. -/
def setDens (s : Solver) (d : Dir) (a : List ℚ) : Solver :=
  match d with
  | .N => { s with nN := a }
  | .S => { s with nS := a }
  | .E => { s with nE := a }
  | .W => { s with nW := a }
  | .NE => { s with nNE := a }
  | .SE => { s with nSE := a }
  | .NW => { s with nNW := a }
  | .SW => { s with nSW := a }

/-- The effect of one step of a goroutine on the shared solver and on the private values
of the goroutine. -/
def Micro.exec (m : Micro) (s : Solver) (r : Regs) : Option (Solver × Regs) :=
  match m with
  | .load d i => andThen (rd (dens s d) i) fun v => some (s, { r with reg := v })
  | .store d i => andThen (wr (dens s d) i r.reg) fun a => some (setDens s d a, r)
  | .getCount => some (s, { r with ireg := s.barrierCount })
  | .putCount => some ({ s with barrierCount := r.ireg + 1 }, r)
  | .getXSum => some (s, { r with ireg := s.barrierxSum })
  | .putXSum x => some ({ s with barrierxSum := r.ireg + x }, r)
  | .getYSum => some (s, { r with ireg := s.barrierySum })
  | .putYSum y => some ({ s with barrierySum := r.ireg + y }, r)
  | .getFx => some (s, { r with acc := s.barrierFx })
  | .getFy => some (s, { r with acc := s.barrierFy })
  | .plus d i => andThen (rd (dens s d) i) fun v => some (s, { r with acc := r.acc + v })
  | .minus d i => andThen (rd (dens s d) i) fun v => some (s, { r with acc := r.acc - v })
  | .putFx => some ({ s with barrierFx := r.acc }, r)
  | .putFy => some ({ s with barrierFy := r.acc }, r)

/-- The steps of a row goroutine at the barrier site `(x, y)`: the body of the `if` of
the bounce-back loop, statement by statement. -/
def siteProgram (dim x y : Int) : List Micro :=
  [ .load .W (x + y * dim), .store .E (x + 1 + y * dim),
    .load .E (x + y * dim), .store .W (x - 1 + y * dim),
    .load .S (x + y * dim), .store .N (x + (y + 1) * dim),
    .load .N (x + y * dim), .store .S (x + (y - 1) * dim),
    .load .SW (x + y * dim), .store .NE (x + 1 + (y + 1) * dim),
    .load .SE (x + y * dim), .store .NW (x - 1 + (y + 1) * dim),
    .load .NW (x + y * dim), .store .SE (x + 1 + (y - 1) * dim),
    .load .NE (x + y * dim), .store .SW (x - 1 + (y - 1) * dim),
    .getCount, .putCount,
    .getXSum, .putXSum x,
    .getYSum, .putYSum y,
    .getFx, .plus .E (x + y * dim), .plus .NE (x + y * dim), .plus .SE (x + y * dim),
    .minus .W (x + y * dim), .minus .NW (x + y * dim), .minus .SW (x + y * dim), .putFx,
    .getFy, .plus .N (x + y * dim), .plus .NE (x + y * dim), .plus .NW (x + y * dim),
    .minus .S (x + y * dim), .minus .SE (x + y * dim), .minus .SW (x + y * dim), .putFy ]

/-- The steps of the goroutine of row `y`: the steps of its barrier sites, from `x = 1`
to `x = xdim - 2`.  The barrier mask is read here, once: no goroutine writes it. -/
def rowProgram (s : Solver) (y : Int) : Option (List Micro) :=
  (upTo 1 (s.xdim - 1)).foldlM (fun prog x =>
    andThen (rd s.barrier (x + y * s.xdim)) fun isBarrier =>
    some (if isBarrier then prog ++ siteProgram s.xdim x y else prog)) []

/-- The row goroutines the bounce-back loop of `StreamThreaded` starts, for
`yy = 1 .. ydim - 2`. -/
def rowWorkers (s : Solver) : Option (List Worker) :=
  (upTo 1 (s.ydim - 1)).foldlM (fun ws yy =>
    andThen (rowProgram s yy) fun prog =>
    some (ws ++ [{ regs := { reg := 0, acc := 0, ireg := 0 }, todo := prog }])) []

/-- The goroutine number `k` makes its next step.  A number that names no goroutine, or
one that has finished, makes no step. -/
def microStep (st : Solver × List Worker) (k : Nat) : Option (Solver × List Worker) :=
  match st.2[k]? with
  | none => some st
  | some w =>
    match w.todo with
    | [] => some st
    | m :: rest =>
      andThen (m.exec st.1 w.regs) fun r => some (r.1, st.2.set k { regs := r.2, todo := rest })

/-- The steps a schedule names, one after the other. -/
def runSchedule (sched : List Nat) (st : Solver × List Worker) :
    Option (Solver × List Worker) :=
  sched.foldlM microStep st

/-- The schedule that lets every goroutine that has not finished run to its end, the
goroutines taken in the order in which they were started; `k` is the number of the
first goroutine of the list. -/
def finishFrom (k : Nat) : List Worker → List Nat
  | [] => []
  | w :: ws => List.replicate w.todo.length k ++ finishFrom (k + 1) ws

/-- Method `Solver.StreamThreaded` under a schedule of its row goroutines.  The four
sweeps run first (each in a goroutine of its own, on slices no other sweep touches).
Then the row goroutines of the bounce-back loop make their steps in the order `sched`
names them, and the goroutines that have not finished by then run to their end: the
method returns when all of them have. -/
def StreamThreadedUnder (sched : List Nat) (s : Solver) : Option Solver :=
  let s0 : Solver := { s with barrierCount := 0, barrierxSum := 0, barrierySum := 0,
                              barrierFx := 0.0, barrierFy := 0.0 }
  andThen (streamNW s0) fun s1 =>
  andThen (streamNE s1) fun s2 =>
  andThen (streamSE s2) fun s3 =>
  andThen (streamSW s3) fun s4 =>
  andThen (rowWorkers s4) fun ws =>
  andThen (runSchedule sched (s4, ws)) fun st =>
  andThen (runSchedule (finishFrom 0 st.2) st) fun fin =>
  some fin.1

/-- One pass of the loop of `Simulate`, the row goroutines of `StreamThreaded` being
scheduled by `sched`. -/
def subStepUnder (sched : List Nat) (dragProperties : DragFluidProperties) (s : Solver) :
    Option Solver :=
  andThen (CollideThreaded s) fun s =>
  andThen (StreamThreadedUnder sched s) fun s =>
  andThen (if s.dragging then
      DragFluid s dragProperties.pushX dragProperties.pushY dragProperties.pushUX
        dragProperties.pushUY
    else some s) fun s =>
  some { s with time := s.time + 1 }

/-- Method `Solver.Simulate`, the row goroutines of the pass number `step` being
scheduled by `scheds step`. -/
def SimulateUnder (scheds : Int → List Nat) (s : Solver) (props : AppProperties) :
    Option Solver :=
  andThen (SetBoundaries s) fun s =>
  let r : Solver × DragFluidProperties := DragFluidCheck s props
  andThen ((upTo 0 r.1.stepsPerFrame).foldlM (fun st step =>
    subStepUnder (scheds step) r.2 st) r.1) fun s =>
  CheckFlowStability s

/-- The index a step reads or writes lies in a slice of length `n`. -/
def Micro.InRange (n : Nat) : Micro → Prop
  | .load _ i => 0 ≤ i ∧ i.toNat < n
  | .store _ i => 0 ≤ i ∧ i.toNat < n
  | .plus _ i => 0 ≤ i ∧ i.toNat < n
  | .minus _ i => 0 ≤ i ∧ i.toNat < n
  | _ => True

/-- A schedule for every pass of `Simulate` under which the goroutine of row 25 (number
24 of the row goroutines) makes the 38 steps of a barrier site before the goroutine of
row 24 (number 23) makes its own. -/
def overtaking : Int → List Nat := fun _ => List.replicate 38 24 ++ List.replicate 38 23

/-- What every schedule keeps: the solver differs from `s0` in moving densities and
accumulators only, the slices have length `n`, and every step still to be made is within
the slices. -/
def Racing (s0 : Solver) (n : Nat) (st : Solver × List Worker) : Prop :=
  quiet st.1 = quiet s0 ∧ (∀ d, (dens st.1 d).length = n) ∧
    ∀ w ∈ st.2, ∀ m ∈ w.todo, m.InRange n

/-- The steps of a program made one after the other by one goroutine, no other goroutine
running in between. -/
def runProgram (prog : List Micro) (s : Solver) (r : Regs) : Option (Solver × Regs) :=
  prog.foldlM (fun p m => m.exec p.1 p.2) (s, r)

/-! # Theorems -/

/-! ## Slices -/

@[simp]
theorem andThen_some {α β : Type} (a : α) (f : α → Option β) : andThen (some a) f = f a := rfl

@[simp]
theorem andThen_none {α β : Type} (f : α → Option β) : andThen none f = none := rfl

theorem andThen_eq_some {α β : Type} {o : Option α} {f : α → Option β} {b : β}
    (h : andThen o f = some b) : ∃ a, o = some a ∧ f a = some b := by
  cases o with
  | none => simp at h
  | some a => exact ⟨a, rfl, h⟩

theorem wr_ok {α : Type} {a : List α} {i : Int} (v : α) (h0 : 0 ≤ i) (h1 : i.toNat < a.length) :
    wr a i v = some (a.set i.toNat v) := by
  simp [wr, h0, h1]

theorem rd_ok {α : Type} {a : List α} {i : Int} (h0 : 0 ≤ i) (h1 : i.toNat < a.length) :
    ∃ v, rd a i = some v := by
  refine ⟨a[i.toNat], ?_⟩
  simp [rd, not_lt.mpr h0, List.getElem?_eq_getElem h1]

theorem rd_replicate {α : Type} {n : Nat} {v w : α} {i : Int}
    (h : rd (List.replicate n v) i = some w) : w = v := by
  unfold rd at h
  split at h
  · exact absurd h (by simp)
  · rw [List.getElem?_replicate] at h
    split at h
    · exact (Option.some.inj h).symm
    · exact absurd h (by simp)

theorem rd_nat {α : Type} (a : List α) (k : Nat) : rd a (k : Int) = a[k]? := by
  simp [rd]

theorem rd_set_same {α : Type} {a : List α} {i : Int} (v : α) (h0 : 0 ≤ i)
    (h1 : i.toNat < a.length) : rd (a.set i.toNat v) i = some v := by
  simp [rd, not_lt.mpr h0, List.getElem?_set, h1]

theorem rd_set_other {α : Type} (a : List α) (k : Nat) (v : α) {i : Int}
    (h : 0 ≤ i → i.toNat ≠ k) : rd (a.set k v) i = rd a i := by
  unfold rd
  split
  · rfl
  · rename_i hi
    have h2 : k ≠ i.toNat := fun e => h (not_lt.mp hi) e.symm
    simp [List.getElem?_set, h2]

theorem toNat_ne {i k : Int} (hk : 0 ≤ k) (h : i ≠ k) : 0 ≤ i → i.toNat ≠ k.toNat := by
  omega

theorem toNat_lt_mono {a b : Int} {n : Nat} (hab : a ≤ b) (h : b.toNat < n) :
    a.toNat < n := by
  omega

/-! ## Loops -/

theorem mem_upTo {lo hi i : Int} : i ∈ upTo lo hi ↔ lo ≤ i ∧ i < hi := by
  simp only [upTo, List.mem_map, List.mem_range]
  constructor
  · rintro ⟨k, hk, rfl⟩
    omega
  · rintro ⟨h1, h2⟩
    exact ⟨(i - lo).toNat, by omega, by omega⟩

theorem mem_upThru {lo hi i : Int} : i ∈ upThru lo hi ↔ lo ≤ i ∧ i ≤ hi := by
  rw [upThru, mem_upTo]
  omega

theorem mem_downTo {hi lo i : Int} : i ∈ downTo hi lo ↔ lo < i ∧ i ≤ hi := by
  simp only [downTo, List.mem_map, List.mem_range]
  constructor
  · rintro ⟨k, hk, rfl⟩
    omega
  · rintro ⟨h1, h2⟩
    exact ⟨(hi - i).toNat, by omega, by omega⟩

theorem upTo_pairwise (lo hi : Int) : (upTo lo hi).Pairwise (fun a b => a < b) := by
  rw [upTo, List.pairwise_map]
  exact (List.pairwise_lt_range _).imp (by intro a b h; omega)

theorem downTo_pairwise (hi lo : Int) : (downTo hi lo).Pairwise (fun a b => b < a) := by
  rw [downTo, List.pairwise_map]
  exact (List.pairwise_lt_range _).imp (by intro a b h; omega)

/-- Hoare rule for a loop: an invariant indexed by the iterations already done. -/
theorem foldlM_inv {σ ι : Type} (body : σ → ι → Option σ) (I : List ι → σ → Prop)
    (T : List ι)
    (hstep : ∀ pre j post st, T = pre ++ j :: post → I pre st →
      ∃ st', body st j = some st' ∧ I (pre ++ [j]) st')
    (s : σ) (h0 : I [] s) : ∃ s', T.foldlM body s = some s' ∧ I T s' := by
  suffices H : ∀ (L pre : List ι) (st : σ), T = pre ++ L → I pre st →
      ∃ s', L.foldlM body st = some s' ∧ I T s' from H T [] s rfl h0
  intro L
  induction L with
  | nil =>
    intro pre st hT hI
    refine ⟨st, rfl, ?_⟩
    rw [hT, List.append_nil]
    exact hI
  | cons j L ih =>
    intro pre st hT hI
    obtain ⟨st', hb, hI'⟩ := hstep pre j L st hT hI
    obtain ⟨s', hf, hfin⟩ := ih (pre ++ [j]) st' (by simp [hT]) hI'
    exact ⟨s', by simp [List.foldlM_cons, hb, hf], hfin⟩

/-- Hoare rule for a loop whose invariant does not depend on the iteration. -/
theorem foldlM_inv_mem {σ ι : Type} (body : σ → ι → Option σ) (I : σ → Prop) (T : List ι)
    (hstep : ∀ j, j ∈ T → ∀ st, I st → ∃ st', body st j = some st' ∧ I st')
    (s : σ) (h0 : I s) : ∃ s', T.foldlM body s = some s' ∧ I s' :=
  foldlM_inv body (fun _ st => I st) T
    (fun pre j post st hT hI => hstep j (by simp [hT]) st hI) s h0

/-- The pairs `(x, y)` a loop over `ys` with an inner loop over `xs` visits, in order. -/
theorem foldlM_nested {σ α β : Type} (f : σ → α → β → Option σ) (ys : List β) (xs : List α)
    (s : σ) :
    ys.foldlM (fun st y => xs.foldlM (fun st x => f st x y) st) s
      = (ys.flatMap fun y => xs.map fun x => (x, y)).foldlM (fun st p => f st p.1 p.2) s := by
  induction ys generalizing s with
  | nil => rfl
  | cons y ys ih =>
    simp only [List.foldlM_cons, List.flatMap_cons, List.foldlM_append, List.foldlM_map]
    congr 1
    funext st
    exact ih st

theorem mem_grid {α β : Type} {xs : List α} {ys : List β} {p : α × β} :
    p ∈ (ys.flatMap fun y => xs.map fun x => (x, y)) ↔ p.1 ∈ xs ∧ p.2 ∈ ys := by
  obtain ⟨a, b⟩ := p
  simp only [List.mem_flatMap, List.mem_map, Prod.mk.injEq]
  constructor
  · rintro ⟨y, hy, x, hx, rfl, rfl⟩
    exact ⟨hx, hy⟩
  · rintro ⟨hx, hy⟩
    exact ⟨b, hy, a, hx, rfl, rfl⟩

/-! ## Indexing -/

theorem idx_inj {d x y x' y' : Int} (hx : 0 ≤ x ∧ x < d) (hx' : 0 ≤ x' ∧ x' < d)
    (h : x + y * d = x' + y' * d) : x = x' ∧ y = y' := by
  have h1 : (x + y * d) % d = x := by
    rw [Int.add_mul_emod_self, Int.emod_eq_of_lt hx.1 hx.2]
  have h2 : (x' + y' * d) % d = x' := by
    rw [Int.add_mul_emod_self, Int.emod_eq_of_lt hx'.1 hx'.2]
  have hxx : x = x' := by rw [← h1, ← h2, h]
  refine ⟨hxx, ?_⟩
  have hd : d ≠ 0 := by omega
  have h3 : y * d = y' * d := by rw [hxx] at h; exact add_left_cancel h
  exact mul_right_cancel₀ hd h3

/-! ## Cells -/

theorem Sized_putCell {s : Solver} {n : Nat} (h : Sized s n) (k : Nat) (c : Cell) :
    Sized (putCell s k c) n := by
  simpa [Sized, putCell] using h

theorem cellAt_putCell_same {s : Solver} {n : Nat} (h : Sized s n) {i : Int} (h0 : 0 ≤ i)
    (h1 : i.toNat < n) (c : Cell) : cellAt (putCell s i.toNat c) i = some c := by
  obtain ⟨a1, a2, a3, a4, a5, a6, a7, a8, a9, a10, a11, a12⟩ := h
  simp [cellAt, putCell, rd_set_same, h0, h1, a1, a2, a3, a4, a5, a6, a7, a8, a9, a10, a11, a12]

theorem cellAt_putCell_other (s : Solver) (k : Nat) (c : Cell) {i : Int}
    (h : 0 ≤ i → i.toNat ≠ k) : cellAt (putCell s k c) i = cellAt s i := by
  simp [cellAt, putCell, rd_set_other _ _ _ h]

theorem cellAt_ok {s : Solver} {n : Nat} (h : Sized s n) {i : Int} (h0 : 0 ≤ i)
    (h1 : i.toNat < n) : ∃ c, cellAt s i = some c := by
  obtain ⟨a1, a2, a3, a4, a5, a6, a7, a8, a9, a10, a11, a12⟩ := h
  obtain ⟨v1, e1⟩ := rd_ok (a := s.n0) h0 (a1 ▸ h1)
  obtain ⟨v2, e2⟩ := rd_ok (a := s.nN) h0 (a2 ▸ h1)
  obtain ⟨v3, e3⟩ := rd_ok (a := s.nS) h0 (a3 ▸ h1)
  obtain ⟨v4, e4⟩ := rd_ok (a := s.nE) h0 (a4 ▸ h1)
  obtain ⟨v5, e5⟩ := rd_ok (a := s.nW) h0 (a5 ▸ h1)
  obtain ⟨v6, e6⟩ := rd_ok (a := s.nNE) h0 (a6 ▸ h1)
  obtain ⟨v7, e7⟩ := rd_ok (a := s.nSE) h0 (a7 ▸ h1)
  obtain ⟨v8, e8⟩ := rd_ok (a := s.nNW) h0 (a8 ▸ h1)
  obtain ⟨v9, e9⟩ := rd_ok (a := s.nSW) h0 (a9 ▸ h1)
  obtain ⟨v10, e10⟩ := rd_ok (a := s.rho) h0 (a10 ▸ h1)
  obtain ⟨v11, e11⟩ := rd_ok (a := s.ux) h0 (a11 ▸ h1)
  obtain ⟨v12, e12⟩ := rd_ok (a := s.uy) h0 (a12 ▸ h1)
  exact ⟨⟨v1, v2, v3, v4, v5, v6, v7, v8, v9, v10, v11, v12⟩,
    by simp [cellAt, e1, e2, e3, e4, e5, e6, e7, e8, e9, e10, e11, e12]⟩

theorem cellAt_some {s : Solver} {i : Int} {c : Cell} (h : cellAt s i = some c) :
    rd s.n0 i = some c.n0 ∧ rd s.nN i = some c.nN ∧ rd s.nS i = some c.nS ∧
    rd s.nE i = some c.nE ∧ rd s.nW i = some c.nW ∧ rd s.nNE i = some c.nNE ∧
    rd s.nSE i = some c.nSE ∧ rd s.nNW i = some c.nNW ∧ rd s.nSW i = some c.nSW ∧
    rd s.rho i = some c.rho ∧ rd s.ux i = some c.ux ∧ rd s.uy i = some c.uy := by
  unfold cellAt at h
  obtain ⟨a1, h1, h⟩ := andThen_eq_some h
  obtain ⟨a2, h2, h⟩ := andThen_eq_some h
  obtain ⟨a3, h3, h⟩ := andThen_eq_some h
  obtain ⟨a4, h4, h⟩ := andThen_eq_some h
  obtain ⟨a5, h5, h⟩ := andThen_eq_some h
  obtain ⟨a6, h6, h⟩ := andThen_eq_some h
  obtain ⟨a7, h7, h⟩ := andThen_eq_some h
  obtain ⟨a8, h8, h⟩ := andThen_eq_some h
  obtain ⟨a9, h9, h⟩ := andThen_eq_some h
  obtain ⟨a10, h10, h⟩ := andThen_eq_some h
  obtain ⟨a11, h11, h⟩ := andThen_eq_some h
  obtain ⟨a12, h12, h⟩ := andThen_eq_some h
  cases Option.some.inj h
  exact ⟨h1, h2, h3, h4, h5, h6, h7, h8, h9, h10, h11, h12⟩

theorem frame_putCell (s : Solver) (k : Nat) (c : Cell) : frame (putCell s k c) = frame s := rfl

/-- A field that `frame` keeps agrees on two solvers with the same frame. -/
theorem frame_get {α : Type} (p : Solver → α) {s s' : Solver}
    (h1 : p (frame s') = p s') (h2 : p (frame s) = p s) (hf : frame s' = frame s) :
    p s' = p s := by
  rw [← h1, ← h2, hf]

theorem Weights.of_frame_eq {s s' : Solver} (h : Weights s) (hf : frame s' = frame s) :
    Weights s' := by
  obtain ⟨w1, w2, w3⟩ := h
  exact ⟨(frame_get Solver.one9th rfl rfl hf).trans w1,
    (frame_get Solver.one36th rfl rfl hf).trans w2,
    (frame_get Solver.four9ths rfl rfl hf).trans w3⟩

/-- A loop that rewrites one cell per iteration, the cell at `ix j` becoming `f` of what it
was: afterwards the cells the loop visited are `f` of what they were before the loop, and
all others are as before.  A cell may be visited twice when `f` is idempotent. -/
theorem cellLoop {ι : Type} (ix : ι → Int) (f : Cell → Cell)
    (body : Solver → ι → Option Solver) (J : List ι → Solver → Prop) (T : List ι) (s : Solver)
    (hdup : (T.map ix).Nodup ∨ ∀ c, f (f c) = f c)
    (hstep : ∀ pre j post st, T = pre ++ j :: post → J pre st →
      ∃ c st', cellAt st (ix j) = some c ∧ body st j = some st' ∧ J (pre ++ [j]) st' ∧
        cellAt st' (ix j) = some (f c) ∧ ∀ i, i ≠ ix j → cellAt st' i = cellAt st i)
    (h0 : J [] s) :
    ∃ s', T.foldlM body s = some s' ∧ J T s' ∧
      ∀ i, cellAt s' i = if i ∈ T.map ix then (cellAt s i).map f else cellAt s i := by
  have key := foldlM_inv body
    (fun pre st => J pre st ∧
      ∀ i, cellAt st i = if i ∈ pre.map ix then (cellAt s i).map f else cellAt s i) T ?_ s
    ⟨h0, fun i => by simp⟩
  · exact key
  · rintro pre j post st hT ⟨hJ, hI⟩
    obtain ⟨c, st', hc, hb, hJ', hsame, hother⟩ := hstep pre j post st hT hJ
    refine ⟨st', hb, hJ', fun i => ?_⟩
    by_cases hij : i = ix j
    · subst hij
      have hmem : ix j ∈ (pre ++ [j]).map ix := by simp
      rw [if_pos hmem, hsame]
      have hcur := hI (ix j)
      rw [hc] at hcur
      by_cases hp : ix j ∈ pre.map ix
      · rw [if_pos hp] at hcur
        rcases hdup with hnd | hid
        · exfalso
          rw [hT, List.map_append, List.map_cons] at hnd
          exact (List.nodup_append.mp hnd).2.2 hp (List.mem_cons_self _ _)
        · cases hs : cellAt s (ix j) with
          | none => rw [hs] at hcur; simp at hcur
          | some c0 =>
            rw [hs] at hcur
            simp only [Option.map_some', Option.some.injEq] at hcur
            simp [hcur, hid]
      · rw [if_neg hp] at hcur
        rw [← hcur]
        rfl
    · rw [hother i hij, hI i]
      have : i ∈ (pre ++ [j]).map ix ↔ i ∈ pre.map ix := by
        simp only [List.map_append, List.mem_append, List.map_cons, List.map_nil,
          List.mem_singleton]
        exact ⟨fun h => h.resolve_right hij, Or.inl⟩
      simp only [this]

/-- Closed form of one `SetEquilibrium` call on slices of equal length: the addressed
cell becomes the D2Q9 equilibrium for the requested velocity and the density `r` the
call resolves (`newrho`, or the stored density under the sentinel). -/
theorem SetEquilibrium_eq {s : Solver} {n : Nat} (hw : Weights s) (hs : Sized s n)
    (x y : Int) (ux uy newrho r : ℚ) (h0 : 0 ≤ x + y * s.xdim)
    (h1 : (x + y * s.xdim).toNat < n)
    (hr : (if newrho = -1 then rd s.rho (x + y * s.xdim) else some newrho) = some r) :
    SetEquilibrium s x y ux uy newrho
      = some (putCell s (x + y * s.xdim).toNat (equilibrium ux uy r)) := by
  obtain ⟨a1, a2, a3, a4, a5, a6, a7, a8, a9, a10, a11, a12⟩ := hs
  obtain ⟨w1, w2, w3⟩ := hw
  unfold SetEquilibrium
  simp only [hr, andThen_some]
  rw [wr_ok _ h0 (a1 ▸ h1), wr_ok _ h0 (a4 ▸ h1), wr_ok _ h0 (a5 ▸ h1), wr_ok _ h0 (a2 ▸ h1),
    wr_ok _ h0 (a3 ▸ h1), wr_ok _ h0 (a6 ▸ h1), wr_ok _ h0 (a7 ▸ h1), wr_ok _ h0 (a8 ▸ h1),
    wr_ok _ h0 (a9 ▸ h1), wr_ok _ h0 (a10 ▸ h1), wr_ok _ h0 (a11 ▸ h1), wr_ok _ h0 (a12 ▸ h1)]
  simp only [andThen_some, putCell, equilibrium, feq, w1, w2, w3]
  congr 2 <;> congr 1 <;> ring

theorem idx_range {w h x y : Int} (hx0 : 0 ≤ x) (hx1 : x < w) (hy0 : 0 ≤ y)
    (hy1 : y < h) : 0 ≤ x + y * w ∧ (x + y * w).toNat < (w * h).toNat := by
  have hxd : 0 < w := lt_of_le_of_lt hx0 hx1
  have h1 : 0 ≤ y * w := mul_nonneg hy0 hxd.le
  have h2 : (y + 1) * w ≤ h * w := by
    apply mul_le_mul_of_nonneg_right _ hxd.le
    omega
  have h3 : x + y * w < w * h := by nlinarith
  refine ⟨by omega, ?_⟩
  omega

theorem WellFormed.sized {s : Solver} (h : WellFormed s) : Sized s (s.xdim * s.ydim).toNat := by
  obtain ⟨_, _, _, ⟨a1, a2, a3, a4, a5, a6, a7, a8, a9, a10, a11, a12, _, _⟩, _⟩ := h
  exact ⟨a1, a2, a3, a4, a5, a6, a7, a8, a9, a10, a11, a12⟩

theorem WellFormed.weights {s : Solver} (h : WellFormed s) : Weights s := h.2.2.2.2

theorem rest3_wf : WellFormed rest3 := by
  simp [WellFormed, rest3]

theorem sunk3_wf : WellFormed sunk3 := by
  simp [WellFormed, sunk3, rest3]

theorem sunk3_unstable :
    ∃ x, 0 ≤ x ∧ x < sunk3.xdim ∧
      ∃ r, rd sunk3.rho (x + sunk3.ydim.tdiv 2 * sunk3.xdim) = some r ∧ r ≤ 0 :=
  ⟨1, by decide, by decide, -1 / 2, rfl, by norm_num⟩

/-! ## Equilibrium -/

theorem equilibrium_mass (ux uy rho : ℚ) : (equilibrium ux uy rho).mass = rho := by
  simp only [Cell.mass, equilibrium, feq]
  ring

/-- C1 (equilibrium closure): on a well-formed lattice, for every cell `(x, y)` and every
`ux`, `uy` and `rho` other than the sentinel `-1`, `SetEquilibrium` succeeds, and afterwards
the nine directional densities of the cell sum to `rho` and the stored density is `rho`. -/
theorem SetEquilibrium_closure (s : Solver) (x y : Int) (ux uy rho : ℚ) (hwf : WellFormed s)
    (hx : 0 ≤ x ∧ x < s.xdim) (hy : 0 ≤ y ∧ y < s.ydim) (hrho : rho ≠ -1) :
    ∃ s' c, SetEquilibrium s x y ux uy rho = some s' ∧
      cellAt s' (x + y * s.xdim) = some c ∧
      c.n0 + c.nN + c.nS + c.nE + c.nW + c.nNE + c.nSE + c.nNW + c.nSW = rho ∧
      c.rho = rho := by
  obtain ⟨h0, h1⟩ := idx_range hx.1 hx.2 hy.1 hy.2
  refine ⟨_, equilibrium ux uy rho,
    SetEquilibrium_eq hwf.weights hwf.sized x y ux uy rho rho h0 h1 (by simp [hrho]), ?_, ?_, rfl⟩
  · exact cellAt_putCell_same hwf.sized h0 h1 _
  · exact equilibrium_mass ux uy rho

theorem SetEquilibrium_closure_witness :
    WellFormed rest3 ∧ (0 ≤ (1 : Int) ∧ (1 : Int) < rest3.xdim) ∧
      (0 ≤ (2 : Int) ∧ (2 : Int) < rest3.ydim) ∧ (3 / 2 : ℚ) ≠ -1 ∧
      ∃ s' c, SetEquilibrium rest3 1 2 (1 / 10) (1 / 20) (3 / 2) = some s' ∧
        cellAt s' (1 + 2 * rest3.xdim) = some c ∧
        c.n0 + c.nN + c.nS + c.nE + c.nW + c.nNE + c.nSE + c.nNW + c.nSW = 3 / 2 ∧
        c.rho = 3 / 2 :=
  ⟨rest3_wf, by decide, by decide, by norm_num,
    SetEquilibrium_closure rest3 1 2 (1 / 10) (1 / 20) (3 / 2) rest3_wf (by decide) (by decide)
      (by norm_num)⟩

/-! ## Collision -/

theorem relaxSite_eq (omega : ℚ) (c : Cell) :
    relaxSite (1 / 9) (1 / 36) (4 / 9) omega c = relax omega c := by
  simp only [relaxSite, relax, equilibrium, feq, Cell.mk.injEq]
  generalize c.n0 + c.nN + c.nS + c.nE + c.nW + c.nNW + c.nNE + c.nSW + c.nSE = rho
  generalize c.nE + c.nNE + c.nSE - c.nW - c.nNW - c.nSW = mx
  generalize c.nN + c.nNE + c.nNW - c.nS - c.nSE - c.nSW = my
  refine ⟨?_, ?_, ?_, ?_, ?_, ?_, ?_, ?_, ?_, trivial, ?_, ?_⟩ <;> ring

/-- Closed form of the collision at one site: the cell relaxes toward its own
equilibrium. -/
theorem collideSite_eq {s : Solver} {n : Nat} (hw : Weights s) (hs : Sized s n) (omega : ℚ)
    (dim x y : Int) (c : Cell) (h0 : 0 ≤ x + y * dim) (h1 : (x + y * dim).toNat < n)
    (hc : cellAt s (x + y * dim) = some c) :
    collideSite omega dim s x y = some (putCell s (x + y * dim).toNat (relax omega c)) := by
  obtain ⟨a1, a2, a3, a4, a5, a6, a7, a8, a9, a10, a11, a12⟩ := hs
  obtain ⟨w1, w2, w3⟩ := hw
  obtain ⟨r1, r2, r3, r4, r5, r6, r7, r8, r9, r10, r11, r12⟩ := cellAt_some hc
  rw [← relaxSite_eq, ← w1, ← w2, ← w3]
  have e1 : ∀ v, wr s.n0 (x + y * dim) v = some (s.n0.set (x + y * dim).toNat v) :=
    fun v => wr_ok v h0 (a1 ▸ h1)
  have e2 : ∀ v, wr s.nN (x + y * dim) v = some (s.nN.set (x + y * dim).toNat v) :=
    fun v => wr_ok v h0 (a2 ▸ h1)
  have e3 : ∀ v, wr s.nS (x + y * dim) v = some (s.nS.set (x + y * dim).toNat v) :=
    fun v => wr_ok v h0 (a3 ▸ h1)
  have e4 : ∀ v, wr s.nE (x + y * dim) v = some (s.nE.set (x + y * dim).toNat v) :=
    fun v => wr_ok v h0 (a4 ▸ h1)
  have e5 : ∀ v, wr s.nW (x + y * dim) v = some (s.nW.set (x + y * dim).toNat v) :=
    fun v => wr_ok v h0 (a5 ▸ h1)
  have e6 : ∀ v, wr s.nNE (x + y * dim) v = some (s.nNE.set (x + y * dim).toNat v) :=
    fun v => wr_ok v h0 (a6 ▸ h1)
  have e7 : ∀ v, wr s.nSE (x + y * dim) v = some (s.nSE.set (x + y * dim).toNat v) :=
    fun v => wr_ok v h0 (a7 ▸ h1)
  have e8 : ∀ v, wr s.nNW (x + y * dim) v = some (s.nNW.set (x + y * dim).toNat v) :=
    fun v => wr_ok v h0 (a8 ▸ h1)
  have e9 : ∀ v, wr s.nSW (x + y * dim) v = some (s.nSW.set (x + y * dim).toNat v) :=
    fun v => wr_ok v h0 (a9 ▸ h1)
  have e10 : ∀ v, wr s.rho (x + y * dim) v = some (s.rho.set (x + y * dim).toNat v) :=
    fun v => wr_ok v h0 (a10 ▸ h1)
  have e11 : ∀ v, wr s.ux (x + y * dim) v = some (s.ux.set (x + y * dim).toNat v) :=
    fun v => wr_ok v h0 (a11 ▸ h1)
  have e12 : ∀ v, wr s.uy (x + y * dim) v = some (s.uy.set (x + y * dim).toNat v) :=
    fun v => wr_ok v h0 (a12 ▸ h1)
  simp only [collideSite, r1, r2, r3, r4, r5, r6, r7, r8, r9, andThen_some,
    e1, e2, e3, e4, e5, e6, e7, e8, e9, e10, e11, e12, putCell, relaxSite]

theorem upTo_nodup (lo hi : Int) : (upTo lo hi).Nodup :=
  (upTo_pairwise lo hi).imp (fun h => ne_of_lt h)

theorem grid_nodup {xs ys : List Int} (hxs : xs.Nodup) (hys : ys.Nodup) :
    (ys.flatMap fun y => xs.map fun x => (x, y)).Nodup := by
  rw [List.nodup_flatMap]
  refine ⟨fun y _ => hxs.map (fun a b h => (Prod.mk.inj h).1), ?_⟩
  refine hys.imp ?_
  intro a b hab p hpa hpb
  simp only [List.mem_map] at hpa hpb
  obtain ⟨_, _, rfl⟩ := hpa
  obtain ⟨_, _, h⟩ := hpb
  exact hab (Prod.mk.inj h).2.symm

theorem grid_idx_nodup {d : Int} {xs ys : List Int} (hxs : xs.Nodup) (hys : ys.Nodup)
    (hx : ∀ x ∈ xs, 0 ≤ x ∧ x < d) :
    ((ys.flatMap fun y => xs.map fun x => (x, y)).map (fun p => p.1 + p.2 * d)).Nodup := by
  refine List.Nodup.map_on ?_ (grid_nodup hxs hys)
  rintro ⟨x, y⟩ hp ⟨x', y'⟩ hp' h
  have h1 := hx x (mem_grid.mp hp).1
  have h2 := hx x' (mem_grid.mp hp').1
  obtain ⟨e1, e2⟩ := idx_inj h1 h2 h
  simp only at e1 e2
  rw [e1, e2]

/-- The two nested loops of `Collide` relax every interior cell and leave the rest. -/
theorem Collide_sites {s : Solver} (hwf : WellFormed s) (omega : ℚ) :
    ∃ s1, (upTo 1 (s.ydim - 1)).foldlM (fun st y =>
        (upTo 1 (s.xdim - 1)).foldlM (fun st x => collideSite omega s.xdim st x y) st) s
        = some s1 ∧
      Sized s1 (s.xdim * s.ydim).toNat ∧ frame s1 = frame s ∧
      (∀ x y, 1 ≤ x → x ≤ s.xdim - 2 → 1 ≤ y → y ≤ s.ydim - 2 →
        cellAt s1 (x + y * s.xdim) = (cellAt s (x + y * s.xdim)).map (relax omega)) ∧
      (∀ i, (∀ x y, 1 ≤ x → x ≤ s.xdim - 2 → 1 ≤ y → y ≤ s.ydim - 2 → i ≠ x + y * s.xdim) →
        cellAt s1 i = cellAt s i) := by
  rw [foldlM_nested (fun st x y => collideSite omega s.xdim st x y)]
  have hnd := grid_idx_nodup (d := s.xdim) (upTo_nodup 1 (s.xdim - 1))
    (upTo_nodup 1 (s.ydim - 1)) (fun x hx => by rw [mem_upTo] at hx; omega)
  obtain ⟨s1, hrun, ⟨hs1, hf1⟩, hcells⟩ := cellLoop (fun p : Int × Int => p.1 + p.2 * s.xdim)
    (relax omega) (fun st p => collideSite omega s.xdim st p.1 p.2)
    (fun _ st => Sized st (s.xdim * s.ydim).toNat ∧ frame st = frame s) _ s (Or.inl hnd)
    (by
      rintro pre ⟨x, y⟩ post st hT ⟨hsz, hfr⟩
      have hmem : (x, y) ∈ ((upTo 1 (s.ydim - 1)).flatMap fun y =>
          (upTo 1 (s.xdim - 1)).map fun x => (x, y)) := by rw [hT]; simp
      obtain ⟨hx, hy⟩ := mem_grid.mp hmem
      rw [mem_upTo] at hx hy
      simp only at hx hy
      obtain ⟨h0, h1⟩ := idx_range (w := s.xdim) (h := s.ydim) (x := x) (y := y)
        (by omega) (by omega) (by omega) (by omega)
      obtain ⟨c, hc⟩ := cellAt_ok hsz h0 h1
      have hw : Weights st := hwf.weights.of_frame_eq hfr
      refine ⟨c, _, hc, collideSite_eq hw hsz omega s.xdim x y c h0 h1 hc,
        ⟨Sized_putCell hsz _ _, (frame_putCell _ _ _).trans hfr⟩,
        cellAt_putCell_same hsz h0 h1 _, fun i hi => ?_⟩
      exact cellAt_putCell_other _ _ _ (toNat_ne h0 hi))
    ⟨hwf.sized, rfl⟩
  refine ⟨s1, hrun, hs1, hf1, ?_, ?_⟩
  · intro x y hx1 hx2 hy1 hy2
    rw [hcells, if_pos]
    rw [List.mem_map]
    exact ⟨(x, y), mem_grid.mpr ⟨by rw [mem_upTo]; omega, by rw [mem_upTo]; omega⟩, rfl⟩
  · intro i hi
    rw [hcells, if_neg]
    rw [List.mem_map]
    rintro ⟨⟨x, y⟩, hp, rfl⟩
    obtain ⟨hx, hy⟩ := mem_grid.mp hp
    rw [mem_upTo] at hx hy
    simp only at hx hy
    exact hi x y (by omega) (by omega) (by omega) (by omega) rfl

theorem outflowRow_spec {s : Solver} {n : Nat} (hs : Sized s n) (dim y : Int)
    (h0 : 0 ≤ dim - 2 + y * dim) (h1 : (dim - 1 + y * dim).toNat < n) :
    ∃ s', outflowRow dim s y = some s' ∧ Sized s' n ∧ frame s' = frame s ∧
      ∀ i, i ≠ dim - 1 + y * dim → cellAt s' i = cellAt s i := by
  have k0 : 0 ≤ dim - 1 + y * dim := by omega
  have k1 : (dim - 2 + y * dim).toNat < n := toNat_lt_mono (by omega) h1
  obtain ⟨a1, a2, a3, a4, a5, a6, a7, a8, a9, a10, a11, a12⟩ := hs
  obtain ⟨v1, e1⟩ := rd_ok (a := s.nW) h0 (a5 ▸ k1)
  obtain ⟨v2, e2⟩ := rd_ok (a := s.nNW) h0 (a8 ▸ k1)
  obtain ⟨v3, e3⟩ := rd_ok (a := s.nSW) h0 (a9 ▸ k1)
  refine ⟨{ s with nW := s.nW.set (dim - 1 + y * dim).toNat v1,
                    nNW := s.nNW.set (dim - 1 + y * dim).toNat v2,
                    nSW := s.nSW.set (dim - 1 + y * dim).toNat v3 }, by
    simp only [outflowRow, e1, e2, e3, andThen_some, wr_ok _ k0 (a5 ▸ h1),
      wr_ok _ k0 (a8 ▸ h1), wr_ok _ k0 (a9 ▸ h1)], ?_, rfl, ?_⟩
  · simp only [Sized, List.length_set]
    exact ⟨a1, a2, a3, a4, a5, a6, a7, a8, a9, a10, a11, a12⟩
  · intro i hi
    have hne : 0 ≤ i → i.toNat ≠ (dim - 1 + y * dim).toNat := toNat_ne k0 hi
    simp only [cellAt, rd_set_other _ _ _ hne]

/-- The last loop of `Collide` writes right-edge cells only. -/
theorem Collide_outflow {s : Solver} {n : Nat} (hs : Sized s n) (xdim ydim : Int)
    (hx : 0 < xdim) (hn : n = (xdim * ydim).toNat) :
    ∃ s2, (upTo 1 (ydim - 2)).foldlM (fun st y => outflowRow xdim st y) s = some s2 ∧
      Sized s2 n ∧ frame s2 = frame s ∧
      ∀ i, (∀ y, i ≠ xdim - 1 + y * xdim) → cellAt s2 i = cellAt s i := by
  obtain ⟨s2, hrun, hsz, hfr, hc⟩ := foldlM_inv_mem (fun st y => outflowRow xdim st y)
    (fun st => Sized st n ∧ frame st = frame s ∧
      ∀ i, (∀ y, i ≠ xdim - 1 + y * xdim) → cellAt st i = cellAt s i)
    (upTo 1 (ydim - 2))
    (by
      rintro y hy st ⟨hsz, hfr, hc⟩
      rw [mem_upTo] at hy
      obtain ⟨h0, h1⟩ := idx_range (w := xdim) (h := ydim) (x := xdim - 1) (y := y)
        (by omega) (by omega) (by omega) (by omega)
      have hy0 : 0 ≤ y * xdim := mul_nonneg (by omega) hx.le
      have hy1 : 1 * xdim ≤ y * xdim := mul_le_mul_of_nonneg_right (by omega) hx.le
      obtain ⟨st', hb, hsz', hfr', hc'⟩ := outflowRow_spec hsz xdim y (by omega) (hn ▸ h1)
      exact ⟨st', hb, hsz', hfr'.trans hfr, fun i hi => (hc' i (hi y)).trans (hc i hi)⟩)
    s ⟨hs, rfl, fun _ _ => rfl⟩
  exact ⟨s2, hrun, hsz, hfr, hc⟩

theorem WellFormed.of_frame {s s' : Solver} (h : WellFormed s) (hf : frame s' = frame s)
    (hs : Sized s' (s.xdim * s.ydim).toNat) : WellFormed s' := by
  obtain ⟨h1, h2, h3, ⟨_, _, _, _, _, _, _, _, _, _, _, _, c1, c2⟩, w1, w2, w3⟩ := h
  obtain ⟨a1, a2, a3, a4, a5, a6, a7, a8, a9, a10, a11, a12⟩ := hs
  have ex : s'.xdim = s.xdim := frame_get Solver.xdim rfl rfl hf
  have ey : s'.ydim = s.ydim := frame_get Solver.ydim rfl rfl hf
  have en : s'.numElements = s.numElements := frame_get Solver.numElements rfl rfl hf
  have ec : s'.curl = s.curl := frame_get Solver.curl rfl rfl hf
  have eb : s'.barrier = s.barrier := frame_get Solver.barrier rfl rfl hf
  have e1 : s'.one9th = s.one9th := frame_get Solver.one9th rfl rfl hf
  have e2 : s'.one36th = s.one36th := frame_get Solver.one36th rfl rfl hf
  have e3 : s'.four9ths = s.four9ths := frame_get Solver.four9ths rfl rfl hf
  simp only [WellFormed, ex, ey, en, ec, eb, e1, e2, e3]
  exact ⟨h1, h2, h3, ⟨a1, a2, a3, a4, a5, a6, a7, a8, a9, a10, a11, a12, c1, c2⟩, w1, w2, w3⟩

/-- Specification of `Collide`: it succeeds on a well-formed lattice, changes nothing but
the twelve per-cell slices, and relaxes every interior cell toward its own equilibrium. -/
theorem Collide_spec {s : Solver} (hwf : WellFormed s) :
    ∃ s', Collide s = some s' ∧ WellFormed s' ∧ frame s' = frame s ∧
      ∀ x y, 1 ≤ x → x ≤ s.xdim - 2 → 1 ≤ y → y ≤ s.ydim - 2 →
        cellAt s' (x + y * s.xdim)
          = (cellAt s (x + y * s.xdim)).map (relax (1.0 / (3 * s.flowVisc + 0.5))) := by
  obtain ⟨s1, hrun1, hs1, hf1, hin, _⟩ := Collide_sites hwf (1.0 / (3 * s.flowVisc + 0.5))
  obtain ⟨s2, hrun2, hs2, hf2, hc2⟩ := Collide_outflow hs1 s.xdim s.ydim hwf.1 rfl
  refine ⟨s2, by simp only [Collide, hrun1, andThen_some, hrun2],
    hwf.of_frame (hf2.trans hf1) hs2, hf2.trans hf1, ?_⟩
  intro x y hx1 hx2 hy1 hy2
  rw [← hin x y hx1 hx2 hy1 hy2]
  apply hc2
  intro y' e
  have := (idx_inj (d := s.xdim) (by omega) (by omega) e).1
  omega

/-! ## Loops of `SetEquilibrium` -/

theorem foldlM_pair {σ ι κ : Type} (g : σ → κ → Option σ) (a b : ι → κ) (xs : List ι) (s : σ) :
    xs.foldlM (fun st x => andThen (g st (a x)) fun st => g st (b x)) s
      = (xs.flatMap fun x => [a x, b x]).foldlM g s := by
  induction xs generalizing s with
  | nil => rfl
  | cons x xs ih =>
    simp only [List.foldlM_cons, List.flatMap_cons, List.foldlM_append, List.foldlM_nil]
    cases g s (a x) with
    | none => rfl
    | some s1 =>
      simp only [andThen_some, Option.some_bind, Option.bind_eq_bind]
      cases g s1 (b x) with
      | none => rfl
      | some s2 => simpa using ih s2

theorem mem_pairs {ι κ : Type} {a b : ι → κ} {xs : List ι} {p : κ} :
    p ∈ (xs.flatMap fun x => [a x, b x]) ↔ ∃ x ∈ xs, p = a x ∨ p = b x := by
  simp [List.mem_flatMap]

/-- A run of `SetEquilibrium` calls with one velocity and one density (not the sentinel)
over in-range cells: the cells visited hold that equilibrium, the others are as before. -/
theorem SetEquilibrium_loop {s : Solver} (hwf : WellFormed s) (ux uy rho : ℚ)
    (hrho : rho ≠ -1) (T : List (Int × Int))
    (hT : ∀ p ∈ T, (0 ≤ p.1 ∧ p.1 < s.xdim) ∧ (0 ≤ p.2 ∧ p.2 < s.ydim)) :
    ∃ s', T.foldlM (fun st p => SetEquilibrium st p.1 p.2 ux uy rho) s = some s' ∧
      WellFormed s' ∧ frame s' = frame s ∧
      (∀ p ∈ T, cellAt s' (p.1 + p.2 * s.xdim) = some (equilibrium ux uy rho)) ∧
      (∀ i, (∀ p ∈ T, i ≠ p.1 + p.2 * s.xdim) → cellAt s' i = cellAt s i) := by
  obtain ⟨s', hrun, ⟨hsz, hfr⟩, hcells⟩ := cellLoop (fun p : Int × Int => p.1 + p.2 * s.xdim)
    (fun _ => equilibrium ux uy rho) (fun st p => SetEquilibrium st p.1 p.2 ux uy rho)
    (fun _ st => Sized st (s.xdim * s.ydim).toNat ∧ frame st = frame s) T s
    (Or.inr fun _ => rfl)
    (by
      rintro pre ⟨x, y⟩ post st hTe ⟨hsz, hfr⟩
      obtain ⟨hx, hy⟩ := hT (x, y) (by rw [hTe]; simp)
      simp only at hx hy
      obtain ⟨h0, h1⟩ := idx_range hx.1 hx.2 hy.1 hy.2
      obtain ⟨c, hc⟩ := cellAt_ok hsz h0 h1
      have ex : st.xdim = s.xdim := frame_get Solver.xdim rfl rfl hfr
      have hse := SetEquilibrium_eq (hwf.weights.of_frame_eq hfr) hsz x y ux uy rho rho
        (by rw [ex]; exact h0) (by rw [ex]; exact h1) (by rw [if_neg hrho])
      rw [ex] at hse
      exact ⟨c, _, hc, hse, ⟨Sized_putCell hsz _ _, (frame_putCell _ _ _).trans hfr⟩,
        cellAt_putCell_same hsz h0 h1 _,
        fun i hi => cellAt_putCell_other _ _ _ (toNat_ne h0 hi)⟩)
    ⟨hwf.sized, rfl⟩
  refine ⟨s', hrun, hwf.of_frame hfr hsz, hfr, ?_, ?_⟩
  · intro p hp
    obtain ⟨hx, hy⟩ := hT p hp
    obtain ⟨h0, h1⟩ := idx_range hx.1 hx.2 hy.1 hy.2
    obtain ⟨c, hc⟩ := cellAt_ok hwf.sized h0 h1
    rw [hcells, if_pos (List.mem_map.mpr ⟨p, hp, rfl⟩), hc]
    rfl
  · intro i hi
    rw [hcells, if_neg]
    rw [List.mem_map]
    rintro ⟨p, hp, rfl⟩
    exact hi p hp rfl

/-- The cells `SetBoundaries` visits, in order. -/
theorem SetBoundaries_eq (s : Solver) :
    SetBoundaries s
      = (((upTo 0 s.xdim).flatMap fun x => [(x, (0 : Int)), (x, s.ydim - 1)]) ++
          ((upTo 1 (s.ydim - 1)).flatMap fun y => [((0 : Int), y), (s.xdim - 1, y)])).foldlM
          (fun st p => SetEquilibrium st p.1 p.2 s.flowVel 0 1) s := by
  unfold SetBoundaries
  simp only
  rw [foldlM_pair (fun st (p : Int × Int) => SetEquilibrium st p.1 p.2 s.flowVel 0 1)
      (fun x => (x, (0 : Int))) (fun x => (x, s.ydim - 1)), List.foldlM_append]
  cases List.foldlM (fun st (p : Int × Int) => SetEquilibrium st p.1 p.2 s.flowVel 0 1) s
      ((upTo 0 s.xdim).flatMap fun x => [(x, (0 : Int)), (x, s.ydim - 1)]) with
  | none => rfl
  | some s1 =>
    simp only [andThen_some, Option.some_bind, Option.bind_eq_bind]
    exact foldlM_pair (fun st (p : Int × Int) => SetEquilibrium st p.1 p.2 s.flowVel 0 1)
      (fun y => ((0 : Int), y)) (fun y => (s.xdim - 1, y)) _ s1

/-! ## `InitFluid` -/

theorem frameC_get {α : Type} (p : Solver → α) {s s' : Solver}
    (h1 : p (frameC s') = p s') (h2 : p (frameC s) = p s) (hf : frameC s' = frameC s) :
    p s' = p s := by
  rw [← h1, ← h2, hf]

theorem WellFormed.of_frameC {s s' : Solver} (h : WellFormed s) (hf : frameC s' = frameC s)
    (hs : Sized s' (s.xdim * s.ydim).toNat) (hc : s'.curl.length = (s.xdim * s.ydim).toNat) :
    WellFormed s' := by
  obtain ⟨h1, h2, h3, ⟨_, _, _, _, _, _, _, _, _, _, _, _, _, c2⟩, w1, w2, w3⟩ := h
  obtain ⟨a1, a2, a3, a4, a5, a6, a7, a8, a9, a10, a11, a12⟩ := hs
  have ex : s'.xdim = s.xdim := frameC_get Solver.xdim rfl rfl hf
  have ey : s'.ydim = s.ydim := frameC_get Solver.ydim rfl rfl hf
  have en : s'.numElements = s.numElements := frameC_get Solver.numElements rfl rfl hf
  have eb : s'.barrier = s.barrier := frameC_get Solver.barrier rfl rfl hf
  have e1 : s'.one9th = s.one9th := frameC_get Solver.one9th rfl rfl hf
  have e2 : s'.one36th = s.one36th := frameC_get Solver.one36th rfl rfl hf
  have e3 : s'.four9ths = s.four9ths := frameC_get Solver.four9ths rfl rfl hf
  simp only [WellFormed, ex, ey, en, eb, e1, e2, e3]
  exact ⟨h1, h2, h3, ⟨a1, a2, a3, a4, a5, a6, a7, a8, a9, a10, a11, a12, hc, c2⟩, w1, w2, w3⟩

/-- Specification of `InitFluid`: it succeeds on a well-formed lattice; afterwards every
cell is the inlet equilibrium with zero curl, and nothing but the per-cell slices and the
curl changed. -/
theorem InitFluid_spec {s : Solver} (hwf : WellFormed s) :
    ∃ s', InitFluid s = some s' ∧ WellFormed s' ∧ frameC s' = frameC s ∧
      ∀ x y, 0 ≤ x → x < s.xdim → 0 ≤ y → y < s.ydim →
        cellAt s' (x + y * s.xdim) = some (equilibrium s.flowVel 0 1) ∧
        rd s'.curl (x + y * s.xdim) = some 0 := by
  unfold InitFluid
  simp only
  rw [foldlM_nested (fun st x y =>
    andThen (SetEquilibrium st x y s.flowVel 0 1) fun st =>
    andThen (wr st.curl (x + y * s.xdim) 0.0) fun curl => some { st with curl := curl })]
  obtain ⟨s', hrun, ⟨hsz, hfr, hcl, hcurl⟩, hcells⟩ :=
    cellLoop (fun p : Int × Int => p.1 + p.2 * s.xdim)
    (fun _ => equilibrium s.flowVel 0 1)
    (fun st (p : Int × Int) =>
      andThen (SetEquilibrium st p.1 p.2 s.flowVel 0 1) fun st =>
      andThen (wr st.curl (p.1 + p.2 * s.xdim) 0.0) fun curl => some { st with curl := curl })
    (fun pre st => Sized st (s.xdim * s.ydim).toNat ∧ frameC st = frameC s ∧
      st.curl.length = (s.xdim * s.ydim).toNat ∧
      ∀ p ∈ pre, rd st.curl (p.1 + p.2 * s.xdim) = some 0)
    ((upTo 0 s.ydim).flatMap fun y => (upTo 0 s.xdim).map fun x => (x, y)) s
    (Or.inr fun _ => rfl)
    (by
      rintro pre ⟨x, y⟩ post st hTe ⟨hsz, hfr, hcl, hcurl⟩
      have hmem : (x, y) ∈ ((upTo 0 s.ydim).flatMap fun y =>
          (upTo 0 s.xdim).map fun x => (x, y)) := by rw [hTe]; simp
      obtain ⟨hx, hy⟩ := mem_grid.mp hmem
      rw [mem_upTo] at hx hy
      simp only at hx hy
      obtain ⟨h0, h1⟩ := idx_range hx.1 hx.2 hy.1 hy.2
      obtain ⟨c, hc⟩ := cellAt_ok hsz h0 h1
      have ex : st.xdim = s.xdim := frameC_get Solver.xdim rfl rfl hfr
      have hw : Weights st := by
        obtain ⟨w1, w2, w3⟩ := hwf.weights
        exact ⟨(frameC_get Solver.one9th rfl rfl hfr).trans w1,
          (frameC_get Solver.one36th rfl rfl hfr).trans w2,
          (frameC_get Solver.four9ths rfl rfl hfr).trans w3⟩
      have hse := SetEquilibrium_eq hw hsz x y s.flowVel 0 1 1
        (by rw [ex]; exact h0) (by rw [ex]; exact h1) (by norm_num)
      rw [ex] at hse
      have hwc : wr (putCell st (x + y * s.xdim).toNat (equilibrium s.flowVel 0 1)).curl
          (x + y * s.xdim) 0.0 = some (st.curl.set (x + y * s.xdim).toNat 0.0) :=
        wr_ok _ h0 (by rw [← hcl] at h1; exact h1)
      refine ⟨c, { putCell st (x + y * s.xdim).toNat (equilibrium s.flowVel 0 1) with
          curl := st.curl.set (x + y * s.xdim).toNat 0.0 }, hc, ?_,
        ⟨Sized_putCell hsz _ _, hfr, by rw [List.length_set]; exact hcl, ?_⟩,
        cellAt_putCell_same hsz h0 h1 _,
        fun i hi => cellAt_putCell_other _ _ _ (toNat_ne h0 hi)⟩
      · simp only [hse, andThen_some, hwc]
      · intro q hq
        simp only
        by_cases hqp : q.1 + q.2 * s.xdim = x + y * s.xdim
        · rw [hqp]
          have := rd_set_same (a := st.curl) (0.0 : ℚ) h0 (by rw [← hcl] at h1; exact h1)
          rw [this]
          norm_num
        · rw [rd_set_other _ _ _ (toNat_ne h0 hqp)]
          rcases List.mem_append.mp hq with hq | hq
          · exact hcurl q hq
          · rw [List.mem_singleton] at hq
            exact absurd (by rw [hq]) hqp)
    ⟨hwf.sized, rfl, hwf.2.2.2.1.2.2.2.2.2.2.2.2.2.2.2.2.1, fun _ h => by simp at h⟩
  refine ⟨s', hrun, hwf.of_frameC hfr hsz hcl, hfr, ?_⟩
  intro x y hx0 hx1 hy0 hy1
  have hmem : (x, y) ∈ ((upTo 0 s.ydim).flatMap fun y =>
      (upTo 0 s.xdim).map fun x => (x, y)) :=
    mem_grid.mpr ⟨mem_upTo.mpr ⟨hx0, hx1⟩, mem_upTo.mpr ⟨hy0, hy1⟩⟩
  obtain ⟨h0, h1⟩ := idx_range hx0 hx1 hy0 hy1
  obtain ⟨c, hc⟩ := cellAt_ok hwf.sized h0 h1
  refine ⟨?_, hcurl (x, y) hmem⟩
  rw [hcells, if_pos (List.mem_map.mpr ⟨(x, y), hmem, rfl⟩), hc]
  rfl

/-! ## `InitalizeLattice` -/

theorem make_ok {α : Type} (z : α) {n : Int} (h : 0 ≤ n) :
    make z n = some (List.replicate n.toNat z) := by
  simp [make, not_lt.mpr h]

/-- Closed form of `InitSolver` when `xmax * ymax` is not negative. -/
theorem InitSolver_eq (s : Solver) (xmax ymax : Int) (fVel fVisc : ℚ) (h : 0 ≤ xmax * ymax) :
    InitSolver s xmax ymax fVel fVisc = some (allocated s xmax ymax fVel fVisc) := by
  simp only [InitSolver, make_ok _ h, andThen_some, allocated]
  norm_num

/-- Failure of `InitSolver`: it panics in `make` when `xmax * ymax` is negative. -/
theorem InitSolver_neg (s : Solver) (xmax ymax : Int) (fVel fVisc : ℚ) (h : xmax * ymax < 0) :
    InitSolver s xmax ymax fVel fVisc = none := by
  simp [InitSolver, make, h]

/-- A loop that only writes the barrier mask, at indices in range, succeeds and changes
nothing but the mask, whose length it keeps. -/
theorem barrier_loop {ι : Type} (s : Solver) (body : Solver → ι → Option Solver) (T : List ι)
    (hbody : ∀ j ∈ T, ∀ b : List Bool, b.length = s.barrier.length →
      ∃ b', body { s with barrier := b } j = some { s with barrier := b' } ∧
        b'.length = s.barrier.length) :
    ∃ b, T.foldlM body s = some { s with barrier := b } ∧ b.length = s.barrier.length := by
  obtain ⟨s', hrun, b, hs', hb⟩ := foldlM_inv_mem body
    (fun st => ∃ b, st = { s with barrier := b } ∧ b.length = s.barrier.length) T
    (by
      rintro j hj st ⟨b, rfl, hb⟩
      obtain ⟨b', h1, h2⟩ := hbody j hj b hb
      exact ⟨_, h1, b', rfl, h2⟩)
    s ⟨s.barrier, rfl, rfl⟩
  exact ⟨b, hs' ▸ hrun, hb⟩

theorem ClearBarriers_spec (s : Solver)
    (hidx : ∀ x y, 0 ≤ x → x < s.xdim → 0 ≤ y → y < s.ydim →
      0 ≤ x + y * s.xdim ∧ (x + y * s.xdim).toNat < s.barrier.length) :
    ∃ b, ClearBarriers s = some { s with barrier := b } ∧ b.length = s.barrier.length := by
  unfold ClearBarriers
  rw [foldlM_nested (fun (st : Solver) (x y : Int) =>
    andThen (wr st.barrier (x + y * s.xdim) false) fun b => some { st with barrier := b })]
  apply barrier_loop
  rintro ⟨x, y⟩ hp b hb
  obtain ⟨hx, hy⟩ := mem_grid.mp hp
  rw [mem_upTo] at hx hy
  obtain ⟨h0, h1⟩ := hidx x y hx.1 hx.2 hy.1 hy.2
  exact ⟨b.set (x + y * s.xdim).toNat false,
    by simp only [wr_ok _ h0 (hb ▸ h1), andThen_some], by rw [List.length_set, hb]⟩

theorem CreateBarrier_spec (s : Solver) (barrierType : Int)
    (hline : ∀ y, s.ydim.tdiv 2 - 8 ≤ y → y ≤ s.ydim.tdiv 2 + 8 →
      0 ≤ s.ydim.tdiv 3 + y * s.xdim ∧ (s.ydim.tdiv 3 + y * s.xdim).toNat < s.barrier.length)
    (hcirc : ∀ i j, s.ydim.tdiv 3 - 6 ≤ i → i ≤ s.ydim.tdiv 3 + 6 → s.ydim.tdiv 2 - 6 ≤ j →
      j ≤ s.ydim.tdiv 2 + 6 → 0 ≤ i + j * s.xdim ∧ (i + j * s.xdim).toNat < s.barrier.length) :
    ∃ b, CreateBarrier s barrierType = some { s with barrier := b } ∧
      b.length = s.barrier.length := by
  unfold CreateBarrier
  split
  · apply barrier_loop
    intro y hy b hb
    rw [mem_upThru] at hy
    obtain ⟨h0, h1⟩ := hline y hy.1 hy.2
    exact ⟨b.set (s.ydim.tdiv 3 + y * s.xdim).toNat true,
      by simp only [wr_ok _ h0 (hb ▸ h1), andThen_some], by rw [List.length_set, hb]⟩
  · split
    · simp only
      rw [foldlM_nested (fun (st : Solver) (j i : Int) =>
        if abs ((i - s.ydim.tdiv 3) ^ 2) + (j - s.ydim.tdiv 2) ^ 2 - 6 ^ 2 ≤ 6 then
          andThen (wr st.barrier (i + j * s.xdim) true) fun b => some { st with barrier := b }
        else some st)]
      apply barrier_loop
      rintro ⟨j, i⟩ hp b hb
      obtain ⟨hj, hi⟩ := mem_grid.mp hp
      rw [mem_upThru] at hi hj
      obtain ⟨h0, h1⟩ := hcirc i j hi.1 hi.2 hj.1 hj.2
      simp only
      split
      · exact ⟨b.set (i + j * s.xdim).toNat true,
          by simp only [wr_ok _ h0 (hb ▸ h1), andThen_some], by rw [List.length_set, hb]⟩
      · exact ⟨b, rfl, hb⟩
    · exact ⟨s.barrier, rfl, rfl⟩

theorem jet_ok (c : Int) : ∃ rgb, jet 256 c = some rgb := by
  have h4 : (256 : Int).tdiv 4 = 64 := by decide
  have h64 : ¬ (64 : Int) = 0 := by decide
  simp only [jet, quo, h4, if_neg h64, andThen_some]
  split_ifs <;> exact ⟨_, rfl⟩

/-- Specification of `CreateColorMap`: it succeeds with 256 colours and changes the
palette lists only. -/
theorem CreateColorMap_spec (s : Solver) (hn : s.nColors = 256) :
    ∃ r g b, CreateColorMap s = some { s with redList := r, greenList := g, blueList := b } := by
  have h258 : (0 : Int) ≤ s.nColors + 2 := by omega
  have n258 : (s.nColors + 2).toNat = 258 := by omega
  have h257 : (0 : Int) ≤ s.nColors + 1 := by omega
  have k257 : (s.nColors + 1).toNat < 258 := by omega
  obtain ⟨st, hrun, r, g, b, hst, hr, hg, hb⟩ := foldlM_inv_mem
    (fun (st : Solver) (c : Int) =>
      andThen (jet s.nColors c) fun rgb =>
      andThen (wr st.redList c rgb.1) fun rl =>
      andThen (wr st.greenList c rgb.2.1) fun gl =>
      andThen (wr st.blueList c rgb.2.2) fun bl =>
      some { st with redList := rl, greenList := gl, blueList := bl })
    (fun st => ∃ r g b, st = { s with redList := r, greenList := g, blueList := b } ∧
      r.length = 258 ∧ g.length = 258 ∧ b.length = 258)
    (upThru 0 s.nColors)
    (by
      rintro c hc st ⟨r, g, b, rfl, hr, hg, hb⟩
      rw [mem_upThru] at hc
      obtain ⟨rgb, hj⟩ := jet_ok c
      rw [← hn] at hj
      have hc1 : c.toNat < 258 := by omega
      refine ⟨{ s with redList := r.set c.toNat rgb.1, greenList := g.set c.toNat rgb.2.1,
                       blueList := b.set c.toNat rgb.2.2 }, by
        simp only [hj, andThen_some, wr_ok _ hc.1 (hr ▸ hc1), wr_ok _ hc.1 (hg ▸ hc1),
          wr_ok _ hc.1 (hb ▸ hc1)], _, _, _, rfl, ?_, ?_, ?_⟩ <;>
        simp only [List.length_set, hr, hg, hb])
    { s with redList := List.replicate 258 0, greenList := List.replicate 258 0,
             blueList := List.replicate 258 0 }
    ⟨_, _, _, rfl, List.length_replicate _ _, List.length_replicate _ _,
      List.length_replicate _ _⟩
  subst hst
  refine ⟨r.set (s.nColors + 1).toNat 0, g.set (s.nColors + 1).toNat 0,
    b.set (s.nColors + 1).toNat 0, ?_⟩
  unfold CreateColorMap
  rw [make_ok (0 : Int) h258, n258, andThen_some, andThen_some, andThen_some]
  simp only []
  rw [hrun, andThen_some]
  simp only [wr_ok _ h257 (hr ▸ k257), wr_ok _ h257 (hg ▸ k257), wr_ok _ h257 (hb ▸ k257),
    andThen_some]

/-- Everything `InitalizeLattice` does before `InitFluid`: on dimensions with a product
that is not negative and a barrier that fits, the solver `InitFluid` is run on has the
requested parameters, zeroed per-cell slices of length `xmax * ymax`, the weights, and
three passes a frame. -/
theorem InitalizeLattice_pre (s : Solver) (xmax ymax : Int) (fVel fVisc : ℚ) (barrierType : Int)
    (hprod : 0 ≤ xmax * ymax)
    (hclear : ∀ x y, 0 ≤ x → x < xmax → 0 ≤ y → y < ymax →
      0 ≤ x + y * xmax ∧ (x + y * xmax).toNat < (xmax * ymax).toNat)
    (hline : ∀ y, ymax.tdiv 2 - 8 ≤ y → y ≤ ymax.tdiv 2 + 8 →
      0 ≤ ymax.tdiv 3 + y * xmax ∧ (ymax.tdiv 3 + y * xmax).toNat < (xmax * ymax).toNat)
    (hcirc : ∀ i j, ymax.tdiv 3 - 6 ≤ i → i ≤ ymax.tdiv 3 + 6 → ymax.tdiv 2 - 6 ≤ j →
      j ≤ ymax.tdiv 2 + 6 → 0 ≤ i + j * xmax ∧ (i + j * xmax).toNat < (xmax * ymax).toNat) :
    ∃ s4, InitalizeLattice s xmax ymax fVel fVisc barrierType = InitFluid s4 ∧
      s4.xdim = xmax ∧ s4.ydim = ymax ∧ s4.numElements = xmax * ymax ∧
      s4.flowVel = fVel ∧ s4.flowVisc = fVisc ∧ Weights s4 ∧
      Sized s4 (xmax * ymax).toNat ∧ s4.curl.length = (xmax * ymax).toNat ∧
      s4.barrier.length = (xmax * ymax).toNat ∧ s4.stepsPerFrame = 3 := by
  unfold InitalizeLattice
  rw [InitSolver_eq s xmax ymax fVel fVisc hprod, andThen_some]
  have hlen : (allocated s xmax ymax fVel fVisc).barrier.length = (xmax * ymax).toNat :=
    List.length_replicate _ _
  obtain ⟨b1, h1, hb1⟩ := ClearBarriers_spec (allocated s xmax ymax fVel fVisc)
    (by rw [hlen]; exact hclear)
  rw [h1, andThen_some]
  rw [hlen] at hb1
  obtain ⟨b2, h2, hb2⟩ := CreateBarrier_spec
    { allocated s xmax ymax fVel fVisc with barrier := b1 } barrierType
    (by rw [hb1]; exact hline) (by rw [hb1]; exact hcirc)
  rw [h2, andThen_some]
  simp only [hb1] at hb2
  obtain ⟨r, g, b, h3⟩ := CreateColorMap_spec
    { allocated s xmax ymax fVel fVisc with barrier := b2 } rfl
  rw [h3, andThen_some]
  exact ⟨_, rfl, rfl, rfl, rfl, rfl, rfl, ⟨rfl, rfl, rfl⟩,
    by simp only [Sized, allocated, List.length_replicate, and_self],
    by simp only [allocated, List.length_replicate], hb2, rfl⟩

/-- On a grid of at least 64 x 64 every cell either barrier shape paints is in range. -/
theorem barrier_idx_range {xdim ydim i j : Int} (hx : 64 ≤ xdim) (hy : 64 ≤ ydim)
    (hi0 : ydim.tdiv 3 - 6 ≤ i) (hi1 : i ≤ ydim.tdiv 3 + 6)
    (hj0 : ydim.tdiv 2 - 8 ≤ j) (hj1 : j ≤ ydim.tdiv 2 + 8) :
    0 ≤ i + j * xdim ∧ (i + j * xdim).toNat < (xdim * ydim).toNat := by
  rw [Int.tdiv_eq_ediv (by omega) (by norm_num)] at hi0 hi1 hj0 hj1
  have hj : 0 ≤ j := by omega
  have hP : 0 ≤ j * xdim := mul_nonneg hj (by omega)
  have hQ : j * xdim ≤ (ydim / 2 + 8) * xdim := mul_le_mul_of_nonneg_right hj1 (by omega)
  have hR : 64 * (ydim - ydim / 2 - 8) ≤ xdim * (ydim - ydim / 2 - 8) :=
    mul_le_mul_of_nonneg_right hx (by omega)
  have hS : (ydim / 2 + 8) * xdim + xdim * (ydim - ydim / 2 - 8) = xdim * ydim := by ring
  have hk : i < 64 * (ydim - ydim / 2 - 8) := by omega
  have hlt : i + j * xdim < xdim * ydim := by linarith
  have h0 : 0 ≤ i + j * xdim := by omega
  exact ⟨h0, by omega⟩

/-- Specification of `InitalizeLattice` on a grid of at least 64 x 64: it succeeds
whatever the velocity, the viscosity and the barrier type, and leaves a well-formed
lattice with the requested parameters in which every cell is the inlet equilibrium with
zero curl. -/
theorem InitalizeLattice_spec (s : Solver) (xmax ymax : Int) (fVel fVisc : ℚ)
    (barrierType : Int) (hx : 64 ≤ xmax) (hy : 64 ≤ ymax) :
    ∃ s', InitalizeLattice s xmax ymax fVel fVisc barrierType = some s' ∧ WellFormed s' ∧
      s'.xdim = xmax ∧ s'.ydim = ymax ∧ s'.flowVel = fVel ∧ s'.flowVisc = fVisc ∧
      ∀ x y, 0 ≤ x → x < xmax → 0 ≤ y → y < ymax →
        cellAt s' (x + y * xmax) = some (equilibrium fVel 0 1) ∧
        rd s'.curl (x + y * xmax) = some 0 := by
  obtain ⟨s4, hrun, ex, ey, en, ev, evi, hw, hsz, hcl, hbl, _⟩ :=
    InitalizeLattice_pre s xmax ymax fVel fVisc barrierType
      (mul_nonneg (by omega) (by omega))
      (fun x y hx0 hx1 hy0 hy1 => idx_range hx0 hx1 hy0 hy1)
      (fun y h0 h1 => barrier_idx_range hx hy (by omega) (by omega) h0 h1)
      (fun i j hi0 hi1 hj0 hj1 => barrier_idx_range hx hy hi0 hi1 (by omega) (by omega))
  have hwf : WellFormed s4 := by
    obtain ⟨a1, a2, a3, a4, a5, a6, a7, a8, a9, a10, a11, a12⟩ := hsz
    obtain ⟨w1, w2, w3⟩ := hw
    simp only [WellFormed, ex, ey, en]
    exact ⟨by omega, by omega, trivial, ⟨a1, a2, a3, a4, a5, a6, a7, a8, a9, a10, a11, a12,
      hcl, hbl⟩, w1, w2, w3⟩
  obtain ⟨s', hrun', hwf', hfr, hcells⟩ := InitFluid_spec hwf
  rw [ex, ey, ev] at hcells
  exact ⟨s', hrun.trans hrun', hwf', (frameC_get Solver.xdim rfl rfl hfr).trans ex,
    (frameC_get Solver.ydim rfl rfl hfr).trans ey,
    (frameC_get Solver.flowVel rfl rfl hfr).trans ev,
    (frameC_get Solver.flowVisc rfl rfl hfr).trans evi, hcells⟩

/-! ## Collision: the claims -/

theorem relax_mass (omega : ℚ) (c : Cell) : (relax omega c).mass = c.mass := by
  simp only [relax, Cell.mass, equilibrium, feq]
  generalize (c.nE + c.nNE + c.nSE - c.nW - c.nNW - c.nSW) /
    (c.n0 + c.nN + c.nS + c.nE + c.nW + c.nNW + c.nNE + c.nSW + c.nSE) = ux
  generalize (c.nN + c.nNE + c.nNW - c.nS - c.nSE - c.nSW) /
    (c.n0 + c.nN + c.nS + c.nE + c.nW + c.nNW + c.nNE + c.nSW + c.nSE) = uy
  ring

theorem skew3_wf : WellFormed skew3 :=
  rest3_wf.of_frame (frame_putCell _ _ _) (Sized_putCell rest3_wf.sized _ _)

theorem skew3_cell : cellAt skew3 (1 + 1 * skew3.xdim) = some lopsided :=
  cellAt_putCell_same (s := rest3) (i := 1 + 1 * 3) rest3_wf.sized (by decide) (by decide) _

/-- In `skew3` the collision moves the east-moving density of the centre cell from `3` to
`1399 / 1008`: the cell has density `12` and velocity `(1/6, 1/12)`, the equilibrium value
of the direction is `151 / 72`, and `omega = 25 / 14`. -/
theorem skew3_relaxed :
    rd skew3.nE (1 + 1 * skew3.xdim) = some 3 ∧
      (Collide skew3).bind (fun t => rd t.nE (1 + 1 * skew3.xdim)) = some (1399 / 1008) := by
  obtain ⟨s', hrun, _, _, hcell⟩ := Collide_spec skew3_wf
  have h := hcell 1 1 (by decide) (by decide) (by decide) (by decide)
  rw [skew3_cell, Option.map_some'] at h
  refine ⟨(cellAt_some skew3_cell).2.2.2.1, ?_⟩
  rw [hrun, Option.some_bind, (cellAt_some h).2.2.2.1]
  norm_num [relax, lopsided, equilibrium, feq, skew3, putCell, rest3]

/-- C2 (collision is the BGK relaxation): on a well-formed lattice `Collide` succeeds, and
at every interior cell `(x, y)` whose nine densities do not sum to zero, with `c` the cell
before and `c'` the cell after, the stored `rho` is the sum of the nine densities of `c`,
the stored `ux`, `uy` are the first moments of `c` divided by it, and each of the nine
densities `n` of `c` has become `n + omega * (e - n)` with
`omega = 1 / (3 * flowVisc + 0.5)` and `e` the value that `SetEquilibrium` assigns to that
direction for the stored `(ux, uy, rho)`.  The result at the cell depends on no other
cell: on any well-formed lattice of the same dimensions and viscosity holding `c` at
`(x, y)`, `Collide` leaves `c'` there. -/
theorem Collide_is_BGK (s : Solver) (x y : Int) (c : Cell) (hwf : WellFormed s)
    (hx : 1 ≤ x ∧ x ≤ s.xdim - 2) (hy : 1 ≤ y ∧ y ≤ s.ydim - 2)
    (hc : cellAt s (x + y * s.xdim) = some c)
    (_hrho : c.n0 + c.nN + c.nS + c.nE + c.nW + c.nNW + c.nNE + c.nSW + c.nSE ≠ 0) :
    ∃ s' c' se e, Collide s = some s' ∧ cellAt s' (x + y * s.xdim) = some c' ∧
      c'.rho = c.n0 + c.nN + c.nS + c.nE + c.nW + c.nNW + c.nNE + c.nSW + c.nSE ∧
      c'.ux = (c.nE + c.nNE + c.nSE - c.nW - c.nNW - c.nSW) / c'.rho ∧
      c'.uy = (c.nN + c.nNE + c.nNW - c.nS - c.nSE - c.nSW) / c'.rho ∧
      SetEquilibrium s' x y c'.ux c'.uy c'.rho = some se ∧
      cellAt se (x + y * s.xdim) = some e ∧
      c'.n0 = c.n0 + 1 / (3 * s.flowVisc + 0.5) * (e.n0 - c.n0) ∧
      c'.nN = c.nN + 1 / (3 * s.flowVisc + 0.5) * (e.nN - c.nN) ∧
      c'.nS = c.nS + 1 / (3 * s.flowVisc + 0.5) * (e.nS - c.nS) ∧
      c'.nE = c.nE + 1 / (3 * s.flowVisc + 0.5) * (e.nE - c.nE) ∧
      c'.nW = c.nW + 1 / (3 * s.flowVisc + 0.5) * (e.nW - c.nW) ∧
      c'.nNE = c.nNE + 1 / (3 * s.flowVisc + 0.5) * (e.nNE - c.nNE) ∧
      c'.nSE = c.nSE + 1 / (3 * s.flowVisc + 0.5) * (e.nSE - c.nSE) ∧
      c'.nNW = c.nNW + 1 / (3 * s.flowVisc + 0.5) * (e.nNW - c.nNW) ∧
      c'.nSW = c.nSW + 1 / (3 * s.flowVisc + 0.5) * (e.nSW - c.nSW) ∧
      ∀ t, WellFormed t → t.xdim = s.xdim → t.ydim = s.ydim → t.flowVisc = s.flowVisc →
        cellAt t (x + y * s.xdim) = some c →
        ∃ t', Collide t = some t' ∧ cellAt t' (x + y * s.xdim) = some c' := by
  obtain ⟨s', hrun, hwf', hfr, hcell⟩ := Collide_spec hwf
  obtain ⟨h0, h1⟩ := idx_range (w := s.xdim) (h := s.ydim) (x := x) (y := y)
    (by omega) (by omega) (by omega) (by omega)
  have hc' := hcell x y hx.1 hx.2 hy.1 hy.2
  rw [hc, Option.map_some'] at hc'
  have hom : (1.0 : ℚ) / (3 * s.flowVisc + 0.5) = 1 / (3 * s.flowVisc + 0.5) := by norm_num
  rw [hom] at hc'
  have ex : s'.xdim = s.xdim := frame_get Solver.xdim rfl rfl hfr
  have ey : s'.ydim = s.ydim := frame_get Solver.ydim rfl rfl hfr
  have hsz' : Sized s' (s.xdim * s.ydim).toNat := by
    have := hwf'.sized
    rwa [ex, ey] at this
  set c' := relax (1 / (3 * s.flowVisc + 0.5)) c with hdef
  have hr : (if c'.rho = -1 then rd s'.rho (x + y * s'.xdim) else some c'.rho)
      = some c'.rho := by
    split
    · rw [ex]
      exact (cellAt_some hc').2.2.2.2.2.2.2.2.2.1
    · rfl
  have hse := SetEquilibrium_eq hwf'.weights hsz' x y c'.ux c'.uy c'.rho c'.rho
    (by rw [ex]; exact h0) (by rw [ex]; exact h1) hr
  rw [ex] at hse
  refine ⟨s', c', _, equilibrium c'.ux c'.uy c'.rho, hrun, hc', rfl, rfl, rfl, hse,
    cellAt_putCell_same hsz' h0 h1 _, rfl, rfl, rfl, rfl, rfl, rfl, rfl, rfl, rfl, ?_⟩
  intro t hwt etx ety etv hct
  obtain ⟨t', hrunt, _, _, hcellt⟩ := Collide_spec hwt
  refine ⟨t', hrunt, ?_⟩
  have := hcellt x y (by omega) (by omega) (by omega) (by omega)
  rw [etx, hct, Option.map_some', etv, hom] at this
  exact this

theorem Collide_is_BGK_witness :
    WellFormed skew3 ∧ (1 ≤ (1 : Int) ∧ (1 : Int) ≤ skew3.xdim - 2) ∧
      (1 ≤ (1 : Int) ∧ (1 : Int) ≤ skew3.ydim - 2) ∧
      cellAt skew3 (1 + 1 * skew3.xdim) = some lopsided ∧
      lopsided.n0 + lopsided.nN + lopsided.nS + lopsided.nE + lopsided.nW + lopsided.nNW
        + lopsided.nNE + lopsided.nSW + lopsided.nSE ≠ 0 ∧
      (∃ s' c' se e, Collide skew3 = some s' ∧
        cellAt s' (1 + 1 * skew3.xdim) = some c' ∧
        c'.rho = lopsided.n0 + lopsided.nN + lopsided.nS + lopsided.nE + lopsided.nW
          + lopsided.nNW + lopsided.nNE + lopsided.nSW + lopsided.nSE ∧
        c'.ux = (lopsided.nE + lopsided.nNE + lopsided.nSE - lopsided.nW - lopsided.nNW
          - lopsided.nSW) / c'.rho ∧
        c'.uy = (lopsided.nN + lopsided.nNE + lopsided.nNW - lopsided.nS - lopsided.nSE
          - lopsided.nSW) / c'.rho ∧
        SetEquilibrium s' 1 1 c'.ux c'.uy c'.rho = some se ∧
        cellAt se (1 + 1 * skew3.xdim) = some e ∧
        c'.n0 = lopsided.n0 + 1 / (3 * skew3.flowVisc + 0.5) * (e.n0 - lopsided.n0) ∧
        c'.nN = lopsided.nN + 1 / (3 * skew3.flowVisc + 0.5) * (e.nN - lopsided.nN) ∧
        c'.nS = lopsided.nS + 1 / (3 * skew3.flowVisc + 0.5) * (e.nS - lopsided.nS) ∧
        c'.nE = lopsided.nE + 1 / (3 * skew3.flowVisc + 0.5) * (e.nE - lopsided.nE) ∧
        c'.nW = lopsided.nW + 1 / (3 * skew3.flowVisc + 0.5) * (e.nW - lopsided.nW) ∧
        c'.nNE = lopsided.nNE + 1 / (3 * skew3.flowVisc + 0.5) * (e.nNE - lopsided.nNE) ∧
        c'.nSE = lopsided.nSE + 1 / (3 * skew3.flowVisc + 0.5) * (e.nSE - lopsided.nSE) ∧
        c'.nNW = lopsided.nNW + 1 / (3 * skew3.flowVisc + 0.5) * (e.nNW - lopsided.nNW) ∧
        c'.nSW = lopsided.nSW + 1 / (3 * skew3.flowVisc + 0.5) * (e.nSW - lopsided.nSW) ∧
        ∀ t, WellFormed t → t.xdim = skew3.xdim → t.ydim = skew3.ydim →
          t.flowVisc = skew3.flowVisc → cellAt t (1 + 1 * skew3.xdim) = some lopsided →
          ∃ t', Collide t = some t' ∧ cellAt t' (1 + 1 * skew3.xdim) = some c') ∧
      rd skew3.nE (1 + 1 * skew3.xdim) = some 3 ∧
      (Collide skew3).bind (fun t => rd t.nE (1 + 1 * skew3.xdim)) = some (1399 / 1008) :=
  ⟨skew3_wf, by decide, by decide, skew3_cell, by norm_num [lopsided],
    Collide_is_BGK skew3 1 1 lopsided skew3_wf (by decide) (by decide) skew3_cell
      (by norm_num [lopsided]), skew3_relaxed⟩

/-- C3 (collision conserves mass per cell): on a well-formed lattice, whatever the
viscosity, at every interior cell whose nine directional densities do not sum to zero
they sum after `Collide` to what they summed to before. -/
theorem Collide_conserves_mass (s : Solver) (x y : Int) (c : Cell) (hwf : WellFormed s)
    (hx : 1 ≤ x ∧ x ≤ s.xdim - 2) (hy : 1 ≤ y ∧ y ≤ s.ydim - 2)
    (hc : cellAt s (x + y * s.xdim) = some c)
    (_hrho : c.n0 + c.nN + c.nS + c.nE + c.nW + c.nNE + c.nSE + c.nNW + c.nSW ≠ 0) :
    ∃ s' c', Collide s = some s' ∧ cellAt s' (x + y * s.xdim) = some c' ∧
      c'.n0 + c'.nN + c'.nS + c'.nE + c'.nW + c'.nNE + c'.nSE + c'.nNW + c'.nSW
        = c.n0 + c.nN + c.nS + c.nE + c.nW + c.nNE + c.nSE + c.nNW + c.nSW := by
  obtain ⟨s', hrun, _, _, hcell⟩ := Collide_spec hwf
  have hc' := hcell x y hx.1 hx.2 hy.1 hy.2
  rw [hc, Option.map_some'] at hc'
  exact ⟨s', _, hrun, hc', relax_mass _ c⟩

theorem Collide_conserves_mass_witness :
    WellFormed skew3 ∧ (1 ≤ (1 : Int) ∧ (1 : Int) ≤ skew3.xdim - 2) ∧
      (1 ≤ (1 : Int) ∧ (1 : Int) ≤ skew3.ydim - 2) ∧
      cellAt skew3 (1 + 1 * skew3.xdim) = some lopsided ∧
      lopsided.n0 + lopsided.nN + lopsided.nS + lopsided.nE + lopsided.nW + lopsided.nNE
        + lopsided.nSE + lopsided.nNW + lopsided.nSW ≠ 0 ∧
      (∃ s' c', Collide skew3 = some s' ∧ cellAt s' (1 + 1 * skew3.xdim) = some c' ∧
        c'.n0 + c'.nN + c'.nS + c'.nE + c'.nW + c'.nNE + c'.nSE + c'.nNW + c'.nSW
          = lopsided.n0 + lopsided.nN + lopsided.nS + lopsided.nE + lopsided.nW
            + lopsided.nNE + lopsided.nSE + lopsided.nNW + lopsided.nSW) ∧
      lopsided.n0 + lopsided.nN + lopsided.nS + lopsided.nE + lopsided.nW + lopsided.nNE
        + lopsided.nSE + lopsided.nNW + lopsided.nSW = 12 ∧
      rd skew3.nE (1 + 1 * skew3.xdim) = some 3 ∧
      (Collide skew3).bind (fun t => rd t.nE (1 + 1 * skew3.xdim)) = some (1399 / 1008) :=
  ⟨skew3_wf, by decide, by decide, skew3_cell, by norm_num [lopsided],
    Collide_conserves_mass skew3 1 1 lopsided skew3_wf (by decide) (by decide) skew3_cell
      (by norm_num [lopsided]), by norm_num [lopsided], skew3_relaxed⟩

/-! ## Boundary conditions -/

/-- C8 (`SetBoundaries` pins the border): on a well-formed lattice `SetBoundaries`
succeeds; afterwards every cell with `x = 0`, `x = xdim - 1`, `y = 0` or `y = ydim - 1`
is the equilibrium cell for `(flowVel, 0, 1)` (so `rho = 1`, `ux = flowVel`, `uy = 0`), and
every interior cell is unchanged, as are the curl, the barrier mask and the parameters. -/
theorem SetBoundaries_pins_border (s : Solver) (hwf : WellFormed s) :
    ∃ s', SetBoundaries s = some s' ∧
      (∀ x y, 0 ≤ x → x < s.xdim → 0 ≤ y → y < s.ydim →
        (x = 0 ∨ x = s.xdim - 1 ∨ y = 0 ∨ y = s.ydim - 1) →
        cellAt s' (x + y * s.xdim) = some (equilibrium s.flowVel 0 1)) ∧
      (∀ x y, 1 ≤ x → x ≤ s.xdim - 2 → 1 ≤ y → y ≤ s.ydim - 2 →
        cellAt s' (x + y * s.xdim) = cellAt s (x + y * s.xdim)) ∧
      s'.curl = s.curl ∧ s'.barrier = s.barrier ∧ s'.xdim = s.xdim ∧ s'.ydim = s.ydim ∧
      s'.flowVel = s.flowVel ∧ s'.flowVisc = s.flowVisc := by
  have hxd : 0 < s.xdim := hwf.1
  have hyd : 0 < s.ydim := hwf.2.1
  have hT : ∀ p ∈ (((upTo 0 s.xdim).flatMap fun x => [(x, (0 : Int)), (x, s.ydim - 1)]) ++
      ((upTo 1 (s.ydim - 1)).flatMap fun y => [((0 : Int), y), (s.xdim - 1, y)])),
      (0 ≤ p.1 ∧ p.1 < s.xdim) ∧ (0 ≤ p.2 ∧ p.2 < s.ydim) := by
    intro p hp
    rw [List.mem_append, mem_pairs, mem_pairs] at hp
    rcases hp with ⟨x, hx, rfl | rfl⟩ | ⟨y, hy, rfl | rfl⟩ <;> rw [mem_upTo] at * <;>
      simp only <;> omega
  obtain ⟨s', hrun, _, hfr, hin, hout⟩ := SetEquilibrium_loop hwf s.flowVel 0 1 (by norm_num) _ hT
  refine ⟨s', (SetBoundaries_eq s).trans hrun, ?_, ?_, frame_get Solver.curl rfl rfl hfr,
    frame_get Solver.barrier rfl rfl hfr, frame_get Solver.xdim rfl rfl hfr,
    frame_get Solver.ydim rfl rfl hfr, frame_get Solver.flowVel rfl rfl hfr,
    frame_get Solver.flowVisc rfl rfl hfr⟩
  · intro x y hx0 hx1 hy0 hy1 hb
    refine hin (x, y) ?_
    rw [List.mem_append, mem_pairs, mem_pairs]
    by_cases hy : y = 0 ∨ y = s.ydim - 1
    · exact Or.inl ⟨x, mem_upTo.mpr ⟨hx0, hx1⟩, by
        rcases hy with rfl | rfl
        · exact Or.inl rfl
        · exact Or.inr rfl⟩
    · have hxb : x = 0 ∨ x = s.xdim - 1 := by omega
      exact Or.inr ⟨y, mem_upTo.mpr (by omega), by
        rcases hxb with rfl | rfl
        · exact Or.inl rfl
        · exact Or.inr rfl⟩
  · intro x y hx1 hx2 hy1 hy2
    apply hout
    intro p hp e
    obtain ⟨hpx, _⟩ := hT p hp
    obtain ⟨e1, e2⟩ := idx_inj (d := s.xdim) (by omega) hpx e
    rw [List.mem_append, mem_pairs, mem_pairs] at hp
    rcases hp with ⟨x', hx', rfl | rfl⟩ | ⟨y', hy', rfl | rfl⟩ <;> simp only at e1 e2 <;> omega

theorem gust3_wf : WellFormed gust3 := by
  simp [WellFormed, gust3, rest3]

theorem gust3_corner : cellAt gust3 (0 + 0 * gust3.xdim) = some (equilibrium 0 0 1) := by
  norm_num [cellAt, gust3, rest3, rd, equilibrium, feq]

theorem inlet_ne_rest : equilibrium 0 0 1 ≠ equilibrium (1 / 10) 0 1 := by
  intro h
  have := congrArg Cell.ux h
  norm_num [equilibrium] at this

theorem SetBoundaries_pins_border_witness :
    WellFormed gust3 ∧
      (∃ s', SetBoundaries gust3 = some s' ∧
        (∀ x y, 0 ≤ x → x < gust3.xdim → 0 ≤ y → y < gust3.ydim →
          (x = 0 ∨ x = gust3.xdim - 1 ∨ y = 0 ∨ y = gust3.ydim - 1) →
          cellAt s' (x + y * gust3.xdim) = some (equilibrium gust3.flowVel 0 1)) ∧
        (∀ x y, 1 ≤ x → x ≤ gust3.xdim - 2 → 1 ≤ y → y ≤ gust3.ydim - 2 →
          cellAt s' (x + y * gust3.xdim) = cellAt gust3 (x + y * gust3.xdim)) ∧
        s'.curl = gust3.curl ∧ s'.barrier = gust3.barrier ∧ s'.xdim = gust3.xdim ∧
        s'.ydim = gust3.ydim ∧ s'.flowVel = gust3.flowVel ∧ s'.flowVisc = gust3.flowVisc) ∧
      cellAt gust3 (0 + 0 * gust3.xdim) = some (equilibrium 0 0 1) ∧
      equilibrium 0 0 1 ≠ equilibrium gust3.flowVel 0 1 :=
  ⟨gust3_wf, SetBoundaries_pins_border gust3 gust3_wf, gust3_corner, inlet_ne_rest⟩

/-! ## Stability monitor -/

/-- The scan of `CheckFlowStability` ends with `stable = false` exactly when one of the
densities it reads is not positive. -/
theorem stable_scan (rho : List ℚ) (idx : Int → Int) (xs : List Int)
    (hr : ∀ x ∈ xs, ∃ r, rd rho (idx x) = some r) :
    ∃ b, xs.foldlM (fun stable x =>
        andThen (rd rho (idx x)) fun r => some (if r ≤ 0 then false else stable)) true = some b ∧
      (b = false ↔ ∃ x ∈ xs, ∃ r, rd rho (idx x) = some r ∧ r ≤ 0) := by
  refine foldlM_inv _ (fun pre b => b = false ↔ ∃ x ∈ pre, ∃ r, rd rho (idx x) = some r ∧ r ≤ 0)
    xs ?_ true (by simp)
  intro pre j post b hT hI
  obtain ⟨r, hrj⟩ := hr j (by rw [hT]; simp)
  refine ⟨if r ≤ 0 then false else b, by simp only [hrj, andThen_some], ?_⟩
  by_cases hle : r ≤ 0
  · simp only [hle, if_true, true_iff]
    exact ⟨j, by simp, r, hrj, hle⟩
  · simp only [hle, if_false, hI]
    constructor
    · rintro ⟨x, hx, h⟩
      exact ⟨x, List.mem_append_left _ hx, h⟩
    · rintro ⟨x, hx, r', hr', hle'⟩
      rcases List.mem_append.mp hx with hx | hx
      · exact ⟨x, hx, r', hr', hle'⟩
      · rw [List.mem_singleton] at hx
        rw [hx, hrj] at hr'
        exact absurd (Option.some.inj hr' ▸ hle') hle

theorem mid_row {ydim : Int} (h : 0 < ydim) : 0 ≤ ydim.tdiv 2 ∧ ydim.tdiv 2 < ydim := by
  rw [Int.tdiv_eq_ediv h.le (by norm_num)]
  omega

/-- What `CheckFlowStability` does on a well-formed lattice. -/
theorem CheckFlowStability_eq {s : Solver} (hwf : WellFormed s) :
    ((∃ x, 0 ≤ x ∧ x < s.xdim ∧ ∃ r, rd s.rho (x + s.ydim.tdiv 2 * s.xdim) = some r ∧ r ≤ 0) →
      CheckFlowStability s = InitFluid s) ∧
    ((¬ ∃ x, 0 ≤ x ∧ x < s.xdim ∧ ∃ r, rd s.rho (x + s.ydim.tdiv 2 * s.xdim) = some r ∧ r ≤ 0) →
      CheckFlowStability s = some s) := by
  obtain ⟨b, hrun, hb⟩ := stable_scan s.rho (fun x => x + s.ydim.tdiv 2 * s.xdim)
    (upTo 0 s.xdim) (by
      intro x hx
      rw [mem_upTo] at hx
      obtain ⟨m0, m1⟩ := mid_row hwf.2.1
      obtain ⟨h0, h1⟩ := idx_range hx.1 hx.2 m0 m1
      exact rd_ok h0 (by rw [hwf.sized.2.2.2.2.2.2.2.2.2.1]; exact h1))
  have hcond : (∃ x, 0 ≤ x ∧ x < s.xdim ∧
      ∃ r, rd s.rho (x + s.ydim.tdiv 2 * s.xdim) = some r ∧ r ≤ 0) ↔ b = false := by
    rw [hb]
    constructor
    · rintro ⟨x, h0, h1, h⟩
      exact ⟨x, mem_upTo.mpr ⟨h0, h1⟩, h⟩
    · rintro ⟨x, hx, h⟩
      rw [mem_upTo] at hx
      exact ⟨x, hx.1, hx.2, h⟩
  constructor
  · intro h
    have hbf := hcond.mp h
    simp only [CheckFlowStability, hrun, andThen_some, hbf]
    rfl
  · intro h
    have hbt : b = true := by
      cases b
      · exact absurd (hcond.mpr rfl) h
      · rfl
    simp only [CheckFlowStability, hrun, andThen_some, hbt]
    rfl

/-- C9 (stability monitor): on a well-formed lattice, when some cell of the middle row
`y = ydim / 2` has `rho ≤ 0`, `CheckFlowStability` resets the lattice: afterwards every
cell is the equilibrium cell for `(flowVel, 0, 1)` with zero curl, and the barrier mask and
the palette are unchanged; when no cell of the middle row has `rho ≤ 0`, it returns the
solver state unchanged. -/
theorem CheckFlowStability_resets_iff (s : Solver) (hwf : WellFormed s) :
    ((∃ x, 0 ≤ x ∧ x < s.xdim ∧ ∃ r, rd s.rho (x + s.ydim.tdiv 2 * s.xdim) = some r ∧ r ≤ 0) →
      ∃ s', CheckFlowStability s = some s' ∧
        (∀ x y, 0 ≤ x → x < s.xdim → 0 ≤ y → y < s.ydim →
          cellAt s' (x + y * s.xdim) = some (equilibrium s.flowVel 0 1) ∧
          rd s'.curl (x + y * s.xdim) = some 0) ∧
        s'.barrier = s.barrier ∧ s'.nColors = s.nColors ∧ s'.redList = s.redList ∧
        s'.greenList = s.greenList ∧ s'.blueList = s.blueList) ∧
    ((¬ ∃ x, 0 ≤ x ∧ x < s.xdim ∧ ∃ r, rd s.rho (x + s.ydim.tdiv 2 * s.xdim) = some r ∧ r ≤ 0) →
      CheckFlowStability s = some s) := by
  refine ⟨fun h => ?_, (CheckFlowStability_eq hwf).2⟩
  obtain ⟨s', hrun, _, hfr, hcells⟩ := InitFluid_spec hwf
  exact ⟨s', ((CheckFlowStability_eq hwf).1 h).trans hrun, hcells,
    frameC_get Solver.barrier rfl rfl hfr, frameC_get Solver.nColors rfl rfl hfr,
    frameC_get Solver.redList rfl rfl hfr, frameC_get Solver.greenList rfl rfl hfr,
    frameC_get Solver.blueList rfl rfl hfr⟩

theorem CheckFlowStability_resets_iff_witness :
    WellFormed sunk3 ∧
    (∃ x, 0 ≤ x ∧ x < sunk3.xdim ∧
      ∃ r, rd sunk3.rho (x + sunk3.ydim.tdiv 2 * sunk3.xdim) = some r ∧ r ≤ 0) ∧
    (∃ s', CheckFlowStability sunk3 = some s' ∧
      (∀ x y, 0 ≤ x → x < sunk3.xdim → 0 ≤ y → y < sunk3.ydim →
        cellAt s' (x + y * sunk3.xdim) = some (equilibrium sunk3.flowVel 0 1) ∧
        rd s'.curl (x + y * sunk3.xdim) = some 0) ∧
      s'.barrier = sunk3.barrier ∧ s'.nColors = sunk3.nColors ∧
      s'.redList = sunk3.redList ∧ s'.greenList = sunk3.greenList ∧
      s'.blueList = sunk3.blueList) :=
  ⟨sunk3_wf, sunk3_unstable, (CheckFlowStability_resets_iff sunk3 sunk3_wf).1 sunk3_unstable⟩

/-- C10 (stability recovery is idempotent): on a well-formed lattice `CheckFlowStability`
returns a state on which running the check again changes nothing; in particular, when a
middle-row density is not positive, the returned state is the grid reset to the inlet
equilibrium, and the second check leaves it as it is. -/
theorem CheckFlowStability_idempotent (s : Solver) (hwf : WellFormed s) :
    ∃ s', CheckFlowStability s = some s' ∧ CheckFlowStability s' = some s' ∧
      andThen (CheckFlowStability s) CheckFlowStability = CheckFlowStability s ∧
      ((∃ x, 0 ≤ x ∧ x < s.xdim ∧
          ∃ r, rd s.rho (x + s.ydim.tdiv 2 * s.xdim) = some r ∧ r ≤ 0) →
        ∀ x y, 0 ≤ x → x < s.xdim → 0 ≤ y → y < s.ydim →
          cellAt s' (x + y * s.xdim) = some (equilibrium s.flowVel 0 1)) := by
  by_cases h : ∃ x, 0 ≤ x ∧ x < s.xdim ∧
      ∃ r, rd s.rho (x + s.ydim.tdiv 2 * s.xdim) = some r ∧ r ≤ 0
  · obtain ⟨s', hrun, hwf', hfr, hcells⟩ := InitFluid_spec hwf
    have h1 : CheckFlowStability s = some s' := ((CheckFlowStability_eq hwf).1 h).trans hrun
    have ex : s'.xdim = s.xdim := frameC_get Solver.xdim rfl rfl hfr
    have ey : s'.ydim = s.ydim := frameC_get Solver.ydim rfl rfl hfr
    have h2 : CheckFlowStability s' = some s' := by
      apply (CheckFlowStability_eq hwf').2
      rintro ⟨x, hx0, hx1, r, hr, hle⟩
      rw [ex, ey] at hr
      rw [ex] at hx1
      obtain ⟨m0, m1⟩ := mid_row hwf.2.1
      have hc := (hcells x (s.ydim.tdiv 2) hx0 hx1 m0 m1).1
      have := (cellAt_some hc).2.2.2.2.2.2.2.2.2.1
      rw [hr] at this
      have hr1 : r = 1 := Option.some.inj this
      rw [hr1] at hle
      norm_num at hle
    exact ⟨s', h1, h2, by rw [h1, andThen_some, h2], fun _ x y a b c d => (hcells x y a b c d).1⟩
  · have h1 := (CheckFlowStability_eq hwf).2 h
    exact ⟨s, h1, h1, by rw [h1, andThen_some, h1], fun h' => absurd h' h⟩

theorem CheckFlowStability_idempotent_witness :
    WellFormed sunk3 ∧
    ∃ s', CheckFlowStability sunk3 = some s' ∧ CheckFlowStability s' = some s' ∧
      andThen (CheckFlowStability sunk3) CheckFlowStability = CheckFlowStability sunk3 ∧
      ((∃ x, 0 ≤ x ∧ x < sunk3.xdim ∧
          ∃ r, rd sunk3.rho (x + sunk3.ydim.tdiv 2 * sunk3.xdim) = some r ∧ r ≤ 0) →
        ∀ x y, 0 ≤ x → x < sunk3.xdim → 0 ≤ y → y < sunk3.ydim →
          cellAt s' (x + y * sunk3.xdim) = some (equilibrium sunk3.flowVel 0 1)) :=
  ⟨sunk3_wf, CheckFlowStability_idempotent sunk3 sunk3_wf⟩

/-! ## Initialisation: the claims -/

/-- C6 (`InitalizeLattice` postcondition): for every grid of at least 64 x 64 cells, every
inlet velocity `v`, every viscosity and every barrier type (the line and the circle
included), `InitalizeLattice` succeeds; afterwards the dimensions are the requested ones,
every cell of the grid is the equilibrium cell for `(v, 0, 1)` (so `rho = 1`, `ux = v`,
`uy = 0`) with `curl = 0`, and all per-cell slices have length `xdim * ydim`. -/
theorem InitalizeLattice_postcondition (s : Solver) (xdim ydim : Int) (v visc : ℚ)
    (shape : Int) (hx : 64 ≤ xdim) (hy : 64 ≤ ydim) :
    ∃ s', InitalizeLattice s xdim ydim v visc shape = some s' ∧
      s'.xdim = xdim ∧ s'.ydim = ydim ∧
      (∀ x y, 0 ≤ x → x < xdim → 0 ≤ y → y < ydim →
        cellAt s' (x + y * xdim) = some (equilibrium v 0 1) ∧
        rd s'.curl (x + y * xdim) = some 0) ∧
      Sized s' (xdim * ydim).toNat ∧ s'.curl.length = (xdim * ydim).toNat ∧
      s'.barrier.length = (xdim * ydim).toNat := by
  obtain ⟨s', hrun, hwf, ex, ey, _, _, hcells⟩ := InitalizeLattice_spec s xdim ydim v visc shape hx hy
  have hsz := hwf.sized
  obtain ⟨_, _, _, ⟨_, _, _, _, _, _, _, _, _, _, _, _, c1, c2⟩, _⟩ := hwf
  rw [ex, ey] at hsz c1 c2
  exact ⟨s', hrun, ex, ey, hcells, hsz, c1, c2⟩

theorem InitalizeLattice_postcondition_witness :
    (64 : Int) ≤ 64 ∧ (64 : Int) ≤ 64 ∧
    ∃ s', InitalizeLattice rest3 64 64 (1 / 10) (3 / 100) LINE = some s' ∧
      s'.xdim = 64 ∧ s'.ydim = 64 ∧
      (∀ x y, 0 ≤ x → x < (64 : Int) → 0 ≤ y → y < (64 : Int) →
        cellAt s' (x + y * 64) = some (equilibrium (1 / 10) 0 1) ∧
        rd s'.curl (x + y * 64) = some 0) ∧
      Sized s' ((64 : Int) * 64).toNat ∧ s'.curl.length = ((64 : Int) * 64).toNat ∧
      s'.barrier.length = ((64 : Int) * 64).toNat :=
  ⟨by decide, by decide,
    InitalizeLattice_postcondition rest3 64 64 (1 / 10) (3 / 100) LINE (by decide) (by decide)⟩

/-- The loops of `InitFluid` do not run when `ydim` is not positive. -/
theorem InitFluid_empty (s : Solver) (h : s.ydim ≤ 0) : InitFluid s = some s := by
  have e : upTo 0 s.ydim = [] := by
    have : (s.ydim - 0).toNat = 0 := by omega
    unfold upTo
    rw [this]
    rfl
  simp only [InitFluid, e]
  rfl

/-- C7, counterexample: `InitalizeLattice` accepts a zero viscosity on a 64 x 64 grid and
returns a well-formed lattice that stores it, and it accepts the dimensions -64 x -64
with the line barrier as well. -/
theorem InitalizeLattice_accepts_invalid :
    (∃ s', InitalizeLattice rest3 64 64 (1 / 10) 0 LINE = some s' ∧ WellFormed s' ∧
      s'.flowVisc = 0) ∧
    (∃ s', InitalizeLattice rest3 (-64) (-64) (1 / 10) (3 / 100) LINE = some s' ∧
      s'.xdim = -64 ∧ s'.ydim = -64) := by
  constructor
  · obtain ⟨s', hrun, hwf, _, _, _, hv, _⟩ :=
      InitalizeLattice_spec rest3 64 64 (1 / 10) 0 LINE (by decide) (by decide)
    exact ⟨s', hrun, hwf, hv⟩
  · have e2 : (-64 : Int).tdiv 2 = -32 := by decide
    have e3 : (-64 : Int).tdiv 3 = -21 := by decide
    obtain ⟨s4, hrun, ex, ey, _⟩ :=
      InitalizeLattice_pre rest3 (-64) (-64) (1 / 10) (3 / 100) LINE (by decide)
        (fun x y hx0 hx1 _ _ => by omega)
        (fun y h0 h1 => by rw [e2] at h0 h1; rw [e3]; omega)
        (fun i j hi0 hi1 hj0 hj1 => by rw [e3] at hi0 hi1; rw [e2] at hj0 hj1; omega)
    exact ⟨s4, hrun.trans (InitFluid_empty s4 (by rw [ey]; decide)), ex, ey⟩

/-- C7, amended: `InitalizeLattice` validates nothing.  On a grid of at least 64 x 64 it
succeeds for every viscosity, zero and negative values included, and the lattice it
leaves is well formed and stores the viscosity as given, never clamped; when the product
`xdim * ydim` is negative it fails, by the panic of the first allocation. -/
theorem InitalizeLattice_unvalidated (s : Solver) (xdim ydim : Int) (v visc : ℚ)
    (shape : Int) :
    (64 ≤ xdim → 64 ≤ ydim →
      ∃ s', InitalizeLattice s xdim ydim v visc shape = some s' ∧ WellFormed s' ∧
        s'.flowVisc = visc) ∧
    (xdim * ydim < 0 → InitalizeLattice s xdim ydim v visc shape = none) := by
  constructor
  · intro hx hy
    obtain ⟨s', hrun, hwf, _, _, _, hv, _⟩ := InitalizeLattice_spec s xdim ydim v visc shape hx hy
    exact ⟨s', hrun, hwf, hv⟩
  · intro h
    simp only [InitalizeLattice, InitSolver_neg s xdim ydim v visc h, andThen_none]

theorem InitalizeLattice_unvalidated_witness :
    ((64 : Int) ≤ 64 ∧ (64 : Int) ≤ 64 ∧
      ∃ s', InitalizeLattice rest3 64 64 (1 / 10) (-1) CIRCLE = some s' ∧ WellFormed s' ∧
        s'.flowVisc = -1) ∧
    ((-3 : Int) * 5 < 0 ∧ InitalizeLattice rest3 (-3) 5 (1 / 10) (3 / 100) CIRCLE = none) :=
  ⟨⟨by decide, by decide,
      (InitalizeLattice_unvalidated rest3 64 64 (1 / 10) (-1) CIRCLE).1 (by decide) (by decide)⟩,
    ⟨by decide,
      (InitalizeLattice_unvalidated rest3 (-3) 5 (1 / 10) (3 / 100) CIRCLE).2 (by decide)⟩⟩

/-! ## Streaming: the sweeps -/

/-- A run of in-place copies `a[d] = a[d + δ]` none of which reads a position written
earlier in the run: every position written holds the value its source had before the
run. -/
theorem shift_loop (δ : Int) (D : List Int) (a : List ℚ) (n : Nat) (hlen : a.length = n)
    (hr : ∀ d ∈ D, (0 ≤ d ∧ d.toNat < n) ∧ (0 ≤ d + δ ∧ (d + δ).toNat < n))
    (hz : D.Pairwise (fun d1 d2 => d2 + δ ≠ d1)) :
    ∃ a', D.foldlM (shift δ) a = some a' ∧ a'.length = n ∧
      ∀ i, rd a' i = if i ∈ D then rd a (i + δ) else rd a i := by
  refine foldlM_inv (shift δ)
    (fun pre a' => a'.length = n ∧ ∀ i, rd a' i = if i ∈ pre then rd a (i + δ) else rd a i)
    D ?_ a ⟨hlen, fun i => by simp⟩
  · rintro pre d post a' hT ⟨hl, hI⟩
    obtain ⟨⟨d0, d1⟩, ⟨e0, e1⟩⟩ := hr d (by rw [hT]; simp)
    obtain ⟨v, hv⟩ := rd_ok (a := a') e0 (hl ▸ e1)
    have hsrc : d + δ ∉ pre := by
      intro hmem
      rw [hT, List.pairwise_append] at hz
      exact hz.2.2 (d + δ) hmem d (List.mem_cons_self _ _) rfl
    have hv' : rd a (d + δ) = some v := by
      rw [← hv, hI (d + δ), if_neg hsrc]
    refine ⟨a'.set d.toNat v, by simp only [shift, hv, andThen_some, wr_ok v d0 (hl ▸ d1)],
      by rw [List.length_set, hl], fun i => ?_⟩
    by_cases hid : i = d
    · subst hid
      rw [rd_set_same v d0 (hl ▸ d1), if_pos (by simp), hv']
    · rw [rd_set_other _ _ _ (toNat_ne d0 hid), hI i]
      have : i ∈ pre ++ [d] ↔ i ∈ pre := by
        simp only [List.mem_append, List.mem_singleton]
        exact ⟨fun h => h.resolve_right hid, Or.inl⟩
      simp only [this]

theorem andThen_none_right {α β : Type} (o : Option α) :
    (andThen o fun _ => (none : Option β)) = none := by
  cases o <;> rfl

/-- A loop whose body updates two slices of the solver independently is the two loops
on the slices, run side by side. -/
theorem foldlM_two {ι : Type} (put : Solver → List ℚ → List ℚ → Solver)
    (getA getB : Solver → List ℚ) (fA fB : List ℚ → ι → Option (List ℚ))
    (h1 : ∀ st a b, getA (put st a b) = a) (h2 : ∀ st a b, getB (put st a b) = b)
    (h3 : ∀ st a b a' b', put (put st a b) a' b' = put st a' b')
    (h4 : ∀ st, put st (getA st) (getB st) = st) (L : List ι) (s : Solver) :
    L.foldlM (fun st j =>
        andThen (fA (getA st) j) fun a => andThen (fB (getB st) j) fun b => some (put st a b)) s
      = andThen (L.foldlM fA (getA s)) fun a =>
          andThen (L.foldlM fB (getB s)) fun b => some (put s a b) := by
  induction L generalizing s with
  | nil =>
    simp only [List.foldlM_nil]
    show some s = _
    simp only [pure, andThen_some, h4]
  | cons j L ih =>
    simp only [List.foldlM_cons]
    cases hA : fA (getA s) j with
    | none => simp only [andThen_none, Option.none_bind, Option.bind_eq_bind]
    | some a1 =>
      cases hB : fB (getB s) j with
      | none =>
        simp only [andThen_some, andThen_none, Option.none_bind, Option.some_bind,
          Option.bind_eq_bind, andThen_none_right]
      | some b1 =>
        simp only [andThen_some, Option.some_bind, Option.bind_eq_bind]
        rw [ih (put s a1 b1), h1, h2]
        simp only [h3]

theorem grid_pairwise {xs ys : List Int} {Rx Ry : Int → Int → Prop} (pxs : xs.Pairwise Rx)
    (pys : ys.Pairwise Ry) (R : Int × Int → Int × Int → Prop)
    (hR : ∀ x1 x2 y1 y2, x1 ∈ xs → x2 ∈ xs → y1 ∈ ys → y2 ∈ ys →
      (Ry y1 y2 ∨ (y1 = y2 ∧ Rx x1 x2)) → R (x1, y1) (x2, y2)) :
    (ys.flatMap fun y => xs.map fun x => (x, y)).Pairwise R := by
  rw [List.pairwise_flatMap]
  constructor
  · intro y hy
    rw [List.pairwise_map]
    exact pxs.imp_of_mem (fun ha hb h => hR _ _ y y ha hb hy hy (Or.inr ⟨rfl, h⟩))
  · refine pys.imp_of_mem ?_
    intro y1 y2 hy1 hy2 h p hp q hq
    rw [List.mem_map] at hp hq
    obtain ⟨x1, hx1, rfl⟩ := hp
    obtain ⟨x2, hx2, rfl⟩ := hq
    exact hR x1 x2 y1 y2 hx1 hx2 hy1 hy2 (Or.inl h)

/-- One sweep of `Stream` over the interior, by rows `ys` and columns `xs` in any order
that never reads a site the sweep already wrote: slice `A` takes at `(x, y)` the value
it had at `(x + ax, y + ay)`, slice `B` the value it had at `(x + bx, y + by)`. -/
theorem sweep_spec (put : Solver → List ℚ → List ℚ → Solver) (getA getB : Solver → List ℚ)
    (h1 : ∀ st a b, getA (put st a b) = a) (h2 : ∀ st a b, getB (put st a b) = b)
    (h3 : ∀ st a b a' b', put (put st a b) a' b' = put st a' b')
    (h4 : ∀ st, put st (getA st) (getB st) = st)
    (s : Solver) (xdim ydim : Int) (n : Nat) (hn : n = (xdim * ydim).toNat)
    (hA : (getA s).length = n) (hB : (getB s).length = n)
    (xs ys : List Int) (hxs : ∀ x, x ∈ xs ↔ 1 ≤ x ∧ x ≤ xdim - 2)
    (hys : ∀ y, y ∈ ys ↔ 1 ≤ y ∧ y ≤ ydim - 2)
    (Rx Ry : Int → Int → Prop) (pxs : xs.Pairwise Rx) (pys : ys.Pairwise Ry)
    (ax ay bx bY : Int) (hax : -1 ≤ ax ∧ ax ≤ 1) (hay : -1 ≤ ay ∧ ay ≤ 1)
    (hbx : -1 ≤ bx ∧ bx ≤ 1) (hby : -1 ≤ bY ∧ bY ≤ 1)
    (hzA : ∀ x1 x2 y1 y2, (Ry y1 y2 ∨ (y1 = y2 ∧ Rx x1 x2)) → ¬ (x2 + ax = x1 ∧ y2 + ay = y1))
    (hzB : ∀ x1 x2 y1 y2, (Ry y1 y2 ∨ (y1 = y2 ∧ Rx x1 x2)) → ¬ (x2 + bx = x1 ∧ y2 + bY = y1)) :
    ∃ a b, ys.foldlM (fun st y => xs.foldlM (fun st x =>
          andThen (shift (ax + ay * xdim) (getA st) (x + y * xdim)) fun a =>
          andThen (shift (bx + bY * xdim) (getB st) (x + y * xdim)) fun b =>
          some (put st a b)) st) s = some (put s a b) ∧
      a.length = n ∧ b.length = n ∧
      (∀ x y, 1 ≤ x → x ≤ xdim - 2 → 1 ≤ y → y ≤ ydim - 2 →
        rd a (x + y * xdim) = rd (getA s) (x + ax + (y + ay) * xdim)) ∧
      (∀ i, (∀ x y, 1 ≤ x → x ≤ xdim - 2 → 1 ≤ y → y ≤ ydim - 2 → i ≠ x + y * xdim) →
        rd a i = rd (getA s) i) ∧
      (∀ x y, 1 ≤ x → x ≤ xdim - 2 → 1 ≤ y → y ≤ ydim - 2 →
        rd b (x + y * xdim) = rd (getB s) (x + bx + (y + bY) * xdim)) ∧
      (∀ i, (∀ x y, 1 ≤ x → x ≤ xdim - 2 → 1 ≤ y → y ≤ ydim - 2 → i ≠ x + y * xdim) →
        rd b i = rd (getB s) i) := by
  rw [foldlM_nested (fun (st : Solver) (x y : Int) =>
    andThen (shift (ax + ay * xdim) (getA st) (x + y * xdim)) fun a =>
    andThen (shift (bx + bY * xdim) (getB st) (x + y * xdim)) fun b => some (put st a b))]
  rw [foldlM_two put getA getB (fun a (p : Int × Int) => shift (ax + ay * xdim) a (p.1 + p.2 * xdim))
    (fun b (p : Int × Int) => shift (bx + bY * xdim) b (p.1 + p.2 * xdim)) h1 h2 h3 h4]
  rw [← List.foldlM_map (fun p : Int × Int => p.1 + p.2 * xdim) (shift (ax + ay * xdim)),
    ← List.foldlM_map (fun p : Int × Int => p.1 + p.2 * xdim) (shift (bx + bY * xdim))]
  -- membership in the list of destinations
  have hmem : ∀ i, i ∈ ((ys.flatMap fun y => xs.map fun x => (x, y)).map
      (fun p : Int × Int => p.1 + p.2 * xdim)) ↔
      ∃ x y, (1 ≤ x ∧ x ≤ xdim - 2) ∧ (1 ≤ y ∧ y ≤ ydim - 2) ∧ i = x + y * xdim := by
    intro i
    rw [List.mem_map]
    constructor
    · rintro ⟨⟨x, y⟩, hp, rfl⟩
      obtain ⟨hx, hy⟩ := mem_grid.mp hp
      exact ⟨x, y, (hxs x).mp hx, (hys y).mp hy, rfl⟩
    · rintro ⟨x, y, hx, hy, rfl⟩
      exact ⟨(x, y), mem_grid.mpr ⟨(hxs x).mpr hx, (hys y).mpr hy⟩, rfl⟩
  -- the generic argument for one slice
  have one : ∀ (cx cy : Int) (g : List ℚ), g.length = n → (-1 ≤ cx ∧ cx ≤ 1) →
      (-1 ≤ cy ∧ cy ≤ 1) →
      (∀ x1 x2 y1 y2, (Ry y1 y2 ∨ (y1 = y2 ∧ Rx x1 x2)) → ¬ (x2 + cx = x1 ∧ y2 + cy = y1)) →
      ∃ a, ((ys.flatMap fun y => xs.map fun x => (x, y)).map
          (fun p : Int × Int => p.1 + p.2 * xdim)).foldlM (shift (cx + cy * xdim)) g = some a ∧
        a.length = n ∧
        (∀ x y, 1 ≤ x → x ≤ xdim - 2 → 1 ≤ y → y ≤ ydim - 2 →
          rd a (x + y * xdim) = rd g (x + cx + (y + cy) * xdim)) ∧
        (∀ i, (∀ x y, 1 ≤ x → x ≤ xdim - 2 → 1 ≤ y → y ≤ ydim - 2 → i ≠ x + y * xdim) →
          rd a i = rd g i) := by
    intro cx cy g hg hcx hcy hz
    obtain ⟨a, hrun, hl, hI⟩ := shift_loop (cx + cy * xdim) _ g n hg
      (by
        intro d hd
        obtain ⟨x, y, hx, hy, rfl⟩ := (hmem d).mp hd
        have e : x + y * xdim + (cx + cy * xdim) = (x + cx) + (y + cy) * xdim := by ring
        rw [e, hn]
        exact ⟨idx_range (by omega) (by omega) (by omega) (by omega),
          idx_range (by omega) (by omega) (by omega) (by omega)⟩)
      (by
        rw [List.pairwise_map]
        apply grid_pairwise pxs pys
        intro x1 x2 y1 y2 m1 m2 m3 m4 hord e
        have hx1 := (hxs x1).mp m1
        have hx2 := (hxs x2).mp m2
        have e' : (x2 + cx) + (y2 + cy) * xdim = x1 + y1 * xdim := by
          simp only at e
          rw [← e]
          ring
        exact hz x1 x2 y1 y2 hord (idx_inj (d := xdim) (by omega) (by omega) e'))
    refine ⟨a, hrun, hl, ?_, ?_⟩
    · intro x y hx0 hx1 hy0 hy1
      rw [hI, if_pos ((hmem _).mpr ⟨x, y, ⟨hx0, hx1⟩, ⟨hy0, hy1⟩, rfl⟩)]
      congr 1
      ring
    · intro i hi
      rw [hI, if_neg]
      intro hm
      obtain ⟨x, y, hx, hy, e⟩ := (hmem i).mp hm
      exact hi x y hx.1 hx.2 hy.1 hy.2 e
  obtain ⟨a, ha, hla, ha1, ha2⟩ := one ax ay (getA s) hA hax hay hzA
  obtain ⟨b, hb, hlb, hb1, hb2⟩ := one bx bY (getB s) hB hbx hby hzB
  exact ⟨a, b, by rw [ha, andThen_some, hb, andThen_some], hla, hlb, ha1, ha2, hb1, hb2⟩

theorem streamNW_spec (s : Solver) (n : Nat) (hn : n = (s.xdim * s.ydim).toNat)
    (hA : s.nN.length = n) (hB : s.nNW.length = n) :
    ∃ a b, streamNW s = some { s with nN := a, nNW := b } ∧ a.length = n ∧ b.length = n ∧
      (∀ x y, 1 ≤ x → x ≤ s.xdim - 2 → 1 ≤ y → y ≤ s.ydim - 2 →
        rd a (x + y * s.xdim) = rd s.nN (x + 0 + (y + (-1)) * s.xdim)) ∧
      (∀ i, (∀ x y, 1 ≤ x → x ≤ s.xdim - 2 → 1 ≤ y → y ≤ s.ydim - 2 → i ≠ x + y * s.xdim) →
        rd a i = rd s.nN i) ∧
      (∀ x y, 1 ≤ x → x ≤ s.xdim - 2 → 1 ≤ y → y ≤ s.ydim - 2 →
        rd b (x + y * s.xdim) = rd s.nNW (x + 1 + (y + (-1)) * s.xdim)) ∧
      (∀ i, (∀ x y, 1 ≤ x → x ≤ s.xdim - 2 → 1 ≤ y → y ≤ s.ydim - 2 → i ≠ x + y * s.xdim) →
        rd b i = rd s.nNW i) := by
  have hbody : ∀ (st : Solver) (x y : Int),
      (andThen (rd st.nN (x + (y - 1) * s.xdim)) fun v =>
        andThen (wr st.nN (x + y * s.xdim) v) fun c =>
        andThen (rd st.nNW (x + 1 + (y - 1) * s.xdim)) fun w =>
        andThen (wr st.nNW (x + y * s.xdim) w) fun d =>
        some { st with nN := c, nNW := d }) =
      (andThen (shift (0 + (-1) * s.xdim) st.nN (x + y * s.xdim)) fun a =>
        andThen (shift (1 + (-1) * s.xdim) st.nNW (x + y * s.xdim)) fun b =>
        some { st with nN := a, nNW := b }) := by
    intro st x y
    have e1 : x + y * s.xdim + (0 + (-1) * s.xdim) = x + (y - 1) * s.xdim := by ring
    have e2 : x + y * s.xdim + (1 + (-1) * s.xdim) = x + 1 + (y - 1) * s.xdim := by ring
    simp only [shift, e1, e2]
    cases rd st.nN (x + (y - 1) * s.xdim) with
    | none => rfl
    | some v =>
      simp only [andThen_some]
      cases wr st.nN (x + y * s.xdim) v with
      | none => rfl
      | some a =>
        simp only [andThen_some]
        cases rd st.nNW (x + 1 + (y - 1) * s.xdim) <;> rfl
  simp only [streamNW, hbody]
  exact sweep_spec (fun st a b => { st with nN := a, nNW := b }) Solver.nN Solver.nNW
    (fun _ _ _ => rfl) (fun _ _ _ => rfl) (fun _ _ _ _ _ => rfl) (fun _ => rfl)
    s s.xdim s.ydim n hn hA hB (upTo 1 (s.xdim - 1)) (downTo (s.ydim - 2) 0)
    (fun x => by rw [mem_upTo]; omega) (fun y => by rw [mem_downTo]; omega)
    (fun a b => a < b) (fun a b => b < a) (upTo_pairwise _ _) (downTo_pairwise _ _)
    0 (-1) 1 (-1) (by omega) (by omega) (by omega) (by omega)
    (fun x1 x2 y1 y2 h => by omega) (fun x1 x2 y1 y2 h => by omega)

theorem streamNE_spec (s : Solver) (n : Nat) (hn : n = (s.xdim * s.ydim).toNat)
    (hA : s.nE.length = n) (hB : s.nNE.length = n) :
    ∃ a b, streamNE s = some { s with nE := a, nNE := b } ∧ a.length = n ∧ b.length = n ∧
      (∀ x y, 1 ≤ x → x ≤ s.xdim - 2 → 1 ≤ y → y ≤ s.ydim - 2 →
        rd a (x + y * s.xdim) = rd s.nE (x + (-1) + (y + 0) * s.xdim)) ∧
      (∀ i, (∀ x y, 1 ≤ x → x ≤ s.xdim - 2 → 1 ≤ y → y ≤ s.ydim - 2 → i ≠ x + y * s.xdim) →
        rd a i = rd s.nE i) ∧
      (∀ x y, 1 ≤ x → x ≤ s.xdim - 2 → 1 ≤ y → y ≤ s.ydim - 2 →
        rd b (x + y * s.xdim) = rd s.nNE (x + (-1) + (y + (-1)) * s.xdim)) ∧
      (∀ i, (∀ x y, 1 ≤ x → x ≤ s.xdim - 2 → 1 ≤ y → y ≤ s.ydim - 2 → i ≠ x + y * s.xdim) →
        rd b i = rd s.nNE i) := by
  have hbody : ∀ (st : Solver) (x y : Int),
      (andThen (rd st.nE (x - 1 + y * s.xdim)) fun v =>
        andThen (wr st.nE (x + y * s.xdim) v) fun c =>
        andThen (rd st.nNE (x - 1 + (y - 1) * s.xdim)) fun w =>
        andThen (wr st.nNE (x + y * s.xdim) w) fun d =>
        some { st with nE := c, nNE := d }) =
      (andThen (shift ((-1) + 0 * s.xdim) st.nE (x + y * s.xdim)) fun a =>
        andThen (shift ((-1) + (-1) * s.xdim) st.nNE (x + y * s.xdim)) fun b =>
        some { st with nE := a, nNE := b }) := by
    intro st x y
    have e1 : x + y * s.xdim + ((-1) + 0 * s.xdim) = x - 1 + y * s.xdim := by ring
    have e2 : x + y * s.xdim + ((-1) + (-1) * s.xdim) = x - 1 + (y - 1) * s.xdim := by ring
    simp only [shift, e1, e2]
    cases rd st.nE (x - 1 + y * s.xdim) with
    | none => rfl
    | some v =>
      simp only [andThen_some]
      cases wr st.nE (x + y * s.xdim) v with
      | none => rfl
      | some a =>
        simp only [andThen_some]
        cases rd st.nNE (x - 1 + (y - 1) * s.xdim) <;> rfl
  simp only [streamNE, hbody]
  exact sweep_spec (fun st a b => { st with nE := a, nNE := b }) Solver.nE Solver.nNE
    (fun _ _ _ => rfl) (fun _ _ _ => rfl) (fun _ _ _ _ _ => rfl) (fun _ => rfl)
    s s.xdim s.ydim n hn hA hB (downTo (s.xdim - 2) 0) (downTo (s.ydim - 2) 0)
    (fun x => by rw [mem_downTo]; omega) (fun y => by rw [mem_downTo]; omega)
    (fun a b => b < a) (fun a b => b < a) (downTo_pairwise _ _) (downTo_pairwise _ _)
    (-1) 0 (-1) (-1) (by omega) (by omega) (by omega) (by omega)
    (fun x1 x2 y1 y2 h => by omega) (fun x1 x2 y1 y2 h => by omega)

theorem streamSE_spec (s : Solver) (n : Nat) (hn : n = (s.xdim * s.ydim).toNat)
    (hA : s.nS.length = n) (hB : s.nSE.length = n) :
    ∃ a b, streamSE s = some { s with nS := a, nSE := b } ∧ a.length = n ∧ b.length = n ∧
      (∀ x y, 1 ≤ x → x ≤ s.xdim - 2 → 1 ≤ y → y ≤ s.ydim - 2 →
        rd a (x + y * s.xdim) = rd s.nS (x + 0 + (y + 1) * s.xdim)) ∧
      (∀ i, (∀ x y, 1 ≤ x → x ≤ s.xdim - 2 → 1 ≤ y → y ≤ s.ydim - 2 → i ≠ x + y * s.xdim) →
        rd a i = rd s.nS i) ∧
      (∀ x y, 1 ≤ x → x ≤ s.xdim - 2 → 1 ≤ y → y ≤ s.ydim - 2 →
        rd b (x + y * s.xdim) = rd s.nSE (x + (-1) + (y + 1) * s.xdim)) ∧
      (∀ i, (∀ x y, 1 ≤ x → x ≤ s.xdim - 2 → 1 ≤ y → y ≤ s.ydim - 2 → i ≠ x + y * s.xdim) →
        rd b i = rd s.nSE i) := by
  have hbody : ∀ (st : Solver) (x y : Int),
      (andThen (rd st.nS (x + (y + 1) * s.xdim)) fun v =>
        andThen (wr st.nS (x + y * s.xdim) v) fun c =>
        andThen (rd st.nSE (x - 1 + (y + 1) * s.xdim)) fun w =>
        andThen (wr st.nSE (x + y * s.xdim) w) fun d =>
        some { st with nS := c, nSE := d }) =
      (andThen (shift (0 + 1 * s.xdim) st.nS (x + y * s.xdim)) fun a =>
        andThen (shift ((-1) + 1 * s.xdim) st.nSE (x + y * s.xdim)) fun b =>
        some { st with nS := a, nSE := b }) := by
    intro st x y
    have e1 : x + y * s.xdim + (0 + 1 * s.xdim) = x + (y + 1) * s.xdim := by ring
    have e2 : x + y * s.xdim + ((-1) + 1 * s.xdim) = x - 1 + (y + 1) * s.xdim := by ring
    simp only [shift, e1, e2]
    cases rd st.nS (x + (y + 1) * s.xdim) with
    | none => rfl
    | some v =>
      simp only [andThen_some]
      cases wr st.nS (x + y * s.xdim) v with
      | none => rfl
      | some a =>
        simp only [andThen_some]
        cases rd st.nSE (x - 1 + (y + 1) * s.xdim) <;> rfl
  simp only [streamSE, hbody]
  exact sweep_spec (fun st a b => { st with nS := a, nSE := b }) Solver.nS Solver.nSE
    (fun _ _ _ => rfl) (fun _ _ _ => rfl) (fun _ _ _ _ _ => rfl) (fun _ => rfl)
    s s.xdim s.ydim n hn hA hB (downTo (s.xdim - 2) 0) (upTo 1 (s.ydim - 1))
    (fun x => by rw [mem_downTo]; omega) (fun y => by rw [mem_upTo]; omega)
    (fun a b => b < a) (fun a b => a < b) (downTo_pairwise _ _) (upTo_pairwise _ _)
    0 1 (-1) 1 (by omega) (by omega) (by omega) (by omega)
    (fun x1 x2 y1 y2 h => by omega) (fun x1 x2 y1 y2 h => by omega)

theorem streamSW_spec (s : Solver) (n : Nat) (hn : n = (s.xdim * s.ydim).toNat)
    (hA : s.nW.length = n) (hB : s.nSW.length = n) :
    ∃ a b, streamSW s = some { s with nW := a, nSW := b } ∧ a.length = n ∧ b.length = n ∧
      (∀ x y, 1 ≤ x → x ≤ s.xdim - 2 → 1 ≤ y → y ≤ s.ydim - 2 →
        rd a (x + y * s.xdim) = rd s.nW (x + 1 + (y + 0) * s.xdim)) ∧
      (∀ i, (∀ x y, 1 ≤ x → x ≤ s.xdim - 2 → 1 ≤ y → y ≤ s.ydim - 2 → i ≠ x + y * s.xdim) →
        rd a i = rd s.nW i) ∧
      (∀ x y, 1 ≤ x → x ≤ s.xdim - 2 → 1 ≤ y → y ≤ s.ydim - 2 →
        rd b (x + y * s.xdim) = rd s.nSW (x + 1 + (y + 1) * s.xdim)) ∧
      (∀ i, (∀ x y, 1 ≤ x → x ≤ s.xdim - 2 → 1 ≤ y → y ≤ s.ydim - 2 → i ≠ x + y * s.xdim) →
        rd b i = rd s.nSW i) := by
  have hbody : ∀ (st : Solver) (x y : Int),
      (andThen (rd st.nW (x + 1 + y * s.xdim)) fun v =>
        andThen (wr st.nW (x + y * s.xdim) v) fun c =>
        andThen (rd st.nSW (x + 1 + (y + 1) * s.xdim)) fun w =>
        andThen (wr st.nSW (x + y * s.xdim) w) fun d =>
        some { st with nW := c, nSW := d }) =
      (andThen (shift (1 + 0 * s.xdim) st.nW (x + y * s.xdim)) fun a =>
        andThen (shift (1 + 1 * s.xdim) st.nSW (x + y * s.xdim)) fun b =>
        some { st with nW := a, nSW := b }) := by
    intro st x y
    have e1 : x + y * s.xdim + (1 + 0 * s.xdim) = x + 1 + y * s.xdim := by ring
    have e2 : x + y * s.xdim + (1 + 1 * s.xdim) = x + 1 + (y + 1) * s.xdim := by ring
    simp only [shift, e1, e2]
    cases rd st.nW (x + 1 + y * s.xdim) with
    | none => rfl
    | some v =>
      simp only [andThen_some]
      cases wr st.nW (x + y * s.xdim) v with
      | none => rfl
      | some a =>
        simp only [andThen_some]
        cases rd st.nSW (x + 1 + (y + 1) * s.xdim) <;> rfl
  simp only [streamSW, hbody]
  exact sweep_spec (fun st a b => { st with nW := a, nSW := b }) Solver.nW Solver.nSW
    (fun _ _ _ => rfl) (fun _ _ _ => rfl) (fun _ _ _ _ _ => rfl) (fun _ => rfl)
    s s.xdim s.ydim n hn hA hB (upTo 1 (s.xdim - 1)) (upTo 1 (s.ydim - 1))
    (fun x => by rw [mem_upTo]; omega) (fun y => by rw [mem_upTo]; omega)
    (fun a b => a < b) (fun a b => a < b) (upTo_pairwise _ _) (upTo_pairwise _ _)
    1 0 1 1 (by omega) (by omega) (by omega) (by omega)
    (fun x1 x2 y1 y2 h => by omega) (fun x1 x2 y1 y2 h => by omega)

/-- The four sweeps of `Stream`, in order: at every interior site each moving density
takes the value it had, before the sweeps, at the site it comes from; no other entry of
the eight slices changes, and nothing else in the solver does. -/
theorem sweeps_spec (s : Solver) (n : Nat) (hn : n = (s.xdim * s.ydim).toNat)
    (hl : ∀ d, (dens s d).length = n) :
    ∃ s4, (andThen (streamNW s) fun s1 => andThen (streamNE s1) fun s2 =>
        andThen (streamSE s2) fun s3 => streamSW s3) = some s4 ∧
      still s4 = still s ∧
      ∀ d, (dens s4 d).length = n ∧
        (∀ x y, 1 ≤ x → x ≤ s.xdim - 2 → 1 ≤ y → y ≤ s.ydim - 2 →
          rd (dens s4 d) (x + y * s.xdim) = rd (dens s d) (x - d.dx + (y - d.dy) * s.xdim)) ∧
        (∀ i, (∀ x y, 1 ≤ x → x ≤ s.xdim - 2 → 1 ≤ y → y ≤ s.ydim - 2 → i ≠ x + y * s.xdim) →
          rd (dens s4 d) i = rd (dens s d) i) := by
  obtain ⟨aN, aNW, r1, lN, lNW, pN, qN, pNW, qNW⟩ :=
    streamNW_spec s n hn (hl .N) (hl .NW)
  obtain ⟨aE, aNE, r2, lE, lNE, pE, qE, pNE, qNE⟩ :=
    streamNE_spec { s with nN := aN, nNW := aNW } n hn (hl .E) (hl .NE)
  obtain ⟨aS, aSE, r3, lS, lSE, pS, qS, pSE, qSE⟩ :=
    streamSE_spec { s with nN := aN, nNW := aNW, nE := aE, nNE := aNE } n hn (hl .S) (hl .SE)
  obtain ⟨aW, aSW, r4, lW, lSW, pW, qW, pSW, qSW⟩ :=
    streamSW_spec { s with nN := aN, nNW := aNW, nE := aE, nNE := aNE, nS := aS, nSE := aSE }
      n hn (hl .W) (hl .SW)
  dsimp only at pN qN pNW qNW pE qE pNE qNE pS qS pSE qSE pW qW pSW qSW
  refine ⟨{ s with nN := aN, nNW := aNW, nE := aE, nNE := aNE, nS := aS, nSE := aSE,
                   nW := aW, nSW := aSW }, ?_, rfl, ?_⟩
  · rw [r1, andThen_some, r2, andThen_some, r3, andThen_some, r4]
  · intro d
    cases d
    · exact ⟨lN, fun x y a b c e => by rw [show x - Dir.N.dx + (y - Dir.N.dy) * s.xdim
        = x + 0 + (y + -1) * s.xdim by simp only [Dir.dx, Dir.dy]; ring]; exact pN x y a b c e, qN⟩
    · exact ⟨lS, fun x y a b c e => by rw [show x - Dir.S.dx + (y - Dir.S.dy) * s.xdim
        = x + 0 + (y + 1) * s.xdim by simp only [Dir.dx, Dir.dy]; ring]; exact pS x y a b c e, qS⟩
    · exact ⟨lE, fun x y a b c e => by rw [show x - Dir.E.dx + (y - Dir.E.dy) * s.xdim
        = x + (-1) + (y + 0) * s.xdim by simp only [Dir.dx, Dir.dy]; ring]; exact pE x y a b c e, qE⟩
    · exact ⟨lW, fun x y a b c e => by rw [show x - Dir.W.dx + (y - Dir.W.dy) * s.xdim
        = x + 1 + (y + 0) * s.xdim by simp only [Dir.dx, Dir.dy]; ring]; exact pW x y a b c e, qW⟩
    · exact ⟨lNE, fun x y a b c e => by rw [show x - Dir.NE.dx + (y - Dir.NE.dy) * s.xdim
        = x + (-1) + (y + -1) * s.xdim by simp only [Dir.dx, Dir.dy]; ring]; exact pNE x y a b c e, qNE⟩
    · exact ⟨lSE, fun x y a b c e => by rw [show x - Dir.SE.dx + (y - Dir.SE.dy) * s.xdim
        = x + (-1) + (y + 1) * s.xdim by simp only [Dir.dx, Dir.dy]; ring]; exact pSE x y a b c e, qSE⟩
    · exact ⟨lNW, fun x y a b c e => by rw [show x - Dir.NW.dx + (y - Dir.NW.dy) * s.xdim
        = x + 1 + (y + -1) * s.xdim by simp only [Dir.dx, Dir.dy]; ring]; exact pNW x y a b c e, qNW⟩
    · exact ⟨lSW, fun x y a b c e => by rw [show x - Dir.SW.dx + (y - Dir.SW.dy) * s.xdim
        = x + 1 + (y + 1) * s.xdim by simp only [Dir.dx, Dir.dy]; ring]; exact pSW x y a b c e, qSW⟩

/-! ## Streaming: bounce-back -/

theorem target_eq (dim x y : Int) (d : Dir) :
    target dim x y d = (x + d.dx) + (y + d.dy) * dim := by
  cases d <;> simp only [target, Dir.dx, Dir.dy] <;> ring

/-- Closed form of the bounce-back at an interior barrier site: in each direction the
neighbour receives the density of the reverse direction stored at the site. -/
theorem bounceSite_barrier (s : Solver) (xdim ydim x y : Int) (n : Nat)
    (hn : n = (xdim * ydim).toNat) (hl : ∀ d, (dens s d).length = n)
    (hx : 1 ≤ x ∧ x ≤ xdim - 2) (hy : 1 ≤ y ∧ y ≤ ydim - 2)
    (hb : rd s.barrier (x + y * xdim) = some true) :
    ∃ s', bounceSite xdim s x y = some s' ∧ quiet s' = quiet s ∧
      ∀ d, (dens s' d).length = n ∧
        ∀ i, rd (dens s' d) i = if i = target xdim x y d then rd (dens s d.opp) (x + y * xdim)
          else rd (dens s d) i := by
  have lN : s.nN.length = n := hl .N
  have lS : s.nS.length = n := hl .S
  have lE : s.nE.length = n := hl .E
  have lW : s.nW.length = n := hl .W
  have lNE : s.nNE.length = n := hl .NE
  have lSE : s.nSE.length = n := hl .SE
  have lNW : s.nNW.length = n := hl .NW
  have lSW : s.nSW.length = n := hl .SW
  have rg : ∀ cx cy : Int, 0 ≤ cx → cx < xdim → 0 ≤ cy → cy < ydim →
      0 ≤ cx + cy * xdim ∧ (cx + cy * xdim).toNat < n := by
    intro cx cy a b c e
    rw [hn]
    exact idx_range a b c e
  have ne : ∀ cx cy : Int, 0 ≤ cx → cx < xdim → (cx ≠ x ∨ cy ≠ y) →
      x + y * xdim ≠ cx + cy * xdim := by
    intro cx cy a b h e
    obtain ⟨e1, e2⟩ := idx_inj (d := xdim) (by omega) ⟨a, b⟩ e
    omega
  obtain ⟨k0, k1⟩ := rg x y (by omega) (by omega) (by omega) (by omega)
  obtain ⟨tE0, tE1⟩ := rg (x + 1) y (by omega) (by omega) (by omega) (by omega)
  obtain ⟨tW0, tW1⟩ := rg (x - 1) y (by omega) (by omega) (by omega) (by omega)
  obtain ⟨tN0, tN1⟩ := rg x (y + 1) (by omega) (by omega) (by omega) (by omega)
  obtain ⟨tS0, tS1⟩ := rg x (y - 1) (by omega) (by omega) (by omega) (by omega)
  obtain ⟨tNE0, tNE1⟩ := rg (x + 1) (y + 1) (by omega) (by omega) (by omega) (by omega)
  obtain ⟨tNW0, tNW1⟩ := rg (x - 1) (y + 1) (by omega) (by omega) (by omega) (by omega)
  obtain ⟨tSE0, tSE1⟩ := rg (x + 1) (y - 1) (by omega) (by omega) (by omega) (by omega)
  obtain ⟨tSW0, tSW1⟩ := rg (x - 1) (y - 1) (by omega) (by omega) (by omega) (by omega)
  have dE := ne (x + 1) y (by omega) (by omega) (Or.inl (by omega))
  have dW := ne (x - 1) y (by omega) (by omega) (Or.inl (by omega))
  have dN := ne x (y + 1) (by omega) (by omega) (Or.inr (by omega))
  have dS := ne x (y - 1) (by omega) (by omega) (Or.inr (by omega))
  have dNE := ne (x + 1) (y + 1) (by omega) (by omega) (Or.inl (by omega))
  have dNW := ne (x - 1) (y + 1) (by omega) (by omega) (Or.inl (by omega))
  have dSE := ne (x + 1) (y - 1) (by omega) (by omega) (Or.inl (by omega))
  have dSW := ne (x - 1) (y - 1) (by omega) (by omega) (Or.inl (by omega))
  obtain ⟨vN, rN⟩ := rd_ok (a := s.nN) k0 (lN ▸ k1)
  obtain ⟨vS, rS⟩ := rd_ok (a := s.nS) k0 (lS ▸ k1)
  obtain ⟨vE, rE⟩ := rd_ok (a := s.nE) k0 (lE ▸ k1)
  obtain ⟨vW, rW⟩ := rd_ok (a := s.nW) k0 (lW ▸ k1)
  obtain ⟨vNE, rNE⟩ := rd_ok (a := s.nNE) k0 (lNE ▸ k1)
  obtain ⟨vSE, rSE⟩ := rd_ok (a := s.nSE) k0 (lSE ▸ k1)
  obtain ⟨vNW, rNW⟩ := rd_ok (a := s.nNW) k0 (lNW ▸ k1)
  obtain ⟨vSW, rSW⟩ := rd_ok (a := s.nSW) k0 (lSW ▸ k1)
  have wE : ∀ v, wr s.nE (x + 1 + y * xdim) v = some (s.nE.set (x + 1 + y * xdim).toNat v) :=
    fun v => wr_ok v tE0 (lE ▸ tE1)
  have wW : ∀ v, wr s.nW (x - 1 + y * xdim) v = some (s.nW.set (x - 1 + y * xdim).toNat v) :=
    fun v => wr_ok v tW0 (lW ▸ tW1)
  have wN : ∀ v, wr s.nN (x + (y + 1) * xdim) v
      = some (s.nN.set (x + (y + 1) * xdim).toNat v) := fun v => wr_ok v tN0 (lN ▸ tN1)
  have wS : ∀ v, wr s.nS (x + (y - 1) * xdim) v
      = some (s.nS.set (x + (y - 1) * xdim).toNat v) := fun v => wr_ok v tS0 (lS ▸ tS1)
  have wNE : ∀ v, wr s.nNE (x + 1 + (y + 1) * xdim) v
      = some (s.nNE.set (x + 1 + (y + 1) * xdim).toNat v) := fun v => wr_ok v tNE0 (lNE ▸ tNE1)
  have wNW : ∀ v, wr s.nNW (x - 1 + (y + 1) * xdim) v
      = some (s.nNW.set (x - 1 + (y + 1) * xdim).toNat v) := fun v => wr_ok v tNW0 (lNW ▸ tNW1)
  have wSE : ∀ v, wr s.nSE (x + 1 + (y - 1) * xdim) v
      = some (s.nSE.set (x + 1 + (y - 1) * xdim).toNat v) := fun v => wr_ok v tSE0 (lSE ▸ tSE1)
  have wSW : ∀ v, wr s.nSW (x - 1 + (y - 1) * xdim) v
      = some (s.nSW.set (x - 1 + (y - 1) * xdim).toNat v) := fun v => wr_ok v tSW0 (lSW ▸ tSW1)
  have oE : ∀ v, rd (s.nE.set (x + 1 + y * xdim).toNat v) (x + y * xdim) = some vE :=
    fun v => (rd_set_other _ _ _ (toNat_ne tE0 dE)).trans rE
  have oW : ∀ v, rd (s.nW.set (x - 1 + y * xdim).toNat v) (x + y * xdim) = some vW :=
    fun v => (rd_set_other _ _ _ (toNat_ne tW0 dW)).trans rW
  have oN : ∀ v, rd (s.nN.set (x + (y + 1) * xdim).toNat v) (x + y * xdim) = some vN :=
    fun v => (rd_set_other _ _ _ (toNat_ne tN0 dN)).trans rN
  have oS : ∀ v, rd (s.nS.set (x + (y - 1) * xdim).toNat v) (x + y * xdim) = some vS :=
    fun v => (rd_set_other _ _ _ (toNat_ne tS0 dS)).trans rS
  have oNE : ∀ v, rd (s.nNE.set (x + 1 + (y + 1) * xdim).toNat v) (x + y * xdim) = some vNE :=
    fun v => (rd_set_other _ _ _ (toNat_ne tNE0 dNE)).trans rNE
  have oNW : ∀ v, rd (s.nNW.set (x - 1 + (y + 1) * xdim).toNat v) (x + y * xdim) = some vNW :=
    fun v => (rd_set_other _ _ _ (toNat_ne tNW0 dNW)).trans rNW
  have oSE : ∀ v, rd (s.nSE.set (x + 1 + (y - 1) * xdim).toNat v) (x + y * xdim) = some vSE :=
    fun v => (rd_set_other _ _ _ (toNat_ne tSE0 dSE)).trans rSE
  have oSW : ∀ v, rd (s.nSW.set (x - 1 + (y - 1) * xdim).toNat v) (x + y * xdim) = some vSW :=
    fun v => (rd_set_other _ _ _ (toNat_ne tSW0 dSW)).trans rSW
  refine ⟨{ s with nE := s.nE.set (x + 1 + y * xdim).toNat vW,
                   nW := s.nW.set (x - 1 + y * xdim).toNat vE,
                   nN := s.nN.set (x + (y + 1) * xdim).toNat vS,
                   nS := s.nS.set (x + (y - 1) * xdim).toNat vN,
                   nNE := s.nNE.set (x + 1 + (y + 1) * xdim).toNat vSW,
                   nNW := s.nNW.set (x - 1 + (y + 1) * xdim).toNat vSE,
                   nSE := s.nSE.set (x + 1 + (y - 1) * xdim).toNat vNW,
                   nSW := s.nSW.set (x - 1 + (y - 1) * xdim).toNat vNE,
                   barrierCount := s.barrierCount + 1,
                   barrierxSum := s.barrierxSum + x,
                   barrierySum := s.barrierySum + y,
                   barrierFx := s.barrierFx + (vE + vNE + vSE - vW - vNW - vSW),
                   barrierFy := s.barrierFy + (vN + vNE + vNW - vS - vSE - vSW) }, ?_, rfl, ?_⟩
  · simp only [bounceSite, hb, andThen_some, if_true, rN, rS, rE, rW, rNE, rSE, rNW, rSW,
      wE, wW, wN, wS, wNE, wNW, wSE, wSW, oE, oW, oN, oS, oNE, oNW, oSE, oSW]
  · intro d
    cases d
    · refine ⟨by simp only [dens, List.length_set, lN], fun i => ?_⟩
      simp only [dens, target, Dir.opp]
      split
      · rename_i h; rw [h, rd_set_same _ tN0 (lN ▸ tN1), rS]
      · rename_i h; rw [rd_set_other _ _ _ (toNat_ne tN0 h)]
    · refine ⟨by simp only [dens, List.length_set, lS], fun i => ?_⟩
      simp only [dens, target, Dir.opp]
      split
      · rename_i h; rw [h, rd_set_same _ tS0 (lS ▸ tS1), rN]
      · rename_i h; rw [rd_set_other _ _ _ (toNat_ne tS0 h)]
    · refine ⟨by simp only [dens, List.length_set, lE], fun i => ?_⟩
      simp only [dens, target, Dir.opp]
      split
      · rename_i h; rw [h, rd_set_same _ tE0 (lE ▸ tE1), rW]
      · rename_i h; rw [rd_set_other _ _ _ (toNat_ne tE0 h)]
    · refine ⟨by simp only [dens, List.length_set, lW], fun i => ?_⟩
      simp only [dens, target, Dir.opp]
      split
      · rename_i h; rw [h, rd_set_same _ tW0 (lW ▸ tW1), rE]
      · rename_i h; rw [rd_set_other _ _ _ (toNat_ne tW0 h)]
    · refine ⟨by simp only [dens, List.length_set, lNE], fun i => ?_⟩
      simp only [dens, target, Dir.opp]
      split
      · rename_i h; rw [h, rd_set_same _ tNE0 (lNE ▸ tNE1), rSW]
      · rename_i h; rw [rd_set_other _ _ _ (toNat_ne tNE0 h)]
    · refine ⟨by simp only [dens, List.length_set, lSE], fun i => ?_⟩
      simp only [dens, target, Dir.opp]
      split
      · rename_i h; rw [h, rd_set_same _ tSE0 (lSE ▸ tSE1), rNW]
      · rename_i h; rw [rd_set_other _ _ _ (toNat_ne tSE0 h)]
    · refine ⟨by simp only [dens, List.length_set, lNW], fun i => ?_⟩
      simp only [dens, target, Dir.opp]
      split
      · rename_i h; rw [h, rd_set_same _ tNW0 (lNW ▸ tNW1), rSE]
      · rename_i h; rw [rd_set_other _ _ _ (toNat_ne tNW0 h)]
    · refine ⟨by simp only [dens, List.length_set, lSW], fun i => ?_⟩
      simp only [dens, target, Dir.opp]
      split
      · rename_i h; rw [h, rd_set_same _ tSW0 (lSW ▸ tSW1), rNE]
      · rename_i h; rw [rd_set_other _ _ _ (toNat_ne tSW0 h)]

theorem quiet_get {α : Type} (p : Solver → α) {s s' : Solver}
    (h1 : p (quiet s') = p s') (h2 : p (quiet s) = p s) (hf : quiet s' = quiet s) :
    p s' = p s := by
  rw [← h1, ← h2, hf]

theorem Dir.dx_range (d : Dir) : -1 ≤ d.dx ∧ d.dx ≤ 1 := by
  cases d <;> simp [Dir.dx]

theorem Dir.dy_range (d : Dir) : -1 ≤ d.dy ∧ d.dy ≤ 1 := by
  cases d <;> simp [Dir.dy]

theorem target_inj {dim x y x' y' : Int} (d : Dir) (hx : 1 ≤ x ∧ x ≤ dim - 2)
    (hx' : 1 ≤ x' ∧ x' ≤ dim - 2) (h : target dim x y d = target dim x' y' d) :
    x = x' ∧ y = y' := by
  rw [target_eq, target_eq] at h
  have r := d.dx_range
  obtain ⟨e1, e2⟩ := idx_inj (d := dim) (by omega) (by omega) h
  omega

theorem bounceSite_fluid (s : Solver) (dim x y : Int)
    (hb : rd s.barrier (x + y * dim) = some false) : bounceSite dim s x y = some s := by
  simp only [bounceSite, hb, andThen_some, Bool.false_eq_true, if_false]

/-- The bounce-back loop of `Stream`: an entry of a moving density changes only where it
is the neighbour, in that direction, of an interior barrier site; and the neighbour of an
interior barrier site receives the reverse density stored at the site, when no barrier
site writes that one. -/
theorem bounceBack_spec (s : Solver) (n : Nat) (hn : n = (s.xdim * s.ydim).toNat)
    (hl : ∀ d, (dens s d).length = n) (hbl : s.barrier.length = n) :
    ∃ s', bounceBack s = some s' ∧ quiet s' = quiet s ∧
      ∀ d, (dens s' d).length = n ∧
        (∀ i, (∀ x y, (1 ≤ x ∧ x ≤ s.xdim - 2) → (1 ≤ y ∧ y ≤ s.ydim - 2) →
            rd s.barrier (x + y * s.xdim) = some true → i ≠ target s.xdim x y d) →
          rd (dens s' d) i = rd (dens s d) i) ∧
        (∀ x y, (1 ≤ x ∧ x ≤ s.xdim - 2) → (1 ≤ y ∧ y ≤ s.ydim - 2) →
          rd s.barrier (x + y * s.xdim) = some true →
          (∀ x' y', (1 ≤ x' ∧ x' ≤ s.xdim - 2) → (1 ≤ y' ∧ y' ≤ s.ydim - 2) →
            rd s.barrier (x' + y' * s.xdim) = some true →
            x + y * s.xdim ≠ target s.xdim x' y' d.opp) →
          rd (dens s' d) (target s.xdim x y d) = rd (dens s d.opp) (x + y * s.xdim)) := by
  unfold bounceBack
  rw [foldlM_nested (fun (st : Solver) (x y : Int) => bounceSite s.xdim st x y)]
  have hT : ∀ p : Int × Int, p ∈ ((upTo 1 (s.ydim - 1)).flatMap fun y =>
      (upTo 1 (s.xdim - 1)).map fun x => (x, y)) ↔
      (1 ≤ p.1 ∧ p.1 ≤ s.xdim - 2) ∧ (1 ≤ p.2 ∧ p.2 ≤ s.ydim - 2) := by
    intro p
    rw [mem_grid, mem_upTo, mem_upTo]
    omega
  have hnd := grid_nodup (upTo_nodup 1 (s.xdim - 1)) (upTo_nodup 1 (s.ydim - 1))
  have key := foldlM_inv
    (fun (st : Solver) (p : Int × Int) => bounceSite s.xdim st p.1 p.2)
    (fun pre st => quiet st = quiet s ∧
      ∀ d, (dens st d).length = n ∧
        (∀ i, (∀ p ∈ pre, rd s.barrier (p.1 + p.2 * s.xdim) = some true →
            i ≠ target s.xdim p.1 p.2 d) → rd (dens st d) i = rd (dens s d) i) ∧
        (∀ p ∈ pre, rd s.barrier (p.1 + p.2 * s.xdim) = some true →
          (∀ x' y', (1 ≤ x' ∧ x' ≤ s.xdim - 2) → (1 ≤ y' ∧ y' ≤ s.ydim - 2) →
            rd s.barrier (x' + y' * s.xdim) = some true →
            p.1 + p.2 * s.xdim ≠ target s.xdim x' y' d.opp) →
          rd (dens st d) (target s.xdim p.1 p.2 d) = rd (dens s d.opp) (p.1 + p.2 * s.xdim)))
    ((upTo 1 (s.ydim - 1)).flatMap fun y => (upTo 1 (s.xdim - 1)).map fun x => (x, y))
    ?_ s ⟨rfl, fun d => ⟨hl d, fun _ _ => rfl, fun p hp => by simp at hp⟩⟩
  · obtain ⟨s', hrun, hq, hI⟩ := key
    refine ⟨s', hrun, hq, fun d => ⟨(hI d).1, ?_, ?_⟩⟩
    · intro i hi
      exact (hI d).2.1 i (fun p hp hb => hi p.1 p.2 ((hT p).mp hp).1 ((hT p).mp hp).2 hb)
    · intro x y hx hy hb hfree
      exact (hI d).2.2 (x, y) ((hT (x, y)).mpr ⟨hx, hy⟩) hb hfree
  · rintro pre ⟨x, y⟩ post st hTe ⟨hq, hI⟩
    have hmem : (x, y) ∈ ((upTo 1 (s.ydim - 1)).flatMap fun y =>
        (upTo 1 (s.xdim - 1)).map fun x => (x, y)) := by rw [hTe]; simp
    obtain ⟨hx, hy⟩ := (hT (x, y)).mp hmem
    simp only at hx hy
    have hnotpre : (x, y) ∉ pre := by
      intro hp
      rw [hTe] at hnd
      exact (List.nodup_append.mp hnd).2.2 hp (List.mem_cons_self _ _)
    have hbar : st.barrier = s.barrier := quiet_get Solver.barrier rfl rfl hq
    obtain ⟨k0, k1⟩ := idx_range (w := s.xdim) (h := s.ydim) (x := x) (y := y)
      (by omega) (by omega) (by omega) (by omega)
    obtain ⟨b, hb⟩ := rd_ok (a := s.barrier) k0 (by rw [hbl, hn]; exact k1)
    cases b with
    | false =>
      refine ⟨st, bounceSite_fluid st s.xdim x y (by rw [hbar]; exact hb), hq, fun d => ?_⟩
      refine ⟨(hI d).1, fun i hi => ?_, fun p hp hpb hfree => ?_⟩
      · exact (hI d).2.1 i (fun p hp => hi p (List.mem_append_left _ hp))
      · rcases List.mem_append.mp hp with hp | hp
        · exact (hI d).2.2 p hp hpb hfree
        · rw [List.mem_singleton] at hp
          rw [hp, hb] at hpb
          exact absurd hpb (by simp)
    | true =>
      obtain ⟨st', hrun', hq', hd⟩ := bounceSite_barrier st s.xdim s.ydim x y n hn
        (fun d => (hI d).1) hx hy (by rw [hbar]; exact hb)
      refine ⟨st', hrun', hq'.trans hq, fun d => ⟨(hd d).1, fun i hi => ?_,
        fun p hp hpb hfree => ?_⟩⟩
      · have hne : i ≠ target s.xdim x y d := hi (x, y) (by simp) hb
        rw [(hd d).2 i, if_neg hne]
        exact (hI d).2.1 i (fun p hp => hi p (List.mem_append_left _ hp))
      · by_cases hpc : p = (x, y)
        · subst hpc
          rw [(hd d).2, if_pos rfl]
          exact (hI d.opp).2.1 _ (fun p' hp' hb' =>
            hfree p'.1 p'.2 ((hT p').mp (by rw [hTe]; exact List.mem_append_left _ hp')).1
              ((hT p').mp (by rw [hTe]; exact List.mem_append_left _ hp')).2 hb')
        · have hp' : p ∈ pre := by
            rcases List.mem_append.mp hp with h | h
            · exact h
            · exact absurd (List.mem_singleton.mp h) hpc
          have hpT := (hT p).mp (by rw [hTe]; exact List.mem_append_left _ hp')
          have hne : target s.xdim p.1 p.2 d ≠ target s.xdim x y d := by
            intro e
            obtain ⟨e1, e2⟩ := target_inj d hpT.1 hx e
            exact hpc (Prod.ext e1 e2)
          rw [(hd d).2, if_neg hne]
          exact (hI d).2.2 p hp' hpb hfree

theorem Dir.opp_dx (d : Dir) : d.opp.dx = -d.dx := by
  cases d <;> simp [Dir.opp, Dir.dx]

theorem Dir.opp_dy (d : Dir) : d.opp.dy = -d.dy := by
  cases d <;> simp [Dir.opp, Dir.dy]

theorem Dir.step_ne (d : Dir) : d.dx ≠ 0 ∨ d.dy ≠ 0 := by
  cases d <;> simp [Dir.dx, Dir.dy]

theorem WellFormed.dens_length {s : Solver} (h : WellFormed s) (d : Dir) :
    (dens s d).length = (s.xdim * s.ydim).toNat := by
  obtain ⟨a1, a2, a3, a4, a5, a6, a7, a8, a9, _⟩ := h.sized
  cases d <;> simp only [dens] <;> assumption

theorem WellFormed.of_quiet {s s' : Solver} (h : WellFormed s) (hq : quiet s' = quiet s)
    (hl : ∀ d, (dens s' d).length = (s.xdim * s.ydim).toNat) : WellFormed s' := by
  obtain ⟨h1, h2, h3, ⟨a1, _, _, _, _, _, _, _, _, a10, a11, a12, c1, c2⟩, w1, w2, w3⟩ := h
  have ex : s'.xdim = s.xdim := quiet_get Solver.xdim rfl rfl hq
  have ey : s'.ydim = s.ydim := quiet_get Solver.ydim rfl rfl hq
  have en : s'.numElements = s.numElements := quiet_get Solver.numElements rfl rfl hq
  have e0 : s'.n0 = s.n0 := quiet_get Solver.n0 rfl rfl hq
  have er : s'.rho = s.rho := quiet_get Solver.rho rfl rfl hq
  have eux : s'.ux = s.ux := quiet_get Solver.ux rfl rfl hq
  have euy : s'.uy = s.uy := quiet_get Solver.uy rfl rfl hq
  have ec : s'.curl = s.curl := quiet_get Solver.curl rfl rfl hq
  have eb : s'.barrier = s.barrier := quiet_get Solver.barrier rfl rfl hq
  have e1 : s'.one9th = s.one9th := quiet_get Solver.one9th rfl rfl hq
  have e2 : s'.one36th = s.one36th := quiet_get Solver.one36th rfl rfl hq
  have e3 : s'.four9ths = s.four9ths := quiet_get Solver.four9ths rfl rfl hq
  simp only [WellFormed, ex, ey, en, e0, er, eux, euy, ec, eb, e1, e2, e3]
  exact ⟨h1, h2, h3, ⟨a1, hl .N, hl .S, hl .E, hl .W, hl .NE, hl .SE, hl .NW, hl .SW,
    a10, a11, a12, c1, c2⟩, w1, w2, w3⟩

/-- Specification of `Stream` on the whole of a well-formed lattice.  It succeeds and
touches nothing but the eight moving densities and the force accumulators.  At an
interior site that is not, in the
direction `d`, the neighbour of an interior barrier site, the density moving in
direction `d` is the one that was upstream before the step.  At the neighbour in
direction `d` of an interior barrier site whose own reverse density no barrier site
overwrites, that density is the reverse density that was there before the step.  An
entry that is neither at an interior site nor such a neighbour is as before the step. -/
theorem Stream_full {s : Solver} (hwf : WellFormed s) :
    ∃ s', Stream s = some s' ∧ WellFormed s' ∧ quiet s' = quiet s ∧
      ∀ d : Dir,
        (∀ x y, (1 ≤ x ∧ x ≤ s.xdim - 2) → (1 ≤ y ∧ y ≤ s.ydim - 2) →
          (∀ x' y', (1 ≤ x' ∧ x' ≤ s.xdim - 2) → (1 ≤ y' ∧ y' ≤ s.ydim - 2) →
            rd s.barrier (x' + y' * s.xdim) = some true →
            x + y * s.xdim ≠ target s.xdim x' y' d) →
          rd (dens s' d) (x + y * s.xdim)
            = rd (dens s d) (x - d.dx + (y - d.dy) * s.xdim)) ∧
        (∀ x y, (1 ≤ x ∧ x ≤ s.xdim - 2) → (1 ≤ y ∧ y ≤ s.ydim - 2) →
          rd s.barrier (x + y * s.xdim) = some true →
          (∀ x' y', (1 ≤ x' ∧ x' ≤ s.xdim - 2) → (1 ≤ y' ∧ y' ≤ s.ydim - 2) →
            rd s.barrier (x' + y' * s.xdim) = some true →
            x + y * s.xdim ≠ target s.xdim x' y' d.opp) →
          rd (dens s' d) (target s.xdim x y d)
            = rd (dens s d.opp) (target s.xdim x y d)) ∧
        (∀ i, (∀ x y, 1 ≤ x → x ≤ s.xdim - 2 → 1 ≤ y → y ≤ s.ydim - 2 → i ≠ x + y * s.xdim) →
          (∀ x' y', (1 ≤ x' ∧ x' ≤ s.xdim - 2) → (1 ≤ y' ∧ y' ≤ s.ydim - 2) →
            rd s.barrier (x' + y' * s.xdim) = some true → i ≠ target s.xdim x' y' d) →
          rd (dens s' d) i = rd (dens s d) i) := by
  have hd0 : ∀ d, dens (resetForce s) d = dens s d := by
    intro d
    cases d <;> rfl
  have hl0 : ∀ d, (dens (resetForce s) d).length = (s.xdim * s.ydim).toNat := by
    intro d
    rw [hd0]
    exact hwf.dens_length d
  obtain ⟨s4, hrun4, hst, h4⟩ := sweeps_spec (resetForce s) _ rfl hl0
  have hx0 : (resetForce s).xdim = s.xdim := rfl
  have hy0 : (resetForce s).ydim = s.ydim := rfl
  rw [hx0, hy0] at h4
  have hq4 : quiet s4 = quiet s := by
    have h1 : quiet s4 = quiet (resetForce s) := by
      unfold quiet
      rw [hst]
    exact h1
  have ex : s4.xdim = s.xdim := quiet_get Solver.xdim rfl rfl hq4
  have ey : s4.ydim = s.ydim := quiet_get Solver.ydim rfl rfl hq4
  have eb : s4.barrier = s.barrier := quiet_get Solver.barrier rfl rfl hq4
  obtain ⟨s5, hrun5, hq5, h5⟩ := bounceBack_spec s4 (s.xdim * s.ydim).toNat
    (by rw [ex, ey]) (fun d => (h4 d).1)
    (by rw [eb]; exact hwf.2.2.2.1.2.2.2.2.2.2.2.2.2.2.2.2.2)
  rw [ex, ey, eb] at h5
  refine ⟨s5, ?_, hwf.of_quiet (hq5.trans hq4) (fun d => (h5 d).1), hq5.trans hq4, fun d => ⟨?_, ?_, ?_⟩⟩
  · have hS : Stream s = andThen (streamNW (resetForce s)) fun s1 =>
        andThen (streamNE s1) fun s2 => andThen (streamSE s2) fun s3 =>
        andThen (streamSW s3) fun s4 => bounceBack s4 := rfl
    rw [hS]
    have : ∀ (a : Solver), (andThen (streamNW a) fun s1 => andThen (streamNE s1) fun s2 =>
        andThen (streamSE s2) fun s3 => andThen (streamSW s3) fun s4 => bounceBack s4)
        = andThen (andThen (streamNW a) fun s1 => andThen (streamNE s1) fun s2 =>
            andThen (streamSE s2) fun s3 => streamSW s3) bounceBack := by
      intro a
      cases streamNW a with
      | none => rfl
      | some s1 =>
        simp only [andThen_some]
        cases streamNE s1 with
        | none => rfl
        | some s2 =>
          simp only [andThen_some]
          cases streamSE s2 with
          | none => rfl
          | some s3 => rfl
    rw [this, hrun4, andThen_some, hrun5]
  · intro x y hx hy hfree
    rw [(h5 d).2.1 _ (fun x' y' hx' hy' hb' => hfree x' y' hx' hy' hb'),
      (h4 d).2.1 x y hx.1 hx.2 hy.1 hy.2, hd0]
  · intro x y hx hy hb hfree
    rw [(h5 d).2.2 x y hx hy hb hfree, (h4 d.opp).2.1 x y hx.1 hx.2 hy.1 hy.2, hd0]
    congr 1
    rw [target_eq, d.opp_dx, d.opp_dy]
    ring
  · intro i hni hfree
    rw [(h5 d).2.1 i hfree, (h4 d).2.2 i hni, hd0]

/-- Specification of `Stream` on a well-formed lattice.  It succeeds and touches nothing
but the eight moving densities and the force accumulators.  At an interior site that is not, in the
direction `d`, the neighbour of an interior barrier site, the density moving in
direction `d` is the one that was upstream before the step.  At the neighbour in
direction `d` of an interior barrier site whose own reverse density no barrier site
overwrites, that density is the reverse density that was there before the step. -/
theorem Stream_spec {s : Solver} (hwf : WellFormed s) :
    ∃ s', Stream s = some s' ∧ WellFormed s' ∧ quiet s' = quiet s ∧
      ∀ d : Dir,
        (∀ x y, (1 ≤ x ∧ x ≤ s.xdim - 2) → (1 ≤ y ∧ y ≤ s.ydim - 2) →
          (∀ x' y', (1 ≤ x' ∧ x' ≤ s.xdim - 2) → (1 ≤ y' ∧ y' ≤ s.ydim - 2) →
            rd s.barrier (x' + y' * s.xdim) = some true →
            x + y * s.xdim ≠ target s.xdim x' y' d) →
          rd (dens s' d) (x + y * s.xdim)
            = rd (dens s d) (x - d.dx + (y - d.dy) * s.xdim)) ∧
        (∀ x y, (1 ≤ x ∧ x ≤ s.xdim - 2) → (1 ≤ y ∧ y ≤ s.ydim - 2) →
          rd s.barrier (x + y * s.xdim) = some true →
          (∀ x' y', (1 ≤ x' ∧ x' ≤ s.xdim - 2) → (1 ≤ y' ∧ y' ≤ s.ydim - 2) →
            rd s.barrier (x' + y' * s.xdim) = some true →
            x + y * s.xdim ≠ target s.xdim x' y' d.opp) →
          rd (dens s' d) (target s.xdim x y d)
            = rd (dens s d.opp) (target s.xdim x y d)) := by
  obtain ⟨s', hrun, hwf', hq, h⟩ := Stream_full hwf
  exact ⟨s', hrun, hwf', hq, fun d => ⟨(h d).1, (h d).2.1⟩⟩

/-! ## Streaming: the claims -/

theorem post5_wf : WellFormed post5 := by
  simp [WellFormed, post5]

theorem post5_barrier (x y : Int) (hx : 0 ≤ x ∧ x ≤ 4) (hy : 0 ≤ y ∧ y ≤ 4) :
    rd post5.barrier (x + y * post5.xdim) = some true ↔ x = 2 ∧ y = 2 := by
  obtain ⟨hx0, hx1⟩ := hx
  obtain ⟨hy0, hy1⟩ := hy
  interval_cases x <;> interval_cases y <;> decide

/-- A free site: an interior site none of whose eight neighbours is an interior barrier
site is not the neighbour, in any direction, of an interior barrier site. -/
theorem free_of_neighbours {s : Solver} {x y : Int} (hx : 1 ≤ x ∧ x ≤ s.xdim - 2)
    (hnb : ∀ x' y', (1 ≤ x' ∧ x' ≤ s.xdim - 2) → (1 ≤ y' ∧ y' ≤ s.ydim - 2) →
      (x - 1 ≤ x' ∧ x' ≤ x + 1) → (y - 1 ≤ y' ∧ y' ≤ y + 1) → (x' ≠ x ∨ y' ≠ y) →
      rd s.barrier (x' + y' * s.xdim) ≠ some true) (d : Dir) :
    ∀ x' y', (1 ≤ x' ∧ x' ≤ s.xdim - 2) → (1 ≤ y' ∧ y' ≤ s.ydim - 2) →
      rd s.barrier (x' + y' * s.xdim) = some true → x + y * s.xdim ≠ target s.xdim x' y' d := by
  intro x' y' hx' hy' hb e
  rw [target_eq] at e
  have rx := d.dx_range
  have ry := d.dy_range
  have hstep := d.step_ne
  obtain ⟨e1, e2⟩ := idx_inj (d := s.xdim) (by omega) (by omega) e
  exact hnb x' y' hx' hy' (by omega) (by omega) (by omega) hb

/-- C4 (streaming is temporally consistent): on a well-formed lattice `Stream` succeeds
and leaves a well-formed lattice; at every interior site `(x, y)` none of whose eight
neighbours is an interior barrier site, each moving density is afterwards the value
that was, before the step, at its upstream neighbour; `n0`, `rho`, `ux` and `uy` are not
changed. -/
theorem Stream_temporally_consistent (s : Solver) (x y : Int) (hwf : WellFormed s)
    (hx : 1 ≤ x ∧ x ≤ s.xdim - 2) (hy : 1 ≤ y ∧ y ≤ s.ydim - 2)
    (hnb : ∀ x' y', (1 ≤ x' ∧ x' ≤ s.xdim - 2) → (1 ≤ y' ∧ y' ≤ s.ydim - 2) →
      (x - 1 ≤ x' ∧ x' ≤ x + 1) → (y - 1 ≤ y' ∧ y' ≤ y + 1) → (x' ≠ x ∨ y' ≠ y) →
      rd s.barrier (x' + y' * s.xdim) ≠ some true) :
    ∃ s', Stream s = some s' ∧ WellFormed s' ∧
      rd s'.nN (x + y * s.xdim) = rd s.nN (x + (y - 1) * s.xdim) ∧
      rd s'.nNW (x + y * s.xdim) = rd s.nNW (x + 1 + (y - 1) * s.xdim) ∧
      rd s'.nE (x + y * s.xdim) = rd s.nE (x - 1 + y * s.xdim) ∧
      rd s'.nNE (x + y * s.xdim) = rd s.nNE (x - 1 + (y - 1) * s.xdim) ∧
      rd s'.nS (x + y * s.xdim) = rd s.nS (x + (y + 1) * s.xdim) ∧
      rd s'.nSE (x + y * s.xdim) = rd s.nSE (x - 1 + (y + 1) * s.xdim) ∧
      rd s'.nW (x + y * s.xdim) = rd s.nW (x + 1 + y * s.xdim) ∧
      rd s'.nSW (x + y * s.xdim) = rd s.nSW (x + 1 + (y + 1) * s.xdim) ∧
      s'.n0 = s.n0 ∧ s'.rho = s.rho ∧ s'.ux = s.ux ∧ s'.uy = s.uy := by
  obtain ⟨s', hrun, hwf', hq, h⟩ := Stream_spec hwf
  have key : ∀ d : Dir, rd (dens s' d) (x + y * s.xdim)
      = rd (dens s d) (x - d.dx + (y - d.dy) * s.xdim) :=
    fun d => (h d).1 x y hx hy (free_of_neighbours hx hnb d)
  have kN := key .N
  have kNW := key .NW
  have kE := key .E
  have kNE := key .NE
  have kS := key .S
  have kSE := key .SE
  have kW := key .W
  have kSW := key .SW
  simp only [dens, Dir.dx, Dir.dy] at kN kNW kE kNE kS kSE kW kSW
  refine ⟨s', hrun, hwf', ?_, ?_, ?_, ?_, ?_, ?_, ?_, ?_, quiet_get Solver.n0 rfl rfl hq,
    quiet_get Solver.rho rfl rfl hq, quiet_get Solver.ux rfl rfl hq,
    quiet_get Solver.uy rfl rfl hq⟩
  · exact kN.trans (congrArg _ (by ring))
  · exact kNW.trans (congrArg _ (by ring))
  · exact kE.trans (congrArg _ (by ring))
  · exact kNE.trans (congrArg _ (by ring))
  · exact kS.trans (congrArg _ (by ring))
  · exact kSE.trans (congrArg _ (by ring))
  · exact kW.trans (congrArg _ (by ring))
  · exact kSW.trans (congrArg _ (by ring))

theorem wall5_wf : WellFormed wall5 := by
  simp [WellFormed, wall5, post5]

theorem flow5_wf : WellFormed flow5 := by
  simp [WellFormed, flow5, wall5, post5]

theorem flow5_free (i : Int) : rd flow5.barrier i ≠ some true :=
  fun h => absurd (rd_replicate (v := false) h) (by decide)

theorem Stream_temporally_consistent_witness :
    WellFormed flow5 ∧ (1 ≤ (2 : Int) ∧ (2 : Int) ≤ flow5.xdim - 2) ∧
    (1 ≤ (2 : Int) ∧ (2 : Int) ≤ flow5.ydim - 2) ∧
    (∀ x' y', (1 ≤ x' ∧ x' ≤ flow5.xdim - 2) → (1 ≤ y' ∧ y' ≤ flow5.ydim - 2) →
      ((2 : Int) - 1 ≤ x' ∧ x' ≤ 2 + 1) → ((2 : Int) - 1 ≤ y' ∧ y' ≤ 2 + 1) →
      (x' ≠ 2 ∨ y' ≠ 2) → rd flow5.barrier (x' + y' * flow5.xdim) ≠ some true) ∧
    (∃ s', Stream flow5 = some s' ∧ WellFormed s' ∧
      rd s'.nN (2 + 2 * flow5.xdim) = rd flow5.nN (2 + (2 - 1) * flow5.xdim) ∧
      rd s'.nNW (2 + 2 * flow5.xdim) = rd flow5.nNW (2 + 1 + (2 - 1) * flow5.xdim) ∧
      rd s'.nE (2 + 2 * flow5.xdim) = rd flow5.nE (2 - 1 + 2 * flow5.xdim) ∧
      rd s'.nNE (2 + 2 * flow5.xdim) = rd flow5.nNE (2 - 1 + (2 - 1) * flow5.xdim) ∧
      rd s'.nS (2 + 2 * flow5.xdim) = rd flow5.nS (2 + (2 + 1) * flow5.xdim) ∧
      rd s'.nSE (2 + 2 * flow5.xdim) = rd flow5.nSE (2 - 1 + (2 + 1) * flow5.xdim) ∧
      rd s'.nW (2 + 2 * flow5.xdim) = rd flow5.nW (2 + 1 + 2 * flow5.xdim) ∧
      rd s'.nSW (2 + 2 * flow5.xdim) = rd flow5.nSW (2 + 1 + (2 + 1) * flow5.xdim) ∧
      s'.n0 = flow5.n0 ∧ s'.rho = flow5.rho ∧ s'.ux = flow5.ux ∧ s'.uy = flow5.uy) ∧
    (rd flow5.nN (2 + 2 * flow5.xdim) = some 112 ∧
      (Stream flow5).bind (fun t => rd t.nN (2 + 2 * flow5.xdim)) = some 107) ∧
    (rd flow5.nSW (2 + 2 * flow5.xdim) = some 812 ∧
      (Stream flow5).bind (fun t => rd t.nSW (2 + 2 * flow5.xdim)) = some 818) :=
  ⟨flow5_wf, by decide, by decide, fun x' y' _ _ _ _ _ => flow5_free _,
    Stream_temporally_consistent flow5 2 2 flow5_wf (by decide) (by decide)
      (fun x' y' _ _ _ _ _ => flow5_free _),
    ⟨by decide, by decide⟩, ⟨by decide, by decide⟩⟩

/-- C5 (no-slip bounce-back at an isolated barrier): on a well-formed lattice, for an
interior barrier site `(x, y)` none of whose eight neighbours is a barrier, after one
`Stream` each neighbour holds, in the direction leading away from the barrier, the
density that before the step was at that neighbour heading into the barrier; hence the
eight densities leaving the barrier neighbourhood sum to the eight that entered it. -/
theorem Stream_bounce_back (s : Solver) (x y : Int) (hwf : WellFormed s)
    (hx : 1 ≤ x ∧ x ≤ s.xdim - 2) (hy : 1 ≤ y ∧ y ≤ s.ydim - 2)
    (hb : rd s.barrier (x + y * s.xdim) = some true)
    (hnb : ∀ x' y', (x - 1 ≤ x' ∧ x' ≤ x + 1) → (y - 1 ≤ y' ∧ y' ≤ y + 1) →
      (x' ≠ x ∨ y' ≠ y) → rd s.barrier (x' + y' * s.xdim) ≠ some true) :
    ∃ s', Stream s = some s' ∧ WellFormed s' ∧
      ∃ oE oW oN oS oNE oNW oSE oSW iW iE iS iN iSW iSE iNW iNE : ℚ,
        (rd s'.nE (x + 1 + y * s.xdim) = some oE ∧
          rd s.nW (x + 1 + y * s.xdim) = some iW ∧ oE = iW) ∧
        (rd s'.nW (x - 1 + y * s.xdim) = some oW ∧
          rd s.nE (x - 1 + y * s.xdim) = some iE ∧ oW = iE) ∧
        (rd s'.nN (x + (y + 1) * s.xdim) = some oN ∧
          rd s.nS (x + (y + 1) * s.xdim) = some iS ∧ oN = iS) ∧
        (rd s'.nS (x + (y - 1) * s.xdim) = some oS ∧
          rd s.nN (x + (y - 1) * s.xdim) = some iN ∧ oS = iN) ∧
        (rd s'.nNE (x + 1 + (y + 1) * s.xdim) = some oNE ∧
          rd s.nSW (x + 1 + (y + 1) * s.xdim) = some iSW ∧ oNE = iSW) ∧
        (rd s'.nNW (x - 1 + (y + 1) * s.xdim) = some oNW ∧
          rd s.nSE (x - 1 + (y + 1) * s.xdim) = some iSE ∧ oNW = iSE) ∧
        (rd s'.nSE (x + 1 + (y - 1) * s.xdim) = some oSE ∧
          rd s.nNW (x + 1 + (y - 1) * s.xdim) = some iNW ∧ oSE = iNW) ∧
        (rd s'.nSW (x - 1 + (y - 1) * s.xdim) = some oSW ∧
          rd s.nNE (x - 1 + (y - 1) * s.xdim) = some iNE ∧ oSW = iNE) ∧
        oE + oW + oN + oS + oNE + oNW + oSE + oSW
          = iW + iE + iS + iN + iSW + iSE + iNW + iNE := by
  obtain ⟨s', hrun, hwf', hq, h⟩ := Stream_spec hwf
  have hfree : ∀ d : Dir, ∀ x' y', (1 ≤ x' ∧ x' ≤ s.xdim - 2) → (1 ≤ y' ∧ y' ≤ s.ydim - 2) →
      rd s.barrier (x' + y' * s.xdim) = some true →
      x + y * s.xdim ≠ target s.xdim x' y' d :=
    fun d => free_of_neighbours hx (fun x' y' _ _ a b c => hnb x' y' a b c) d
  have key : ∀ d : Dir, ∃ v, rd (dens s' d) (target s.xdim x y d) = some v ∧
      rd (dens s d.opp) (target s.xdim x y d) = some v := by
    intro d
    have e := (h d).2 x y hx hy hb (hfree d.opp)
    have rx := d.dx_range
    have ry := d.dy_range
    obtain ⟨t0, t1⟩ := idx_range (w := s.xdim) (h := s.ydim) (x := x + d.dx)
      (y := y + d.dy) (by omega) (by omega) (by omega) (by omega)
    rw [← target_eq] at t0 t1
    obtain ⟨v, hv⟩ := rd_ok (a := dens s d.opp) t0 (by rw [hwf.dens_length]; exact t1)
    exact ⟨v, e.trans hv, hv⟩
  obtain ⟨vE, aE, bE⟩ := key .E
  obtain ⟨vW, aW, bW⟩ := key .W
  obtain ⟨vN, aN, bN⟩ := key .N
  obtain ⟨vS, aS, bS⟩ := key .S
  obtain ⟨vNE, aNE, bNE⟩ := key .NE
  obtain ⟨vNW, aNW, bNW⟩ := key .NW
  obtain ⟨vSE, aSE, bSE⟩ := key .SE
  obtain ⟨vSW, aSW, bSW⟩ := key .SW
  exact ⟨s', hrun, hwf', vE, vW, vN, vS, vNE, vNW, vSE, vSW, vE, vW, vN, vS, vNE, vNW, vSE, vSW,
    ⟨aE, bE, rfl⟩, ⟨aW, bW, rfl⟩, ⟨aN, bN, rfl⟩, ⟨aS, bS, rfl⟩, ⟨aNE, bNE, rfl⟩,
    ⟨aNW, bNW, rfl⟩, ⟨aSE, bSE, rfl⟩, ⟨aSW, bSW, rfl⟩, rfl⟩

theorem post5_isolated : ∀ x' y' : Int, ((2 : Int) - 1 ≤ x' ∧ x' ≤ 2 + 1) →
    ((2 : Int) - 1 ≤ y' ∧ y' ≤ 2 + 1) → (x' ≠ 2 ∨ y' ≠ 2) →
    rd post5.barrier (x' + y' * post5.xdim) ≠ some true := by
  intro x' y' hx hy hne hb
  have := (post5_barrier x' y' (by omega) (by omega)).mp hb
  omega

theorem wall5_isolated : ∀ x' y' : Int, ((2 : Int) - 1 ≤ x' ∧ x' ≤ 2 + 1) →
    ((2 : Int) - 1 ≤ y' ∧ y' ≤ 2 + 1) → (x' ≠ 2 ∨ y' ≠ 2) →
    rd wall5.barrier (x' + y' * wall5.xdim) ≠ some true :=
  post5_isolated

theorem Stream_bounce_back_witness :
    WellFormed wall5 ∧ (1 ≤ (2 : Int) ∧ (2 : Int) ≤ wall5.xdim - 2) ∧
    (1 ≤ (2 : Int) ∧ (2 : Int) ≤ wall5.ydim - 2) ∧
    rd wall5.barrier (2 + 2 * wall5.xdim) = some true ∧
    (∀ x' y' : Int, ((2 : Int) - 1 ≤ x' ∧ x' ≤ 2 + 1) →
      ((2 : Int) - 1 ≤ y' ∧ y' ≤ 2 + 1) → (x' ≠ 2 ∨ y' ≠ 2) →
      rd wall5.barrier (x' + y' * wall5.xdim) ≠ some true) ∧
    (∃ s', Stream wall5 = some s' ∧ WellFormed s' ∧
      ∃ oE oW oN oS oNE oNW oSE oSW iW iE iS iN iSW iSE iNW iNE : ℚ,
        (rd s'.nE (2 + 1 + 2 * wall5.xdim) = some oE ∧
          rd wall5.nW (2 + 1 + 2 * wall5.xdim) = some iW ∧ oE = iW) ∧
        (rd s'.nW (2 - 1 + 2 * wall5.xdim) = some oW ∧
          rd wall5.nE (2 - 1 + 2 * wall5.xdim) = some iE ∧ oW = iE) ∧
        (rd s'.nN (2 + (2 + 1) * wall5.xdim) = some oN ∧
          rd wall5.nS (2 + (2 + 1) * wall5.xdim) = some iS ∧ oN = iS) ∧
        (rd s'.nS (2 + (2 - 1) * wall5.xdim) = some oS ∧
          rd wall5.nN (2 + (2 - 1) * wall5.xdim) = some iN ∧ oS = iN) ∧
        (rd s'.nNE (2 + 1 + (2 + 1) * wall5.xdim) = some oNE ∧
          rd wall5.nSW (2 + 1 + (2 + 1) * wall5.xdim) = some iSW ∧ oNE = iSW) ∧
        (rd s'.nNW (2 - 1 + (2 + 1) * wall5.xdim) = some oNW ∧
          rd wall5.nSE (2 - 1 + (2 + 1) * wall5.xdim) = some iSE ∧ oNW = iSE) ∧
        (rd s'.nSE (2 + 1 + (2 - 1) * wall5.xdim) = some oSE ∧
          rd wall5.nNW (2 + 1 + (2 - 1) * wall5.xdim) = some iNW ∧ oSE = iNW) ∧
        (rd s'.nSW (2 - 1 + (2 - 1) * wall5.xdim) = some oSW ∧
          rd wall5.nNE (2 - 1 + (2 - 1) * wall5.xdim) = some iNE ∧ oSW = iNE) ∧
        oE + oW + oN + oS + oNE + oNW + oSE + oSW
          = iW + iE + iS + iN + iSW + iSE + iNW + iNE) ∧
    (rd wall5.nE (2 + 1 + 2 * wall5.xdim) = some 313 ∧
      rd wall5.nW (2 + 1 + 2 * wall5.xdim) = some 413 ∧
      (Stream wall5).bind (fun t => rd t.nE (2 + 1 + 2 * wall5.xdim)) = some 413) ∧
    (rd wall5.nSW (2 - 1 + (2 - 1) * wall5.xdim) = some 806 ∧
      rd wall5.nNE (2 - 1 + (2 - 1) * wall5.xdim) = some 506 ∧
      (Stream wall5).bind (fun t => rd t.nSW (2 - 1 + (2 - 1) * wall5.xdim)) = some 506) :=
  ⟨wall5_wf, by decide, by decide, by decide, wall5_isolated,
    Stream_bounce_back wall5 2 2 wall5_wf (by decide) (by decide) (by decide) wall5_isolated,
    ⟨by decide, by decide, by decide⟩, ⟨by decide, by decide, by decide⟩⟩

/-! ## Dragging the fluid -/

theorem SetEquilibrium_keep {s : Solver} {n : Nat} (hw : Weights s) (hs : Sized s n)
    (x y : Int) (ux uy : ℚ) (h0 : 0 ≤ x + y * s.xdim) (h1 : (x + y * s.xdim).toNat < n) :
    ∃ c, cellAt s (x + y * s.xdim) = some c ∧
      SetEquilibrium s x y ux uy (-1.0)
        = some (putCell s (x + y * s.xdim).toNat (push ux uy c)) := by
  obtain ⟨c, hc⟩ := cellAt_ok hs h0 h1
  refine ⟨c, hc, ?_⟩
  have hr := (cellAt_some hc).2.2.2.2.2.2.2.2.2.1
  exact SetEquilibrium_eq hw hs x y ux uy (-1.0) c.rho h0 h1
    (by rw [if_pos (by norm_num)]; exact hr)

/-- A run of `SetEquilibrium` calls with one velocity and the sentinel density over
in-range cells: a cell visited holds the equilibrium of that velocity and of the density
that was stored in it, the others are as before. -/
theorem SetEquilibrium_keep_loop {s : Solver} (hwf : WellFormed s) (ux uy : ℚ)
    (T : List (Int × Int))
    (hT : ∀ p ∈ T, (0 ≤ p.1 ∧ p.1 < s.xdim) ∧ (0 ≤ p.2 ∧ p.2 < s.ydim)) :
    ∃ s', T.foldlM (fun st p => SetEquilibrium st p.1 p.2 ux uy (-1.0)) s = some s' ∧
      WellFormed s' ∧ frame s' = frame s ∧
      (∀ p ∈ T, cellAt s' (p.1 + p.2 * s.xdim)
        = (cellAt s (p.1 + p.2 * s.xdim)).map (push ux uy)) ∧
      (∀ i, (∀ p ∈ T, i ≠ p.1 + p.2 * s.xdim) → cellAt s' i = cellAt s i) := by
  obtain ⟨s', hrun, ⟨hsz, hfr⟩, hcells⟩ := cellLoop (fun p : Int × Int => p.1 + p.2 * s.xdim)
    (push ux uy) (fun st p => SetEquilibrium st p.1 p.2 ux uy (-1.0))
    (fun _ st => Sized st (s.xdim * s.ydim).toNat ∧ frame st = frame s) T s
    (Or.inr fun _ => rfl)
    (by
      rintro pre ⟨x, y⟩ post st hTe ⟨hsz, hfr⟩
      obtain ⟨hx, hy⟩ := hT (x, y) (by rw [hTe]; simp)
      simp only at hx hy
      obtain ⟨h0, h1⟩ := idx_range hx.1 hx.2 hy.1 hy.2
      have ex : st.xdim = s.xdim := frame_get Solver.xdim rfl rfl hfr
      obtain ⟨c, hc, hse⟩ := SetEquilibrium_keep (hwf.weights.of_frame_eq hfr) hsz x y ux uy
        (by rw [ex]; exact h0) (by rw [ex]; exact h1)
      rw [ex] at hse hc
      exact ⟨c, _, hc, hse, ⟨Sized_putCell hsz _ _, (frame_putCell _ _ _).trans hfr⟩,
        cellAt_putCell_same hsz h0 h1 _,
        fun i hi => cellAt_putCell_other _ _ _ (toNat_ne h0 hi)⟩)
    ⟨hwf.sized, rfl⟩
  refine ⟨s', hrun, hwf.of_frame hfr hsz, hfr, ?_, ?_⟩
  · intro p hp
    rw [hcells, if_pos (List.mem_map.mpr ⟨p, hp, rfl⟩)]
  · intro i hi
    rw [hcells, if_neg]
    rw [List.mem_map]
    rintro ⟨p, hp, rfl⟩
    exact hi p hp rfl

theorem mem_footprint {pushX pushY : Int} {p : Int × Int} :
    p ∈ footprint pushX pushY ↔ inDisc pushX pushY p.1 p.2 := by
  obtain ⟨x, y⟩ := p
  unfold footprint inDisc
  rw [List.mem_append, mem_pairs, List.mem_map]
  constructor
  · rintro (⟨dx, hdx, h⟩ | ⟨⟨dy, dx⟩, hq, h⟩)
    · rw [mem_upThru] at hdx
      simp only [Prod.mk.injEq] at h
      omega
    · rw [mem_grid, mem_upThru, mem_upThru] at hq
      simp only [Prod.mk.injEq] at h hq
      omega
  · rintro (⟨h1, h2, h3⟩ | ⟨h1, h2, h3, h4⟩)
    · refine Or.inl ⟨x - pushX, mem_upThru.mpr (by omega), ?_⟩
      simp only [Prod.mk.injEq]
      omega
    · refine Or.inr ⟨(y - pushY, x - pushX), ?_, ?_⟩
      · rw [mem_grid, mem_upThru, mem_upThru]
        simp only
        omega
      · simp only [Prod.mk.injEq]
        omega

/-- Inside the margin `DragFluid` is a run of `SetEquilibrium` over its footprint. -/
theorem DragFluid_eq (s : Solver) (pushX pushY : Int) (pushUX pushUY : ℚ)
    (hX : 3 < pushX ∧ pushX < s.xdim - 1 - 3) (hY : 3 < pushY ∧ pushY < s.ydim - 1 - 3) :
    DragFluid s pushX pushY pushUX pushUY
      = (footprint pushX pushY).foldlM
          (fun st p => SetEquilibrium st p.1 p.2 pushUX pushUY (-1.0)) s := by
  unfold DragFluid footprint
  simp only
  rw [if_pos ⟨hX.1, hX.2, hY.1, hY.2⟩,
    foldlM_pair (fun st (p : Int × Int) => SetEquilibrium st p.1 p.2 pushUX pushUY (-1.0))
      (fun dx => (pushX + dx, pushY + 2)) (fun dx => (pushX + dx, pushY - 2)),
    List.foldlM_append]
  cases List.foldlM (fun st (p : Int × Int) => SetEquilibrium st p.1 p.2 pushUX pushUY (-1.0)) s
      ((upThru (-1) 1).flatMap fun dx => [(pushX + dx, pushY + 2), (pushX + dx, pushY - 2)]) with
  | none => rfl
  | some s1 =>
    simp only [andThen_some, Option.some_bind, Option.bind_eq_bind]
    rw [List.foldlM_map, foldlM_nested (fun (st : Solver) (dy dx : Int) =>
      SetEquilibrium st (pushX + dx) (pushY + dy) pushUX pushUY (-1.0))]

/-- Specification of `DragFluid` inside the margin, on a well-formed lattice: every cell of
the disc is set to the equilibrium of the push velocity and of the density stored in the
cell; nothing else changes. -/
theorem DragFluid_spec {s : Solver} (hwf : WellFormed s) (pushX pushY : Int)
    (pushUX pushUY : ℚ) (hX : 3 < pushX ∧ pushX < s.xdim - 4)
    (hY : 3 < pushY ∧ pushY < s.ydim - 4) :
    ∃ s', DragFluid s pushX pushY pushUX pushUY = some s' ∧ WellFormed s' ∧
      frame s' = frame s ∧
      (∀ x y, inDisc pushX pushY x y → cellAt s' (x + y * s.xdim)
        = (cellAt s (x + y * s.xdim)).map (push pushUX pushUY)) ∧
      (∀ i, (∀ x y, inDisc pushX pushY x y → i ≠ x + y * s.xdim) →
        cellAt s' i = cellAt s i) := by
  obtain ⟨s', hrun, hwf', hfr, hin, hout⟩ := SetEquilibrium_keep_loop hwf pushUX pushUY
    (footprint pushX pushY) (by
      intro p hp
      have h := mem_footprint.mp hp
      unfold inDisc at h
      omega)
  refine ⟨s', ?_, hwf', hfr, ?_, ?_⟩
  · rw [DragFluid_eq s pushX pushY pushUX pushUY (by omega) (by omega)]
    exact hrun
  · intro x y hd
    exact hin (x, y) (mem_footprint.mpr hd)
  · intro i hi
    exact hout i (fun p hp => hi p.1 p.2 (mem_footprint.mp hp))

theorem held3_wf : WellFormed held3 := by
  simp [WellFormed, held3, rest3]

theorem limit_abs (v : ℚ) : |if |v| > 0.1 then (0.1 : ℚ) else v| ≤ 0.1 := by
  by_cases h : |v| > 0.1
  · rw [if_pos h, abs_of_pos (by norm_num)]
  · rw [if_neg h]
    exact not_lt.mp h

theorem DragFluidCheck_idle (s : Solver) (props : AppProperties)
    (h : props.TouchDrag = false) :
    DragFluidCheck s props
      = ({ s with dragging := false, oldTouchX := -1, oldTouchY := -1 },
          { pushX := 0, pushY := 0, pushUX := 0, pushUY := 0 }) := by
  unfold DragFluidCheck
  simp only [h, Bool.false_eq_true, if_false]

theorem DragFluidCheck_first (s : Solver) (props : AppProperties)
    (h : props.TouchDrag = true) (h2 : s.oldTouchX < 0) :
    DragFluidCheck s props
      = ({ s with dragging := false, oldTouchX := props.TouchX, oldTouchY := props.TouchY },
          { pushX := 0, pushY := 0, pushUX := 0, pushUY := 0 }) := by
  unfold DragFluidCheck
  simp only [h, if_true]
  rw [if_neg (not_le.mpr h2)]

theorem DragFluidCheck_drag (s : Solver) (props : AppProperties)
    (h : props.TouchDrag = true) (h2 : 0 ≤ s.oldTouchX) :
    DragFluidCheck s props
      = ({ s with dragging := true, oldTouchX := props.TouchX, oldTouchY := props.TouchY },
          { pushX := (TouchToGrid props).1, pushY := (TouchToGrid props).2,
            pushUX :=
              if |(props.TouchX - s.oldTouchX) / (props.PxPerSimSquare : ℚ) /
                  (s.stepsPerFrame : ℚ)| > 0.1 then 0.1
              else (props.TouchX - s.oldTouchX) / (props.PxPerSimSquare : ℚ) /
                  (s.stepsPerFrame : ℚ),
            pushUY :=
              if |-(props.TouchY - s.oldTouchY) / (props.PxPerSimSquare : ℚ) /
                  (s.stepsPerFrame : ℚ)| > 0.1 then 0.1
              else -(props.TouchY - s.oldTouchY) / (props.PxPerSimSquare : ℚ) /
                  (s.stepsPerFrame : ℚ) }) := by
  unfold DragFluidCheck
  simp only [h, if_true]
  rw [if_pos h2]

/-! ## Dragging the fluid: the claims -/

/-- C14 (sentinel of `SetEquilibrium`): on a well-formed lattice, at a cell whose index
is in range, `SetEquilibrium(x, y, ux, uy, -1)` succeeds and leaves in the cell the
equilibrium of `(ux, uy)` and of the density `rho[i]` that was stored there: `rho[i]` is
kept, `ux[i] = ux`, `uy[i] = uy`, and the nine densities are those of that equilibrium.
No other cell is modified, nor is anything else (curl, barrier mask, parameters). -/
theorem SetEquilibrium_sentinel (s : Solver) (x y : Int) (ux uy : ℚ) (hwf : WellFormed s)
    (h0 : 0 ≤ x + y * s.xdim) (h1 : x + y * s.xdim < s.xdim * s.ydim) :
    ∃ c s', cellAt s (x + y * s.xdim) = some c ∧
      SetEquilibrium s x y ux uy (-1) = some s' ∧
      cellAt s' (x + y * s.xdim) = some (equilibrium ux uy c.rho) ∧
      (equilibrium ux uy c.rho).rho = c.rho ∧ (equilibrium ux uy c.rho).ux = ux ∧
      (equilibrium ux uy c.rho).uy = uy ∧
      (∀ i, i ≠ x + y * s.xdim → cellAt s' i = cellAt s i) ∧
      frame s' = frame s ∧ WellFormed s' := by
  have h1n : (x + y * s.xdim).toNat < (s.xdim * s.ydim).toNat := by omega
  obtain ⟨c, hc, hse⟩ := SetEquilibrium_keep hwf.weights hwf.sized x y ux uy h0 h1n
  have e : (-1 : ℚ) = -1.0 := by norm_num
  rw [e]
  exact ⟨c, _, hc, hse, cellAt_putCell_same hwf.sized h0 h1n _, rfl, rfl, rfl,
    fun i hi => cellAt_putCell_other _ _ _ (toNat_ne h0 hi), frame_putCell _ _ _,
    hwf.of_frame (frame_putCell _ _ _) (Sized_putCell hwf.sized _ _)⟩

theorem SetEquilibrium_sentinel_witness :
    WellFormed sunk3 ∧ (0 : Int) ≤ 1 + 1 * sunk3.xdim ∧
      (1 : Int) + 1 * sunk3.xdim < sunk3.xdim * sunk3.ydim ∧
      ∃ c s', cellAt sunk3 (1 + 1 * sunk3.xdim) = some c ∧
        SetEquilibrium sunk3 1 1 (1 / 10) 0 (-1) = some s' ∧
        cellAt s' (1 + 1 * sunk3.xdim) = some (equilibrium (1 / 10) 0 c.rho) ∧
        (equilibrium (1 / 10) 0 c.rho).rho = c.rho ∧
        (equilibrium (1 / 10) 0 c.rho).ux = 1 / 10 ∧
        (equilibrium (1 / 10) 0 c.rho).uy = 0 ∧
        (∀ i, i ≠ 1 + 1 * sunk3.xdim → cellAt s' i = cellAt sunk3 i) ∧
        frame s' = frame sunk3 ∧ WellFormed s' :=
  ⟨sunk3_wf, by decide, by decide,
    SetEquilibrium_sentinel sunk3 1 1 (1 / 10) 0 sunk3_wf (by decide) (by decide)⟩

/-- C18 (drags near the edge are ignored): when `pushX ≤ 3`, `pushX ≥ xdim - 4`,
`pushY ≤ 3` or `pushY ≥ ydim - 4`, `DragFluid` returns the solver it was given, unchanged
in every field, and does not fail. -/
theorem DragFluid_near_edge (s : Solver) (pushX pushY : Int) (pushUX pushUY : ℚ)
    (h : pushX ≤ 3 ∨ pushX ≥ s.xdim - 4 ∨ pushY ≤ 3 ∨ pushY ≥ s.ydim - 4) :
    DragFluid s pushX pushY pushUX pushUY = some s := by
  unfold DragFluid
  simp only
  rw [if_neg (by omega)]

theorem DragFluid_near_edge_witness :
    ((1 : Int) ≤ 3 ∨ (1 : Int) ≥ rest3.xdim - 4 ∨ (1 : Int) ≤ 3 ∨ (1 : Int) ≥ rest3.ydim - 4) ∧
      DragFluid rest3 1 1 (1 / 10) 0 = some rest3 :=
  ⟨by decide, DragFluid_near_edge rest3 1 1 (1 / 10) 0 (by decide)⟩

/-- C15 (the clamp of `DragFluidCheck` at a failing input): with a drag in progress the
pointer moves 100 pixels to the left, at ten pixels to the square and three steps to the
frame.  The raw velocity is `-10/3`, whose clamp to `[-0.1, 0.1]` is `-0.1`; the code
returns `pushUX = +0.1`. -/
theorem DragFluidCheck_loses_sign :
    swipe.TouchDrag = true ∧ 0 ≤ held3.oldTouchX ∧
      (swipe.TouchX - held3.oldTouchX) / (swipe.PxPerSimSquare : ℚ) /
        (held3.stepsPerFrame : ℚ) = -10 / 3 ∧
      clamp (-10 / 3) (-1 / 10) (1 / 10) = -1 / 10 ∧
      (DragFluidCheck held3 swipe).2.pushUX = 1 / 10 := by
  have hraw : (swipe.TouchX - held3.oldTouchX) / (swipe.PxPerSimSquare : ℚ) /
      (held3.stepsPerFrame : ℚ) = -10 / 3 := by
    norm_num [held3, rest3, swipe]
  refine ⟨rfl, by norm_num [held3], hraw, by norm_num [clamp], ?_⟩
  rw [DragFluidCheck_drag held3 swipe rfl (by norm_num [held3])]
  simp only
  rw [hraw, if_pos]
  · norm_num
  · rw [abs_of_neg (by norm_num)]
    norm_num

/-- C16 (the push velocity is bounded): for every solver state and every pointer sample
with `PxPerSimSquare > 0` and `stepsPerFrame ≥ 1`, the record `DragFluidCheck` returns has
`|pushUX| ≤ 0.1` and `|pushUY| ≤ 0.1`. -/
theorem DragFluidCheck_bounded (s : Solver) (props : AppProperties)
    (_hp : 0 < props.PxPerSimSquare) (_hs : 1 ≤ s.stepsPerFrame) :
    |(DragFluidCheck s props).2.pushUX| ≤ 0.1 ∧ |(DragFluidCheck s props).2.pushUY| ≤ 0.1 := by
  cases hd : props.TouchDrag with
  | false =>
    rw [DragFluidCheck_idle s props hd]
    norm_num
  | true =>
    by_cases h2 : 0 ≤ s.oldTouchX
    · rw [DragFluidCheck_drag s props hd h2]
      exact ⟨limit_abs _, limit_abs _⟩
    · rw [DragFluidCheck_first s props hd (not_le.mp h2)]
      norm_num

theorem DragFluidCheck_bounded_witness :
    (0 : Int) < swipe.PxPerSimSquare ∧ (1 : Int) ≤ held3.stepsPerFrame ∧
      |(DragFluidCheck held3 swipe).2.pushUX| ≤ 0.1 ∧
      |(DragFluidCheck held3 swipe).2.pushUY| ≤ 0.1 :=
  ⟨by decide, by decide, DragFluidCheck_bounded held3 swipe (by decide) (by decide)⟩

/-- C17 (when a drag is active): `DragFluidCheck` sets `dragging` exactly when the sample
has `TouchDrag` set and the stored `oldTouchX` is not negative; when it leaves `dragging`
unset the returned perturbation is `(0, 0)`.  After a sample without `TouchDrag` the stored
position is `(-1, -1)`, so that the first drag sample that follows changes nothing but the
stored position, which becomes `(TouchX, TouchY)`, leaves `dragging` unset and returns the
zero record. -/
theorem DragFluidCheck_active_iff (s : Solver) (props : AppProperties) :
    ((DragFluidCheck s props).1.dragging = true ↔
        (props.TouchDrag = true ∧ 0 ≤ s.oldTouchX)) ∧
      ((DragFluidCheck s props).1.dragging = false →
        (DragFluidCheck s props).2.pushUX = 0 ∧ (DragFluidCheck s props).2.pushUY = 0) ∧
      (props.TouchDrag = false →
        (DragFluidCheck s props).1.oldTouchX = -1 ∧
        (DragFluidCheck s props).1.oldTouchY = -1 ∧
        ∀ next : AppProperties, next.TouchDrag = true →
          DragFluidCheck (DragFluidCheck s props).1 next
            = ({ s with dragging := false, oldTouchX := next.TouchX,
                        oldTouchY := next.TouchY },
                { pushX := 0, pushY := 0, pushUX := 0, pushUY := 0 })) := by
  cases hd : props.TouchDrag with
  | false =>
    rw [DragFluidCheck_idle s props hd]
    refine ⟨by simp, fun _ => ⟨rfl, rfl⟩, fun _ => ⟨rfl, rfl, ?_⟩⟩
    intro next hn
    exact DragFluidCheck_first _ next hn (by norm_num)
  | true =>
    by_cases h2 : 0 ≤ s.oldTouchX
    · rw [DragFluidCheck_drag s props hd h2]
      exact ⟨by simp [h2], by simp, by simp⟩
    · rw [DragFluidCheck_first s props hd (not_le.mp h2)]
      exact ⟨by simp [h2], fun _ => ⟨rfl, rfl⟩, by simp⟩

theorem DragFluidCheck_active_iff_witness :
    (DragFluidCheck held3 idle).1.dragging = false ∧
      (DragFluidCheck held3 idle).1.oldTouchX = -1 ∧
      DragFluidCheck (DragFluidCheck held3 idle).1 swipe
        = ({ held3 with dragging := false, oldTouchX := swipe.TouchX,
                        oldTouchY := swipe.TouchY },
            { pushX := 0, pushY := 0, pushUX := 0, pushUY := 0 }) :=
  ⟨rfl, ((DragFluidCheck_active_iff held3 idle).2.2 rfl).1,
    ((DragFluidCheck_active_iff held3 idle).2.2 rfl).2.2 swipe rfl⟩

/-! ## Plotting -/

theorem plot5_wf : WellFormed plot5 := post5_wf

theorem limit_index (v n : Int) (hn : 0 ≤ n) :
    0 ≤ (if (if v < 0 then 0 else v) > n then n else (if v < 0 then 0 else v)) ∧
      (if (if v < 0 then 0 else v) > n then n else (if v < 0 then 0 else v)) ≤ n := by
  split_ifs <;> omega

/-- The palette index of a cell that is not a barrier site: some integer, passed through
the two tests that follow the conversion. -/
theorem plotIndex_fluid (sqrt : ℚ → ℚ) (s : Solver) (plotType x y : Int) (vr vx vy vc : ℚ)
    (eb : rd s.barrier (x + y * s.xdim) = some false)
    (er : rd s.rho (x + y * s.xdim) = some vr) (ex : rd s.ux (x + y * s.xdim) = some vx)
    (ey : rd s.uy (x + y * s.xdim) = some vy) (ec : rd s.curl (x + y * s.xdim) = some vc) :
    ∃ v : Int, plotIndex sqrt s plotType x y
      = some (if (if v < 0 then 0 else v) > s.nColors then s.nColors
          else (if v < 0 then 0 else v)) := by
  unfold plotIndex
  simp only [eb, andThen_some, Bool.false_eq_true, if_false]
  by_cases p0 : plotType = 0
  · simp only [p0, if_true, er, andThen_some]
    exact ⟨_, rfl⟩
  · by_cases p1 : plotType = 1
    · simp only [p1, if_true, ex, andThen_some]
      exact ⟨_, rfl⟩
    · by_cases p2 : plotType = 2
      · simp only [p2, if_true, ey, andThen_some]
        exact ⟨_, rfl⟩
      · by_cases p3 : plotType = 3
        · simp only [p3, if_true, ex, ey, andThen_some]
          exact ⟨_, rfl⟩
        · simp only [p0, p1, p2, p3, if_false, ec, andThen_some]
          exact ⟨_, rfl⟩

/-- The palette index of a cell: `nColors + 1` at a barrier site, and otherwise a value
that the two tests after the conversion keep between `0` and `nColors`. -/
theorem plotIndex_spec (sqrt : ℚ → ℚ) (s : Solver) (plotType x y : Int) (hwf : WellFormed s)
    (hn : 0 ≤ s.nColors) (hx : 0 ≤ x ∧ x < s.xdim) (hy : 0 ≤ y ∧ y < s.ydim) :
    ∃ b k, rd s.barrier (x + y * s.xdim) = some b ∧ plotIndex sqrt s plotType x y = some k ∧
      (b = true → k = s.nColors + 1) ∧ (b = false → 0 ≤ k ∧ k ≤ s.nColors) := by
  obtain ⟨h0, h1⟩ := idx_range hx.1 hx.2 hy.1 hy.2
  obtain ⟨_, _, _, ⟨_, _, _, _, _, _, _, _, _, a10, a11, a12, c1, c2⟩, _⟩ := hwf
  obtain ⟨b, eb⟩ := rd_ok (a := s.barrier) h0 (c2 ▸ h1)
  obtain ⟨vr, er⟩ := rd_ok (a := s.rho) h0 (a10 ▸ h1)
  obtain ⟨vx, ex⟩ := rd_ok (a := s.ux) h0 (a11 ▸ h1)
  obtain ⟨vy, ey⟩ := rd_ok (a := s.uy) h0 (a12 ▸ h1)
  obtain ⟨vc, ec⟩ := rd_ok (a := s.curl) h0 (c1 ▸ h1)
  cases b with
  | true =>
    refine ⟨true, s.nColors + 1, eb, ?_, fun _ => rfl, fun h => absurd h (by decide)⟩
    unfold plotIndex
    simp only [eb, andThen_some, if_true]
  | false =>
    obtain ⟨v, hv⟩ := plotIndex_fluid sqrt s plotType x y vr vx vy vc eb er ex ey ec
    exact ⟨false, _, eb, hv, fun h => absurd h (by decide), fun _ => limit_index v _ hn⟩

/-- Specification of `ComputeCurl` on a well-formed lattice: it succeeds and changes
nothing but entries of `curl`. -/
theorem ComputeCurl_spec {s : Solver} (hwf : WellFormed s) :
    ∃ c, ComputeCurl s = some { s with curl := c } ∧ c.length = s.curl.length := by
  obtain ⟨_, _, _, ⟨_, _, _, _, _, _, _, _, _, _, a11, a12, c1, _⟩, _⟩ := hwf
  unfold ComputeCurl
  rw [foldlM_nested (fun (st : Solver) (x y : Int) =>
    andThen (rd st.uy (x + 1 + y * s.xdim)) fun a =>
    andThen (rd st.uy (x - 1 + y * s.xdim)) fun b =>
    andThen (rd st.ux (x + (y + 1) * s.xdim)) fun c =>
    andThen (rd st.ux (x + (y - 1) * s.xdim)) fun e =>
    andThen (wr st.curl (x + y * s.xdim) (a - b - c + e)) fun curl =>
    some { st with curl := curl })]
  obtain ⟨s', hrun, c, hs', hc⟩ := foldlM_inv_mem
    (fun (st : Solver) (p : Int × Int) =>
      andThen (rd st.uy (p.1 + 1 + p.2 * s.xdim)) fun a =>
      andThen (rd st.uy (p.1 - 1 + p.2 * s.xdim)) fun b =>
      andThen (rd st.ux (p.1 + (p.2 + 1) * s.xdim)) fun c =>
      andThen (rd st.ux (p.1 + (p.2 - 1) * s.xdim)) fun e =>
      andThen (wr st.curl (p.1 + p.2 * s.xdim) (a - b - c + e)) fun curl =>
      some { st with curl := curl })
    (fun st => ∃ c, st = { s with curl := c } ∧ c.length = s.curl.length)
    ((upTo 1 (s.ydim - 1)).flatMap fun y => (upTo 1 (s.xdim - 1)).map fun x => (x, y))
    (by
      rintro ⟨x, y⟩ hp st ⟨c, rfl, hc⟩
      rw [mem_grid, mem_upTo, mem_upTo] at hp
      simp only at hp
      obtain ⟨k0, k1⟩ := idx_range (w := s.xdim) (h := s.ydim) (x := x) (y := y)
        (by omega) (by omega) (by omega) (by omega)
      obtain ⟨e0, e1⟩ := idx_range (w := s.xdim) (h := s.ydim) (x := x + 1) (y := y)
        (by omega) (by omega) (by omega) (by omega)
      obtain ⟨w0, w1⟩ := idx_range (w := s.xdim) (h := s.ydim) (x := x - 1) (y := y)
        (by omega) (by omega) (by omega) (by omega)
      obtain ⟨n0, n1⟩ := idx_range (w := s.xdim) (h := s.ydim) (x := x) (y := y + 1)
        (by omega) (by omega) (by omega) (by omega)
      obtain ⟨s0, s1⟩ := idx_range (w := s.xdim) (h := s.ydim) (x := x) (y := y - 1)
        (by omega) (by omega) (by omega) (by omega)
      obtain ⟨va, ea⟩ := rd_ok (a := s.uy) e0 (a12 ▸ e1)
      obtain ⟨vb, eb⟩ := rd_ok (a := s.uy) w0 (a12 ▸ w1)
      obtain ⟨vc, ec⟩ := rd_ok (a := s.ux) n0 (a11 ▸ n1)
      obtain ⟨ve, ee⟩ := rd_ok (a := s.ux) s0 (a11 ▸ s1)
      refine ⟨{ s with curl := c.set (x + y * s.xdim).toNat (va - vb - vc + ve) }, ?_,
        _, rfl, by rw [List.length_set, hc]⟩
      simp only [ea, eb, ec, ee, andThen_some, wr_ok _ k0 ((hc.trans c1) ▸ k1)])
    s ⟨s.curl, rfl, rfl⟩
  exact ⟨c, hrun.trans (congrArg some hs'), hc⟩

/-- The loop body of `PlotToImage` on a well-formed lattice with 256 colours and palette
lists of 258 entries: the index is 257 at a barrier site and lies between 0 and 256
elsewhere, and the three lookups succeed. -/
theorem plotPixel_spec (sqrt : ℚ → ℚ) (s : Solver) (plotType x y : Int)
    (hwf : WellFormed s) (hn : s.nColors = 256) (hr : s.redList.length = 258)
    (hg : s.greenList.length = 258) (hb : s.blueList.length = 258)
    (hx : 0 ≤ x ∧ x < s.xdim) (hy : 0 ≤ y ∧ y < s.ydim) :
    ∃ isBarrier cIndex r g b, rd s.barrier (x + y * s.xdim) = some isBarrier ∧
      plotIndex sqrt s plotType x y = some cIndex ∧
      (isBarrier = true → cIndex = 257) ∧
      (isBarrier = false → 0 ≤ cIndex ∧ cIndex ≤ 256) ∧
      rd s.redList cIndex = some r ∧ rd s.greenList cIndex = some g ∧
      rd s.blueList cIndex = some b ∧
      plotPixel sqrt s plotType x y
        = some { x := x, y := y, r := r % 256, g := g % 256, b := b % 256, a := 255 } := by
  obtain ⟨isB, k, eb, ek, h1, h2⟩ := plotIndex_spec sqrt s plotType x y hwf (by omega) hx hy
  rw [hn] at h1 h2
  have hk : 0 ≤ k ∧ k.toNat < 258 := by
    cases isB with
    | true =>
      have := h1 rfl
      omega
    | false =>
      have := h2 rfl
      omega
  obtain ⟨r, er⟩ := rd_ok (a := s.redList) hk.1 (hr ▸ hk.2)
  obtain ⟨g, eg⟩ := rd_ok (a := s.greenList) hk.1 (hg ▸ hk.2)
  obtain ⟨b, ebl⟩ := rd_ok (a := s.blueList) hk.1 (hb ▸ hk.2)
  refine ⟨isB, k, r, g, b, eb, ek, h1, h2, er, eg, ebl, ?_⟩
  unfold plotPixel
  simp only [ek, er, eg, ebl, andThen_some]

/-- The state `PlotToImage` plots: the curl is recomputed when `plotType = 4`. -/
theorem PlotToImage_state {s : Solver} (hwf : WellFormed s) (plotType : Int) :
    ∃ c, (if plotType = 4 then ComputeCurl s else some s) = some { s with curl := c } ∧
      WellFormed { s with curl := c } := by
  by_cases h : plotType = 4
  · obtain ⟨c, hrun, hc⟩ := ComputeCurl_spec hwf
    refine ⟨c, by rw [if_pos h, hrun], ?_⟩
    exact hwf.of_frameC rfl hwf.sized (hc.trans hwf.2.2.2.1.2.2.2.2.2.2.2.2.2.2.2.2.1)
  · exact ⟨s.curl, by rw [if_neg h], hwf⟩

/-- C20 (the palette index is clamped): on a well-formed lattice with `nColors = 256` and
palette lists of 258 entries, for every `plotType`, every square-root function and
whatever the field values, `PlotToImage` runs to its end, changing nothing but the curl;
for every cell of the grid the palette index it computes is 257 when the cell is a barrier
site and lies between 0 and 256 when it is not, and the three palette lookups at that
index are in bounds. -/
theorem PlotToImage_index_in_palette (sqrt : ℚ → ℚ) (s : Solver) (rgba : List Pixel)
    (plotType : Int) (hwf : WellFormed s) (hn : s.nColors = 256)
    (hr : s.redList.length = 258) (hg : s.greenList.length = 258)
    (hb : s.blueList.length = 258) :
    ∃ curl img, PlotToImage sqrt s rgba plotType = some ({ s with curl := curl }, img) ∧
      ∀ x y, (0 ≤ x ∧ x < s.xdim) → (0 ≤ y ∧ y < s.ydim) →
        ∃ isBarrier cIndex r g b, rd s.barrier (x + y * s.xdim) = some isBarrier ∧
          plotIndex sqrt { s with curl := curl } plotType x y = some cIndex ∧
          (isBarrier = true → cIndex = 257) ∧
          (isBarrier = false → 0 ≤ cIndex ∧ cIndex ≤ 256) ∧
          rd s.redList cIndex = some r ∧ rd s.greenList cIndex = some g ∧
          rd s.blueList cIndex = some b := by
  obtain ⟨c, hst, hwf1⟩ := PlotToImage_state hwf plotType
  have hcell := fun x y hx hy =>
    plotPixel_spec sqrt { s with curl := c } plotType x y hwf1 hn hr hg hb hx hy
  obtain ⟨img, hrun, _⟩ := foldlM_inv_mem
    (fun (img : List Pixel) (p : Int × Int) =>
      andThen (plotPixel sqrt { s with curl := c } plotType p.1 p.2) fun q => some (img ++ [q]))
    (fun _ => True)
    ((upTo 0 s.ydim).flatMap fun y => (upTo 0 s.xdim).map fun x => (x, y))
    (by
      rintro ⟨x, y⟩ hp img _
      rw [mem_grid, mem_upTo, mem_upTo] at hp
      obtain ⟨_, _, r, g, b, _, _, _, _, _, _, _, hq⟩ := hcell x y hp.1 hp.2
      exact ⟨img ++ [{ x := x, y := y, r := r % 256, g := g % 256, b := b % 256, a := 255 }],
        by simp only [hq, andThen_some], trivial⟩)
    rgba trivial
  refine ⟨c, img, ?_, ?_⟩
  · unfold PlotToImage
    rw [hst, andThen_some]
    simp only
    rw [foldlM_nested (fun (img : List Pixel) (x y : Int) =>
      andThen (plotPixel sqrt { s with curl := c } plotType x y) fun q => some (img ++ [q])),
      hrun, andThen_some]
  · intro x y hx hy
    obtain ⟨isB, k, r, g, b, h1, h2, h3, h4, h5, h6, h7, _⟩ := hcell x y hx hy
    exact ⟨isB, k, r, g, b, h1, h2, h3, h4, h5, h6, h7⟩

theorem PlotToImage_index_in_palette_witness :
    WellFormed plot5 ∧ plot5.nColors = 256 ∧ plot5.redList.length = 258 ∧
      plot5.greenList.length = 258 ∧ plot5.blueList.length = 258 ∧
      ∃ curl img, PlotToImage (fun q => q) plot5 [] 4 = some ({ plot5 with curl := curl }, img) ∧
        ∀ x y, (0 ≤ x ∧ x < plot5.xdim) → (0 ≤ y ∧ y < plot5.ydim) →
          ∃ isBarrier cIndex r g b, rd plot5.barrier (x + y * plot5.xdim) = some isBarrier ∧
            plotIndex (fun q => q) { plot5 with curl := curl } 4 x y = some cIndex ∧
            (isBarrier = true → cIndex = 257) ∧
            (isBarrier = false → 0 ≤ cIndex ∧ cIndex ≤ 256) ∧
            rd plot5.redList cIndex = some r ∧ rd plot5.greenList cIndex = some g ∧
            rd plot5.blueList cIndex = some b :=
  ⟨plot5_wf, rfl, List.length_replicate _ _, List.length_replicate _ _,
    List.length_replicate _ _,
    PlotToImage_index_in_palette (fun q => q) plot5 [] 4 plot5_wf rfl
      (List.length_replicate _ _) (List.length_replicate _ _) (List.length_replicate _ _)⟩

/-! ## Collision: the whole lattice -/

/-- One row of the outflow loop, cell by cell. -/
theorem outflowRow_cell {s : Solver} {n : Nat} (hs : Sized s n) (dim y : Int)
    (h0 : 0 ≤ dim - 2 + y * dim) (h1 : (dim - 1 + y * dim).toNat < n) :
    ∃ s', outflowRow dim s y = some s' ∧ Sized s' n ∧ frame s' = frame s ∧
      (∀ i, i ≠ dim - 1 + y * dim → cellAt s' i = cellAt s i) ∧
      ∀ c l, cellAt s (dim - 1 + y * dim) = some c → cellAt s (dim - 2 + y * dim) = some l →
        cellAt s' (dim - 1 + y * dim) = some (outflow c l) := by
  have k0 : 0 ≤ dim - 1 + y * dim := by omega
  have k1 : (dim - 2 + y * dim).toNat < n := toNat_lt_mono (by omega) h1
  obtain ⟨a1, a2, a3, a4, a5, a6, a7, a8, a9, a10, a11, a12⟩ := hs
  obtain ⟨v1, e1⟩ := rd_ok (a := s.nW) h0 (a5 ▸ k1)
  obtain ⟨v2, e2⟩ := rd_ok (a := s.nNW) h0 (a8 ▸ k1)
  obtain ⟨v3, e3⟩ := rd_ok (a := s.nSW) h0 (a9 ▸ k1)
  refine ⟨{ s with nW := s.nW.set (dim - 1 + y * dim).toNat v1,
                    nNW := s.nNW.set (dim - 1 + y * dim).toNat v2,
                    nSW := s.nSW.set (dim - 1 + y * dim).toNat v3 }, by
    simp only [outflowRow, e1, e2, e3, andThen_some, wr_ok _ k0 (a5 ▸ h1),
      wr_ok _ k0 (a8 ▸ h1), wr_ok _ k0 (a9 ▸ h1)], ?_, rfl, ?_, ?_⟩
  · simp only [Sized, List.length_set]
    exact ⟨a1, a2, a3, a4, a5, a6, a7, a8, a9, a10, a11, a12⟩
  · intro i hi
    have hne : 0 ≤ i → i.toNat ≠ (dim - 1 + y * dim).toNat := toNat_ne k0 hi
    simp only [cellAt, rd_set_other _ _ _ hne]
  · intro c l hc hl
    obtain ⟨c1, c2, c3, c4, _, c6, c7, _, _, c10, c11, c12⟩ := cellAt_some hc
    obtain ⟨_, _, _, _, l5, _, _, l8, l9, _, _, _⟩ := cellAt_some hl
    rw [e1] at l5
    rw [e2] at l8
    rw [e3] at l9
    cases Option.some.inj l5
    cases Option.some.inj l8
    cases Option.some.inj l9
    simp only [cellAt, c1, c2, c3, c4, c6, c7, c10, c11, c12, andThen_some,
      rd_set_same _ k0 (a5 ▸ h1), rd_set_same _ k0 (a8 ▸ h1), rd_set_same _ k0 (a9 ▸ h1)]
    rfl

/-- The last loop of `Collide`, cell by cell: at the right end of each of the rows
`1 .. ydim - 3` the three left-flowing densities become those of the cell to the left;
no other cell changes. -/
theorem outflow_copy {s : Solver} {n : Nat} (hs : Sized s n) (xdim ydim : Int)
    (hx : 2 ≤ xdim) (hn : n = (xdim * ydim).toNat) :
    ∃ s2, (upTo 1 (ydim - 2)).foldlM (fun st y => outflowRow xdim st y) s = some s2 ∧
      Sized s2 n ∧ frame s2 = frame s ∧
      (∀ i, (∀ y, 1 ≤ y → y ≤ ydim - 3 → i ≠ xdim - 1 + y * xdim) →
        cellAt s2 i = cellAt s i) ∧
      ∀ y, 1 ≤ y → y ≤ ydim - 3 → ∀ c l, cellAt s (xdim - 1 + y * xdim) = some c →
        cellAt s (xdim - 2 + y * xdim) = some l →
        cellAt s2 (xdim - 1 + y * xdim) = some (outflow c l) := by
  have hnd := upTo_nodup 1 (ydim - 2)
  have key := foldlM_inv (fun st y => outflowRow xdim st y)
    (fun pre st => Sized st n ∧ frame st = frame s ∧
      (∀ i, (∀ y ∈ pre, i ≠ xdim - 1 + y * xdim) → cellAt st i = cellAt s i) ∧
      ∀ y ∈ pre, ∀ c l, cellAt s (xdim - 1 + y * xdim) = some c →
        cellAt s (xdim - 2 + y * xdim) = some l →
        cellAt st (xdim - 1 + y * xdim) = some (outflow c l))
    (upTo 1 (ydim - 2))
    (by
      rintro pre j post st hT ⟨hsz, hfr, hout, hin⟩
      have hj : j ∈ upTo 1 (ydim - 2) := by rw [hT]; simp
      rw [mem_upTo] at hj
      rw [hT] at hnd
      have hjpre : ∀ y ∈ pre, y ≠ j := by
        intro y hy e
        have := (List.nodup_append.mp hnd).2.2
        exact this hy (by rw [e]; simp)
      obtain ⟨h0, h1⟩ := idx_range (w := xdim) (h := ydim) (x := xdim - 1) (y := j)
        (by omega) (by omega) (by omega) (by omega)
      have hy0 : 0 ≤ j * xdim := mul_nonneg (by omega) (by omega)
      obtain ⟨st', hb, hsz', hfr', ho', hi'⟩ := outflowRow_cell hsz xdim j (by omega) (hn ▸ h1)
      have hR : ∀ y ∈ pre, xdim - 1 + j * xdim ≠ xdim - 1 + y * xdim := by
        intro y hy e
        have := (idx_inj (d := xdim) (by omega) (by omega) e).2
        exact hjpre y hy this.symm
      have hL : ∀ y, xdim - 2 + j * xdim ≠ xdim - 1 + y * xdim := by
        intro y e
        have := (idx_inj (d := xdim) (by omega) (by omega) e).1
        omega
      refine ⟨st', hb, hsz', hfr'.trans hfr, ?_, ?_⟩
      · intro i hi
        rw [ho' i (hi j (by simp)), hout i (fun y hy => hi y (by simp [hy]))]
      · intro y hy c l hc hl
        rcases List.mem_append.mp hy with hy | hy
        · rw [ho' _ (fun e => hR y hy e.symm)]
          exact hin y hy c l hc hl
        · rw [List.mem_singleton] at hy
          subst hy
          exact hi' c l ((hout _ hR).trans hc) ((hout _ (fun y _ => hL y)).trans hl))
    s ⟨hs, rfl, fun _ _ => rfl, fun y hy => absurd hy (by simp)⟩
  obtain ⟨s2, hrun, hsz, hfr, hout, hin⟩ := key
  refine ⟨s2, hrun, hsz, hfr, ?_, ?_⟩
  · intro i hi
    exact hout i (fun y hy => hi y (mem_upTo.mp hy).1 (by have := (mem_upTo.mp hy).2; omega))
  · intro y h1 h2 c l hc hl
    exact hin y (mem_upTo.mpr ⟨h1, by omega⟩) c l hc hl

/-- Specification of `Collide` on the whole lattice.  It succeeds on a well-formed
lattice and changes nothing but the twelve per-cell slices.  Every interior cell is
relaxed toward its own equilibrium.  At the right end of each of the rows `1 .. ydim - 3`
the three left-flowing densities become those the cell to the left has after the
collision.  No other cell changes. -/
theorem Collide_full {s : Solver} (hwf : WellFormed s) (hx : 2 ≤ s.xdim) :
    ∃ s', Collide s = some s' ∧ WellFormed s' ∧ frame s' = frame s ∧
      (∀ x y, 1 ≤ x → x ≤ s.xdim - 2 → 1 ≤ y → y ≤ s.ydim - 2 →
        cellAt s' (x + y * s.xdim)
          = (cellAt s (x + y * s.xdim)).map (relax (1.0 / (3 * s.flowVisc + 0.5)))) ∧
      (∀ y, 1 ≤ y → y ≤ s.ydim - 3 → ∀ c l, cellAt s (s.xdim - 1 + y * s.xdim) = some c →
        cellAt s' (s.xdim - 2 + y * s.xdim) = some l →
        cellAt s' (s.xdim - 1 + y * s.xdim) = some (outflow c l)) ∧
      (∀ x y, (x = 0 ∨ x = s.xdim - 1 ∨ y = 0 ∨ y = s.ydim - 1) →
        (x = s.xdim - 1 → y < 1 ∨ s.ydim - 3 < y) → (0 ≤ x ∧ x < s.xdim) →
        cellAt s' (x + y * s.xdim) = cellAt s (x + y * s.xdim)) := by
  obtain ⟨s1, hrun1, hs1, hf1, hin, hout1⟩ := Collide_sites hwf (1.0 / (3 * s.flowVisc + 0.5))
  obtain ⟨s2, hrun2, hs2, hf2, hout2, hcp⟩ := outflow_copy hs1 s.xdim s.ydim hx rfl
  have hnotR : ∀ x y, 0 ≤ x → x ≤ s.xdim - 2 → ∀ y', x + y * s.xdim ≠ s.xdim - 1 + y' * s.xdim := by
    intro x y h0 h1 y' e
    have := (idx_inj (d := s.xdim) (by omega) (by omega) e).1
    omega
  have hnotI : ∀ x y, (x = 0 ∨ x = s.xdim - 1 ∨ y = 0 ∨ y = s.ydim - 1) → (0 ≤ x ∧ x < s.xdim) →
      ∀ x' y', 1 ≤ x' → x' ≤ s.xdim - 2 → 1 ≤ y' → y' ≤ s.ydim - 2 →
        x + y * s.xdim ≠ x' + y' * s.xdim := by
    intro x y hb hxr x' y' a1 a2 a3 a4 e
    have := idx_inj (d := s.xdim) hxr (by omega) e
    omega
  refine ⟨s2, by simp only [Collide, hrun1, andThen_some, hrun2],
    hwf.of_frame (hf2.trans hf1) hs2, hf2.trans hf1, ?_, ?_, ?_⟩
  · intro x y hx1 hx2 hy1 hy2
    rw [← hin x y hx1 hx2 hy1 hy2]
    exact hout2 _ (fun y' _ _ => hnotR x y (by omega) hx2 y')
  · intro y hy1 hy2 c l hc hl
    refine hcp y hy1 hy2 c l ?_ ?_
    · rw [hout1 _ (hnotI (s.xdim - 1) y (Or.inr (Or.inl rfl)) (by omega))]
      exact hc
    · rw [← hout2 _ (fun y' _ _ => hnotR (s.xdim - 2) y (by omega) (by omega) y')]
      exact hl
  · intro x y hb hedge hxr
    rw [hout2, hout1 _ (hnotI x y hb hxr)]
    intro y' h1 h2 e
    have := idx_inj (d := s.xdim) hxr (by omega) e
    omega

/-! ## The operations of a frame, one by one -/

theorem CollideThreaded_eq (s : Solver) : CollideThreaded s = Collide s := rfl

theorem StreamThreaded_eq (s : Solver) : StreamThreaded s = Stream s := rfl

theorem relax_balanced (omega : ℚ) (c : Cell) : (relax omega c).rho = (relax omega c).mass := by
  rw [relax_mass]
  simp only [relax, Cell.mass]
  ring

theorem Inlet.of_column {s s' : Solver} (hwf : WellFormed s) (hi : Inlet s)
    (ex : s'.xdim = s.xdim) (ey : s'.ydim = s.ydim) (ev : s'.flowVel = s.flowVel)
    (hc : ∀ y, 0 ≤ y → y < s.ydim → cellAt s' (0 + y * s.xdim) = cellAt s (0 + y * s.xdim)) :
    Inlet s' := by
  intro y h0 h1
  rw [ex, ev]
  rw [ey] at h1
  obtain ⟨k0, k1⟩ := idx_range (w := s.xdim) (h := s.ydim) (x := 0) (y := y)
    le_rfl hwf.1 h0 h1
  obtain ⟨c, hcs⟩ := cellAt_ok hwf.sized k0 k1
  have hcs' := (hc y h0 h1).trans hcs
  have a := cellAt_some hcs
  have b := cellAt_some hcs'
  rw [b.2.2.2.2.2.2.2.2.2.2.1, b.2.2.2.2.2.2.2.2.2.2.2, ← a.2.2.2.2.2.2.2.2.2.2.1,
    ← a.2.2.2.2.2.2.2.2.2.2.2]
  exact hi y h0 h1

theorem Inlet.of_lists {s s' : Solver} (hi : Inlet s)
    (ex : s'.xdim = s.xdim) (ey : s'.ydim = s.ydim) (ev : s'.flowVel = s.flowVel)
    (eux : s'.ux = s.ux) (euy : s'.uy = s.uy) : Inlet s' := by
  intro y h0 h1
  rw [ex, ev, eux, euy]
  rw [ey] at h1
  exact hi y h0 h1

theorem Balanced.of_cells {s s' : Solver} (hb : Balanced s)
    (ex : s'.xdim = s.xdim) (ey : s'.ydim = s.ydim)
    (hc : ∀ x y, 1 ≤ x → x ≤ s.xdim - 2 → 1 ≤ y → y ≤ s.ydim - 2 →
      cellAt s' (x + y * s.xdim) = cellAt s (x + y * s.xdim) ∨
      ∃ c, cellAt s' (x + y * s.xdim) = some c ∧ c.rho = c.mass) : Balanced s' := by
  intro x y hx1 hx2 hy1 hy2
  rw [ex] at hx2 ⊢
  rw [ey] at hy2
  rcases hc x y hx1 hx2 hy1 hy2 with h | h
  · rw [h]
    exact hb x y hx1 hx2 hy1 hy2
  · exact h

/-- Specification of `SetBoundaries` on a well-formed lattice: every border cell becomes
the inlet equilibrium, every interior cell is as before. -/
theorem SetBoundaries_spec {s : Solver} (hwf : WellFormed s) :
    ∃ s', SetBoundaries s = some s' ∧ WellFormed s' ∧ frame s' = frame s ∧
      (∀ x y, 0 ≤ x → x < s.xdim → 0 ≤ y → y < s.ydim →
        (x = 0 ∨ x = s.xdim - 1 ∨ y = 0 ∨ y = s.ydim - 1) →
        cellAt s' (x + y * s.xdim) = some (equilibrium s.flowVel 0 1)) ∧
      (∀ x y, 1 ≤ x → x ≤ s.xdim - 2 → 1 ≤ y → y ≤ s.ydim - 2 →
        cellAt s' (x + y * s.xdim) = cellAt s (x + y * s.xdim)) := by
  have hxd : 0 < s.xdim := hwf.1
  have hyd : 0 < s.ydim := hwf.2.1
  have hT : ∀ p ∈ (((upTo 0 s.xdim).flatMap fun x => [(x, (0 : Int)), (x, s.ydim - 1)]) ++
      ((upTo 1 (s.ydim - 1)).flatMap fun y => [((0 : Int), y), (s.xdim - 1, y)])),
      (0 ≤ p.1 ∧ p.1 < s.xdim) ∧ (0 ≤ p.2 ∧ p.2 < s.ydim) := by
    intro p hp
    rw [List.mem_append, mem_pairs, mem_pairs] at hp
    rcases hp with ⟨x, hx, rfl | rfl⟩ | ⟨y, hy, rfl | rfl⟩ <;> rw [mem_upTo] at * <;>
      simp only <;> omega
  obtain ⟨s', hrun, hwf', hfr, hin, hout⟩ :=
    SetEquilibrium_loop hwf s.flowVel 0 1 (by norm_num) _ hT
  refine ⟨s', (SetBoundaries_eq s).trans hrun, hwf', hfr, ?_, ?_⟩
  · intro x y hx0 hx1 hy0 hy1 hb
    refine hin (x, y) ?_
    rw [List.mem_append, mem_pairs, mem_pairs]
    by_cases hy : y = 0 ∨ y = s.ydim - 1
    · exact Or.inl ⟨x, mem_upTo.mpr ⟨hx0, hx1⟩, by
        rcases hy with rfl | rfl
        · exact Or.inl rfl
        · exact Or.inr rfl⟩
    · have hxb : x = 0 ∨ x = s.xdim - 1 := by omega
      exact Or.inr ⟨y, mem_upTo.mpr (by omega), by
        rcases hxb with rfl | rfl
        · exact Or.inl rfl
        · exact Or.inr rfl⟩
  · intro x y hx1 hx2 hy1 hy2
    apply hout
    intro p hp e
    obtain ⟨hpx, _⟩ := hT p hp
    obtain ⟨e1, e2⟩ := idx_inj (d := s.xdim) (by omega) hpx e
    rw [List.mem_append, mem_pairs, mem_pairs] at hp
    rcases hp with ⟨x', hx', rfl | rfl⟩ | ⟨y', hy', rfl | rfl⟩ <;> simp only at e1 e2 <;> omega

theorem SetBoundaries_step {s : Solver} (hwf : WellFormed s) :
    ∃ s', SetBoundaries s = some s' ∧ WellFormed s' ∧ frame s' = frame s ∧ Inlet s' ∧
      (Balanced s → Balanced s') := by
  obtain ⟨s', hrun, hwf', hfr, hbd, hin⟩ := SetBoundaries_spec hwf
  have ex : s'.xdim = s.xdim := frame_get Solver.xdim rfl rfl hfr
  have ey : s'.ydim = s.ydim := frame_get Solver.ydim rfl rfl hfr
  have ev : s'.flowVel = s.flowVel := frame_get Solver.flowVel rfl rfl hfr
  refine ⟨s', hrun, hwf', hfr, ?_, ?_⟩
  · intro y h0 h1
    rw [ex, ev]
    rw [ey] at h1
    have a := cellAt_some (hbd 0 y le_rfl hwf.1 h0 h1 (Or.inl rfl))
    exact ⟨a.2.2.2.2.2.2.2.2.2.2.1, a.2.2.2.2.2.2.2.2.2.2.2⟩
  · intro hb
    exact hb.of_cells ex ey (fun x y a b c d => Or.inl (hin x y a b c d))

theorem Collide_step {s : Solver} (hwf : WellFormed s) (hx : 2 ≤ s.xdim) :
    ∃ s', Collide s = some s' ∧ WellFormed s' ∧ frame s' = frame s ∧ (Inlet s → Inlet s') ∧
      Balanced s' := by
  obtain ⟨s', hrun, hwf', hfr, hin, _, hout⟩ := Collide_full hwf hx
  have ex : s'.xdim = s.xdim := frame_get Solver.xdim rfl rfl hfr
  have ey : s'.ydim = s.ydim := frame_get Solver.ydim rfl rfl hfr
  have ev : s'.flowVel = s.flowVel := frame_get Solver.flowVel rfl rfl hfr
  refine ⟨s', hrun, hwf', hfr, ?_, ?_⟩
  · intro hi
    exact hi.of_column hwf ex ey ev (fun y _ _ => hout 0 y (Or.inl rfl) (by omega) (by omega))
  · intro x y hx1 hx2 hy1 hy2
    rw [ex] at hx2 ⊢
    rw [ey] at hy2
    obtain ⟨k0, k1⟩ := idx_range (w := s.xdim) (h := s.ydim) (x := x) (y := y)
      (by omega) (by omega) (by omega) (by omega)
    obtain ⟨c, hc⟩ := cellAt_ok hwf.sized k0 k1
    refine ⟨relax (1.0 / (3 * s.flowVisc + 0.5)) c, ?_, relax_balanced _ _⟩
    rw [hin x y hx1 hx2 hy1 hy2, hc]
    rfl

theorem Stream_step {s : Solver} (hwf : WellFormed s) :
    ∃ s', Stream s = some s' ∧ WellFormed s' ∧ quiet s' = quiet s ∧ (Inlet s → Inlet s') := by
  obtain ⟨s', hrun, hwf', hq, _⟩ := Stream_full hwf
  exact ⟨s', hrun, hwf', hq, fun hi => hi.of_lists (quiet_get Solver.xdim rfl rfl hq)
    (quiet_get Solver.ydim rfl rfl hq) (quiet_get Solver.flowVel rfl rfl hq)
    (quiet_get Solver.ux rfl rfl hq) (quiet_get Solver.uy rfl rfl hq)⟩

theorem DragFluid_step {s : Solver} (hwf : WellFormed s) (pushX pushY : Int)
    (pushUX pushUY : ℚ) :
    ∃ s', DragFluid s pushX pushY pushUX pushUY = some s' ∧ WellFormed s' ∧
      frame s' = frame s ∧ (Inlet s → Inlet s') ∧ (Balanced s → Balanced s') := by
  by_cases hm : (3 < pushX ∧ pushX < s.xdim - 4) ∧ (3 < pushY ∧ pushY < s.ydim - 4)
  · obtain ⟨s', hrun, hwf', hfr, hin, hout⟩ :=
      DragFluid_spec hwf pushX pushY pushUX pushUY hm.1 hm.2
    have ex : s'.xdim = s.xdim := frame_get Solver.xdim rfl rfl hfr
    have ey : s'.ydim = s.ydim := frame_get Solver.ydim rfl rfl hfr
    have ev : s'.flowVel = s.flowVel := frame_get Solver.flowVel rfl rfl hfr
    refine ⟨s', hrun, hwf', hfr, ?_, ?_⟩
    · intro hi
      refine hi.of_column hwf ex ey ev (fun y _ _ => hout _ ?_)
      intro x' y' hd e
      unfold inDisc at hd
      have := (idx_inj (d := s.xdim) ⟨le_rfl, hwf.1⟩ (by omega) e).1
      omega
    · intro hb
      refine hb.of_cells ex ey ?_
      intro x y hx1 hx2 hy1 hy2
      by_cases hd : inDisc pushX pushY x y
      · right
        obtain ⟨k0, k1⟩ := idx_range (w := s.xdim) (h := s.ydim) (x := x) (y := y)
          (by omega) (by omega) (by omega) (by omega)
        obtain ⟨c, hc⟩ := cellAt_ok hwf.sized k0 k1
        refine ⟨push pushUX pushUY c, by rw [hin x y hd, hc]; rfl, ?_⟩
        exact (equilibrium_mass _ _ _).symm
      · left
        apply hout
        intro x' y' hd' e
        have hr : 0 ≤ x' ∧ x' < s.xdim := by
          unfold inDisc at hd'
          omega
        obtain ⟨e1, e2⟩ := idx_inj (d := s.xdim) (by omega) hr e
        subst e1 e2
        exact hd hd'
  · refine ⟨s, ?_, hwf, rfl, id, id⟩
    unfold DragFluid
    simp only
    rw [if_neg (by omega)]

theorem CheckFlowStability_step {s : Solver} (hwf : WellFormed s) :
    ∃ s', CheckFlowStability s = some s' ∧ WellFormed s' ∧ frameC s' = frameC s ∧
      (Inlet s → Inlet s') ∧ (Balanced s → Balanced s') := by
  by_cases h : ∃ x, 0 ≤ x ∧ x < s.xdim ∧
      ∃ r, rd s.rho (x + s.ydim.tdiv 2 * s.xdim) = some r ∧ r ≤ 0
  · obtain ⟨s', hrun, hwf', hfr, hcell⟩ := InitFluid_spec hwf
    have ex : s'.xdim = s.xdim := frameC_get Solver.xdim rfl rfl hfr
    have ey : s'.ydim = s.ydim := frameC_get Solver.ydim rfl rfl hfr
    have ev : s'.flowVel = s.flowVel := frameC_get Solver.flowVel rfl rfl hfr
    refine ⟨s', ((CheckFlowStability_eq hwf).1 h).trans hrun, hwf', hfr, ?_, ?_⟩
    · intro _ y h0 h1
      rw [ex, ev]
      rw [ey] at h1
      have a := cellAt_some (hcell 0 y le_rfl hwf.1 h0 h1).1
      exact ⟨a.2.2.2.2.2.2.2.2.2.2.1, a.2.2.2.2.2.2.2.2.2.2.2⟩
    · intro _ x y hx1 hx2 hy1 hy2
      rw [ex] at hx2 ⊢
      rw [ey] at hy2
      exact ⟨_, (hcell x y (by omega) (by omega) (by omega) (by omega)).1,
        (equilibrium_mass _ _ _).symm⟩
  · exact ⟨s, (CheckFlowStability_eq hwf).2 h, hwf, rfl, id, id⟩

/-! ## A frame -/

/-- In the solver `DragFluidCheck` changes nothing but `dragging` and the stored pointer
position. -/
theorem DragFluidCheck_lattice (s : Solver) (props : AppProperties) :
    ∃ d ox oy, (DragFluidCheck s props).1
      = { s with dragging := d, oldTouchX := ox, oldTouchY := oy } := by
  cases hd : props.TouchDrag with
  | false =>
    rw [DragFluidCheck_idle s props hd]
    exact ⟨_, _, _, rfl⟩
  | true =>
    by_cases h2 : 0 ≤ s.oldTouchX
    · rw [DragFluidCheck_drag s props hd h2]
      exact ⟨_, _, _, rfl⟩
    · rw [DragFluidCheck_first s props hd (not_le.mp h2)]
      exact ⟨_, _, _, rfl⟩

/-- One pass of the loop of `Simulate` on a well-formed lattice: it succeeds, keeps the
lattice well-formed and its parameters, and keeps the inlet column at the inlet
velocity. -/
theorem subStep_step {s : Solver} (hwf : WellFormed s) (hx : 2 ≤ s.xdim)
    (drag : DragFluidProperties) :
    ∃ s', subStep drag s = some s' ∧ WellFormed s' ∧ s'.xdim = s.xdim ∧ s'.ydim = s.ydim ∧
      s'.flowVel = s.flowVel ∧ (Inlet s → Inlet s') := by
  obtain ⟨s1, hrun1, hwf1, hf1, hi1, _⟩ := Collide_step hwf hx
  obtain ⟨s2, hrun2, hwf2, hq2, hi2⟩ := Stream_step hwf1
  have ex : s2.xdim = s.xdim :=
    (quiet_get Solver.xdim rfl rfl hq2).trans (frame_get Solver.xdim rfl rfl hf1)
  have ey : s2.ydim = s.ydim :=
    (quiet_get Solver.ydim rfl rfl hq2).trans (frame_get Solver.ydim rfl rfl hf1)
  have ev : s2.flowVel = s.flowVel :=
    (quiet_get Solver.flowVel rfl rfl hq2).trans (frame_get Solver.flowVel rfl rfl hf1)
  have hstart : subStep drag s = andThen (if s2.dragging then
      DragFluid s2 drag.pushX drag.pushY drag.pushUX drag.pushUY else some s2) fun s =>
      some { s with time := s.time + 1 } := by
    unfold subStep
    rw [CollideThreaded_eq, hrun1, andThen_some, StreamThreaded_eq, hrun2, andThen_some]
  obtain ⟨s3, hrun3, hwf3, hf3, hi3⟩ : ∃ s3, (if s2.dragging then
      DragFluid s2 drag.pushX drag.pushY drag.pushUX drag.pushUY else some s2) = some s3 ∧
      WellFormed s3 ∧ frame s3 = frame s2 ∧ (Inlet s2 → Inlet s3) := by
    by_cases hd : s2.dragging = true
    · obtain ⟨s3, h3, hw3, hfr3, hin3, _⟩ :=
        DragFluid_step hwf2 drag.pushX drag.pushY drag.pushUX drag.pushUY
      exact ⟨s3, by rw [if_pos hd]; exact h3, hw3, hfr3, hin3⟩
    · exact ⟨s2, by rw [if_neg hd], hwf2, rfl, id⟩
  refine ⟨{ s3 with time := s3.time + 1 }, by rw [hstart, hrun3, andThen_some], hwf3,
    (frame_get Solver.xdim rfl rfl hf3).trans ex, (frame_get Solver.ydim rfl rfl hf3).trans ey,
    (frame_get Solver.flowVel rfl rfl hf3).trans ev, fun hi => hi3 (hi2 (hi1 hi))⟩

/-! ## The row goroutines of `StreamThreaded`, access by access -/

theorem quiet_setDens (s : Solver) (d : Dir) (a : List ℚ) : quiet (setDens s d a) = quiet s := by
  cases d <;> rfl

theorem dens_setDens_length {s : Solver} {n : Nat} (hl : ∀ d, (dens s d).length = n) (d : Dir)
    {a : List ℚ} (ha : a.length = n) : ∀ d', (dens (setDens s d a) d').length = n := by
  intro d'
  have hN := hl .N
  have hS := hl .S
  have hE := hl .E
  have hW := hl .W
  have hNE := hl .NE
  have hSE := hl .SE
  have hNW := hl .NW
  have hSW := hl .SW
  cases d <;> cases d' <;> simp only [setDens, dens] <;> assumption

theorem dens_length_of {s t : Solver} {n : Nat} (hl : ∀ d, (dens s d).length = n)
    (e : ∀ d, dens t d = dens s d) : ∀ d, (dens t d).length = n := by
  intro d
  rw [e d]
  exact hl d

/-- A step of a goroutine within the slices succeeds; it changes nothing of the solver but
moving densities and accumulators, and keeps the lengths of the slices. -/
theorem Micro.exec_ok (m : Micro) {s : Solver} {n : Nat} (r : Regs) (hr : m.InRange n)
    (hl : ∀ d, (dens s d).length = n) :
    ∃ s' r', m.exec s r = some (s', r') ∧ quiet s' = quiet s ∧
      ∀ d, (dens s' d).length = n := by
  cases m with
  | load d i =>
    obtain ⟨v, hv⟩ := rd_ok (a := dens s d) hr.1 (by rw [hl d]; exact hr.2)
    exact ⟨s, { r with reg := v }, by simp only [Micro.exec, hv, andThen_some], rfl, hl⟩
  | store d i =>
    have hw := wr_ok (a := dens s d) r.reg hr.1 (by rw [hl d]; exact hr.2)
    exact ⟨setDens s d ((dens s d).set i.toNat r.reg), r,
      by simp only [Micro.exec, hw, andThen_some], quiet_setDens _ _ _,
      dens_setDens_length hl d (by rw [List.length_set, hl d])⟩
  | plus d i =>
    obtain ⟨v, hv⟩ := rd_ok (a := dens s d) hr.1 (by rw [hl d]; exact hr.2)
    exact ⟨s, { r with acc := r.acc + v }, by simp only [Micro.exec, hv, andThen_some],
      rfl, hl⟩
  | minus d i =>
    obtain ⟨v, hv⟩ := rd_ok (a := dens s d) hr.1 (by rw [hl d]; exact hr.2)
    exact ⟨s, { r with acc := r.acc - v }, by simp only [Micro.exec, hv, andThen_some],
      rfl, hl⟩
  | getCount => exact ⟨s, _, rfl, rfl, hl⟩
  | putCount => exact ⟨_, r, rfl, rfl, dens_length_of hl (fun d => by cases d <;> rfl)⟩
  | getXSum => exact ⟨s, _, rfl, rfl, hl⟩
  | putXSum x => exact ⟨_, r, rfl, rfl, dens_length_of hl (fun d => by cases d <;> rfl)⟩
  | getYSum => exact ⟨s, _, rfl, rfl, hl⟩
  | putYSum y => exact ⟨_, r, rfl, rfl, dens_length_of hl (fun d => by cases d <;> rfl)⟩
  | getFx => exact ⟨s, _, rfl, rfl, hl⟩
  | getFy => exact ⟨s, _, rfl, rfl, hl⟩
  | putFx => exact ⟨_, r, rfl, rfl, dens_length_of hl (fun d => by cases d <;> rfl)⟩
  | putFy => exact ⟨_, r, rfl, rfl, dens_length_of hl (fun d => by cases d <;> rfl)⟩

theorem microStep_ok {b : Solver} {n : Nat} {st : Solver × List Worker}
    (h : Racing b n st) (k : Nat) :
    ∃ st', microStep st k = some st' ∧ Racing b n st' := by
  obtain ⟨hq, hl, hin⟩ := h
  unfold microStep
  cases hk : st.2[k]? with
  | none => exact ⟨st, rfl, hq, hl, hin⟩
  | some w =>
    have hw : w ∈ st.2 := List.getElem?_mem hk
    cases ht : w.todo with
    | nil =>
      simp only [ht]
      exact ⟨st, rfl, hq, hl, hin⟩
    | cons m rest =>
      simp only [ht]
      have hm : m.InRange n := hin w hw m (by rw [ht]; simp)
      obtain ⟨s', r', he, hq', hl'⟩ := Micro.exec_ok m w.regs hm hl
      refine ⟨_, by rw [he, andThen_some], hq'.trans hq, hl', ?_⟩
      intro v hv m' hm'
      rcases List.mem_or_eq_of_mem_set hv with hv | hv
      · exact hin v hv m' hm'
      · rw [hv] at hm'
        exact hin w hw m' (by rw [ht]; exact List.mem_cons_of_mem _ hm')

/-- Every schedule runs to its end. -/
theorem runSchedule_ok {b : Solver} {n : Nat} (sched : List Nat) :
    ∀ st : Solver × List Worker, Racing b n st →
      ∃ st', runSchedule sched st = some st' ∧ Racing b n st' := by
  induction sched with
  | nil => exact fun st h => ⟨st, rfl, h⟩
  | cons k sched ih =>
    intro st h
    obtain ⟨st1, h1, hr1⟩ := microStep_ok h k
    obtain ⟨st', h2, hr2⟩ := ih st1 hr1
    refine ⟨st', ?_, hr2⟩
    unfold runSchedule at h2 ⊢
    rw [List.foldlM_cons, h1]
    exact h2

theorem siteProgram_inRange {dim h x y : Int} (hx : 1 ≤ x ∧ x ≤ dim - 2)
    (hy : 1 ≤ y ∧ y ≤ h - 2) : ∀ m ∈ siteProgram dim x y, m.InRange (dim * h).toNat := by
  have c := idx_range (w := dim) (h := h) (x := x) (y := y)
    (by omega) (by omega) (by omega) (by omega)
  have e := idx_range (w := dim) (h := h) (x := x + 1) (y := y)
    (by omega) (by omega) (by omega) (by omega)
  have w := idx_range (w := dim) (h := h) (x := x - 1) (y := y)
    (by omega) (by omega) (by omega) (by omega)
  have n := idx_range (w := dim) (h := h) (x := x) (y := y + 1)
    (by omega) (by omega) (by omega) (by omega)
  have s := idx_range (w := dim) (h := h) (x := x) (y := y - 1)
    (by omega) (by omega) (by omega) (by omega)
  have ne := idx_range (w := dim) (h := h) (x := x + 1) (y := y + 1)
    (by omega) (by omega) (by omega) (by omega)
  have nw := idx_range (w := dim) (h := h) (x := x - 1) (y := y + 1)
    (by omega) (by omega) (by omega) (by omega)
  have se := idx_range (w := dim) (h := h) (x := x + 1) (y := y - 1)
    (by omega) (by omega) (by omega) (by omega)
  have sw := idx_range (w := dim) (h := h) (x := x - 1) (y := y - 1)
    (by omega) (by omega) (by omega) (by omega)
  intro m hm
  simp only [siteProgram, List.mem_cons, List.mem_singleton, List.not_mem_nil, or_false] at hm
  rcases hm with rfl | rfl | rfl | rfl | rfl | rfl | rfl | rfl | rfl | rfl | rfl | rfl | rfl |
    rfl | rfl | rfl | rfl | rfl | rfl | rfl | rfl | rfl | rfl | rfl | rfl | rfl |
    rfl | rfl | rfl | rfl | rfl | rfl | rfl | rfl | rfl | rfl | rfl | rfl
  all_goals first
    | exact c | exact e | exact w | exact n | exact s | exact ne | exact nw | exact se
    | exact sw | exact True.intro

/-- The goroutine of an interior row has a program, and all of its steps are within the
slices. -/
theorem rowProgram_ok {s : Solver} {n : Nat} (hn : n = (s.xdim * s.ydim).toNat)
    (hb : s.barrier.length = n) {y : Int} (hy : 1 ≤ y ∧ y ≤ s.ydim - 2) :
    ∃ prog, rowProgram s y = some prog ∧ ∀ m ∈ prog, m.InRange n := by
  unfold rowProgram
  exact foldlM_inv_mem _ (fun prog : List Micro => ∀ m ∈ prog, m.InRange n) _
    (by
      intro x hx prog hp
      rw [mem_upTo] at hx
      obtain ⟨k0, k1⟩ := idx_range (w := s.xdim) (h := s.ydim) (x := x) (y := y)
        (by omega) (by omega) (by omega) (by omega)
      obtain ⟨b, hb'⟩ := rd_ok (a := s.barrier) k0 (by rw [hb, hn]; exact k1)
      refine ⟨_, by rw [hb', andThen_some], ?_⟩
      cases b with
      | false => exact hp
      | true =>
        intro m hm
        rw [if_pos rfl] at hm
        rcases List.mem_append.mp hm with hm | hm
        · exact hp m hm
        · rw [hn]
          exact siteProgram_inRange ⟨hx.1, by omega⟩ hy m hm)
    [] (fun m hm => absurd hm (by simp))

theorem rowWorkers_ok {s : Solver} {n : Nat} (hn : n = (s.xdim * s.ydim).toNat)
    (hb : s.barrier.length = n) :
    ∃ ws, rowWorkers s = some ws ∧ ∀ w ∈ ws, ∀ m ∈ w.todo, m.InRange n := by
  unfold rowWorkers
  exact foldlM_inv_mem _ (fun ws : List Worker => ∀ w ∈ ws, ∀ m ∈ w.todo, m.InRange n) _
    (by
      intro y hy ws hws
      rw [mem_upTo] at hy
      obtain ⟨prog, hp, hin⟩ := rowProgram_ok hn hb (y := y) ⟨hy.1, by omega⟩
      refine ⟨_, by rw [hp, andThen_some], ?_⟩
      intro w hw
      rcases List.mem_append.mp hw with hw | hw
      · exact hws w hw
      · rw [List.mem_singleton] at hw
        rw [hw]
        exact hin)
    [] (fun w hw => absurd hw (by simp))

theorem sweeps_assoc {β : Type} (a : Solver) (k : Solver → Option β) :
    (andThen (streamNW a) fun s1 => andThen (streamNE s1) fun s2 =>
      andThen (streamSE s2) fun s3 => andThen (streamSW s3) k)
      = andThen (andThen (streamNW a) fun s1 => andThen (streamNE s1) fun s2 =>
          andThen (streamSE s2) fun s3 => streamSW s3) k := by
  cases streamNW a with
  | none => rfl
  | some s1 =>
    simp only [andThen_some]
    cases streamNE s1 with
    | none => rfl
    | some s2 =>
      simp only [andThen_some]
      cases streamSE s2 with
      | none => rfl
      | some s3 => rfl

/-- Under every schedule of its row goroutines `StreamThreaded` runs to its end on a
well-formed lattice, and touches nothing but the eight moving densities and the force
accumulators. -/
theorem StreamThreadedUnder_step (sched : List Nat) {s : Solver} (hwf : WellFormed s) :
    ∃ s', StreamThreadedUnder sched s = some s' ∧ WellFormed s' ∧ quiet s' = quiet s ∧
      (Inlet s → Inlet s') := by
  have hl0 : ∀ d, (dens (resetForce s) d).length = (s.xdim * s.ydim).toNat := by
    intro d
    have : dens (resetForce s) d = dens s d := by cases d <;> rfl
    rw [this]
    exact hwf.dens_length d
  obtain ⟨s4, hrun4, hst, h4⟩ := sweeps_spec (resetForce s) _ rfl hl0
  have hq4 : quiet s4 = quiet s := by
    have h1 : quiet s4 = quiet (resetForce s) := by
      unfold quiet
      rw [hst]
    exact h1
  have ex : s4.xdim = s.xdim := quiet_get Solver.xdim rfl rfl hq4
  have ey : s4.ydim = s.ydim := quiet_get Solver.ydim rfl rfl hq4
  have eb : s4.barrier = s.barrier := quiet_get Solver.barrier rfl rfl hq4
  obtain ⟨ws, hws, hin⟩ := rowWorkers_ok (s := s4) (n := (s.xdim * s.ydim).toNat)
    (by rw [ex, ey]) (by rw [eb]; exact hwf.2.2.2.1.2.2.2.2.2.2.2.2.2.2.2.2.2)
  obtain ⟨st1, hr1, hrace1⟩ := runSchedule_ok (b := s4) sched (s4, ws)
    ⟨rfl, fun d => (h4 d).1, hin⟩
  obtain ⟨st2, hr2, hq2, hl2, _⟩ := runSchedule_ok (b := s4) (finishFrom 0 st1.2) st1 hrace1
  have hq : quiet st2.1 = quiet s := hq2.trans hq4
  refine ⟨st2.1, ?_, hwf.of_quiet hq hl2, hq, fun hi => hi.of_lists
    (quiet_get Solver.xdim rfl rfl hq) (quiet_get Solver.ydim rfl rfl hq)
    (quiet_get Solver.flowVel rfl rfl hq) (quiet_get Solver.ux rfl rfl hq)
    (quiet_get Solver.uy rfl rfl hq)⟩
  have hS : StreamThreadedUnder sched s = andThen (streamNW (resetForce s)) fun s1 =>
      andThen (streamNE s1) fun s2 => andThen (streamSE s2) fun s3 =>
      andThen (streamSW s3) fun s4 =>
      andThen (rowWorkers s4) fun ws =>
      andThen (runSchedule sched (s4, ws)) fun st =>
      andThen (runSchedule (finishFrom 0 st.2) st) fun fin => some fin.1 := rfl
  rw [hS, sweeps_assoc, hrun4, andThen_some, hws, andThen_some, hr1, andThen_some, hr2,
    andThen_some]

/-- One pass of the loop of `Simulate` on a well-formed lattice, under every schedule of
the row goroutines: it succeeds, keeps the lattice well-formed and its parameters, and
keeps the inlet column at the inlet velocity. -/
theorem subStepUnder_step (sched : List Nat) {s : Solver} (hwf : WellFormed s)
    (hx : 2 ≤ s.xdim) (drag : DragFluidProperties) :
    ∃ s', subStepUnder sched drag s = some s' ∧ WellFormed s' ∧ s'.xdim = s.xdim ∧
      s'.ydim = s.ydim ∧ s'.flowVel = s.flowVel ∧ (Inlet s → Inlet s') := by
  obtain ⟨s1, hrun1, hwf1, hf1, hi1, _⟩ := Collide_step hwf hx
  obtain ⟨s2, hrun2, hwf2, hq2, hi2⟩ := StreamThreadedUnder_step sched hwf1
  have ex : s2.xdim = s.xdim :=
    (quiet_get Solver.xdim rfl rfl hq2).trans (frame_get Solver.xdim rfl rfl hf1)
  have ey : s2.ydim = s.ydim :=
    (quiet_get Solver.ydim rfl rfl hq2).trans (frame_get Solver.ydim rfl rfl hf1)
  have ev : s2.flowVel = s.flowVel :=
    (quiet_get Solver.flowVel rfl rfl hq2).trans (frame_get Solver.flowVel rfl rfl hf1)
  have hstart : subStepUnder sched drag s = andThen (if s2.dragging then
      DragFluid s2 drag.pushX drag.pushY drag.pushUX drag.pushUY else some s2) fun s =>
      some { s with time := s.time + 1 } := by
    unfold subStepUnder
    rw [CollideThreaded_eq, hrun1, andThen_some, hrun2, andThen_some]
  obtain ⟨s3, hrun3, hwf3, hf3, hi3⟩ : ∃ s3, (if s2.dragging then
      DragFluid s2 drag.pushX drag.pushY drag.pushUX drag.pushUY else some s2) = some s3 ∧
      WellFormed s3 ∧ frame s3 = frame s2 ∧ (Inlet s2 → Inlet s3) := by
    by_cases hd : s2.dragging = true
    · obtain ⟨s3, h3, hw3, hfr3, hin3, _⟩ :=
        DragFluid_step hwf2 drag.pushX drag.pushY drag.pushUX drag.pushUY
      exact ⟨s3, by rw [if_pos hd]; exact h3, hw3, hfr3, hin3⟩
    · exact ⟨s2, by rw [if_neg hd], hwf2, rfl, id⟩
  refine ⟨{ s3 with time := s3.time + 1 }, by rw [hstart, hrun3, andThen_some], hwf3,
    (frame_get Solver.xdim rfl rfl hf3).trans ex, (frame_get Solver.ydim rfl rfl hf3).trans ey,
    (frame_get Solver.flowVel rfl rfl hf3).trans ev, fun hi => hi3 (hi2 (hi1 hi))⟩

/-- The lattice `InitalizeLattice` leaves makes three passes a frame. -/
theorem InitalizeLattice_steps (s : Solver) (xmax ymax : Int) (fVel fVisc : ℚ)
    (barrierType : Int) (hx : 64 ≤ xmax) (hy : 64 ≤ ymax) {s' : Solver}
    (h : InitalizeLattice s xmax ymax fVel fVisc barrierType = some s') :
    s'.stepsPerFrame = 3 := by
  obtain ⟨s4, hrun, ex, ey, en, _, _, hw, hsz, hcl, hbl, hst⟩ :=
    InitalizeLattice_pre s xmax ymax fVel fVisc barrierType
      (mul_nonneg (by omega) (by omega))
      (fun x y hx0 hx1 hy0 hy1 => idx_range hx0 hx1 hy0 hy1)
      (fun y h0 h1 => barrier_idx_range hx hy (by omega) (by omega) h0 h1)
      (fun i j hi0 hi1 hj0 hj1 => barrier_idx_range hx hy hi0 hi1 (by omega) (by omega))
  have hwf : WellFormed s4 := by
    obtain ⟨a1, a2, a3, a4, a5, a6, a7, a8, a9, a10, a11, a12⟩ := hsz
    obtain ⟨w1, w2, w3⟩ := hw
    simp only [WellFormed, ex, ey, en]
    exact ⟨by omega, by omega, trivial, ⟨a1, a2, a3, a4, a5, a6, a7, a8, a9, a10, a11, a12,
      hcl, hbl⟩, w1, w2, w3⟩
  obtain ⟨s'', hrun', _, hfr, _⟩ := InitFluid_spec hwf
  have e : s'' = s' := Option.some.inj ((hrun.trans hrun').symm.trans h)
  rw [← e]
  exact (frameC_get Solver.stepsPerFrame rfl rfl hfr).trans hst

/-- On `twin4`, whose barrier sites `(1, 1)` and `(1, 2)` lie one above the other, the
schedules of the two row goroutines of `StreamThreaded` reach different lattices.  When
the goroutines run in the order in which they are started, the result is that of `Stream`:
`nS` at `(1, 1)` and `nN` at `(1, 2)` are both `1`, and two sites are counted.  When the
goroutine of row 2 runs first both densities are `2`.  When each goroutine reads
`barrierCount` before the other has written it, one site is counted. -/
theorem StreamThreadedUnder_schedules :
    ((StreamThreadedUnder [] twin4).bind (fun t => rd t.nS (1 + 1 * 4)) = some 1 ∧
      (StreamThreadedUnder [] twin4).bind (fun t => rd t.nN (1 + 2 * 4)) = some 1 ∧
      (StreamThreadedUnder [] twin4).map (fun t => t.barrierCount) = some 2) ∧
    ((Stream twin4).bind (fun t => rd t.nS (1 + 1 * 4)) = some 1 ∧
      (Stream twin4).bind (fun t => rd t.nN (1 + 2 * 4)) = some 1 ∧
      (Stream twin4).map (fun t => t.barrierCount) = some 2) ∧
    ((StreamThreadedUnder (List.replicate 38 1) twin4).bind
        (fun t => rd t.nS (1 + 1 * 4)) = some 2 ∧
      (StreamThreadedUnder (List.replicate 38 1) twin4).bind
        (fun t => rd t.nN (1 + 2 * 4)) = some 2) ∧
    (StreamThreadedUnder (List.replicate 16 0 ++ List.replicate 16 1 ++ [0, 1, 0, 1]) twin4).map
      (fun t => t.barrierCount) = some 1 := by
  refine ⟨⟨?_, ?_, ?_⟩, ⟨?_, ?_, ?_⟩, ⟨?_, ?_⟩, ?_⟩ <;> decide

/-! ## A frame under every schedule: the claim -/

/-- C13 (the inlet velocity is held): for every well-formed lattice with `xdim ≥ 3` and
`ydim ≥ 3`, every pointer sample and every schedule of the row goroutines of
`StreamThreaded` in every pass, `Simulate` runs to its end, keeps the dimensions and the
inlet velocity, and leaves `ux = flowVel` and `uy = 0` at every cell of the inlet column
`x = 0`.  (A schedule orders the single reads and writes of the goroutines; whatever the
order, none of them writes `ux` or `uy`.) -/
theorem Simulate_holds_inlet (scheds : Int → List Nat) (s : Solver) (props : AppProperties)
    (hwf : WellFormed s) (hx : 3 ≤ s.xdim) (_hy : 3 ≤ s.ydim) :
    ∃ s', SimulateUnder scheds s props = some s' ∧ s'.xdim = s.xdim ∧ s'.ydim = s.ydim ∧
      s'.flowVel = s.flowVel ∧
      ∀ y, 0 ≤ y → y < s.ydim →
        rd s'.ux (0 + y * s.xdim) = some s.flowVel ∧ rd s'.uy (0 + y * s.xdim) = some 0 := by
  obtain ⟨s1, hrun1, hwf1, hf1, hi1, _⟩ := SetBoundaries_step hwf
  have ex1 : s1.xdim = s.xdim := frame_get Solver.xdim rfl rfl hf1
  have ey1 : s1.ydim = s.ydim := frame_get Solver.ydim rfl rfl hf1
  have ev1 : s1.flowVel = s.flowVel := frame_get Solver.flowVel rfl rfl hf1
  obtain ⟨d, ox, oy, hr⟩ := DragFluidCheck_lattice s1 props
  have hwfr : WellFormed (DragFluidCheck s1 props).1 := by
    rw [hr]
    exact hwf1
  have hir : Inlet (DragFluidCheck s1 props).1 := by
    rw [hr]
    exact hi1
  have exr : (DragFluidCheck s1 props).1.xdim = s.xdim := by
    rw [hr]
    exact ex1
  have eyr : (DragFluidCheck s1 props).1.ydim = s.ydim := by
    rw [hr]
    exact ey1
  have evr : (DragFluidCheck s1 props).1.flowVel = s.flowVel := by
    rw [hr]
    exact ev1
  obtain ⟨s2, hrun2, hwf2, ex2, ey2, ev2, hi2⟩ := foldlM_inv_mem
    (fun (st : Solver) (step : Int) => subStepUnder (scheds step) (DragFluidCheck s1 props).2 st)
    (fun st => WellFormed st ∧ st.xdim = s.xdim ∧ st.ydim = s.ydim ∧
      st.flowVel = s.flowVel ∧ Inlet st)
    (upTo 0 (DragFluidCheck s1 props).1.stepsPerFrame)
    (by
      rintro step _ st ⟨hw, e1, e2, e3, hin⟩
      obtain ⟨st', hb, hw', a1, a2, a3, hin'⟩ :=
        subStepUnder_step (scheds step) hw (by rw [e1]; omega) (DragFluidCheck s1 props).2
      exact ⟨st', hb, hw', a1.trans e1, a2.trans e2, a3.trans e3, hin' hin⟩)
    (DragFluidCheck s1 props).1 ⟨hwfr, exr, eyr, evr, hir⟩
  obtain ⟨s3, hrun3, _, hf3, hi3, _⟩ := CheckFlowStability_step hwf2
  have ex3 : s3.xdim = s.xdim := (frameC_get Solver.xdim rfl rfl hf3).trans ex2
  have ey3 : s3.ydim = s.ydim := (frameC_get Solver.ydim rfl rfl hf3).trans ey2
  have ev3 : s3.flowVel = s.flowVel := (frameC_get Solver.flowVel rfl rfl hf3).trans ev2
  refine ⟨s3, ?_, ex3, ey3, ev3, ?_⟩
  · unfold SimulateUnder
    rw [hrun1, andThen_some]
    simp only
    rw [hrun2, andThen_some, hrun3]
  · intro y h0 h1
    have := hi3 (hi2) y h0 (by rw [ey3]; exact h1)
    rw [ex3, ev3] at this
    exact this

theorem Simulate_holds_inlet_witness :
    (∃ s, InitalizeLattice rest3 64 64 (1 / 10) (3 / 100) LINE = some s ∧
      s.xdim = 64 ∧ s.ydim = 64 ∧ s.flowVel = 1 / 10 ∧ s.flowVisc = 3 / 100 ∧
      s.stepsPerFrame = 3 ∧ WellFormed s ∧ (3 : Int) ≤ s.xdim ∧ (3 : Int) ≤ s.ydim ∧
      ∃ s', SimulateUnder overtaking s idle = some s' ∧ s'.xdim = s.xdim ∧
        s'.ydim = s.ydim ∧ s'.flowVel = s.flowVel ∧
        ∀ y, 0 ≤ y → y < s.ydim →
          rd s'.ux (0 + y * s.xdim) = some s.flowVel ∧ rd s'.uy (0 + y * s.xdim) = some 0) ∧
    (WellFormed gust3 ∧ (3 : Int) ≤ gust3.xdim ∧ (3 : Int) ≤ gust3.ydim ∧
      gust3.flowVel = 1 / 10 ∧ rd gust3.ux (0 + 1 * gust3.xdim) = some 0 ∧
      ∃ s', SimulateUnder overtaking gust3 swipe = some s' ∧ s'.xdim = gust3.xdim ∧
        s'.ydim = gust3.ydim ∧ s'.flowVel = gust3.flowVel ∧
        ∀ y, 0 ≤ y → y < gust3.ydim →
          rd s'.ux (0 + y * gust3.xdim) = some gust3.flowVel ∧
          rd s'.uy (0 + y * gust3.xdim) = some 0) := by
  obtain ⟨s, hrun, hwf, ex, ey, ev, evi, _⟩ :=
    InitalizeLattice_spec rest3 64 64 (1 / 10) (3 / 100) LINE (by decide) (by decide)
  have h3x : (3 : Int) ≤ s.xdim := by rw [ex]; decide
  have h3y : (3 : Int) ≤ s.ydim := by rw [ey]; decide
  exact ⟨⟨s, hrun, ex, ey, ev, evi,
      InitalizeLattice_steps rest3 64 64 (1 / 10) (3 / 100) LINE (by decide) (by decide) hrun,
      hwf, h3x, h3y, Simulate_holds_inlet overtaking s idle hwf h3x h3y⟩,
    gust3_wf, by decide, by decide, rfl, by decide,
    Simulate_holds_inlet overtaking gust3 swipe gust3_wf (by decide) (by decide)⟩

theorem calm5_wf : WellFormed calm5 := by
  simp [WellFormed, calm5, post5]

theorem bump5_wf : WellFormed bump5 :=
  calm5_wf.of_frame (frame_putCell _ _ _) (Sized_putCell calm5_wf.sized _ _)

theorem bump5_cell : cellAt bump5 (3 + 1 * 5) = some (equilibrium 0 0 2) :=
  cellAt_putCell_same (s := calm5) (i := 3 + 1 * 5) calm5_wf.sized (by decide) (by decide) _

theorem relax_bump (omega : ℚ) : (relax omega (equilibrium 0 0 2)).nW = 2 / 9 := by
  norm_num [relax, equilibrium, feq]

/-- The lattice `bump5` when the second collision of a frame starts: the cell `(4, 1)` of
the right edge holds the west-moving density `2/9` that the first collision copied from
its neighbour `(3, 1)`. -/
theorem bump5_second :
    ∃ s' c, beforeCollision bump5 idle 1 = some s' ∧ cellAt s' (4 + 1 * 5) = some c ∧
      c.nW = 2 / 9 := by
  obtain ⟨s1, hrun1, hwf1, hf1, hbd, hin⟩ := SetBoundaries_spec bump5_wf
  have ex1 : s1.xdim = 5 := frame_get Solver.xdim rfl rfl hf1
  have ey1 : s1.ydim = 5 := frame_get Solver.ydim rfl rfl hf1
  have eb1 : s1.barrier = List.replicate 25 false := frame_get Solver.barrier rfl rfl hf1
  have c8 : cellAt s1 (3 + 1 * 5) = some (equilibrium 0 0 2) :=
    (hin 3 1 (by decide) (by decide) (by decide) (by decide)).trans bump5_cell
  have c9 : cellAt s1 (4 + 1 * 5) = some (equilibrium 0 0 1) :=
    hbd 4 1 (by decide) (by decide) (by decide) (by decide) (Or.inr (Or.inl rfl))
  obtain ⟨t, ht⟩ : ∃ t : Solver,
      t = { s1 with dragging := false, oldTouchX := -1, oldTouchY := -1 } := ⟨_, rfl⟩
  have hr : DragFluidCheck s1 idle
      = (t, { pushX := 0, pushY := 0, pushUX := 0, pushUY := 0 }) := by
    rw [ht]
    exact DragFluidCheck_idle s1 idle rfl
  have hwft : WellFormed t := by
    rw [ht]
    exact hwf1
  have ext : t.xdim = 5 := by
    rw [ht]
    exact ex1
  have eyt : t.ydim = 5 := by
    rw [ht]
    exact ey1
  have ebt : t.barrier = List.replicate 25 false := by
    rw [ht]
    exact eb1
  have edt : t.dragging = false := by
    rw [ht]
  have t8 : cellAt t (3 + 1 * 5) = some (equilibrium 0 0 2) := by
    rw [ht]
    exact c8
  have t9 : cellAt t (4 + 1 * 5) = some (equilibrium 0 0 1) := by
    rw [ht]
    exact c9
  obtain ⟨s2, hrun2, hwf2, hf2, hrel, hcp, _⟩ := Collide_full hwft (by rw [ext]; decide)
  have ex2 : s2.xdim = 5 := (frame_get Solver.xdim rfl rfl hf2).trans ext
  have ey2 : s2.ydim = 5 := (frame_get Solver.ydim rfl rfl hf2).trans eyt
  have eb2 : s2.barrier = List.replicate 25 false :=
    (frame_get Solver.barrier rfl rfl hf2).trans ebt
  have ed2 : s2.dragging = false := (frame_get Solver.dragging rfl rfl hf2).trans edt
  rw [ext, eyt] at hrel hcp
  have d8 := hrel 3 1 (by decide) (by decide) (by decide) (by decide)
  rw [t8] at d8
  have d9 : cellAt s2 (4 + 1 * 5) = some (outflow (equilibrium 0 0 1)
      (relax (1.0 / (3 * t.flowVisc + 0.5)) (equilibrium 0 0 2))) :=
    hcp 1 (by decide) (by decide) _ _ t9 d8
  have n9 : rd s2.nW (4 + 1 * 5) = some (2 / 9) :=
    (cellAt_some d9).2.2.2.2.1.trans (congrArg some (relax_bump _))
  obtain ⟨s3, hrun3, hwf3, hq3, hst⟩ := Stream_full hwf2
  have ed3 : s3.dragging = false := (quiet_get Solver.dragging rfl rfl hq3).trans ed2
  have ex3 : s3.xdim = 5 := (quiet_get Solver.xdim rfl rfl hq3).trans ex2
  have ey3 : s3.ydim = 5 := (quiet_get Solver.ydim rfl rfl hq3).trans ey2
  have m9 : rd s3.nW (4 + 1 * 5) = some (2 / 9) := by
    have h := (hst .W).2.2 (4 + 1 * 5)
      (by
        rw [ex2]
        intro x y _ _ _ _
        omega)
      (by
        intro x' y' _ _ hb
        rw [eb2] at hb
        exact absurd (rd_replicate hb) (by decide))
    exact h.trans n9
  obtain ⟨k0, k1⟩ := idx_range (w := 5) (h := 5) (x := 4) (y := 1)
    (by decide) (by decide) (by decide) (by decide)
  obtain ⟨c, hc⟩ := cellAt_ok hwf3.sized k0 (by rw [ex3, ey3]; exact k1)
  have hsub : subStep { pushX := 0, pushY := 0, pushUX := 0, pushUY := 0 } t
      = some { s3 with time := s3.time + 1 } := by
    unfold subStep
    rw [CollideThreaded_eq, hrun2, andThen_some, StreamThreaded_eq, hrun3, andThen_some]
    simp only [ed3, Bool.false_eq_true, if_false, andThen_some]
  refine ⟨{ s3 with time := s3.time + 1 }, c, ?_, hc, ?_⟩
  · unfold beforeCollision
    rw [hrun1, andThen_some]
    simp only
    rw [hr]
    simp only
    rw [show upTo 0 ((1 : Nat) : Int) = [0] from rfl, List.foldlM_cons, hsub]
    rfl
  · have := (cellAt_some hc).2.2.2.2.1
    rw [m9] at this
    exact (Option.some.inj this).symm

/-! ## The barrier of `InitalizeLattice` -/

/-- A loop that writes one value into the barrier mask, at indices in range: afterwards
the mask holds that value at the indices visited and is as before elsewhere. -/
theorem barrier_paint {ι : Type} (s : Solver) (ix : ι → Int) (v : Bool) (T : List ι)
    (hidx : ∀ j ∈ T, 0 ≤ ix j ∧ (ix j).toNat < s.barrier.length) :
    ∃ b, T.foldlM (fun st j =>
        andThen (wr st.barrier (ix j) v) fun b => some { st with barrier := b }) s
        = some { s with barrier := b } ∧
      b.length = s.barrier.length ∧
      (∀ j ∈ T, rd b (ix j) = some v) ∧
      (∀ i, (∀ j ∈ T, i ≠ ix j) → rd b i = rd s.barrier i) := by
  obtain ⟨s', hrun, b, hs', hb, hin, hout⟩ := foldlM_inv
    (fun (st : Solver) (j : ι) =>
      andThen (wr st.barrier (ix j) v) fun b => some { st with barrier := b })
    (fun pre st => ∃ b, st = { s with barrier := b } ∧ b.length = s.barrier.length ∧
      (∀ j ∈ pre, rd b (ix j) = some v) ∧
      (∀ i, (∀ j ∈ pre, i ≠ ix j) → rd b i = rd s.barrier i))
    T
    (by
      rintro pre j post st hT ⟨b, rfl, hb, hin, hout⟩
      obtain ⟨h0, h1⟩ := hidx j (by rw [hT]; simp)
      refine ⟨{ s with barrier := b.set (ix j).toNat v },
        by simp only [wr_ok _ h0 (hb ▸ h1), andThen_some], _, rfl,
        by rw [List.length_set, hb], ?_, ?_⟩
      · intro k hk
        by_cases e : ix k = ix j
        · rw [e]
          exact rd_set_same _ h0 (hb ▸ h1)
        · rw [rd_set_other _ _ _ (toNat_ne h0 e)]
          rcases List.mem_append.mp hk with hk | hk
          · exact hin k hk
          · rw [List.mem_singleton] at hk
            exact absurd (congrArg ix hk) e
      · intro i hi
        rw [rd_set_other _ _ _ (toNat_ne h0 (hi j (by simp)))]
        exact hout i (fun k hk => hi k (by simp [hk])))
    s ⟨s.barrier, rfl, rfl, fun j hj => absurd hj (by simp), fun _ _ => rfl⟩
  exact ⟨b, hs' ▸ hrun, hb, hin, hout⟩

/-- Specification of `InitalizeLattice` with the line barrier on a grid of at least
64 x 64: the lattice it leaves is well-formed, every cell is the inlet equilibrium, and
the barrier mask is set exactly at the column `ydim / 3` of the rows
`ydim / 2 - 8 .. ydim / 2 + 8`. -/
theorem InitalizeLattice_line (s : Solver) (xmax ymax : Int) (fVel fVisc : ℚ)
    (hx : 64 ≤ xmax) (hy : 64 ≤ ymax) :
    ∃ s', InitalizeLattice s xmax ymax fVel fVisc LINE = some s' ∧ WellFormed s' ∧
      s'.xdim = xmax ∧ s'.ydim = ymax ∧ s'.flowVel = fVel ∧
      (∀ x y, 0 ≤ x → x < xmax → 0 ≤ y → y < ymax →
        cellAt s' (x + y * xmax) = some (equilibrium fVel 0 1)) ∧
      (∀ y, ymax.tdiv 2 - 8 ≤ y → y ≤ ymax.tdiv 2 + 8 →
        rd s'.barrier (ymax.tdiv 3 + y * xmax) = some true) ∧
      (∀ i, rd s'.barrier i = some true →
        ∃ y, ymax.tdiv 2 - 8 ≤ y ∧ y ≤ ymax.tdiv 2 + 8 ∧ i = ymax.tdiv 3 + y * xmax) := by
  have hprod : 0 ≤ xmax * ymax := mul_nonneg (by omega) (by omega)
  have hlen : (allocated s xmax ymax fVel fVisc).barrier.length = (xmax * ymax).toNat :=
    List.length_replicate _ _
  obtain ⟨b1, h1, hb1, hin1, hout1⟩ := barrier_paint (allocated s xmax ymax fVel fVisc)
    (fun p : Int × Int => p.1 + p.2 * xmax) false
    ((upTo 0 ymax).flatMap fun y => (upTo 0 xmax).map fun x => (x, y))
    (by
      rintro ⟨x, y⟩ hp
      obtain ⟨hx', hy'⟩ := mem_grid.mp hp
      rw [mem_upTo] at hx' hy'
      rw [hlen]
      exact idx_range hx'.1 hx'.2 hy'.1 hy'.2)
  rw [hlen] at hb1
  have hclear : ∀ i, rd b1 i ≠ some true := by
    intro i h
    by_cases hi : ∀ p ∈ ((upTo 0 ymax).flatMap fun y => (upTo 0 xmax).map fun x => (x, y)),
        i ≠ p.1 + p.2 * xmax
    · rw [hout1 i hi] at h
      exact absurd (rd_replicate h) (by decide)
    · push_neg at hi
      obtain ⟨p, hp, e⟩ := hi
      rw [e, hin1 p hp] at h
      exact absurd h (by decide)
  obtain ⟨b2, h2, hb2, hin2, hout2⟩ := barrier_paint
    { allocated s xmax ymax fVel fVisc with barrier := b1 }
    (fun y : Int => ymax.tdiv 3 + y * xmax) true
    (upThru (ymax.tdiv 2 - 8) (ymax.tdiv 2 + 8))
    (by
      intro y hy'
      rw [mem_upThru] at hy'
      show _ ∧ _ < b1.length
      rw [hb1]
      exact barrier_idx_range hx hy (by omega) (by omega) hy'.1 hy'.2)
  have hb2' : b2.length = (xmax * ymax).toNat := hb2.trans hb1
  obtain ⟨r, g, b, h3⟩ := CreateColorMap_spec
    { allocated s xmax ymax fVel fVisc with barrier := b2 } rfl
  have hwf : WellFormed { allocated s xmax ymax fVel fVisc with
      barrier := b2, redList := r, greenList := g, blueList := b } := by
    simp only [WellFormed, allocated, List.length_replicate, and_self, true_and]
    exact ⟨by omega, by omega, hb2', trivial⟩
  obtain ⟨s', hrun', hwf', hfr, hcells⟩ := InitFluid_spec hwf
  have eb : s'.barrier = b2 := frameC_get Solver.barrier rfl rfl hfr
  refine ⟨s', ?_, hwf', frameC_get Solver.xdim rfl rfl hfr, frameC_get Solver.ydim rfl rfl hfr,
    frameC_get Solver.flowVel rfl rfl hfr, ?_, ?_, ?_⟩
  · unfold InitalizeLattice
    rw [InitSolver_eq s xmax ymax fVel fVisc hprod, andThen_some]
    have hc : ClearBarriers (allocated s xmax ymax fVel fVisc)
        = some { allocated s xmax ymax fVel fVisc with barrier := b1 } := by
      unfold ClearBarriers
      rw [foldlM_nested (fun (st : Solver) (x y : Int) =>
        andThen (wr st.barrier (x + y * (allocated s xmax ymax fVel fVisc).xdim) false)
          fun b => some { st with barrier := b })]
      exact h1
    have hl : CreateBarrier { allocated s xmax ymax fVel fVisc with barrier := b1 } LINE
        = some { allocated s xmax ymax fVel fVisc with barrier := b2 } := by
      unfold CreateBarrier
      rw [if_pos rfl]
      exact h2
    rw [hc, andThen_some, hl, andThen_some, h3, andThen_some]
    exact hrun'
  · intro x y hx0 hx1 hy0 hy1
    exact (hcells x y hx0 hx1 hy0 hy1).1
  · intro y hy0 hy1
    rw [eb]
    exact hin2 y (mem_upThru.mpr ⟨hy0, hy1⟩)
  · intro i hi
    rw [eb] at hi
    by_contra hne
    push_neg at hne
    have := hout2 i (fun y hy' e => by
      rw [mem_upThru] at hy'
      exact hne y hy'.1 hy'.2 e)
    rw [this] at hi
    exact hclear i hi

/-- The lattice `InitalizeLattice` leaves on a 64 x 64 grid with inlet velocity `1/10` and
the line barrier, after one `Stream`: in the cell `(22, 32)`, just east of the barrier,
the stored density is still `1` while the nine densities sum to `9/10`, the three
east-moving ones having been replaced by the reflected west-moving ones. -/
theorem stale_after_stream :
    ∃ s1 s2 c, InitalizeLattice rest3 64 64 (1 / 10) (3 / 100) LINE = some s1 ∧
      Stream s1 = some s2 ∧ WellFormed s2 ∧ s2.xdim = 64 ∧ s2.ydim = 64 ∧
      rd s2.barrier (22 + 32 * 64) = some false ∧
      cellAt s2 (22 + 32 * 64) = some c ∧ c.rho = 1 ∧ c.mass = 9 / 10 := by
  obtain ⟨s1, hrun1, hwf1, ex1, ey1, _, hcell, hbar, hbaronly⟩ :=
    InitalizeLattice_line rest3 64 64 (1 / 10) (3 / 100) (by decide) (by decide)
  have t2 : (64 : Int).tdiv 2 = 32 := by decide
  have t3 : (64 : Int).tdiv 3 = 21 := by decide
  rw [t2, t3] at hbar hbaronly
  obtain ⟨s2, hrun2, hwf2, hq, hst⟩ := Stream_full hwf1
  rw [ex1, ey1] at hst
  have ex2 : s2.xdim = 64 := (quiet_get Solver.xdim rfl rfl hq).trans ex1
  have ey2 : s2.ydim = 64 := (quiet_get Solver.ydim rfl rfl hq).trans ey1
  have eb2 : s2.barrier = s1.barrier := quiet_get Solver.barrier rfl rfl hq
  have e0 : s2.n0 = s1.n0 := quiet_get Solver.n0 rfl rfl hq
  have er : s2.rho = s1.rho := quiet_get Solver.rho rfl rfl hq
  have hB : ∀ x' y' : Int, (1 ≤ x' ∧ x' ≤ 64 - 2) → rd s1.barrier (x' + y' * 64) = some true →
      x' = 21 ∧ 24 ≤ y' ∧ y' ≤ 40 := by
    intro x' y' hx' hb
    obtain ⟨y, h1, h2, e⟩ := hbaronly _ hb
    omega
  have cs := fun x y hx0 hx1 hy0 hy1 => cellAt_some (hcell x y hx0 hx1 hy0 hy1)
  have key1 : ∀ d : Dir, d.dx ≤ 0 →
      rd (dens s2 d) (22 + 32 * 64) = rd (dens s1 d) (22 - d.dx + (32 - d.dy) * 64) := by
    intro d hd
    refine (hst d).1 22 32 (by decide) (by decide) ?_
    intro x' y' hx' hy' hb
    obtain ⟨e1, e2, e3⟩ := hB x' y' hx' hb
    rw [target_eq]
    have := d.dy_range
    have := d.dx_range
    omega
  have key2 : ∀ d : Dir, d.dx = 1 →
      rd (dens s2 d) (22 + 32 * 64) = rd (dens s1 d.opp) (22 + 32 * 64) := by
    intro d hd
    have hdy := d.dy_range
    have ht : target 64 21 (32 - d.dy) d = 22 + 32 * 64 := by
      rw [target_eq, hd]
      ring
    have h := (hst d).2.1 21 (32 - d.dy) (by decide) (by omega)
      (hbar (32 - d.dy) (by omega) (by omega))
      (by
        intro x' y' hx' hy' hb
        obtain ⟨e1, e2, e3⟩ := hB x' y' hx' hb
        rw [target_eq, d.opp_dx, d.opp_dy, hd]
        omega)
    rw [ht] at h
    exact h
  have c1 := cs 22 32 (by decide) (by decide) (by decide) (by decide)
  have rN : rd s2.nN (22 + 32 * 64) = some (equilibrium (1 / 10) 0 1).nN :=
    (key1 .N (by decide)).trans (cs 22 31 (by decide) (by decide) (by decide) (by decide)).2.1
  have rS : rd s2.nS (22 + 32 * 64) = some (equilibrium (1 / 10) 0 1).nS :=
    (key1 .S (by decide)).trans
      (cs 22 33 (by decide) (by decide) (by decide) (by decide)).2.2.1
  have rW : rd s2.nW (22 + 32 * 64) = some (equilibrium (1 / 10) 0 1).nW :=
    (key1 .W (by decide)).trans
      (cs 23 32 (by decide) (by decide) (by decide) (by decide)).2.2.2.2.1
  have rNW : rd s2.nNW (22 + 32 * 64) = some (equilibrium (1 / 10) 0 1).nNW :=
    (key1 .NW (by decide)).trans
      (cs 23 31 (by decide) (by decide) (by decide) (by decide)).2.2.2.2.2.2.2.1
  have rSW : rd s2.nSW (22 + 32 * 64) = some (equilibrium (1 / 10) 0 1).nSW :=
    (key1 .SW (by decide)).trans
      (cs 23 33 (by decide) (by decide) (by decide) (by decide)).2.2.2.2.2.2.2.2.1
  have rE : rd s2.nE (22 + 32 * 64) = some (equilibrium (1 / 10) 0 1).nW :=
    (key2 .E rfl).trans c1.2.2.2.2.1
  have rNE : rd s2.nNE (22 + 32 * 64) = some (equilibrium (1 / 10) 0 1).nSW :=
    (key2 .NE rfl).trans c1.2.2.2.2.2.2.2.2.1
  have rSE : rd s2.nSE (22 + 32 * 64) = some (equilibrium (1 / 10) 0 1).nNW :=
    (key2 .SE rfl).trans c1.2.2.2.2.2.2.2.1
  have r0 : rd s2.n0 (22 + 32 * 64) = some (equilibrium (1 / 10) 0 1).n0 := by
    rw [e0]
    exact c1.1
  have rR : rd s2.rho (22 + 32 * 64) = some (equilibrium (1 / 10) 0 1).rho := by
    rw [er]
    exact c1.2.2.2.2.2.2.2.2.2.1
  obtain ⟨k0, k1⟩ := idx_range (w := 64) (h := 64) (x := 22) (y := 32)
    (by decide) (by decide) (by decide) (by decide)
  obtain ⟨c, hc⟩ := cellAt_ok hwf2.sized k0 (by rw [ex2, ey2]; exact k1)
  obtain ⟨b, hb⟩ := rd_ok (a := s1.barrier) k0
    (by rw [hwf1.2.2.2.1.2.2.2.2.2.2.2.2.2.2.2.2.2, ex1, ey1]; exact k1)
  have hbf : b = false := by
    cases b with
    | false => rfl
    | true =>
      have := hB 22 32 (by decide) hb
      omega
  have a := cellAt_some hc
  rw [r0] at a
  rw [rN, rS, rE, rW, rNE, rSE, rNW, rSW, rR] at a
  obtain ⟨a1, a2, a3, a4, a5, a6, a7, a8, a9, a10, _⟩ := a
  refine ⟨s1, s2, c, hrun1, hrun2, hwf2, ex2, ey2, by rw [eb2, hb, hbf], hc, ?_, ?_⟩
  · rw [← Option.some.inj a10]
    rfl
  · rw [Cell.mass, ← Option.some.inj a1, ← Option.some.inj a2, ← Option.some.inj a3,
      ← Option.some.inj a4, ← Option.some.inj a5, ← Option.some.inj a6, ← Option.some.inj a7,
      ← Option.some.inj a8, ← Option.some.inj a9]
    norm_num [equilibrium, feq]

/-! ## Reachable states -/

theorem runOps_cons (o : Op) (ops : List Op) (s s1 : Solver) (h : o.apply s = some s1) :
    runOps (o :: ops) s = runOps ops s1 := by
  unfold runOps
  rw [List.foldlM_cons, h]
  rfl

/-- Every sequence of operations runs to its end on a well-formed lattice with at least two
columns, and keeps it well-formed; the stored densities of the interior cells are up to
date afterwards when no `Stream` comes after the last `Collide`. -/
theorem runOps_settled (ops : List Op) : ∀ (s : Solver) (b : Bool), WellFormed s →
    2 ≤ s.xdim → (b = true → Balanced s) →
    ∃ s', runOps ops s = some s' ∧ WellFormed s' ∧ s'.xdim = s.xdim ∧ s'.ydim = s.ydim ∧
      (settled b ops = true → Balanced s') := by
  induction ops with
  | nil =>
    intro s b hwf _ hb
    exact ⟨s, rfl, hwf, rfl, rfl, hb⟩
  | cons o ops ih =>
    intro s b hwf hx hb
    cases o with
    | setBoundaries =>
      obtain ⟨s1, hrun, hwf1, hfr, _, hbal⟩ := SetBoundaries_step hwf
      have ex : s1.xdim = s.xdim := frame_get Solver.xdim rfl rfl hfr
      have ey : s1.ydim = s.ydim := frame_get Solver.ydim rfl rfl hfr
      obtain ⟨s', h1, h2, h3, h4, h5⟩ := ih s1 b hwf1 (by rw [ex]; exact hx)
        (fun h => hbal (hb h))
      exact ⟨s', (runOps_cons Op.setBoundaries ops s s1 hrun).trans h1, h2, h3.trans ex, h4.trans ey, h5⟩
    | collide =>
      obtain ⟨s1, hrun, hwf1, hfr, _, hbal⟩ := Collide_step hwf hx
      have ex : s1.xdim = s.xdim := frame_get Solver.xdim rfl rfl hfr
      have ey : s1.ydim = s.ydim := frame_get Solver.ydim rfl rfl hfr
      obtain ⟨s', h1, h2, h3, h4, h5⟩ := ih s1 true hwf1 (by rw [ex]; exact hx)
        (fun _ => hbal)
      exact ⟨s', (runOps_cons Op.collide ops s s1 hrun).trans h1, h2, h3.trans ex, h4.trans ey, h5⟩
    | stream =>
      obtain ⟨s1, hrun, hwf1, hq, _⟩ := Stream_step hwf
      have ex : s1.xdim = s.xdim := quiet_get Solver.xdim rfl rfl hq
      have ey : s1.ydim = s.ydim := quiet_get Solver.ydim rfl rfl hq
      obtain ⟨s', h1, h2, h3, h4, h5⟩ := ih s1 false hwf1 (by rw [ex]; exact hx)
        (fun h => absurd h (by decide))
      exact ⟨s', (runOps_cons Op.stream ops s s1 hrun).trans h1, h2, h3.trans ex, h4.trans ey, h5⟩
    | dragFluid pushX pushY pushUX pushUY =>
      obtain ⟨s1, hrun, hwf1, hfr, _, hbal⟩ := DragFluid_step hwf pushX pushY pushUX pushUY
      have ex : s1.xdim = s.xdim := frame_get Solver.xdim rfl rfl hfr
      have ey : s1.ydim = s.ydim := frame_get Solver.ydim rfl rfl hfr
      obtain ⟨s', h1, h2, h3, h4, h5⟩ := ih s1 b hwf1 (by rw [ex]; exact hx)
        (fun h => hbal (hb h))
      exact ⟨s', (runOps_cons (Op.dragFluid pushX pushY pushUX pushUY) ops s s1 hrun).trans h1, h2, h3.trans ex, h4.trans ey, h5⟩
    | checkFlowStability =>
      obtain ⟨s1, hrun, hwf1, hfr, _, hbal⟩ := CheckFlowStability_step hwf
      have ex : s1.xdim = s.xdim := frameC_get Solver.xdim rfl rfl hfr
      have ey : s1.ydim = s.ydim := frameC_get Solver.ydim rfl rfl hfr
      obtain ⟨s', h1, h2, h3, h4, h5⟩ := ih s1 b hwf1 (by rw [ex]; exact hx)
        (fun h => hbal (hb h))
      exact ⟨s', (runOps_cons Op.checkFlowStability ops s s1 hrun).trans h1, h2, h3.trans ex, h4.trans ey, h5⟩

theorem blank9_wf : WellFormed blank9 := by
  simp [WellFormed, blank9, allocated]

/-! ## Reachable states: the claims -/

/-- C11 as stated fails (counterexample): from the lattice `InitalizeLattice` makes on a
64 x 64 grid with inlet velocity `1/10` and the line barrier, one `Stream` reaches a state
in which the interior cell `(22, 32)`, which is not a barrier site, stores `rho = 1`
while its nine densities sum to `9/10`. -/
theorem rho_stale_after_Stream :
    ∃ s1 s2 c, InitalizeLattice rest3 64 64 (1 / 10) (3 / 100) LINE = some s1 ∧
      runOps [Op.stream] s1 = some s2 ∧
      ((1 : Int) ≤ 22 ∧ (22 : Int) ≤ s2.xdim - 2) ∧ ((1 : Int) ≤ 32 ∧ (32 : Int) ≤ s2.ydim - 2) ∧
      rd s2.barrier (22 + 32 * s2.xdim) = some false ∧
      cellAt s2 (22 + 32 * s2.xdim) = some c ∧ c.rho = 1 ∧ c.mass = 9 / 10 ∧
      c.rho ≠ c.mass := by
  obtain ⟨s1, s2, c, h1, h2, _, ex, ey, hb, hc, hr, hm⟩ := stale_after_stream
  refine ⟨s1, s2, c, h1, ?_, ?_, ?_, ?_, ?_, hr, hm, ?_⟩
  · rw [runOps_cons Op.stream [] s1 s2 h2]
    rfl
  · rw [ex]
    decide
  · rw [ey]
    decide
  · rw [ex]
    exact hb
  · rw [ex]
    exact hc
  · rw [hr, hm]
    norm_num

/-- C11, amended: `InitalizeLattice` on a grid of at least 64 x 64 succeeds, and every
sequence of `SetBoundaries`, `Collide`, `Stream`, `DragFluid` and `CheckFlowStability`
runs to its end from the lattice it leaves, which stays well-formed; when no `Stream`
comes after the last `Collide` of the sequence (or the sequence has no `Stream`), at
every interior cell, barrier site or not, the stored `rho` is the sum of the nine
directional densities. -/
theorem rho_is_sum_unless_streamed (s0 : Solver) (xmax ymax : Int) (fVel fVisc : ℚ)
    (barrierType : Int) (ops : List Op) (hx : 64 ≤ xmax) (hy : 64 ≤ ymax) :
    ∃ s1 s', InitalizeLattice s0 xmax ymax fVel fVisc barrierType = some s1 ∧
      runOps ops s1 = some s' ∧ WellFormed s' ∧ s'.xdim = xmax ∧ s'.ydim = ymax ∧
      (settled true ops = true →
        ∀ x y, 1 ≤ x → x ≤ xmax - 2 → 1 ≤ y → y ≤ ymax - 2 →
          ∃ c, cellAt s' (x + y * xmax) = some c ∧
            c.rho = c.n0 + c.nN + c.nS + c.nE + c.nW + c.nNE + c.nSE + c.nNW + c.nSW) := by
  obtain ⟨s1, hrun1, hwf1, ex1, ey1, _, _, hcell⟩ :=
    InitalizeLattice_spec s0 xmax ymax fVel fVisc barrierType hx hy
  have hbal : Balanced s1 := by
    intro x y hx1 hx2 hy1 hy2
    rw [ex1] at hx2 ⊢
    rw [ey1] at hy2
    exact ⟨_, (hcell x y (by omega) (by omega) (by omega) (by omega)).1,
      (equilibrium_mass _ _ _).symm⟩
  obtain ⟨s', hrun, hwf', ex, ey, hb⟩ :=
    runOps_settled ops s1 true hwf1 (by rw [ex1]; omega) (fun _ => hbal)
  refine ⟨s1, s', hrun1, hrun, hwf', ex.trans ex1, ey.trans ey1, ?_⟩
  intro hs x y hx1 hx2 hy1 hy2
  have := hb hs x y hx1 (by rw [ex, ex1]; exact hx2) hy1 (by rw [ey, ey1]; exact hy2)
  rw [ex, ex1] at this
  exact this

theorem rho_is_sum_unless_streamed_witness :
    (64 : Int) ≤ 64 ∧
      ∃ s1 s', InitalizeLattice rest3 64 64 (1 / 10) (3 / 100) LINE = some s1 ∧
        runOps [Op.stream, Op.dragFluid 22 32 (1 / 10) 0, Op.collide, Op.setBoundaries] s1
          = some s' ∧
        WellFormed s' ∧ s'.xdim = 64 ∧ s'.ydim = 64 ∧
        (settled true [Op.stream, Op.dragFluid 22 32 (1 / 10) 0, Op.collide, Op.setBoundaries]
            = true →
          ∀ x y, 1 ≤ x → x ≤ (64 : Int) - 2 → 1 ≤ y → y ≤ (64 : Int) - 2 →
            ∃ c, cellAt s' (x + y * 64) = some c ∧
              c.rho = c.n0 + c.nN + c.nS + c.nE + c.nW + c.nNE + c.nSE + c.nNW + c.nSW) :=
  ⟨by decide, rho_is_sum_unless_streamed rest3 64 64 (1 / 10) (3 / 100) LINE
    [Op.stream, Op.dragFluid 22 32 (1 / 10) 0, Op.collide, Op.setBoundaries]
    (by decide) (by decide)⟩

/-- C19 as stated fails (counterexample): in the state reached from `InitalizeLattice`
(64 x 64, inlet velocity `1/10`, line barrier) by one `Stream`, `DragFluid` at the
in-margin target `(22, 32)` overwrites the cell `(22, 32)`, whose nine densities summed
to `9/10` before the call and sum to `1` after it. -/
theorem DragFluid_changes_sum :
    ∃ s1 s2 s3 c c', InitalizeLattice rest3 64 64 (1 / 10) (3 / 100) LINE = some s1 ∧
      Stream s1 = some s2 ∧
      ((3 : Int) < 22 ∧ (22 : Int) < s2.xdim - 4) ∧ ((3 : Int) < 32 ∧ (32 : Int) < s2.ydim - 4) ∧
      DragFluid s2 22 32 (1 / 10) 0 = some s3 ∧ inDisc 22 32 22 32 ∧
      cellAt s2 (22 + 32 * s2.xdim) = some c ∧ cellAt s3 (22 + 32 * s2.xdim) = some c' ∧
      c.mass = 9 / 10 ∧ c'.mass = 1 ∧ c'.mass ≠ c.mass := by
  obtain ⟨s1, s2, c, h1, h2, hwf2, ex, ey, _, hc, hr, hm⟩ := stale_after_stream
  have hX : (3 : Int) < 22 ∧ (22 : Int) < s2.xdim - 4 := by
    rw [ex]
    decide
  have hY : (3 : Int) < 32 ∧ (32 : Int) < s2.ydim - 4 := by
    rw [ey]
    decide
  have hd : inDisc 22 32 22 32 := by
    unfold inDisc
    decide
  obtain ⟨s3, h3, _, _, hin, _⟩ := DragFluid_spec hwf2 22 32 (1 / 10) 0 hX hY
  have hc3 := hin 22 32 hd
  rw [ex] at hc3
  rw [hc] at hc3
  have hm' : (push (1 / 10) 0 c).mass = 1 := by
    rw [push, equilibrium_mass, hr]
  refine ⟨s1, s2, s3, c, push (1 / 10) 0 c, h1, h2, hX, hY, h3, hd, ?_, ?_, hm, hm', ?_⟩
  · rw [ex]
    exact hc
  · rw [ex]
    exact hc3
  · rw [hm, hm']
    norm_num

/-- C19, amended: on a well-formed lattice and for an in-margin target, `DragFluid`
succeeds, and in every cell it overwrites it keeps the stored density `rho` and makes the
nine directional densities sum to that stored density; so their sum is the same as before
the call in every cell whose stored density was the sum before the call. -/
theorem DragFluid_keeps_stored_density (s : Solver) (pushX pushY : Int) (pushUX pushUY : ℚ)
    (hwf : WellFormed s) (hX : 3 < pushX ∧ pushX < s.xdim - 4)
    (hY : 3 < pushY ∧ pushY < s.ydim - 4) :
    ∃ s', DragFluid s pushX pushY pushUX pushUY = some s' ∧
      ∀ x y, inDisc pushX pushY x y →
        ∃ c c', cellAt s (x + y * s.xdim) = some c ∧ cellAt s' (x + y * s.xdim) = some c' ∧
          c'.rho = c.rho ∧ c'.mass = c.rho ∧ (c.rho = c.mass → c'.mass = c.mass) := by
  obtain ⟨s', hrun, _, _, hin, _⟩ := DragFluid_spec hwf pushX pushY pushUX pushUY hX hY
  refine ⟨s', hrun, ?_⟩
  intro x y hd
  have hr : (0 ≤ x ∧ x < s.xdim) ∧ (0 ≤ y ∧ y < s.ydim) := by
    unfold inDisc at hd
    omega
  obtain ⟨k0, k1⟩ := idx_range hr.1.1 hr.1.2 hr.2.1 hr.2.2
  obtain ⟨c, hc⟩ := cellAt_ok hwf.sized k0 k1
  refine ⟨c, push pushUX pushUY c, hc, by rw [hin x y hd, hc]; rfl, rfl,
    equilibrium_mass _ _ _, ?_⟩
  intro h
  rw [← h]
  exact equilibrium_mass _ _ _

theorem rest9_wf : WellFormed rest9 := by
  simp [WellFormed, rest9, blank9, allocated]

theorem rest9_cell : cellAt rest9 (4 + 4 * rest9.xdim) = some (equilibrium 0 0 1) := by
  norm_num [cellAt, rest9, blank9, allocated, rd, equilibrium, feq]

/-- In `rest9` the velocity stored at the centre `(4, 4)` is zero, and `DragFluid` at the
centre with the velocity `(1/10, 1/20)` stores `1/10` there. -/
theorem rest9_pushed :
    rd rest9.ux (4 + 4 * rest9.xdim) = some 0 ∧
      (DragFluid rest9 4 4 (1 / 10) (1 / 20)).bind (fun t => rd t.ux (4 + 4 * rest9.xdim))
        = some (1 / 10) := by
  obtain ⟨s', hrun, _, _, hin, _⟩ :=
    DragFluid_spec rest9_wf 4 4 (1 / 10) (1 / 20) (by decide) (by decide)
  have h := hin 4 4 (by unfold inDisc; decide)
  rw [rest9_cell, Option.map_some'] at h
  refine ⟨(cellAt_some rest9_cell).2.2.2.2.2.2.2.2.2.2.1, ?_⟩
  rw [hrun, Option.some_bind, (cellAt_some h).2.2.2.2.2.2.2.2.2.2.1]
  rfl

theorem DragFluid_keeps_stored_density_witness :
    WellFormed rest9 ∧ ((3 : Int) < 4 ∧ (4 : Int) < rest9.xdim - 4) ∧
      ((3 : Int) < 4 ∧ (4 : Int) < rest9.ydim - 4) ∧
      (∃ s', DragFluid rest9 4 4 (1 / 10) (1 / 20) = some s' ∧
        ∀ x y, inDisc 4 4 x y →
          ∃ c c', cellAt rest9 (x + y * rest9.xdim) = some c ∧
            cellAt s' (x + y * rest9.xdim) = some c' ∧
            c'.rho = c.rho ∧ c'.mass = c.rho ∧ (c.rho = c.mass → c'.mass = c.mass)) ∧
      cellAt rest9 (4 + 4 * rest9.xdim) = some (equilibrium 0 0 1) ∧
      (equilibrium 0 0 1).rho = 1 ∧ (equilibrium 0 0 1).mass = 1 ∧
      rd rest9.ux (4 + 4 * rest9.xdim) = some 0 ∧
      (DragFluid rest9 4 4 (1 / 10) (1 / 20)).bind (fun t => rd t.ux (4 + 4 * rest9.xdim))
        = some (1 / 10) :=
  ⟨rest9_wf, by decide, by decide,
    DragFluid_keeps_stored_density rest9 4 4 (1 / 10) (1 / 20) rest9_wf (by decide) (by decide),
    rest9_cell, rfl, equilibrium_mass 0 0 1, rest9_pushed⟩

/-! ## A frame: the border -/

/-- C12 as stated fails (counterexample): on the lattice `bump5`, whose `stepsPerFrame` is
3, when the second collision of a call of `Simulate` starts the border cell `(4, 1)` is
not the inlet equilibrium: its west-moving density is the `2/9` that the first collision
copied from the cell `(3, 1)`, not `1/9`. -/
theorem border_not_pinned_again :
    WellFormed bump5 ∧ (2 : Int) ≤ bump5.stepsPerFrame ∧ (4 : Int) = bump5.xdim - 1 ∧
      ∃ s' c, beforeCollision bump5 idle 1 = some s' ∧
        cellAt s' (4 + 1 * bump5.xdim) = some c ∧ c.nW = 2 / 9 ∧
        (equilibrium bump5.flowVel 0 1).nW = 1 / 9 ∧ c ≠ equilibrium bump5.flowVel 0 1 := by
  obtain ⟨s', c, hrun, hc, hw⟩ := bump5_second
  have he : (equilibrium bump5.flowVel 0 1).nW = 1 / 9 := by
    norm_num [equilibrium, feq, bump5, calm5, post5, putCell]
  refine ⟨bump5_wf, by decide, by decide, s', c, hrun, hc, hw, he, ?_⟩
  intro h
  rw [h, he] at hw
  norm_num at hw

/-- C12, amended: in a call of `Simulate` on a well-formed lattice the boundary conditions
are applied once, before the first collision: when the first collision starts, every
border cell holds the inlet equilibrium for `(flowVel, 0, 1)`. -/
theorem border_pinned_before_first_collision (s : Solver) (props : AppProperties)
    (hwf : WellFormed s) :
    ∃ s', beforeCollision s props 0 = some s' ∧
      ∀ x y, 0 ≤ x → x < s.xdim → 0 ≤ y → y < s.ydim →
        (x = 0 ∨ x = s.xdim - 1 ∨ y = 0 ∨ y = s.ydim - 1) →
        cellAt s' (x + y * s.xdim) = some (equilibrium s.flowVel 0 1) := by
  obtain ⟨s1, hrun1, _, _, hbd, _⟩ := SetBoundaries_spec hwf
  obtain ⟨d, ox, oy, hr⟩ := DragFluidCheck_lattice s1 props
  refine ⟨(DragFluidCheck s1 props).1, ?_, ?_⟩
  · unfold beforeCollision
    rw [hrun1, andThen_some]
    rfl
  · intro x y hx0 hx1 hy0 hy1 hb
    rw [hr]
    exact hbd x y hx0 hx1 hy0 hy1 hb

/-- A call of `Simulate` on a well-formed lattice that makes `n` passes a frame is the
state before collision number `n + 1`, followed by the stability check. -/
theorem Simulate_passes {s : Solver} (props : AppProperties) (hwf : WellFormed s) (n : Nat)
    (hn : s.stepsPerFrame = n) :
    Simulate s props = andThen (beforeCollision s props n) CheckFlowStability := by
  obtain ⟨s1, hrun1, _, hfr, _⟩ := SetBoundaries_spec hwf
  obtain ⟨d, ox, oy, hr⟩ := DragFluidCheck_lattice s1 props
  have hst : (DragFluidCheck s1 props).1.stepsPerFrame = n := by
    rw [hr]
    exact (frame_get Solver.stepsPerFrame rfl rfl hfr).trans hn
  unfold Simulate beforeCollision
  rw [hrun1, andThen_some, andThen_some]
  simp only [hst]

theorem gust5_wf : WellFormed gust5 := bump5_wf

theorem gust5_corner : cellAt gust5 (0 + 0 * gust5.xdim) = some (equilibrium 0 0 1) := by
  have h : cellAt gust5 (0 + 0 * gust5.xdim) = cellAt calm5 0 :=
    cellAt_putCell_other calm5 8 _ (fun _ => by decide)
  rw [h]
  norm_num [cellAt, calm5, post5, rd, equilibrium, feq]

theorem border_pinned_before_first_collision_witness :
    WellFormed gust5 ∧
      (∃ s', beforeCollision gust5 idle 0 = some s' ∧
        ∀ x y, 0 ≤ x → x < gust5.xdim → 0 ≤ y → y < gust5.ydim →
          (x = 0 ∨ x = gust5.xdim - 1 ∨ y = 0 ∨ y = gust5.ydim - 1) →
          cellAt s' (x + y * gust5.xdim) = some (equilibrium gust5.flowVel 0 1)) ∧
      cellAt gust5 (0 + 0 * gust5.xdim) = some (equilibrium 0 0 1) ∧
      equilibrium 0 0 1 ≠ equilibrium gust5.flowVel 0 1 :=
  ⟨gust5_wf, border_pinned_before_first_collision gust5 idle gust5_wf, gust5_corner,
    inlet_ne_rest⟩

/-! ## Moments of the equilibrium -/

theorem equilibrium_momentum_x (ux uy rho : ℚ) :
    (equilibrium ux uy rho).nE + (equilibrium ux uy rho).nNE + (equilibrium ux uy rho).nSE
      - (equilibrium ux uy rho).nW - (equilibrium ux uy rho).nNW - (equilibrium ux uy rho).nSW
      = rho * ux := by
  simp only [equilibrium, feq]
  ring

theorem equilibrium_momentum_y (ux uy rho : ℚ) :
    (equilibrium ux uy rho).nN + (equilibrium ux uy rho).nNE + (equilibrium ux uy rho).nNW
      - (equilibrium ux uy rho).nS - (equilibrium ux uy rho).nSE - (equilibrium ux uy rho).nSW
      = rho * uy := by
  simp only [equilibrium, feq]
  ring

theorem equilibrium_sum (ux uy rho : ℚ) :
    (equilibrium ux uy rho).n0 + (equilibrium ux uy rho).nN + (equilibrium ux uy rho).nS
      + (equilibrium ux uy rho).nE + (equilibrium ux uy rho).nW + (equilibrium ux uy rho).nNW
      + (equilibrium ux uy rho).nNE + (equilibrium ux uy rho).nSW + (equilibrium ux uy rho).nSE
      = rho := by
  simp only [equilibrium, feq]
  ring

/-- A cell whose nine densities are those of an equilibrium with a density that is not
zero is relaxed to that equilibrium, whatever the relaxation rate: the densities stay and
the stored density and velocity become those of the equilibrium. -/
theorem relax_fixed (omega ux uy rho : ℚ) (c : Cell) (hrho : rho ≠ 0)
    (h0 : c.n0 = (equilibrium ux uy rho).n0) (hN : c.nN = (equilibrium ux uy rho).nN)
    (hS : c.nS = (equilibrium ux uy rho).nS) (hE : c.nE = (equilibrium ux uy rho).nE)
    (hW : c.nW = (equilibrium ux uy rho).nW) (hNE : c.nNE = (equilibrium ux uy rho).nNE)
    (hSE : c.nSE = (equilibrium ux uy rho).nSE) (hNW : c.nNW = (equilibrium ux uy rho).nNW)
    (hSW : c.nSW = (equilibrium ux uy rho).nSW) :
    relax omega c = equilibrium ux uy rho := by
  have hr : c.n0 + c.nN + c.nS + c.nE + c.nW + c.nNW + c.nNE + c.nSW + c.nSE = rho := by
    rw [h0, hN, hS, hE, hW, hNE, hSE, hNW, hSW]
    exact equilibrium_sum ux uy rho
  have hx : (c.nE + c.nNE + c.nSE - c.nW - c.nNW - c.nSW) / rho = ux := by
    rw [hE, hNE, hSE, hW, hNW, hSW, equilibrium_momentum_x, mul_div_cancel_left₀ _ hrho]
  have hy : (c.nN + c.nNE + c.nNW - c.nS - c.nSE - c.nSW) / rho = uy := by
    rw [hN, hNE, hNW, hS, hSE, hSW, equilibrium_momentum_y, mul_div_cancel_left₀ _ hrho]
  unfold relax
  simp only [hr, hx, hy]
  rw [h0, hN, hS, hE, hW, hNE, hSE, hNW, hSW]
  simp only [equilibrium, sub_self, mul_zero, add_zero]

theorem relax_equilibrium (omega ux uy rho : ℚ) (hrho : rho ≠ 0) :
    relax omega (equilibrium ux uy rho) = equilibrium ux uy rho :=
  relax_fixed omega ux uy rho _ hrho rfl rfl rfl rfl rfl rfl rfl rfl rfl

theorem rest3_cell : cellAt rest3 (1 + 1 * 3) = some (equilibrium 0 0 1) := by
  norm_num [cellAt, rest3, rd, equilibrium, feq]

/-! ## Dragging the fluid: the footprint -/

theorem inDisc_offset (pushX pushY x y : Int) :
    inDisc pushX pushY x y ↔ (x - pushX, y - pushY) ∈ footprint 0 0 := by
  rw [mem_footprint]
  unfold inDisc
  simp only
  omega

theorem inDisc_abs (pushX pushY x y : Int) :
    inDisc pushX pushY x y ↔
      ((|x - pushX| ≤ 2 ∧ |y - pushY| ≤ 1) ∨ (|x - pushX| ≤ 1 ∧ |y - pushY| = 2)) := by
  unfold inDisc
  rw [abs_le, abs_le, abs_le, abs_eq (by norm_num)]
  omega

/-- C28 (drag footprint): on a well-formed lattice, when `4 ≤ pushX ≤ xdim - 5` and
`4 ≤ pushY ≤ ydim - 5`, `DragFluid` runs without an out-of-range access.  The cells of its
disc are the 21 cells `(pushX + dx, pushY + dy)` with `|dx| ≤ 2` and `|dy| ≤ 1`, or
`|dx| ≤ 1` and `|dy| = 2`; none of them is a border cell; in each of them `ux = pushUX`
and `uy = pushUY` afterwards.  Every other cell, in particular every border cell, is
unchanged in every field, as is everything else in the solver. -/
theorem DragFluid_footprint (s : Solver) (pushX pushY : Int) (pushUX pushUY : ℚ)
    (hwf : WellFormed s) (hX : 4 ≤ pushX ∧ pushX ≤ s.xdim - 5)
    (hY : 4 ≤ pushY ∧ pushY ≤ s.ydim - 5) :
    ∃ s', DragFluid s pushX pushY pushUX pushUY = some s' ∧
      (footprint 0 0).length = 21 ∧ (footprint 0 0).Nodup ∧
      (∀ x y, inDisc pushX pushY x y ↔ (x - pushX, y - pushY) ∈ footprint 0 0) ∧
      (∀ x y, inDisc pushX pushY x y ↔
        ((|x - pushX| ≤ 2 ∧ |y - pushY| ≤ 1) ∨ (|x - pushX| ≤ 1 ∧ |y - pushY| = 2))) ∧
      (∀ x y, inDisc pushX pushY x y →
        (1 ≤ x ∧ x ≤ s.xdim - 2) ∧ (1 ≤ y ∧ y ≤ s.ydim - 2) ∧
        ∃ c, cellAt s' (x + y * s.xdim) = some c ∧ c.ux = pushUX ∧ c.uy = pushUY) ∧
      (∀ x y, (0 ≤ x ∧ x < s.xdim) → ¬ inDisc pushX pushY x y →
        cellAt s' (x + y * s.xdim) = cellAt s (x + y * s.xdim)) ∧
      (∀ x y, (0 ≤ x ∧ x < s.xdim) → (x = 0 ∨ x = s.xdim - 1 ∨ y = 0 ∨ y = s.ydim - 1) →
        cellAt s' (x + y * s.xdim) = cellAt s (x + y * s.xdim)) ∧
      frame s' = frame s := by
  obtain ⟨s', hrun, _, hfr, hin, hout⟩ :=
    DragFluid_spec hwf pushX pushY pushUX pushUY (by omega) (by omega)
  have hkeep : ∀ x y, (0 ≤ x ∧ x < s.xdim) → ¬ inDisc pushX pushY x y →
      cellAt s' (x + y * s.xdim) = cellAt s (x + y * s.xdim) := by
    intro x y hx hn
    apply hout
    intro x' y' hd e
    have hr : 0 ≤ x' ∧ x' < s.xdim := by
      unfold inDisc at hd
      omega
    obtain ⟨e1, e2⟩ := idx_inj (d := s.xdim) hx hr e
    subst e1 e2
    exact hn hd
  refine ⟨s', hrun, rfl, by decide, inDisc_offset pushX pushY, inDisc_abs pushX pushY,
    ?_, hkeep, ?_, hfr⟩
  · intro x y hd
    have hr : (1 ≤ x ∧ x ≤ s.xdim - 2) ∧ (1 ≤ y ∧ y ≤ s.ydim - 2) := by
      unfold inDisc at hd
      omega
    obtain ⟨k0, k1⟩ := idx_range (w := s.xdim) (h := s.ydim) (x := x) (y := y)
      (by omega) (by omega) (by omega) (by omega)
    obtain ⟨c, hc⟩ := cellAt_ok hwf.sized k0 k1
    exact ⟨hr.1, hr.2, push pushUX pushUY c, by rw [hin x y hd, hc]; rfl, rfl, rfl⟩
  · intro x y hx hb
    apply hkeep x y hx
    intro hd
    unfold inDisc at hd
    omega

theorem DragFluid_footprint_witness :
    WellFormed blank9 ∧ ((4 : Int) ≤ 4 ∧ (4 : Int) ≤ blank9.xdim - 5) ∧
      ((4 : Int) ≤ 4 ∧ (4 : Int) ≤ blank9.ydim - 5) ∧
      ∃ s', DragFluid blank9 4 4 (1 / 10) 0 = some s' ∧
        (footprint 0 0).length = 21 ∧ (footprint 0 0).Nodup ∧
        (∀ x y, inDisc 4 4 x y ↔ (x - 4, y - 4) ∈ footprint 0 0) ∧
        (∀ x y, inDisc 4 4 x y ↔
          ((|x - 4| ≤ 2 ∧ |y - 4| ≤ 1) ∨ (|x - 4| ≤ 1 ∧ |y - 4| = 2))) ∧
        (∀ x y, inDisc 4 4 x y →
          (1 ≤ x ∧ x ≤ blank9.xdim - 2) ∧ (1 ≤ y ∧ y ≤ blank9.ydim - 2) ∧
          ∃ c, cellAt s' (x + y * blank9.xdim) = some c ∧ c.ux = 1 / 10 ∧ c.uy = 0) ∧
        (∀ x y, (0 ≤ x ∧ x < blank9.xdim) → ¬ inDisc 4 4 x y →
          cellAt s' (x + y * blank9.xdim) = cellAt blank9 (x + y * blank9.xdim)) ∧
        (∀ x y, (0 ≤ x ∧ x < blank9.xdim) →
          (x = 0 ∨ x = blank9.xdim - 1 ∨ y = 0 ∨ y = blank9.ydim - 1) →
          cellAt s' (x + y * blank9.xdim) = cellAt blank9 (x + y * blank9.xdim)) ∧
        frame s' = frame blank9 :=
  ⟨blank9_wf, by decide, by decide,
    DragFluid_footprint blank9 4 4 (1 / 10) 0 blank9_wf (by decide) (by decide)⟩

/-! ## Moments of the equilibrium: the claims -/

/-- C29 as stated fails at the sentinel (counterexample): on the lattice `rest3`, whose
centre cell stores the density `1`, `SetEquilibrium(1, 1, 1/10, 0, -1)` leaves a cell whose
first moment in `x` is `1/10`, not `rho * ux = -1/10`. -/
theorem SetEquilibrium_sentinel_momentum :
    ∃ s' c, SetEquilibrium rest3 1 1 (1 / 10) 0 (-1) = some s' ∧
      cellAt s' (1 + 1 * rest3.xdim) = some c ∧
      c.nE + c.nNE + c.nSE - c.nW - c.nNW - c.nSW = 1 / 10 ∧
      c.nE + c.nNE + c.nSE - c.nW - c.nNW - c.nSW ≠ (-1) * (1 / 10) := by
  obtain ⟨c0, hc0, hrun⟩ := SetEquilibrium_keep rest3_wf.weights rest3_wf.sized 1 1 (1 / 10) 0
    (by decide) (by decide)
  have e0 : c0 = equilibrium 0 0 1 := Option.some.inj (hc0.symm.trans rest3_cell)
  have e : (-1 : ℚ) = -1.0 := by norm_num
  have hm : (push (1 / 10) 0 c0).nE + (push (1 / 10) 0 c0).nNE + (push (1 / 10) 0 c0).nSE
      - (push (1 / 10) 0 c0).nW - (push (1 / 10) 0 c0).nNW - (push (1 / 10) 0 c0).nSW
      = 1 / 10 := by
    rw [e0]
    simp only [push]
    rw [equilibrium_momentum_x]
    norm_num [equilibrium]
  refine ⟨_, push (1 / 10) 0 c0, by rw [e]; exact hrun,
    cellAt_putCell_same rest3_wf.sized (by decide) (by decide) _, hm, ?_⟩
  rw [hm]
  norm_num

/-- C29, amended: on a well-formed lattice, for every in-range cell and every `ux`, `uy`
and `rho`, `SetEquilibrium` succeeds and leaves a cell that stores `ux`, `uy` and a density
(`rho` itself unless `rho` is the sentinel `-1`, in which case the density the cell stored
before) such that the first moments of the nine densities are that density times `ux`
and times `uy`; when that density is not zero, the velocity `Collide` recomputes from the
densities is the stored `(ux, uy)`. -/
theorem SetEquilibrium_momentum (s : Solver) (x y : Int) (ux uy rho : ℚ) (hwf : WellFormed s)
    (hx : 0 ≤ x ∧ x < s.xdim) (hy : 0 ≤ y ∧ y < s.ydim) :
    ∃ s' c0 c, cellAt s (x + y * s.xdim) = some c0 ∧ SetEquilibrium s x y ux uy rho = some s' ∧
      cellAt s' (x + y * s.xdim) = some c ∧
      c.rho = (if rho = -1 then c0.rho else rho) ∧ c.ux = ux ∧ c.uy = uy ∧
      c.nE + c.nNE + c.nSE - c.nW - c.nNW - c.nSW = c.rho * ux ∧
      c.nN + c.nNE + c.nNW - c.nS - c.nSE - c.nSW = c.rho * uy ∧
      (c.rho ≠ 0 → ∀ omega, (relax omega c).ux = ux ∧ (relax omega c).uy = uy) := by
  obtain ⟨h0, h1⟩ := idx_range hx.1 hx.2 hy.1 hy.2
  obtain ⟨c0, hc0⟩ := cellAt_ok hwf.sized h0 h1
  have hr := (cellAt_some hc0).2.2.2.2.2.2.2.2.2.1
  have hrun := SetEquilibrium_eq hwf.weights hwf.sized x y ux uy rho
    (if rho = -1 then c0.rho else rho) h0 h1 (by
      by_cases h : rho = -1
      · rw [if_pos h, if_pos h]
        exact hr
      · rw [if_neg h, if_neg h])
  refine ⟨_, c0, equilibrium ux uy (if rho = -1 then c0.rho else rho), hc0, hrun,
    cellAt_putCell_same hwf.sized h0 h1 _, rfl, rfl, rfl, equilibrium_momentum_x _ _ _,
    equilibrium_momentum_y _ _ _, ?_⟩
  intro hne omega
  have hne' : (if rho = -1 then c0.rho else rho) ≠ 0 := hne
  rw [relax_equilibrium omega ux uy _ hne']
  exact ⟨rfl, rfl⟩

theorem SetEquilibrium_momentum_witness :
    WellFormed rest3 ∧ ((0 : Int) ≤ 1 ∧ (1 : Int) < rest3.xdim) ∧
      ((0 : Int) ≤ 1 ∧ (1 : Int) < rest3.ydim) ∧
      ∃ s' c0 c, cellAt rest3 (1 + 1 * rest3.xdim) = some c0 ∧
        SetEquilibrium rest3 1 1 (1 / 10) 0 2 = some s' ∧
        cellAt s' (1 + 1 * rest3.xdim) = some c ∧
        c.rho = (if (2 : ℚ) = -1 then c0.rho else 2) ∧ c.ux = 1 / 10 ∧ c.uy = 0 ∧
        c.nE + c.nNE + c.nSE - c.nW - c.nNW - c.nSW = c.rho * (1 / 10) ∧
        c.nN + c.nNE + c.nNW - c.nS - c.nSE - c.nSW = c.rho * 0 ∧
        (c.rho ≠ 0 → ∀ omega, (relax omega c).ux = 1 / 10 ∧ (relax omega c).uy = 0) :=
  ⟨rest3_wf, by decide, by decide,
    SetEquilibrium_momentum rest3 1 1 (1 / 10) 0 2 rest3_wf (by decide) (by decide)⟩

/-! ## The row goroutines of `StreamThreaded` -/

theorem bounceRows_ascending (s : Solver) : bounceRows (upTo 1 (s.ydim - 1)) s = bounceBack s :=
  rfl

theorem StreamRows_id (s : Solver) : StreamRows id s = StreamThreaded s := rfl

theorem twin4_wf : WellFormed twin4 := by
  simp [WellFormed, twin4, rest3]

theorem high5_wf : WellFormed high5 :=
  calm5_wf.of_frame (frame_putCell _ _ _) (Sized_putCell calm5_wf.sized _ _)

theorem calm5_edge : cellAt calm5 (4 + 3 * 5) = some (equilibrium 0 0 1) := by
  norm_num [cellAt, calm5, post5, rd, equilibrium, feq]

/-- C25 (outflow copy), evaluated on `high5`, a 5 x 5 lattice without barrier whose cell
`(3, 3)` holds twice the density of the others.  The row `y = 3 = ydim - 2` is an interior
row, which the per-cell loop of `Collide` visits but its outflow loop, over the rows
`1 .. ydim - 3`, does not.  After `Collide` the cell `(3, 3)` holds the west-moving
density `2/9`, and the right-edge cell `(4, 3)` still holds `1/9`. -/
theorem Collide_skips_last_row :
    (1 ≤ (3 : Int) ∧ (3 : Int) ≤ high5.ydim - 2) ∧
    (3 : Int) ∈ upTo 1 (high5.ydim - 1) ∧ (3 : Int) ∉ upTo 1 (high5.ydim - 2) ∧
    ∃ s' l c, Collide high5 = some s' ∧
      cellAt s' (high5.xdim - 2 + 3 * high5.xdim) = some l ∧
      cellAt s' (high5.xdim - 1 + 3 * high5.xdim) = some c ∧
      l.nW = 2 / 9 ∧ c.nW = 1 / 9 := by
  obtain ⟨s', hrun, _, _, hrel, _, hbd⟩ := Collide_full high5_wf (by decide)
  have hl : cellAt s' (3 + 3 * 5) = some (relax (1.0 / (3 * high5.flowVisc + 0.5))
      (equilibrium 0 0 2)) := by
    refine (hrel 3 3 (by decide) (by decide) (by decide) (by decide)).trans ?_
    exact congrArg (Option.map _)
      (cellAt_putCell_same (s := calm5) (i := 3 + 3 * 5) calm5_wf.sized (by decide) (by decide) _)
  have hc : cellAt s' (4 + 3 * 5) = some (equilibrium 0 0 1) := by
    refine (hbd 4 3 (Or.inr (Or.inl rfl)) (fun _ => Or.inr (by decide)) (by decide)).trans ?_
    exact (cellAt_putCell_other calm5 18 _ (fun _ => by decide)).trans calm5_edge
  refine ⟨by decide, by decide, by decide, s', _, _, hrun, hl, hc, relax_bump _, ?_⟩
  norm_num [equilibrium, feq]

/-- C27 (row order of the bounce-back), evaluated on `twin4`, a 4 x 4 lattice with the
barrier sites `(1, 1)` and `(1, 2)`, north-moving density `2` and south-moving density
`1`.  With the rows in ascending order the row goroutines produce what `Stream` does:
the south-moving density of the site `(1, 1)` is `1` and the north-moving density of the
site `(1, 2)` is `1`.  With the rows in the reverse order, a permutation of the rows, both
are `2`: the goroutine of a row reads, at its barrier site, what the goroutine of the
neighbouring row writes there. -/
theorem StreamRows_order_matters :
    StreamRows id twin4 = Stream twin4 ∧
    (List.reverse (upTo 1 (twin4.ydim - 1))).Perm (upTo 1 (twin4.ydim - 1)) ∧
    (Stream twin4).bind (fun t => rd t.nS (1 + 1 * 4)) = some 1 ∧
    (StreamRows List.reverse twin4).bind (fun t => rd t.nS (1 + 1 * 4)) = some 2 ∧
    (Stream twin4).bind (fun t => rd t.nN (1 + 2 * 4)) = some 1 ∧
    (StreamRows List.reverse twin4).bind (fun t => rd t.nN (1 + 2 * 4)) = some 2 :=
  ⟨rfl, List.reverse_perm _, by decide, by decide, by decide, by decide⟩

/-- C26 (accumulation by the row goroutines), evaluated on `twin4`, which has the two
interior barrier sites `(1, 1)` and `(1, 2)`, one in each interior row.  Each of the two
row goroutines runs `s.barrierCount++` once, a load and a store of the shared counter
with nothing to keep another goroutine from running in between.  When the goroutines
take turns, both load `0` and both store `1`: every goroutine has finished and
`barrierCount` is `1`, not `2`.  When one goroutine runs after the other, as in `Stream`,
the counter is `2`. -/
theorem StreamThreaded_loses_count :
    barrierSites twin4 = [(1, 1), (1, 2)] ∧
    countWorkers twin4 = [{ reg := 0, todo := [Access.load, Access.store] },
      { reg := 0, todo := [Access.load, Access.store] }] ∧
    countUnder twin4 [0, 1, 0, 1] = (1, [{ reg := 0, todo := [] }, { reg := 0, todo := [] }]) ∧
    countUnder twin4 [0, 0, 1, 1] = (2, [{ reg := 0, todo := [] }, { reg := 1, todo := [] }]) ∧
    (Stream twin4).map (fun t => t.barrierCount) = some 2 := by
  decide

/-! ## The force accumulators -/

theorem bounceSite_count {dim : Int} {s s' : Solver} {x y : Int}
    (hb : rd s.barrier (x + y * dim) = some true) (h : bounceSite dim s x y = some s') :
    s'.barrierCount = s.barrierCount + 1 ∧ s'.barrierxSum = s.barrierxSum + x ∧
      s'.barrierySum = s.barrierySum + y := by
  simp only [bounceSite, hb, andThen_some, if_true] at h
  iterate 24 obtain ⟨_, _, h⟩ := andThen_eq_some h
  rw [← Option.some.inj h]
  exact ⟨rfl, rfl, rfl⟩

theorem mem_barrierSites {s : Solver} {p : Int × Int} :
    p ∈ barrierSites s ↔ (1 ≤ p.1 ∧ p.1 ≤ s.xdim - 2) ∧ (1 ≤ p.2 ∧ p.2 ≤ s.ydim - 2) ∧
      rd s.barrier (p.1 + p.2 * s.xdim) = some true := by
  unfold barrierSites
  rw [List.mem_filter, mem_grid, mem_upTo, mem_upTo, decide_eq_true_eq]
  constructor
  · rintro ⟨⟨h1, h2⟩, h3⟩
    exact ⟨by omega, by omega, h3⟩
  · rintro ⟨h1, h2, h3⟩
    exact ⟨⟨by omega, by omega⟩, h3⟩

theorem barrierSites_nodup (s : Solver) : (barrierSites s).Nodup :=
  (grid_nodup (upTo_nodup 1 (s.xdim - 1)) (upTo_nodup 1 (s.ydim - 1))).filter _

/-- The bounce-back loop of `Stream` adds to `barrierCount`, `barrierxSum` and
`barrierySum` the number of the interior barrier sites and the sums of their
coordinates; without an interior barrier site it changes nothing. -/
theorem bounceBack_count (s : Solver) (n : Nat) (hn : n = (s.xdim * s.ydim).toNat)
    (hl : ∀ d, (dens s d).length = n) (hbl : s.barrier.length = n) :
    ∃ s', bounceBack s = some s' ∧
      s'.barrierCount = s.barrierCount + ((barrierSites s).length : Int) ∧
      s'.barrierxSum = s.barrierxSum + ((barrierSites s).map Prod.fst).sum ∧
      s'.barrierySum = s.barrierySum + ((barrierSites s).map Prod.snd).sum ∧
      (barrierSites s = [] → s' = s) := by
  unfold bounceBack barrierSites
  rw [foldlM_nested (fun (st : Solver) (x y : Int) => bounceSite s.xdim st x y)]
  have key := foldlM_inv
    (fun (st : Solver) (p : Int × Int) => bounceSite s.xdim st p.1 p.2)
    (fun pre st => quiet st = quiet s ∧ (∀ d, (dens st d).length = n) ∧
      st.barrierCount = s.barrierCount + (((pre.filter fun p =>
        decide (rd s.barrier (p.1 + p.2 * s.xdim) = some true)).length : Nat) : Int) ∧
      st.barrierxSum = s.barrierxSum + ((pre.filter fun p =>
        decide (rd s.barrier (p.1 + p.2 * s.xdim) = some true)).map Prod.fst).sum ∧
      st.barrierySum = s.barrierySum + ((pre.filter fun p =>
        decide (rd s.barrier (p.1 + p.2 * s.xdim) = some true)).map Prod.snd).sum ∧
      ((pre.filter fun p =>
        decide (rd s.barrier (p.1 + p.2 * s.xdim) = some true)) = [] → st = s))
    ((upTo 1 (s.ydim - 1)).flatMap fun y => (upTo 1 (s.xdim - 1)).map fun x => (x, y))
    ?_ s ⟨rfl, hl, by simp, by simp, by simp, fun _ => rfl⟩
  · obtain ⟨s', hrun, _, _, h1, h2, h3, h4⟩ := key
    exact ⟨s', hrun, h1, h2, h3, h4⟩
  · rintro pre ⟨x, y⟩ post st hT ⟨hq, hlen, h1, h2, h3, h4⟩
    have hp : (x, y) ∈ ((upTo 1 (s.ydim - 1)).flatMap fun y =>
        (upTo 1 (s.xdim - 1)).map fun x => (x, y)) := by
      rw [hT]
      simp
    rw [mem_grid, mem_upTo, mem_upTo] at hp
    simp only at hp
    have eb : st.barrier = s.barrier := quiet_get Solver.barrier rfl rfl hq
    obtain ⟨k0, k1⟩ := idx_range (w := s.xdim) (h := s.ydim) (x := x) (y := y)
      (by omega) (by omega) (by omega) (by omega)
    obtain ⟨b, hb⟩ := rd_ok (a := s.barrier) k0 (by rw [hbl, hn]; exact k1)
    cases b with
    | true =>
      obtain ⟨st', hrun, hq', hd'⟩ := bounceSite_barrier st s.xdim s.ydim x y n hn hlen
        (by omega) (by omega) (by rw [eb]; exact hb)
      obtain ⟨c1, c2, c3⟩ := bounceSite_count (by rw [eb]; exact hb) hrun
      have hf : ([(x, y)].filter fun p : Int × Int =>
          decide (rd s.barrier (p.1 + p.2 * s.xdim) = some true)) = [(x, y)] := by
        simp [hb]
      refine ⟨st', hrun, hq'.trans hq, fun d => (hd' d).1, ?_, ?_, ?_, ?_⟩
      · rw [c1, h1, List.filter_append, hf, List.length_append]
        simp only [List.length_singleton]
        push_cast
        ring
      · rw [c2, h2, List.filter_append, hf, List.map_append, List.sum_append]
        simp only [List.map_cons, List.map_nil, List.sum_cons, List.sum_nil]
        ring
      · rw [c3, h3, List.filter_append, hf, List.map_append, List.sum_append]
        simp only [List.map_cons, List.map_nil, List.sum_cons, List.sum_nil]
        ring
      · intro h
        rw [List.filter_append, hf] at h
        simp at h
    | false =>
      have hf : ([(x, y)].filter fun p : Int × Int =>
          decide (rd s.barrier (p.1 + p.2 * s.xdim) = some true)) = [] := by
        simp [hb]
      refine ⟨st, bounceSite_fluid st s.xdim x y (by rw [eb]; exact hb), hq, hlen, ?_, ?_, ?_, ?_⟩
      · rw [List.filter_append, hf, List.append_nil]
        exact h1
      · rw [List.filter_append, hf, List.append_nil]
        exact h2
      · rw [List.filter_append, hf, List.append_nil]
        exact h3
      · rw [List.filter_append, hf, List.append_nil]
        exact h4

theorem still_get {α : Type} (p : Solver → α) {s s' : Solver}
    (h1 : p (still s') = p s') (h2 : p (still s) = p s) (hf : still s' = still s) :
    p s' = p s := by
  rw [← h1, ← h2, hf]

theorem Stream_assoc (a : Solver) :
    (andThen (streamNW a) fun s1 => andThen (streamNE s1) fun s2 =>
      andThen (streamSE s2) fun s3 => andThen (streamSW s3) fun s4 => bounceBack s4)
      = andThen (andThen (streamNW a) fun s1 => andThen (streamNE s1) fun s2 =>
          andThen (streamSE s2) fun s3 => streamSW s3) bounceBack := by
  cases streamNW a with
  | none => rfl
  | some s1 =>
    simp only [andThen_some]
    cases streamNE s1 with
    | none => rfl
    | some s2 =>
      simp only [andThen_some]
      cases streamSE s2 with
      | none => rfl
      | some s3 => rfl

/-- The force accumulators after `Stream`: the counts of the interior barrier sites of
the lattice `Stream` started from; and, when there is none, the state the four sweeps
leave. -/
theorem Stream_count {s : Solver} (hwf : WellFormed s) :
    ∃ s', Stream s = some s' ∧
      s'.barrierCount = ((barrierSites s).length : Int) ∧
      s'.barrierxSum = ((barrierSites s).map Prod.fst).sum ∧
      s'.barrierySum = ((barrierSites s).map Prod.snd).sum ∧
      (barrierSites s = [] → s'.barrierCount = 0 ∧ s'.barrierxSum = 0 ∧ s'.barrierySum = 0 ∧
        s'.barrierFx = 0 ∧ s'.barrierFy = 0) := by
  have hl0 : ∀ d, (dens (resetForce s) d).length = (s.xdim * s.ydim).toNat := by
    intro d
    have : dens (resetForce s) d = dens s d := by cases d <;> rfl
    rw [this]
    exact hwf.dens_length d
  obtain ⟨s4, hrun4, hst, h4⟩ := sweeps_spec (resetForce s) _ rfl hl0
  have ex : s4.xdim = s.xdim := still_get (s := resetForce s) Solver.xdim rfl rfl hst
  have ey : s4.ydim = s.ydim := still_get (s := resetForce s) Solver.ydim rfl rfl hst
  have eb : s4.barrier = s.barrier := still_get (s := resetForce s) Solver.barrier rfl rfl hst
  have e1 : s4.barrierCount = 0 := still_get Solver.barrierCount rfl rfl hst
  have e2 : s4.barrierxSum = 0 := still_get Solver.barrierxSum rfl rfl hst
  have e3 : s4.barrierySum = 0 := still_get Solver.barrierySum rfl rfl hst
  have e4 : s4.barrierFx = 0 := by
    have h : s4.barrierFx = (0.0 : ℚ) := still_get Solver.barrierFx rfl rfl hst
    rw [h]
    norm_num
  have e5 : s4.barrierFy = 0 := by
    have h : s4.barrierFy = (0.0 : ℚ) := still_get Solver.barrierFy rfl rfl hst
    rw [h]
    norm_num
  have esites : barrierSites s4 = barrierSites s := by
    unfold barrierSites
    rw [ex, ey, eb]
  obtain ⟨s5, hrun5, c1, c2, c3, c4⟩ := bounceBack_count s4 (s.xdim * s.ydim).toNat
    (by rw [ex, ey]) (fun d => (h4 d).1)
    (by rw [eb]; exact hwf.2.2.2.1.2.2.2.2.2.2.2.2.2.2.2.2.2)
  rw [esites] at c1 c2 c3 c4
  refine ⟨s5, ?_, by rw [c1, e1, zero_add], by rw [c2, e2, zero_add], by rw [c3, e3, zero_add], ?_⟩
  · have hS : Stream s = andThen (streamNW (resetForce s)) fun s1 =>
        andThen (streamNE s1) fun s2 => andThen (streamSE s2) fun s3 =>
        andThen (streamSW s3) fun s4 => bounceBack s4 := rfl
    rw [hS, Stream_assoc, hrun4, andThen_some, hrun5]
  · intro h
    rw [c4 h]
    exact ⟨e1, e2, e3, e4, e5⟩

/-- The values of the five accumulators before the call do not enter `Stream`. -/
theorem Stream_reset (s : Solver) (a b c : Int) (f g : ℚ) :
    Stream { s with barrierCount := a, barrierxSum := b, barrierySum := c,
                    barrierFx := f, barrierFy := g } = Stream s := rfl

/-- C24 (the force accumulators are rebuilt by every streaming pass): on a well-formed
lattice `Stream` succeeds; `barrierSites` lists, without repetition, the barrier cells
`(x, y)` with `1 ≤ x ≤ xdim - 2` and `1 ≤ y ≤ ydim - 2`; afterwards `barrierCount` is their
number, `barrierxSum` the sum of their `x` and `barrierySum` the sum of their `y`.  The
result of `Stream`, all five accumulators included, is the same whatever values `a`, `b`,
`c`, `f`, `g` the five accumulators held before the call.  When there is no such barrier
cell, all five accumulators are `0` afterwards. -/
theorem Stream_rebuilds_accumulators (s : Solver) (a b c : Int) (f g : ℚ) (hwf : WellFormed s) :
    ∃ s', Stream s = some s' ∧
      (∀ p, p ∈ barrierSites s ↔ (1 ≤ p.1 ∧ p.1 ≤ s.xdim - 2) ∧ (1 ≤ p.2 ∧ p.2 ≤ s.ydim - 2) ∧
        rd s.barrier (p.1 + p.2 * s.xdim) = some true) ∧
      (barrierSites s).Nodup ∧
      s'.barrierCount = ((barrierSites s).length : Int) ∧
      s'.barrierxSum = ((barrierSites s).map Prod.fst).sum ∧
      s'.barrierySum = ((barrierSites s).map Prod.snd).sum ∧
      Stream { s with barrierCount := a, barrierxSum := b, barrierySum := c,
                      barrierFx := f, barrierFy := g } = some s' ∧
      (barrierSites s = [] → s'.barrierCount = 0 ∧ s'.barrierxSum = 0 ∧ s'.barrierySum = 0 ∧
        s'.barrierFx = 0 ∧ s'.barrierFy = 0) := by
  obtain ⟨s', hrun, c1, c2, c3, c4⟩ := Stream_count hwf
  exact ⟨s', hrun, fun _ => mem_barrierSites, barrierSites_nodup s, c1, c2, c3, hrun, c4⟩

theorem Stream_rebuilds_accumulators_witness :
    WellFormed post5 ∧
    ∃ s', Stream post5 = some s' ∧
      (∀ p, p ∈ barrierSites post5 ↔ (1 ≤ p.1 ∧ p.1 ≤ post5.xdim - 2) ∧
        (1 ≤ p.2 ∧ p.2 ≤ post5.ydim - 2) ∧
        rd post5.barrier (p.1 + p.2 * post5.xdim) = some true) ∧
      (barrierSites post5).Nodup ∧
      s'.barrierCount = ((barrierSites post5).length : Int) ∧
      s'.barrierxSum = ((barrierSites post5).map Prod.fst).sum ∧
      s'.barrierySum = ((barrierSites post5).map Prod.snd).sum ∧
      Stream { post5 with barrierCount := 7, barrierxSum := 8, barrierySum := 9,
                          barrierFx := 1 / 2, barrierFy := 1 / 3 } = some s' ∧
      (barrierSites post5 = [] → s'.barrierCount = 0 ∧ s'.barrierxSum = 0 ∧
        s'.barrierySum = 0 ∧ s'.barrierFx = 0 ∧ s'.barrierFy = 0) :=
  ⟨post5_wf, Stream_rebuilds_accumulators post5 7 8 9 (1 / 2) (1 / 3) post5_wf⟩

/-! ## The curl -/

/-- Specification of `ComputeCurl` on a well-formed lattice.  It succeeds and changes
nothing but `curl`.  At every interior cell the new entry is the central difference of
the velocities of the four neighbours; every other entry is as before. -/
theorem ComputeCurl_full {s : Solver} (hwf : WellFormed s) :
    ∃ c, ComputeCurl s = some { s with curl := c } ∧ c.length = s.curl.length ∧
      (∀ x y, 1 ≤ x → x ≤ s.xdim - 2 → 1 ≤ y → y ≤ s.ydim - 2 →
        ∃ a b d e, rd s.uy (x + 1 + y * s.xdim) = some a ∧
          rd s.uy (x - 1 + y * s.xdim) = some b ∧ rd s.ux (x + (y + 1) * s.xdim) = some d ∧
          rd s.ux (x + (y - 1) * s.xdim) = some e ∧
          rd c (x + y * s.xdim) = some (a - b - d + e)) ∧
      (∀ i, (∀ x y, 1 ≤ x → x ≤ s.xdim - 2 → 1 ≤ y → y ≤ s.ydim - 2 → i ≠ x + y * s.xdim) →
        rd c i = rd s.curl i) := by
  obtain ⟨_, _, _, ⟨_, _, _, _, _, _, _, _, _, _, a11, a12, c1, _⟩, _⟩ := hwf
  unfold ComputeCurl
  rw [foldlM_nested (fun (st : Solver) (x y : Int) =>
    andThen (rd st.uy (x + 1 + y * s.xdim)) fun a =>
    andThen (rd st.uy (x - 1 + y * s.xdim)) fun b =>
    andThen (rd st.ux (x + (y + 1) * s.xdim)) fun c =>
    andThen (rd st.ux (x + (y - 1) * s.xdim)) fun e =>
    andThen (wr st.curl (x + y * s.xdim) (a - b - c + e)) fun curl =>
    some { st with curl := curl })]
  have hnd := grid_nodup (upTo_nodup 1 (s.xdim - 1)) (upTo_nodup 1 (s.ydim - 1))
  have hT : ∀ p : Int × Int, p ∈ ((upTo 1 (s.ydim - 1)).flatMap fun y =>
      (upTo 1 (s.xdim - 1)).map fun x => (x, y)) ↔
      (1 ≤ p.1 ∧ p.1 ≤ s.xdim - 2) ∧ (1 ≤ p.2 ∧ p.2 ≤ s.ydim - 2) := by
    intro p
    rw [mem_grid, mem_upTo, mem_upTo]
    omega
  obtain ⟨s', hrun, c, hs', hc, hin, hout⟩ := foldlM_inv
    (fun (st : Solver) (p : Int × Int) =>
      andThen (rd st.uy (p.1 + 1 + p.2 * s.xdim)) fun a =>
      andThen (rd st.uy (p.1 - 1 + p.2 * s.xdim)) fun b =>
      andThen (rd st.ux (p.1 + (p.2 + 1) * s.xdim)) fun c =>
      andThen (rd st.ux (p.1 + (p.2 - 1) * s.xdim)) fun e =>
      andThen (wr st.curl (p.1 + p.2 * s.xdim) (a - b - c + e)) fun curl =>
      some { st with curl := curl })
    (fun pre st => ∃ c, st = { s with curl := c } ∧ c.length = s.curl.length ∧
      (∀ p ∈ pre, ∃ a b d e, rd s.uy (p.1 + 1 + p.2 * s.xdim) = some a ∧
        rd s.uy (p.1 - 1 + p.2 * s.xdim) = some b ∧
        rd s.ux (p.1 + (p.2 + 1) * s.xdim) = some d ∧
        rd s.ux (p.1 + (p.2 - 1) * s.xdim) = some e ∧
        rd c (p.1 + p.2 * s.xdim) = some (a - b - d + e)) ∧
      (∀ i, (∀ p ∈ pre, i ≠ p.1 + p.2 * s.xdim) → rd c i = rd s.curl i))
    ((upTo 1 (s.ydim - 1)).flatMap fun y => (upTo 1 (s.xdim - 1)).map fun x => (x, y))
    (by
      rintro pre ⟨x, y⟩ post st hTT ⟨c, rfl, hc, hin, hout⟩
      have hp : (x, y) ∈ ((upTo 1 (s.ydim - 1)).flatMap fun y =>
          (upTo 1 (s.xdim - 1)).map fun x => (x, y)) := by
        rw [hTT]
        simp
      rw [hT] at hp
      simp only at hp
      have hpre : ∀ q ∈ pre, q.1 + q.2 * s.xdim ≠ x + y * s.xdim := by
        intro q hq e
        have hq' : q ∈ ((upTo 1 (s.ydim - 1)).flatMap fun y =>
            (upTo 1 (s.xdim - 1)).map fun x => (x, y)) := by
          rw [hTT]
          simp [hq]
        rw [hT] at hq'
        obtain ⟨e1, e2⟩ := idx_inj (d := s.xdim) (by omega) (by omega) e
        rw [hTT] at hnd
        have hqe : q = (x, y) := Prod.ext e1 e2
        exact (List.nodup_append.mp hnd).2.2 hq (by rw [hqe]; simp)
      obtain ⟨k0, k1⟩ := idx_range (w := s.xdim) (h := s.ydim) (x := x) (y := y)
        (by omega) (by omega) (by omega) (by omega)
      obtain ⟨e0, e1⟩ := idx_range (w := s.xdim) (h := s.ydim) (x := x + 1) (y := y)
        (by omega) (by omega) (by omega) (by omega)
      obtain ⟨w0, w1⟩ := idx_range (w := s.xdim) (h := s.ydim) (x := x - 1) (y := y)
        (by omega) (by omega) (by omega) (by omega)
      obtain ⟨n0, n1⟩ := idx_range (w := s.xdim) (h := s.ydim) (x := x) (y := y + 1)
        (by omega) (by omega) (by omega) (by omega)
      obtain ⟨s0, s1⟩ := idx_range (w := s.xdim) (h := s.ydim) (x := x) (y := y - 1)
        (by omega) (by omega) (by omega) (by omega)
      obtain ⟨va, ea⟩ := rd_ok (a := s.uy) e0 (a12 ▸ e1)
      obtain ⟨vb, eb⟩ := rd_ok (a := s.uy) w0 (a12 ▸ w1)
      obtain ⟨vc, ec⟩ := rd_ok (a := s.ux) n0 (a11 ▸ n1)
      obtain ⟨ve, ee⟩ := rd_ok (a := s.ux) s0 (a11 ▸ s1)
      have hk : (x + y * s.xdim).toNat < c.length := (hc.trans c1) ▸ k1
      refine ⟨{ s with curl := c.set (x + y * s.xdim).toNat (va - vb - vc + ve) }, ?_,
        _, rfl, by rw [List.length_set, hc], ?_, ?_⟩
      · simp only [ea, eb, ec, ee, andThen_some, wr_ok _ k0 hk]
      · intro q hq
        rcases List.mem_append.mp hq with hq | hq
        · obtain ⟨a, b, d, e, h1, h2, h3, h4, h5⟩ := hin q hq
          refine ⟨a, b, d, e, h1, h2, h3, h4, ?_⟩
          rw [rd_set_other _ _ _ (toNat_ne k0 (hpre q hq))]
          exact h5
        · rw [List.mem_singleton] at hq
          subst hq
          exact ⟨va, vb, vc, ve, ea, eb, ec, ee, rd_set_same _ k0 hk⟩
      · intro i hi
        rw [rd_set_other _ _ _ (toNat_ne k0 (hi (x, y) (by simp)))]
        exact hout i (fun q hq => hi q (by simp [hq])))
    s ⟨s.curl, rfl, rfl, fun p hp => absurd hp (by simp), fun _ _ => rfl⟩
  refine ⟨c, hrun.trans (congrArg some hs'), hc, ?_, ?_⟩
  · intro x y hx1 hx2 hy1 hy2
    exact hin (x, y) ((hT (x, y)).mpr ⟨⟨hx1, hx2⟩, hy1, hy2⟩)
  · intro i hi
    exact hout i (fun p hp => by
      have := (hT p).mp hp
      exact hi p.1 p.2 this.1.1 this.1.2 this.2.1 this.2.2)

theorem BorderCurlZero.of_eq {s s' : Solver} (h : BorderCurlZero s) (ex : s'.xdim = s.xdim)
    (ey : s'.ydim = s.ydim) (ec : s'.curl = s.curl) : BorderCurlZero s' := by
  intro x y hx0 hx1 hy0 hy1 hb
  rw [ex] at hx1 hb ⊢
  rw [ey] at hy1 hb
  rw [ec]
  exact h x y hx0 hx1 hy0 hy1 hb

theorem runActs_cons (a : Act) (acts : List Act) (s s1 : Solver) (h : a.apply s = some s1) :
    runActs (a :: acts) s = runActs acts s1 := by
  unfold runActs
  rw [List.foldlM_cons, h]
  rfl

/-- One operation on a well-formed lattice with zero curl along the border runs to its
end and leaves such a lattice, of the same dimensions. -/
theorem Act.apply_border (a : Act) {s : Solver} (hwf : WellFormed s) (hz : BorderCurlZero s) :
    ∃ s', a.apply s = some s' ∧ WellFormed s' ∧ s'.xdim = s.xdim ∧ s'.ydim = s.ydim ∧
      BorderCurlZero s' := by
  cases a with
  | computeCurl =>
    obtain ⟨c, hrun, hc, _, hout⟩ := ComputeCurl_full hwf
    refine ⟨_, hrun, ?_, rfl, rfl, ?_⟩
    · exact hwf.of_frameC rfl hwf.sized (hc.trans hwf.2.2.2.1.2.2.2.2.2.2.2.2.2.2.2.2.1)
    · intro x y hx0 hx1 hy0 hy1 hb
      show rd c (x + y * s.xdim) = some 0
      rw [hout]
      · exact hz x y hx0 hx1 hy0 hy1 hb
      · intro x' y' a1 a2 a3 a4 e
        have hx1' : x < s.xdim := hx1
        have hb' : x = 0 ∨ x = s.xdim - 1 ∨ y = 0 ∨ y = s.ydim - 1 := hb
        obtain ⟨e1, e2⟩ := idx_inj (d := s.xdim) ⟨hx0, hx1'⟩ (by omega) e
        omega
  | op o =>
    cases o with
    | setBoundaries =>
      obtain ⟨s', hrun, hwf', hf, _⟩ := SetBoundaries_spec hwf
      exact ⟨s', hrun, hwf', frame_get Solver.xdim rfl rfl hf, frame_get Solver.ydim rfl rfl hf,
        hz.of_eq (frame_get Solver.xdim rfl rfl hf) (frame_get Solver.ydim rfl rfl hf)
          (frame_get Solver.curl rfl rfl hf)⟩
    | collide =>
      obtain ⟨s', hrun, hwf', hf, _⟩ := Collide_spec hwf
      exact ⟨s', hrun, hwf', frame_get Solver.xdim rfl rfl hf, frame_get Solver.ydim rfl rfl hf,
        hz.of_eq (frame_get Solver.xdim rfl rfl hf) (frame_get Solver.ydim rfl rfl hf)
          (frame_get Solver.curl rfl rfl hf)⟩
    | stream =>
      obtain ⟨s', hrun, hwf', hq, _⟩ := Stream_full hwf
      exact ⟨s', hrun, hwf', quiet_get Solver.xdim rfl rfl hq, quiet_get Solver.ydim rfl rfl hq,
        hz.of_eq (quiet_get Solver.xdim rfl rfl hq) (quiet_get Solver.ydim rfl rfl hq)
          (quiet_get Solver.curl rfl rfl hq)⟩
    | dragFluid pushX pushY pushUX pushUY =>
      obtain ⟨s', hrun, hwf', hf, _⟩ := DragFluid_step hwf pushX pushY pushUX pushUY
      exact ⟨s', hrun, hwf', frame_get Solver.xdim rfl rfl hf, frame_get Solver.ydim rfl rfl hf,
        hz.of_eq (frame_get Solver.xdim rfl rfl hf) (frame_get Solver.ydim rfl rfl hf)
          (frame_get Solver.curl rfl rfl hf)⟩
    | checkFlowStability =>
      by_cases hneg : ∃ x, 0 ≤ x ∧ x < s.xdim ∧
          ∃ r, rd s.rho (x + s.ydim.tdiv 2 * s.xdim) = some r ∧ r ≤ 0
      · obtain ⟨s', hrun, hwf', hf, hcells⟩ := InitFluid_spec hwf
        have ex : s'.xdim = s.xdim := frameC_get Solver.xdim rfl rfl hf
        have ey : s'.ydim = s.ydim := frameC_get Solver.ydim rfl rfl hf
        refine ⟨s', ((CheckFlowStability_eq hwf).1 hneg).trans hrun, hwf', ex, ey, ?_⟩
        intro x y hx0 hx1 hy0 hy1 _
        rw [ex] at hx1 ⊢
        rw [ey] at hy1
        exact (hcells x y hx0 hx1 hy0 hy1).2
      · exact ⟨s, (CheckFlowStability_eq hwf).2 hneg, hwf, rfl, rfl, hz⟩

/-- Every sequence of operations runs to its end on a well-formed lattice with zero curl
along the border, and leaves such a lattice. -/
theorem runActs_border (acts : List Act) : ∀ (s : Solver), WellFormed s → BorderCurlZero s →
    ∃ s', runActs acts s = some s' ∧ WellFormed s' ∧ s'.xdim = s.xdim ∧ s'.ydim = s.ydim ∧
      BorderCurlZero s' := by
  induction acts with
  | nil =>
    intro s hwf hz
    exact ⟨s, rfl, hwf, rfl, rfl, hz⟩
  | cons a acts ih =>
    intro s hwf hz
    obtain ⟨s1, hrun1, hwf1, ex1, ey1, hz1⟩ := a.apply_border hwf hz
    obtain ⟨s', hrun, hwf', ex, ey, hz'⟩ := ih s1 hwf1 hz1
    exact ⟨s', (runActs_cons a acts s s1 hrun1).trans hrun, hwf', ex.trans ex1, ey.trans ey1, hz'⟩

/-- C23 (curl).  On a well-formed lattice `ComputeCurl` succeeds and changes nothing but
`curl`: at every interior cell `(x, y)` the new entry is
`uy(x+1, y) - uy(x-1, y) - ux(x, y+1) + ux(x, y-1)`, and every entry that is not at an
interior cell, so every border cell, is as before.  `InitalizeLattice` on a grid of at
least 64 x 64 succeeds, and every sequence of `SetBoundaries`, `Collide`, `Stream`,
`DragFluid`, `CheckFlowStability` and `ComputeCurl` runs to its end from the lattice it
leaves; in the state it reaches the curl at every border cell is `0`. -/
theorem ComputeCurl_central_difference :
    (∀ s : Solver, WellFormed s →
      ∃ c, ComputeCurl s = some { s with curl := c } ∧
        (∀ x y, 1 ≤ x → x ≤ s.xdim - 2 → 1 ≤ y → y ≤ s.ydim - 2 →
          ∃ a b d e, rd s.uy (x + 1 + y * s.xdim) = some a ∧
            rd s.uy (x - 1 + y * s.xdim) = some b ∧
            rd s.ux (x + (y + 1) * s.xdim) = some d ∧
            rd s.ux (x + (y - 1) * s.xdim) = some e ∧
            rd c (x + y * s.xdim) = some (a - b - d + e)) ∧
        (∀ i, (∀ x y, 1 ≤ x → x ≤ s.xdim - 2 → 1 ≤ y → y ≤ s.ydim - 2 → i ≠ x + y * s.xdim) →
          rd c i = rd s.curl i)) ∧
    (∀ (s0 : Solver) (xmax ymax : Int) (fVel fVisc : ℚ) (barrierType : Int) (acts : List Act),
      64 ≤ xmax → 64 ≤ ymax →
      ∃ s1 s', InitalizeLattice s0 xmax ymax fVel fVisc barrierType = some s1 ∧
        runActs acts s1 = some s' ∧
        ∀ x y, 0 ≤ x → x < xmax → 0 ≤ y → y < ymax →
          (x = 0 ∨ x = xmax - 1 ∨ y = 0 ∨ y = ymax - 1) → rd s'.curl (x + y * xmax) = some 0) := by
  constructor
  · intro s hwf
    obtain ⟨c, hrun, _, hin, hout⟩ := ComputeCurl_full hwf
    exact ⟨c, hrun, hin, hout⟩
  · intro s0 xmax ymax fVel fVisc barrierType acts hx hy
    obtain ⟨s1, hrun1, hwf1, ex1, ey1, _, _, hcell⟩ :=
      InitalizeLattice_spec s0 xmax ymax fVel fVisc barrierType hx hy
    have hz1 : BorderCurlZero s1 := by
      intro x y hx0 hx1 hy0 hy1 _
      rw [ex1] at hx1 ⊢
      rw [ey1] at hy1
      exact (hcell x y hx0 hx1 hy0 hy1).2
    obtain ⟨s', hrun, _, ex, ey, hz⟩ := runActs_border acts s1 hwf1 hz1
    refine ⟨s1, s', hrun1, hrun, ?_⟩
    intro x y hx0 hx1 hy0 hy1 hb
    have := hz x y hx0 (by rw [ex, ex1]; exact hx1) hy0 (by rw [ey, ey1]; exact hy1)
      (by rw [ex, ex1, ey, ey1]; exact hb)
    rw [ex, ex1] at this
    exact this

theorem shear5_wf : WellFormed shear5 := by
  simp [WellFormed, shear5, calm5, post5]

/-- In the lattice `InitalizeLattice` leaves on a 64 x 64 grid with inlet velocity `1/10`
and the line barrier, after `DragFluid` at `(22, 32)` with the velocity `(1/10, 1/20)` and
`ComputeCurl`, the curl of the interior cell `(19, 32)`, just west of the disc, is
`1/20`. -/
theorem curl_beside_drag :
    ∃ s1 s', InitalizeLattice rest3 64 64 (1 / 10) (3 / 100) LINE = some s1 ∧
      runActs [Act.op (Op.dragFluid 22 32 (1 / 10) (1 / 20)), Act.computeCurl] s1 = some s' ∧
      rd s'.curl (19 + 32 * 64) = some (1 / 20) := by
  obtain ⟨s1, hrun1, hwf1, ex1, ey1, _, _, hcell⟩ :=
    InitalizeLattice_spec rest3 64 64 (1 / 10) (3 / 100) LINE (by decide) (by decide)
  obtain ⟨s2, hrun2, hwf2, hf2, hin, hout⟩ := DragFluid_spec hwf1 22 32 (1 / 10) (1 / 20)
    (by rw [ex1]; decide) (by rw [ey1]; decide)
  have ex2 : s2.xdim = 64 := (frame_get Solver.xdim rfl rfl hf2).trans ex1
  have ey2 : s2.ydim = 64 := (frame_get Solver.ydim rfl rfl hf2).trans ey1
  rw [ex1] at hin hout
  have hfar : ∀ x y : Int, (0 ≤ x ∧ x < 64) → (0 ≤ y ∧ y < 64) →
      ¬ inDisc 22 32 x y → cellAt s2 (x + y * 64) = some (equilibrium (1 / 10) 0 1) := by
    intro x y hx hy hn
    rw [hout]
    · exact (hcell x y hx.1 hx.2 hy.1 hy.2).1
    · intro x' y' hd e
      have hr : 0 ≤ x' ∧ x' < 64 := by
        unfold inDisc at hd
        omega
      obtain ⟨e1, e2⟩ := idx_inj (d := 64) hx hr e
      subst e1 e2
      exact hn hd
  have hnear : cellAt s2 (20 + 32 * 64)
      = some (push (1 / 10) (1 / 20) (equilibrium (1 / 10) 0 1)) := by
    rw [hin 20 32 (by unfold inDisc; decide),
      (hcell 20 32 (by decide) (by decide) (by decide) (by decide)).1]
    rfl
  obtain ⟨c, hrun3, _, hcurl, _⟩ := ComputeCurl_full hwf2
  rw [ex2, ey2] at hcurl
  obtain ⟨a, b, d, e, ha, hb, hd, he, hc⟩ :=
    hcurl 19 32 (by decide) (by decide) (by decide) (by decide)
  have va : rd s2.uy (19 + 1 + 32 * 64) = some (1 / 20) := (cellAt_some hnear).2.2.2.2.2.2.2.2.2.2.2
  have vb : rd s2.uy (19 - 1 + 32 * 64) = some 0 :=
    (cellAt_some (hfar 18 32 (by decide) (by decide)
      (by unfold inDisc; decide))).2.2.2.2.2.2.2.2.2.2.2
  have vd : rd s2.ux (19 + (32 + 1) * 64) = some (1 / 10) :=
    (cellAt_some (hfar 19 33 (by decide) (by decide)
      (by unfold inDisc; decide))).2.2.2.2.2.2.2.2.2.2.1
  have ve : rd s2.ux (19 + (32 - 1) * 64) = some (1 / 10) :=
    (cellAt_some (hfar 19 31 (by decide) (by decide)
      (by unfold inDisc; decide))).2.2.2.2.2.2.2.2.2.2.1
  have ea : a = 1 / 20 := Option.some.inj (ha.symm.trans va)
  have eb : b = 0 := Option.some.inj (hb.symm.trans vb)
  have ed : d = 1 / 10 := Option.some.inj (hd.symm.trans vd)
  have ee : e = 1 / 10 := Option.some.inj (he.symm.trans ve)
  refine ⟨s1, { s2 with curl := c }, hrun1, ?_, ?_⟩
  · rw [runActs_cons (Act.op (Op.dragFluid 22 32 (1 / 10) (1 / 20))) [Act.computeCurl] s1 s2
        hrun2, runActs_cons Act.computeCurl [] s2 { s2 with curl := c } hrun3]
    rfl
  · rw [show rd ({ s2 with curl := c } : Solver).curl (19 + 32 * 64)
        = rd c (19 + 32 * 64) from rfl, hc, ea, eb, ed, ee]
    norm_num

theorem ComputeCurl_central_difference_witness :
    (WellFormed shear5 ∧
      ∃ c, ComputeCurl shear5 = some { shear5 with curl := c } ∧
        (∀ x y, 1 ≤ x → x ≤ shear5.xdim - 2 → 1 ≤ y → y ≤ shear5.ydim - 2 →
          ∃ a b d e, rd shear5.uy (x + 1 + y * shear5.xdim) = some a ∧
            rd shear5.uy (x - 1 + y * shear5.xdim) = some b ∧
            rd shear5.ux (x + (y + 1) * shear5.xdim) = some d ∧
            rd shear5.ux (x + (y - 1) * shear5.xdim) = some e ∧
            rd c (x + y * shear5.xdim) = some (a - b - d + e)) ∧
        (∀ i, (∀ x y, 1 ≤ x → x ≤ shear5.xdim - 2 → 1 ≤ y →
            y ≤ shear5.ydim - 2 → i ≠ x + y * shear5.xdim) → rd c i = rd shear5.curl i) ∧
        rd shear5.curl (2 + 2 * shear5.xdim) = some 0 ∧
        rd c (2 + 2 * shear5.xdim) = some (169 - 121 - 17 + 7)) ∧
    ((64 : Int) ≤ 64 ∧
      (∃ s1 s', InitalizeLattice rest3 64 64 (1 / 10) (3 / 100) LINE = some s1 ∧
        runActs [Act.op (Op.dragFluid 22 32 (1 / 10) (1 / 20)), Act.computeCurl] s1 = some s' ∧
        ∀ x y, 0 ≤ x → x < (64 : Int) → 0 ≤ y → y < (64 : Int) →
          (x = 0 ∨ x = (64 : Int) - 1 ∨ y = 0 ∨ y = (64 : Int) - 1) →
          rd s'.curl (x + y * 64) = some 0) ∧
      ∃ s1 s', InitalizeLattice rest3 64 64 (1 / 10) (3 / 100) LINE = some s1 ∧
        runActs [Act.op (Op.dragFluid 22 32 (1 / 10) (1 / 20)), Act.computeCurl] s1 = some s' ∧
        rd s'.curl (19 + 32 * 64) = some (1 / 20)) := by
  refine ⟨⟨shear5_wf, ?_⟩, by decide,
    ComputeCurl_central_difference.2 rest3 64 64 (1 / 10) (3 / 100) LINE
      [Act.op (Op.dragFluid 22 32 (1 / 10) (1 / 20)), Act.computeCurl] (by decide) (by decide),
    curl_beside_drag⟩
  obtain ⟨c, hrun, hin, hout⟩ := ComputeCurl_central_difference.1 shear5 shear5_wf
  obtain ⟨a, b, d, e, ha, hb, hd, he, hc⟩ :=
    hin 2 2 (by decide) (by decide) (by decide) (by decide)
  have ea : a = 169 := Option.some.inj (ha.symm.trans (by decide))
  have eb : b = 121 := Option.some.inj (hb.symm.trans (by decide))
  have ed : d = 17 := Option.some.inj (hd.symm.trans (by decide))
  have ee : e = 7 := Option.some.inj (he.symm.trans (by decide))
  refine ⟨c, hrun, hin, hout, by decide, ?_⟩
  rw [hc, ea, eb, ed, ee]

/-! ## The palette -/

/-- The colour `CreateColorMap` computes for index `c` of a palette of 256 colours, band
by band. -/
theorem jet_256 (c : Int) (h0 : 0 ≤ c) (h1 : c ≤ 256) : jet 256 c = some (jetBands c) := by
  have h8 : (256 : Int).tdiv 8 = 32 := by decide
  have h4 : (256 : Int).tdiv 4 = 64 := by decide
  have h3 : ((3 : Int) * 256).tdiv 8 = 96 := by decide
  have h5 : ((5 : Int) * 256).tdiv 8 = 160 := by decide
  have h7 : ((7 : Int) * 256).tdiv 8 = 224 := by decide
  have h9 : ((9 : Int) * 256).tdiv 8 = 288 := by decide
  have h64 : ¬ (64 : Int) = 0 := by decide
  have hd : ∀ a : Int, 0 ≤ a → a.tdiv 64 = a / 64 := fun a ha =>
    Int.tdiv_eq_ediv ha (by decide)
  simp only [jet, jetBands, quo, h8, h4, h3, h5, h7, h9, if_neg h64, andThen_some]
  split_ifs
  · rw [hd _ (by omega)]
  · rw [hd _ (by omega)]
  · rw [hd _ (by omega)]
  · rw [hd _ (by omega)]
  · rw [hd _ (by omega)]

theorem upThru_nodup (lo hi : Int) : (upThru lo hi).Nodup := upTo_nodup lo (hi + 1)

/-- Specification of `CreateColorMap` with 256 colours: it succeeds and changes the
palette lists only; they have 258 entries, the entries `0 .. 256` hold the colours of
`jet`, and the entry 257 is black. -/
theorem CreateColorMap_full (s : Solver) (hn : s.nColors = 256) :
    ∃ r g b, CreateColorMap s = some { s with redList := r, greenList := g, blueList := b } ∧
      (r.length = 258 ∧ g.length = 258 ∧ b.length = 258) ∧
      (∀ c, 0 ≤ c → c ≤ 256 → ∃ rgb, jet 256 c = some rgb ∧ rd r c = some rgb.1 ∧
        rd g c = some rgb.2.1 ∧ rd b c = some rgb.2.2) ∧
      (rd r 257 = some 0 ∧ rd g 257 = some 0 ∧ rd b 257 = some 0) := by
  have h258 : (0 : Int) ≤ s.nColors + 2 := by omega
  have n258 : (s.nColors + 2).toNat = 258 := by omega
  have h257 : (0 : Int) ≤ s.nColors + 1 := by omega
  have k257 : (s.nColors + 1).toNat < 258 := by omega
  have e257 : s.nColors + 1 = 257 := by omega
  have hnd := upThru_nodup 0 s.nColors
  obtain ⟨st, hrun, r, g, b, hst, hr, hg, hb, hin⟩ := foldlM_inv
    (fun (st : Solver) (c : Int) =>
      andThen (jet s.nColors c) fun rgb =>
      andThen (wr st.redList c rgb.1) fun rl =>
      andThen (wr st.greenList c rgb.2.1) fun gl =>
      andThen (wr st.blueList c rgb.2.2) fun bl =>
      some { st with redList := rl, greenList := gl, blueList := bl })
    (fun pre st => ∃ r g b, st = { s with redList := r, greenList := g, blueList := b } ∧
      r.length = 258 ∧ g.length = 258 ∧ b.length = 258 ∧
      ∀ c ∈ pre, ∃ rgb, jet 256 c = some rgb ∧ rd r c = some rgb.1 ∧
        rd g c = some rgb.2.1 ∧ rd b c = some rgb.2.2)
    (upThru 0 s.nColors)
    (by
      rintro pre c post st hT ⟨r, g, b, rfl, hr, hg, hb, hin⟩
      have hc : c ∈ upThru 0 s.nColors := by
        rw [hT]
        simp
      rw [mem_upThru] at hc
      rw [hT] at hnd
      have hpre : ∀ c' ∈ pre, c' ≠ c := by
        intro c' hc' e
        exact (List.nodup_append.mp hnd).2.2 hc' (by rw [e]; simp)
      obtain ⟨rgb, hj⟩ := jet_ok c
      have hj' : jet s.nColors c = some rgb := by
        rw [hn]
        exact hj
      have hc1 : c.toNat < 258 := by omega
      refine ⟨{ s with redList := r.set c.toNat rgb.1, greenList := g.set c.toNat rgb.2.1,
                       blueList := b.set c.toNat rgb.2.2 }, by
        simp only [hj', andThen_some, wr_ok _ hc.1 (hr ▸ hc1), wr_ok _ hc.1 (hg ▸ hc1),
          wr_ok _ hc.1 (hb ▸ hc1)], _, _, _, rfl, by rw [List.length_set, hr],
          by rw [List.length_set, hg], by rw [List.length_set, hb], ?_⟩
      intro c' hc'
      rcases List.mem_append.mp hc' with hc' | hc'
      · obtain ⟨rgb', h1, h2, h3, h4⟩ := hin c' hc'
        have hne := toNat_ne hc.1 (hpre c' hc')
        exact ⟨rgb', h1, by rw [rd_set_other _ _ _ hne]; exact h2,
          by rw [rd_set_other _ _ _ hne]; exact h3, by rw [rd_set_other _ _ _ hne]; exact h4⟩
      · rw [List.mem_singleton] at hc'
        subst hc'
        exact ⟨rgb, hj, rd_set_same _ hc.1 (hr ▸ hc1), rd_set_same _ hc.1 (hg ▸ hc1),
          rd_set_same _ hc.1 (hb ▸ hc1)⟩)
    { s with redList := List.replicate 258 0, greenList := List.replicate 258 0,
             blueList := List.replicate 258 0 }
    ⟨_, _, _, rfl, List.length_replicate _ _, List.length_replicate _ _,
      List.length_replicate _ _, fun c hc => absurd hc (by simp)⟩
  subst hst
  refine ⟨r.set (s.nColors + 1).toNat 0, g.set (s.nColors + 1).toNat 0,
    b.set (s.nColors + 1).toNat 0, ?_, ?_, ?_, ?_⟩
  · unfold CreateColorMap
    rw [make_ok (0 : Int) h258, n258, andThen_some, andThen_some, andThen_some]
    simp only []
    rw [hrun, andThen_some]
    simp only [wr_ok _ h257 (hr ▸ k257), wr_ok _ h257 (hg ▸ k257), wr_ok _ h257 (hb ▸ k257),
      andThen_some]
  · simp only [List.length_set]
    exact ⟨hr, hg, hb⟩
  · intro c h0 h1
    obtain ⟨rgb, j1, j2, j3, j4⟩ := hin c (mem_upThru.mpr ⟨h0, by omega⟩)
    have hne : 0 ≤ c → c.toNat ≠ (s.nColors + 1).toNat := toNat_ne h257 (by omega)
    exact ⟨rgb, j1, by rw [rd_set_other _ _ _ hne]; exact j2,
      by rw [rd_set_other _ _ _ hne]; exact j3, by rw [rd_set_other _ _ _ hne]; exact j4⟩
  · rw [← e257]
    exact ⟨rd_set_same _ h257 (hr ▸ k257), rd_set_same _ h257 (hg ▸ k257),
      rd_set_same _ h257 (hb ▸ k257)⟩


/-- The palette `CreateColorMap` makes with 256 colours, entry by entry. -/
theorem CreateColorMap_palette (s : Solver) (hn : s.nColors = 256) :
    ∃ r g b, CreateColorMap s = some { s with redList := r, greenList := g, blueList := b } ∧
      (r.length = 258 ∧ g.length = 258 ∧ b.length = 258) ∧
      (∀ c, 0 ≤ c → c ≤ 256 → rd r c = some (jetBands c).1 ∧
        rd g c = some (jetBands c).2.1 ∧ rd b c = some (jetBands c).2.2) ∧
      (rd r 257 = some 0 ∧ rd g 257 = some 0 ∧ rd b 257 = some 0) := by
  obtain ⟨r, g, b, hrun, hlen, hin, hbar⟩ := CreateColorMap_full s hn
  refine ⟨r, g, b, hrun, hlen, ?_, hbar⟩
  intro c h0 h1
  obtain ⟨rgb, hj, h2, h3, h4⟩ := hin c h0 h1
  rw [jet_256 c h0 h1] at hj
  rw [Option.some.inj hj]
  exact ⟨h2, h3, h4⟩

theorem rd_range {α : Type} {a : List α} {i : Int} {v : α} (h : rd a i = some v) :
    0 ≤ i ∧ i.toNat < a.length := by
  unfold rd at h
  split at h
  · exact absurd h (by simp)
  · rename_i hi
    refine ⟨by omega, ?_⟩
    by_contra hlt
    rw [List.getElem?_eq_none (by omega)] at h
    exact absurd h (by simp)

theorem jetBands_first (c : Int) (h : c < 32) :
    (jetBands c).1 = 0 ∧ (jetBands c).2.1 = 0 ∧ (jetBands c).2.2 = 255 * (c + 32) / 64 := by
  unfold jetBands
  rw [if_pos h]
  exact ⟨rfl, rfl, rfl⟩

theorem jetBands_second (c : Int) (h1 : 32 ≤ c) (h2 : c < 96) :
    (jetBands c).1 = 0 ∧ (jetBands c).2.1 = 255 * (c - 32) / 64 ∧ (jetBands c).2.2 = 255 := by
  unfold jetBands
  rw [if_neg (by omega), if_pos h2]
  exact ⟨rfl, rfl, rfl⟩

theorem jetBands_third (c : Int) (h1 : 96 ≤ c) (h2 : c < 160) :
    (jetBands c).1 = 255 * (c - 96) / 64 ∧ (jetBands c).2.1 = 255 ∧
      (jetBands c).2.2 = 255 - 255 * (c - 96) / 64 := by
  unfold jetBands
  rw [if_neg (by omega), if_neg (by omega), if_pos h2]
  exact ⟨rfl, rfl, rfl⟩

theorem jetBands_fourth (c : Int) (h1 : 160 ≤ c) (h2 : c < 224) :
    (jetBands c).1 = 255 ∧ (jetBands c).2.1 = 255 * (224 - c) / 64 ∧ (jetBands c).2.2 = 0 := by
  unfold jetBands
  rw [if_neg (by omega), if_neg (by omega), if_neg (by omega), if_pos h2]
  exact ⟨rfl, rfl, rfl⟩

theorem jetBands_fifth (c : Int) (h1 : 224 ≤ c) :
    (jetBands c).1 = 255 * (288 - c) / 64 ∧ (jetBands c).2.1 = 0 ∧ (jetBands c).2.2 = 0 := by
  unfold jetBands
  rw [if_neg (by omega), if_neg (by omega), if_neg (by omega), if_neg (by omega)]
  exact ⟨rfl, rfl, rfl⟩

/-- Every channel of every colour of the palette lies between 0 and 255. -/
theorem jetBands_range (c : Int) (h0 : 0 ≤ c) (h1 : c ≤ 256) :
    (0 ≤ (jetBands c).1 ∧ (jetBands c).1 ≤ 255) ∧
    (0 ≤ (jetBands c).2.1 ∧ (jetBands c).2.1 ≤ 255) ∧
    (0 ≤ (jetBands c).2.2 ∧ (jetBands c).2.2 ≤ 255) := by
  by_cases a1 : c < 32
  · obtain ⟨e1, e2, e3⟩ := jetBands_first c a1
    omega
  · by_cases a2 : c < 96
    · obtain ⟨e1, e2, e3⟩ := jetBands_second c (by omega) a2
      omega
    · by_cases a3 : c < 160
      · obtain ⟨e1, e2, e3⟩ := jetBands_third c (by omega) a3
        omega
      · by_cases a4 : c < 224
        · obtain ⟨e1, e2, e3⟩ := jetBands_fourth c (by omega) a4
          omega
        · obtain ⟨e1, e2, e3⟩ := jetBands_fifth c (by omega)
          omega

/-- A palette list whose entries at `lo .. hi` are the values of `f` is monotone there
when `f` is. -/
theorem MonotoneBand.of_values {a : List Int} {lo hi : Int} (f : Int → Int)
    (ha : ∀ c v, lo ≤ c → c ≤ hi → rd a c = some v → v = f c)
    (hf : (∀ c c', lo ≤ c → c ≤ c' → c' ≤ hi → f c ≤ f c') ∨
      (∀ c c', lo ≤ c → c ≤ c' → c' ≤ hi → f c' ≤ f c)) : MonotoneBand a lo hi := by
  rcases hf with hf | hf
  · left
    intro c c' v v' h1 h2 h3 hv hv'
    rw [ha c v h1 (by omega) hv, ha c' v' (by omega) h3 hv']
    exact hf c c' h1 h2 h3
  · right
    intro c c' v v' h1 h2 h3 hv hv'
    rw [ha c v h1 (by omega) hv, ha c' v' (by omega) h3 hv']
    exact hf c c' h1 h2 h3

/-- Each channel of `jetBands` is monotone within each of the five bands. -/
theorem jetBands_monotone : ∀ band ∈ bands,
    ((∀ c c', band.1 ≤ c → c ≤ c' → c' ≤ band.2 → (jetBands c).1 ≤ (jetBands c').1) ∨
      (∀ c c', band.1 ≤ c → c ≤ c' → c' ≤ band.2 → (jetBands c').1 ≤ (jetBands c).1)) ∧
    ((∀ c c', band.1 ≤ c → c ≤ c' → c' ≤ band.2 → (jetBands c).2.1 ≤ (jetBands c').2.1) ∨
      (∀ c c', band.1 ≤ c → c ≤ c' → c' ≤ band.2 → (jetBands c').2.1 ≤ (jetBands c).2.1)) ∧
    ((∀ c c', band.1 ≤ c → c ≤ c' → c' ≤ band.2 → (jetBands c).2.2 ≤ (jetBands c').2.2) ∨
      (∀ c c', band.1 ≤ c → c ≤ c' → c' ≤ band.2 → (jetBands c').2.2 ≤ (jetBands c).2.2)) := by
  intro band hband
  simp only [bands, List.mem_cons, List.mem_singleton, List.not_mem_nil, or_false] at hband
  rcases hband with rfl | rfl | rfl | rfl | rfl
  · refine ⟨Or.inl ?_, Or.inl ?_, Or.inl ?_⟩
    all_goals
      intro c c' h1 h2 h3
      simp only at h1 h3
      obtain ⟨e1, e2, e3⟩ := jetBands_first c (by omega)
      obtain ⟨e4, e5, e6⟩ := jetBands_first c' (by omega)
      omega
  · refine ⟨Or.inl ?_, Or.inl ?_, Or.inl ?_⟩
    all_goals
      intro c c' h1 h2 h3
      simp only at h1 h3
      obtain ⟨e1, e2, e3⟩ := jetBands_second c (by omega) (by omega)
      obtain ⟨e4, e5, e6⟩ := jetBands_second c' (by omega) (by omega)
      omega
  · refine ⟨Or.inl ?_, Or.inl ?_, Or.inr ?_⟩
    all_goals
      intro c c' h1 h2 h3
      simp only at h1 h3
      obtain ⟨e1, e2, e3⟩ := jetBands_third c (by omega) (by omega)
      obtain ⟨e4, e5, e6⟩ := jetBands_third c' (by omega) (by omega)
      omega
  · refine ⟨Or.inl ?_, Or.inr ?_, Or.inl ?_⟩
    all_goals
      intro c c' h1 h2 h3
      simp only at h1 h3
      obtain ⟨e1, e2, e3⟩ := jetBands_fourth c (by omega) (by omega)
      obtain ⟨e4, e5, e6⟩ := jetBands_fourth c' (by omega) (by omega)
      omega
  · refine ⟨Or.inr ?_, Or.inl ?_, Or.inl ?_⟩
    all_goals
      intro c c' h1 h2 h3
      simp only at h1 h3
      obtain ⟨e1, e2, e3⟩ := jetBands_fifth c (by omega)
      obtain ⟨e4, e5, e6⟩ := jetBands_fifth c' (by omega)
      omega

theorem bands_range : ∀ band ∈ bands, 0 ≤ band.1 ∧ band.2 ≤ 256 := by
  decide

/-- C22 (palette monotonicity): with `nColors = 256`, `CreateColorMap` succeeds and changes
the palette lists only.  Within each of the five bands `0..31`, `32..95`, `96..159`,
`160..223`, `224..256` each of the red, green and blue lists is monotone in the index:
its entries never decrease, or never increase, as the index grows through the band.
Every index from `0` to `257` holds an entry in each list, and every entry of each list
lies between `0` and `255`. -/
theorem CreateColorMap_monotone (s : Solver) (hn : s.nColors = 256) :
    ∃ r g b, CreateColorMap s = some { s with redList := r, greenList := g, blueList := b } ∧
      (∀ band ∈ bands, MonotoneBand r band.1 band.2 ∧ MonotoneBand g band.1 band.2 ∧
        MonotoneBand b band.1 band.2) ∧
      (∀ c, 0 ≤ c → c ≤ 257 → ∃ vr vg vb, rd r c = some vr ∧ rd g c = some vg ∧
        rd b c = some vb) ∧
      (∀ i v, rd r i = some v ∨ rd g i = some v ∨ rd b i = some v → 0 ≤ v ∧ v ≤ 255) := by
  obtain ⟨r, g, b, hrun, ⟨lr, lg, lb⟩, hin, ⟨zr, zg, zb⟩⟩ := CreateColorMap_palette s hn
  have kr : ∀ c v, 0 ≤ c → c ≤ 256 → rd r c = some v → v = (jetBands c).1 :=
    fun c v h0 h1 h => Option.some.inj (h.symm.trans (hin c h0 h1).1)
  have kg : ∀ c v, 0 ≤ c → c ≤ 256 → rd g c = some v → v = (jetBands c).2.1 :=
    fun c v h0 h1 h => Option.some.inj (h.symm.trans (hin c h0 h1).2.1)
  have kb : ∀ c v, 0 ≤ c → c ≤ 256 → rd b c = some v → v = (jetBands c).2.2 :=
    fun c v h0 h1 h => Option.some.inj (h.symm.trans (hin c h0 h1).2.2)
  refine ⟨r, g, b, hrun, ?_, ?_, ?_⟩
  · intro band hband
    obtain ⟨b0, b1⟩ := bands_range band hband
    obtain ⟨mr, mg, mb⟩ := jetBands_monotone band hband
    exact ⟨MonotoneBand.of_values (fun c => (jetBands c).1)
        (fun c v h1 h2 h => kr c v (by omega) (by omega) h) mr,
      MonotoneBand.of_values (fun c => (jetBands c).2.1)
        (fun c v h1 h2 h => kg c v (by omega) (by omega) h) mg,
      MonotoneBand.of_values (fun c => (jetBands c).2.2)
        (fun c v h1 h2 h => kb c v (by omega) (by omega) h) mb⟩
  · intro c h0 h1
    by_cases h : c = 257
    · subst h
      exact ⟨0, 0, 0, zr, zg, zb⟩
    · obtain ⟨a1, a2, a3⟩ := hin c h0 (by omega)
      exact ⟨_, _, _, a1, a2, a3⟩
  · intro i v h
    have hi : 0 ≤ i ∧ i ≤ 257 := by
      rcases h with h | h | h
      · have := rd_range h
        omega
      · have := rd_range h
        omega
      · have := rd_range h
        omega
    by_cases h7 : i = 257
    · subst h7
      rcases h with h | h | h
      · rw [zr] at h
        rw [← Option.some.inj h]
        decide
      · rw [zg] at h
        rw [← Option.some.inj h]
        decide
      · rw [zb] at h
        rw [← Option.some.inj h]
        decide
    · obtain ⟨q1, q2, q3⟩ := jetBands_range i hi.1 (by omega)
      rcases h with h | h | h
      · rw [kr i v hi.1 (by omega) h]
        exact q1
      · rw [kg i v hi.1 (by omega) h]
        exact q2
      · rw [kb i v hi.1 (by omega) h]
        exact q3

theorem CreateColorMap_monotone_witness :
    bare5.nColors = 256 ∧
    ∃ r g b, CreateColorMap bare5
        = some { bare5 with redList := r, greenList := g, blueList := b } ∧
      (∀ band ∈ bands, MonotoneBand r band.1 band.2 ∧ MonotoneBand g band.1 band.2 ∧
        MonotoneBand b band.1 band.2) ∧
      (∀ c, 0 ≤ c → c ≤ 257 → ∃ vr vg vb, rd r c = some vr ∧ rd g c = some vg ∧
        rd b c = some vb) ∧
      (∀ i v, rd r i = some v ∨ rd g i = some v ∨ rd b i = some v → 0 ≤ v ∧ v ≤ 255) :=
  ⟨rfl, CreateColorMap_monotone bare5 rfl⟩

/-! ## The image -/

/-- The `SetRGBA` calls of `PlotToImage` on a well-formed lattice with 256 colours and
palette lists of 258 entries: one for each cell of the grid, row by row, with the colour
`plotPixel` gives the cell. -/
theorem PlotToImage_pixels (sqrt : ℚ → ℚ) (s : Solver) (rgba : List Pixel)
    (plotType : Int) (hwf : WellFormed s) (hn : s.nColors = 256)
    (hr : s.redList.length = 258) (hg : s.greenList.length = 258)
    (hb : s.blueList.length = 258) :
    ∃ curl img, PlotToImage sqrt s rgba plotType = some ({ s with curl := curl }, rgba ++ img) ∧
      WellFormed { s with curl := curl } ∧
      img.map (fun p => (p.x, p.y))
        = ((upTo 0 s.ydim).flatMap fun y => (upTo 0 s.xdim).map fun x => (x, y)) ∧
      ∀ p ∈ img, plotPixel sqrt { s with curl := curl } plotType p.x p.y = some p := by
  obtain ⟨c, hst, hwf1⟩ := PlotToImage_state hwf plotType
  have hcell := fun x y hx hy =>
    plotPixel_spec sqrt { s with curl := c } plotType x y hwf1 hn hr hg hb hx hy
  obtain ⟨img, hrun, out, hout, hmap, hpix⟩ := foldlM_inv
    (fun (img : List Pixel) (p : Int × Int) =>
      andThen (plotPixel sqrt { s with curl := c } plotType p.1 p.2) fun q => some (img ++ [q]))
    (fun pre img => ∃ out, img = rgba ++ out ∧ out.map (fun p => (p.x, p.y)) = pre ∧
      ∀ p ∈ out, plotPixel sqrt { s with curl := c } plotType p.x p.y = some p)
    ((upTo 0 s.ydim).flatMap fun y => (upTo 0 s.xdim).map fun x => (x, y))
    (by
      rintro pre ⟨x, y⟩ post img hT ⟨out, rfl, hmap, hpix⟩
      have hp : (x, y) ∈ ((upTo 0 s.ydim).flatMap fun y =>
          (upTo 0 s.xdim).map fun x => (x, y)) := by
        rw [hT]
        simp
      rw [mem_grid, mem_upTo, mem_upTo] at hp
      obtain ⟨_, _, r, g, b, _, _, _, _, _, _, _, hq⟩ := hcell x y hp.1 hp.2
      obtain ⟨q, hqx, hqy, hq⟩ : ∃ q : Pixel, q.x = x ∧ q.y = y ∧
          plotPixel sqrt { s with curl := c } plotType x y = some q := ⟨_, rfl, rfl, hq⟩
      have hmap' : (out ++ [q]).map (fun p => (p.x, p.y)) = pre ++ [(x, y)] := by
        rw [List.map_append, hmap, List.map_singleton, hqx, hqy]
      refine ⟨rgba ++ out ++ [q], by simp only [hq, andThen_some], out ++ [q],
        by rw [List.append_assoc], hmap', ?_⟩
      intro p hp'
      rcases List.mem_append.mp hp' with hp' | hp'
      · exact hpix p hp'
      · rw [List.mem_singleton] at hp'
        subst hp'
        rw [hqx, hqy]
        exact hq)
    rgba ⟨[], by rw [List.append_nil], rfl, fun p hp => absurd hp (by simp)⟩
  subst hout
  refine ⟨c, out, ?_, hwf1, hmap, hpix⟩
  unfold PlotToImage
  rw [hst, andThen_some]
  simp only
  rw [foldlM_nested (fun (img : List Pixel) (x y : Int) =>
    andThen (plotPixel sqrt { s with curl := c } plotType x y) fun q => some (img ++ [q])),
    hrun, andThen_some]

/-- C21 (barriers are black): `CreateColorMap` with `nColors = 256` succeeds; on every
well-formed lattice `t` that holds the palette it made, whatever its densities,
velocities and curl, for every `plotType` (and every square-root function) `PlotToImage`
runs to its end and appends to the image one `SetRGBA` call for each cell of the grid;
at every cell of the grid whose barrier flag is set the call writes the colour
`(0, 0, 0, 255)`, and no other call writes at that position. -/
theorem PlotToImage_barrier_black (s : Solver) (hn : s.nColors = 256) :
    ∃ s1, CreateColorMap s = some s1 ∧ s1.nColors = 256 ∧
      ∀ (t : Solver) (sqrt : ℚ → ℚ) (rgba : List Pixel) (plotType : Int),
        WellFormed t → t.nColors = 256 → t.redList = s1.redList →
        t.greenList = s1.greenList → t.blueList = s1.blueList →
        ∃ curl img, PlotToImage sqrt t rgba plotType
            = some ({ t with curl := curl }, rgba ++ img) ∧
          img.map (fun p => (p.x, p.y))
            = ((upTo 0 t.ydim).flatMap fun y => (upTo 0 t.xdim).map fun x => (x, y)) ∧
          ∀ x y, (0 ≤ x ∧ x < t.xdim) → (0 ≤ y ∧ y < t.ydim) →
            rd t.barrier (x + y * t.xdim) = some true →
            { x := x, y := y, r := 0, g := 0, b := 0, a := 255 } ∈ img ∧
            ∀ p ∈ img, p.x = x → p.y = y →
              p = { x := x, y := y, r := 0, g := 0, b := 0, a := 255 } := by
  obtain ⟨r, g, b, hrun, ⟨lr, lg, lb⟩, _, ⟨zr, zg, zb⟩⟩ := CreateColorMap_full s hn
  refine ⟨_, hrun, hn, ?_⟩
  intro t sqrt rgba plotType hwf htn er eg eb
  have er' : t.redList = r := er
  have eg' : t.greenList = g := eg
  have eb' : t.blueList = b := eb
  obtain ⟨curl, img, hplot, hwf1, hmap, hpix⟩ := PlotToImage_pixels sqrt t rgba plotType hwf htn
    (by rw [er', lr]) (by rw [eg', lg]) (by rw [eb', lb])
  refine ⟨curl, img, hplot, hmap, ?_⟩
  intro x y hx hy hbar
  have hblack : plotPixel sqrt { t with curl := curl } plotType x y
      = some { x := x, y := y, r := 0, g := 0, b := 0, a := 255 } := by
    obtain ⟨isB, k, vr, vg, vb, h1, _, h3, _, h5, h6, h7, h8⟩ :=
      plotPixel_spec sqrt { t with curl := curl } plotType x y hwf1 htn
        (lr ▸ congrArg List.length er') (lg ▸ congrArg List.length eg')
        (lb ▸ congrArg List.length eb') hx hy
    have hB : isB = true := Option.some.inj (h1.symm.trans hbar)
    have hk := h3 hB
    subst hk
    have z5 : rd t.redList 257 = some 0 := by
      rw [er']
      exact zr
    have z6 : rd t.greenList 257 = some 0 := by
      rw [eg']
      exact zg
    have z7 : rd t.blueList 257 = some 0 := by
      rw [eb']
      exact zb
    have e5 : vr = 0 := Option.some.inj (h5.symm.trans z5)
    have e6 : vg = 0 := Option.some.inj (h6.symm.trans z6)
    have e7 : vb = 0 := Option.some.inj (h7.symm.trans z7)
    rw [h8, e5, e6, e7]
    rfl
  have hmem : (x, y) ∈ img.map (fun p => (p.x, p.y)) := by
    rw [hmap, mem_grid, mem_upTo, mem_upTo]
    exact ⟨hx, hy⟩
  have hone : ∀ p ∈ img, p.x = x → p.y = y →
      p = { x := x, y := y, r := 0, g := 0, b := 0, a := 255 } := by
    intro p hp e1 e2
    have := hpix p hp
    rw [e1, e2, hblack] at this
    exact (Option.some.inj this).symm
  obtain ⟨p, hp, hxy⟩ := List.mem_map.mp hmem
  have e1 : p.x = x := congrArg Prod.fst hxy
  have e2 : p.y = y := congrArg Prod.snd hxy
  refine ⟨?_, hone⟩
  rw [← hone p hp e1 e2]
  exact hp

theorem PlotToImage_barrier_black_witness :
    bare5.nColors = 256 ∧
    ∃ s1, CreateColorMap bare5 = some s1 ∧ s1.nColors = 256 ∧
      ∀ (t : Solver) (sqrt : ℚ → ℚ) (rgba : List Pixel) (plotType : Int),
        WellFormed t → t.nColors = 256 → t.redList = s1.redList →
        t.greenList = s1.greenList → t.blueList = s1.blueList →
        ∃ curl img, PlotToImage sqrt t rgba plotType
            = some ({ t with curl := curl }, rgba ++ img) ∧
          img.map (fun p => (p.x, p.y))
            = ((upTo 0 t.ydim).flatMap fun y => (upTo 0 t.xdim).map fun x => (x, y)) ∧
          ∀ x y, (0 ≤ x ∧ x < t.xdim) → (0 ≤ y ∧ y < t.ydim) →
            rd t.barrier (x + y * t.xdim) = some true →
            { x := x, y := y, r := 0, g := 0, b := 0, a := 255 } ∈ img ∧
            ∀ p ∈ img, p.x = x → p.y = y →
              p = { x := x, y := y, r := 0, g := 0, b := 0, a := 255 } :=
  ⟨rfl, PlotToImage_barrier_black bare5 rfl⟩

/-! ## The uniform lattice -/

theorem list_ext_rd {α : Type} {a b : List α} {n : Nat} (ha : a.length = n) (hb : b.length = n)
    (h : ∀ i : Int, 0 ≤ i → i.toNat < n → rd a i = rd b i) : a = b := by
  apply List.ext_getElem?
  intro k
  by_cases hk : k < n
  · have := h (k : Int) (by omega) (by omega)
    rw [rd_nat, rd_nat] at this
    exact this
  · rw [List.getElem?_eq_none (by omega), List.getElem?_eq_none (by omega)]

/-- Two solvers with the same frame and the same twelve per-cell slices are equal. -/
theorem Solver.eq_of_frame {s s' : Solver} (hf : frame s' = frame s)
    (e1 : s'.n0 = s.n0) (e2 : s'.nN = s.nN) (e3 : s'.nS = s.nS) (e4 : s'.nE = s.nE)
    (e5 : s'.nW = s.nW) (e6 : s'.nNE = s.nNE) (e7 : s'.nSE = s.nSE) (e8 : s'.nNW = s.nNW)
    (e9 : s'.nSW = s.nSW) (e10 : s'.rho = s.rho) (e11 : s'.ux = s.ux) (e12 : s'.uy = s.uy) :
    s' = s := by
  have h1 : s' =
      { frame s' with
        n0 := s'.n0, nN := s'.nN, nS := s'.nS, nE := s'.nE, nW := s'.nW, nNE := s'.nNE,
        nSE := s'.nSE, nNW := s'.nNW, nSW := s'.nSW, rho := s'.rho, ux := s'.ux,
        uy := s'.uy } := rfl
  have h2 : s =
      { frame s with
        n0 := s.n0, nN := s.nN, nS := s.nS, nE := s.nE, nW := s.nW, nNE := s.nNE,
        nSE := s.nSE, nNW := s.nNW, nSW := s.nSW, rho := s.rho, ux := s.ux,
        uy := s.uy } := rfl
  rw [h1, h2, hf, e1, e2, e3, e4, e5, e6, e7, e8, e9, e10, e11, e12]

/-- Two solvers with the same quiet part, the same eight moving densities and the same
five accumulators are equal. -/
theorem Solver.eq_of_quiet {s s' : Solver} (hq : quiet s' = quiet s)
    (hd : ∀ d, dens s' d = dens s d) (a1 : s'.barrierCount = s.barrierCount)
    (a2 : s'.barrierxSum = s.barrierxSum) (a3 : s'.barrierySum = s.barrierySum)
    (a4 : s'.barrierFx = s.barrierFx) (a5 : s'.barrierFy = s.barrierFy) : s' = s := by
  have h1 : s' =
      { quiet s' with
        nN := s'.nN, nS := s'.nS, nE := s'.nE, nW := s'.nW, nNE := s'.nNE,
        nSE := s'.nSE, nNW := s'.nNW, nSW := s'.nSW, barrierCount := s'.barrierCount,
        barrierxSum := s'.barrierxSum, barrierySum := s'.barrierySum,
        barrierFx := s'.barrierFx, barrierFy := s'.barrierFy } := rfl
  have h2 : s =
      { quiet s with
        nN := s.nN, nS := s.nS, nE := s.nE, nW := s.nW, nNE := s.nNE,
        nSE := s.nSE, nNW := s.nNW, nSW := s.nSW, barrierCount := s.barrierCount,
        barrierxSum := s.barrierxSum, barrierySum := s.barrierySum,
        barrierFx := s.barrierFx, barrierFy := s.barrierFy } := rfl
  have eN : s'.nN = s.nN := hd .N
  have eS : s'.nS = s.nS := hd .S
  have eE : s'.nE = s.nE := hd .E
  have eW : s'.nW = s.nW := hd .W
  have eNE : s'.nNE = s.nNE := hd .NE
  have eSE : s'.nSE = s.nSE := hd .SE
  have eNW : s'.nNW = s.nNW := hd .NW
  have eSW : s'.nSW = s.nSW := hd .SW
  rw [h1, h2, hq, eN, eS, eE, eW, eNE, eSE, eNW, eSW, a1, a2, a3, a4, a5]

/-- Two solvers with the same frame and the same cells are equal. -/
theorem Solver.eq_of_cells {s s' : Solver} {n : Nat} (hf : frame s' = frame s)
    (hs : Sized s n) (hs' : Sized s' n)
    (hc : ∀ i : Int, 0 ≤ i → i.toNat < n → cellAt s' i = cellAt s i) : s' = s := by
  have key : ∀ i : Int, 0 ≤ i → i.toNat < n →
      rd s'.n0 i = rd s.n0 i ∧ rd s'.nN i = rd s.nN i ∧ rd s'.nS i = rd s.nS i ∧
      rd s'.nE i = rd s.nE i ∧ rd s'.nW i = rd s.nW i ∧ rd s'.nNE i = rd s.nNE i ∧
      rd s'.nSE i = rd s.nSE i ∧ rd s'.nNW i = rd s.nNW i ∧ rd s'.nSW i = rd s.nSW i ∧
      rd s'.rho i = rd s.rho i ∧ rd s'.ux i = rd s.ux i ∧ rd s'.uy i = rd s.uy i := by
    intro i h0 h1
    obtain ⟨c, hci⟩ := cellAt_ok hs h0 h1
    obtain ⟨b1, b2, b3, b4, b5, b6, b7, b8, b9, b10, b11, b12⟩ := cellAt_some hci
    obtain ⟨d1, d2, d3, d4, d5, d6, d7, d8, d9, d10, d11, d12⟩ :=
      cellAt_some ((hc i h0 h1).trans hci)
    exact ⟨d1.trans b1.symm, d2.trans b2.symm, d3.trans b3.symm, d4.trans b4.symm,
      d5.trans b5.symm, d6.trans b6.symm, d7.trans b7.symm, d8.trans b8.symm,
      d9.trans b9.symm, d10.trans b10.symm, d11.trans b11.symm, d12.trans b12.symm⟩
  obtain ⟨a1, a2, a3, a4, a5, a6, a7, a8, a9, a10, a11, a12⟩ := hs
  obtain ⟨c1, c2, c3, c4, c5, c6, c7, c8, c9, c10, c11, c12⟩ := hs'
  exact Solver.eq_of_frame hf
    (list_ext_rd c1 a1 fun i h0 h1 => (key i h0 h1).1)
    (list_ext_rd c2 a2 fun i h0 h1 => (key i h0 h1).2.1)
    (list_ext_rd c3 a3 fun i h0 h1 => (key i h0 h1).2.2.1)
    (list_ext_rd c4 a4 fun i h0 h1 => (key i h0 h1).2.2.2.1)
    (list_ext_rd c5 a5 fun i h0 h1 => (key i h0 h1).2.2.2.2.1)
    (list_ext_rd c6 a6 fun i h0 h1 => (key i h0 h1).2.2.2.2.2.1)
    (list_ext_rd c7 a7 fun i h0 h1 => (key i h0 h1).2.2.2.2.2.2.1)
    (list_ext_rd c8 a8 fun i h0 h1 => (key i h0 h1).2.2.2.2.2.2.2.1)
    (list_ext_rd c9 a9 fun i h0 h1 => (key i h0 h1).2.2.2.2.2.2.2.2.1)
    (list_ext_rd c10 a10 fun i h0 h1 => (key i h0 h1).2.2.2.2.2.2.2.2.2.1)
    (list_ext_rd c11 a11 fun i h0 h1 => (key i h0 h1).2.2.2.2.2.2.2.2.2.2.1)
    (list_ext_rd c12 a12 fun i h0 h1 => (key i h0 h1).2.2.2.2.2.2.2.2.2.2.2)

/-- The outflow loop of `Collide` changes nothing when every cell of the lattice is the
same. -/
theorem outflow_uniform {s : Solver} {n : Nat} (hs : Sized s n) (xdim ydim : Int) (e : Cell)
    (hx : 0 < xdim) (hn : n = (xdim * ydim).toNat)
    (hu : ∀ i : Int, 0 ≤ i → i.toNat < n → cellAt s i = some e) :
    ∃ s2, (upTo 1 (ydim - 2)).foldlM (fun st y => outflowRow xdim st y) s = some s2 ∧
      Sized s2 n ∧ frame s2 = frame s ∧
      ∀ i : Int, 0 ≤ i → i.toNat < n → cellAt s2 i = some e := by
  obtain ⟨s2, hrun, hsz, hfr, hc⟩ := foldlM_inv_mem (fun st y => outflowRow xdim st y)
    (fun st => Sized st n ∧ frame st = frame s ∧
      ∀ i : Int, 0 ≤ i → i.toNat < n → cellAt st i = some e)
    (upTo 1 (ydim - 2))
    (by
      rintro y hy st ⟨hsz, hfr, hc⟩
      rw [mem_upTo] at hy
      obtain ⟨h0, h1⟩ := idx_range (w := xdim) (h := ydim) (x := xdim - 1) (y := y)
        (by omega) (by omega) (by omega) (by omega)
      have hy1 : 1 * xdim ≤ y * xdim := mul_le_mul_of_nonneg_right (by omega) hx.le
      have k0 : 0 ≤ xdim - 2 + y * xdim := by omega
      have k1 : (xdim - 2 + y * xdim).toNat < n := by
        rw [hn]
        omega
      obtain ⟨st', hb, hsz', hfr', ho', hi'⟩ := outflowRow_cell hsz xdim y k0 (hn ▸ h1)
      refine ⟨st', hb, hsz', hfr'.trans hfr, ?_⟩
      intro i i0 i1
      by_cases hi : i = xdim - 1 + y * xdim
      · rw [hi, hi' e e (hc _ h0 (hn ▸ h1)) (hc _ k0 k1)]
        rfl
      · rw [ho' i hi]
        exact hc i i0 i1)
    s ⟨hs, rfl, hu⟩
  exact ⟨s2, hrun, hsz, hfr, hc⟩

/-- `Collide` changes nothing on a well-formed lattice whose cells all hold the same
equilibrium with a density that is not zero. -/
theorem Collide_uniform {s : Solver} (hwf : WellFormed s) (ux uy rho : ℚ) (hrho : rho ≠ 0)
    (hu : ∀ i : Int, 0 ≤ i → i.toNat < (s.xdim * s.ydim).toNat →
      cellAt s i = some (equilibrium ux uy rho)) : Collide s = some s := by
  obtain ⟨s1, hrun1, hs1, hf1, hin, hout⟩ := Collide_sites hwf (1.0 / (3 * s.flowVisc + 0.5))
  have hu1 : ∀ i : Int, 0 ≤ i → i.toNat < (s.xdim * s.ydim).toNat →
      cellAt s1 i = some (equilibrium ux uy rho) := by
    intro i h0 h1
    by_cases hi : ∃ x y, 1 ≤ x ∧ x ≤ s.xdim - 2 ∧ 1 ≤ y ∧ y ≤ s.ydim - 2 ∧ i = x + y * s.xdim
    · obtain ⟨x, y, a1, a2, a3, a4, rfl⟩ := hi
      rw [hin x y a1 a2 a3 a4, hu _ h0 h1]
      exact congrArg some (relax_equilibrium _ ux uy rho hrho)
    · rw [hout i (fun x y a1 a2 a3 a4 e => hi ⟨x, y, a1, a2, a3, a4, e⟩)]
      exact hu i h0 h1
  obtain ⟨s2, hrun2, hs2, hf2, hu2⟩ :=
    outflow_uniform hs1 s.xdim s.ydim (equilibrium ux uy rho) hwf.1 rfl hu1
  have e : s2 = s := Solver.eq_of_cells (hf2.trans hf1) hwf.sized hs2
    (fun i h0 h1 => (hu2 i h0 h1).trans (hu i h0 h1).symm)
  have hC : Collide s = some s2 := by
    simp only [Collide, hrun1, andThen_some, hrun2]
  rw [hC, e]

theorem cellAt_dens {s : Solver} {i : Int} {c : Cell} (h : cellAt s i = some c) (d : Dir) :
    rd (dens s d) i = some (c.dens d) := by
  obtain ⟨_, b2, b3, b4, b5, b6, b7, b8, b9, _⟩ := cellAt_some h
  cases d <;> simp only [dens, Cell.dens] <;> assumption

/-- `Stream` changes nothing on a well-formed lattice without barrier whose cells are
all the same and whose accumulators are zero. -/
theorem Stream_uniform {s : Solver} (hwf : WellFormed s) (e : Cell)
    (hu : ∀ i : Int, 0 ≤ i → i.toNat < (s.xdim * s.ydim).toNat → cellAt s i = some e)
    (hfree : ∀ i, rd s.barrier i ≠ some true)
    (a1 : s.barrierCount = 0) (a2 : s.barrierxSum = 0) (a3 : s.barrierySum = 0)
    (a4 : s.barrierFx = 0) (a5 : s.barrierFy = 0) : Stream s = some s := by
  obtain ⟨s', hrun, hwf', hq, hd⟩ := Stream_full hwf
  obtain ⟨s'', hrun', _, _, _, hz⟩ := Stream_count hwf
  have hs : s'' = s' := Option.some.inj (hrun'.symm.trans hrun)
  rw [hs] at hz
  have hnone : barrierSites s = [] := by
    rw [List.eq_nil_iff_forall_not_mem]
    intro p hp
    exact hfree _ (mem_barrierSites.mp hp).2.2
  obtain ⟨z1, z2, z3, z4, z5⟩ := hz hnone
  have ex : s'.xdim = s.xdim := quiet_get Solver.xdim rfl rfl hq
  have ey : s'.ydim = s.ydim := quiet_get Solver.ydim rfl rfl hq
  have hdens : ∀ d, dens s' d = dens s d := by
    intro d
    have l' := hwf'.dens_length d
    rw [ex, ey] at l'
    refine list_ext_rd l' (hwf.dens_length d) ?_
    intro i h0 h1
    rw [cellAt_dens (hu i h0 h1) d]
    by_cases hi : ∃ x y, 1 ≤ x ∧ x ≤ s.xdim - 2 ∧ 1 ≤ y ∧ y ≤ s.ydim - 2 ∧ i = x + y * s.xdim
    · obtain ⟨x, y, b1, b2, b3, b4, rfl⟩ := hi
      rw [(hd d).1 x y ⟨b1, b2⟩ ⟨b3, b4⟩ (fun x' y' _ _ hb => absurd hb (hfree _))]
      have rx := d.dx_range
      have ry := d.dy_range
      obtain ⟨k0, k1⟩ := idx_range (w := s.xdim) (h := s.ydim) (x := x - d.dx)
        (y := y - d.dy) (by omega) (by omega) (by omega) (by omega)
      exact cellAt_dens (hu _ k0 k1) d
    · rw [(hd d).2.2 i (fun x y b1 b2 b3 b4 e => hi ⟨x, y, b1, b2, b3, b4, e⟩)
        (fun x' y' _ _ hb => absurd hb (hfree _))]
      exact cellAt_dens (hu i h0 h1) d
  rw [hrun]
  exact congrArg some (Solver.eq_of_quiet hq hdens (z1.trans a1.symm) (z2.trans a2.symm)
    (z3.trans a3.symm) (z4.trans a4.symm) (z5.trans a5.symm))

/-- The lattice `InitalizeLattice` leaves when the barrier type is neither the line nor
the circle: well-formed, every cell at the inlet equilibrium, no barrier flag set and
the five accumulators zero. -/
theorem InitalizeLattice_open (s : Solver) (xmax ymax : Int) (fVel fVisc : ℚ)
    (barrierType : Int) (hx : 0 < xmax) (hy : 0 < ymax) (hl : barrierType ≠ LINE)
    (hc : barrierType ≠ CIRCLE) :
    ∃ s', InitalizeLattice s xmax ymax fVel fVisc barrierType = some s' ∧ WellFormed s' ∧
      s'.xdim = xmax ∧ s'.ydim = ymax ∧
      (∀ i : Int, 0 ≤ i → i.toNat < (xmax * ymax).toNat →
        cellAt s' i = some (equilibrium fVel 0 1)) ∧
      (∀ i, rd s'.barrier i ≠ some true) ∧
      (s'.barrierCount = 0 ∧ s'.barrierxSum = 0 ∧ s'.barrierySum = 0 ∧
        s'.barrierFx = 0 ∧ s'.barrierFy = 0) := by
  have hprod : 0 ≤ xmax * ymax := mul_nonneg hx.le hy.le
  have hlen : (allocated s xmax ymax fVel fVisc).barrier.length = (xmax * ymax).toNat :=
    List.length_replicate _ _
  obtain ⟨b1, h1, hb1, hin1, hout1⟩ := barrier_paint (allocated s xmax ymax fVel fVisc)
    (fun p : Int × Int => p.1 + p.2 * xmax) false
    ((upTo 0 ymax).flatMap fun y => (upTo 0 xmax).map fun x => (x, y))
    (by
      rintro ⟨x, y⟩ hp
      obtain ⟨hx', hy'⟩ := mem_grid.mp hp
      rw [mem_upTo] at hx' hy'
      rw [hlen]
      exact idx_range hx'.1 hx'.2 hy'.1 hy'.2)
  rw [hlen] at hb1
  have hclear : ∀ i, rd b1 i ≠ some true := by
    intro i h
    by_cases hi : ∀ p ∈ ((upTo 0 ymax).flatMap fun y => (upTo 0 xmax).map fun x => (x, y)),
        i ≠ p.1 + p.2 * xmax
    · rw [hout1 i hi] at h
      exact absurd (rd_replicate h) (by decide)
    · push_neg at hi
      obtain ⟨p, hp, e⟩ := hi
      rw [e, hin1 p hp] at h
      exact absurd h (by decide)
  obtain ⟨r, g, b, h3⟩ := CreateColorMap_spec
    { allocated s xmax ymax fVel fVisc with barrier := b1 } rfl
  have hwf : WellFormed { allocated s xmax ymax fVel fVisc with
      barrier := b1, redList := r, greenList := g, blueList := b } := by
    simp only [WellFormed, allocated, List.length_replicate, and_self, true_and]
    exact ⟨hx, hy, hb1, trivial⟩
  obtain ⟨s', hrun', hwf', hfr, hcells⟩ := InitFluid_spec hwf
  have eb : s'.barrier = b1 := frameC_get Solver.barrier rfl rfl hfr
  have ex : s'.xdim = xmax := frameC_get Solver.xdim rfl rfl hfr
  have ey : s'.ydim = ymax := frameC_get Solver.ydim rfl rfl hfr
  refine ⟨s', ?_, hwf', ex, ey, ?_, ?_, frameC_get Solver.barrierCount rfl rfl hfr,
    frameC_get Solver.barrierxSum rfl rfl hfr, frameC_get Solver.barrierySum rfl rfl hfr,
    frameC_get Solver.barrierFx rfl rfl hfr, frameC_get Solver.barrierFy rfl rfl hfr⟩
  · unfold InitalizeLattice
    rw [InitSolver_eq s xmax ymax fVel fVisc hprod, andThen_some]
    have hcl : ClearBarriers (allocated s xmax ymax fVel fVisc)
        = some { allocated s xmax ymax fVel fVisc with barrier := b1 } := by
      unfold ClearBarriers
      rw [foldlM_nested (fun (st : Solver) (x y : Int) =>
        andThen (wr st.barrier (x + y * (allocated s xmax ymax fVel fVisc).xdim) false)
          fun b => some { st with barrier := b })]
      exact h1
    have hcb : CreateBarrier { allocated s xmax ymax fVel fVisc with barrier := b1 } barrierType
        = some { allocated s xmax ymax fVel fVisc with barrier := b1 } := by
      unfold CreateBarrier
      rw [if_neg hl, if_neg hc]
    rw [hcl, andThen_some, hcb, andThen_some, h3, andThen_some]
    exact hrun'
  · intro i h0 h1'
    have hi : i < xmax * ymax := by omega
    have e : i = i % xmax + i / xmax * xmax := by
      have := Int.emod_add_ediv i xmax
      rw [mul_comm] at this
      exact this.symm
    rw [e]
    exact (hcells (i % xmax) (i / xmax) (Int.emod_nonneg i (by omega))
      (Int.emod_lt_of_pos i hx) (Int.ediv_nonneg h0 hx.le)
      (Int.ediv_lt_of_lt_mul hx (by rw [mul_comm]; exact hi))).1
  · intro i
    rw [eb]
    exact hclear i

/-! ## Equilibrium is a fixed point: the claim -/

/-- C30 (equilibrium is a fixed point of collision).  First part: on a well-formed
lattice, whatever its viscosity, when the nine densities of an interior cell are those of
the equilibrium for some `(ux, uy, rho)` with `rho ≠ 0`, `Collide` succeeds and leaves the
nine densities of the cell as they were, and stores `rho`, `ux` and `uy` in it.  Second
part: `InitalizeLattice` on a grid with positive dimensions and a barrier type that is
neither the line nor the circle succeeds and leaves a lattice without barrier cell; on it
`Collide` succeeds and returns the same state, `Stream` succeeds and returns the same
state, and so does `Collide` followed by `Stream`. -/
theorem Collide_fixes_equilibrium :
    (∀ (s : Solver) (x y : Int) (ux uy rho : ℚ) (c : Cell), WellFormed s →
      (1 ≤ x ∧ x ≤ s.xdim - 2) → (1 ≤ y ∧ y ≤ s.ydim - 2) → rho ≠ 0 →
      cellAt s (x + y * s.xdim) = some c → c.flows = (equilibrium ux uy rho).flows →
      ∃ s' c', Collide s = some s' ∧ cellAt s' (x + y * s.xdim) = some c' ∧
        c'.flows = c.flows ∧ c'.rho = rho ∧ c'.ux = ux ∧ c'.uy = uy) ∧
    (∀ (s0 : Solver) (xmax ymax : Int) (fVel fVisc : ℚ) (barrierType : Int),
      0 < xmax → 0 < ymax → barrierType ≠ LINE → barrierType ≠ CIRCLE →
      ∃ s, InitalizeLattice s0 xmax ymax fVel fVisc barrierType = some s ∧
        (∀ i, rd s.barrier i ≠ some true) ∧
        Collide s = some s ∧ Stream s = some s ∧ (Collide s).bind Stream = some s) := by
  constructor
  · intro s x y ux uy rho c hwf hx hy hrho hc hfl
    obtain ⟨s', hrun, _, _, hrel⟩ := Collide_spec hwf
    simp only [Cell.flows, List.cons.injEq, and_true] at hfl
    obtain ⟨f0, fN, fS, fE, fW, fNE, fSE, fNW, fSW⟩ := hfl
    have hfix := relax_fixed (1.0 / (3 * s.flowVisc + 0.5)) ux uy rho c hrho
      f0 fN fS fE fW fNE fSE fNW fSW
    refine ⟨s', equilibrium ux uy rho, hrun, ?_, ?_, rfl, rfl, rfl⟩
    · rw [hrel x y hx.1 hx.2 hy.1 hy.2, hc]
      exact congrArg some hfix
    · simp only [Cell.flows, f0, fN, fS, fE, fW, fNE, fSE, fNW, fSW]
  · intro s0 xmax ymax fVel fVisc barrierType hx hy hl hc
    obtain ⟨s, hrun, hwf, ex, ey, hu, hfree, a1, a2, a3, a4, a5⟩ :=
      InitalizeLattice_open s0 xmax ymax fVel fVisc barrierType hx hy hl hc
    rw [← ex, ← ey] at hu
    have hC := Collide_uniform hwf fVel 0 1 one_ne_zero hu
    have hS := Stream_uniform hwf _ hu hfree a1 a2 a3 a4 a5
    refine ⟨s, hrun, hfree, hC, hS, ?_⟩
    rw [hC]
    exact hS

theorem Collide_fixes_equilibrium_witness :
    (WellFormed rest3 ∧ (1 ≤ (1 : Int) ∧ (1 : Int) ≤ rest3.xdim - 2) ∧
      (1 ≤ (1 : Int) ∧ (1 : Int) ≤ rest3.ydim - 2) ∧ (1 : ℚ) ≠ 0 ∧
      cellAt rest3 (1 + 1 * rest3.xdim) = some (equilibrium 0 0 1) ∧
      (equilibrium 0 0 1).flows = (equilibrium 0 0 1).flows ∧
      ∃ s' c', Collide rest3 = some s' ∧ cellAt s' (1 + 1 * rest3.xdim) = some c' ∧
        c'.flows = (equilibrium 0 0 1).flows ∧ c'.rho = 1 ∧ c'.ux = 0 ∧ c'.uy = 0) ∧
    ((0 : Int) < 5 ∧ (2 : Int) ≠ LINE ∧ (2 : Int) ≠ CIRCLE ∧
      ∃ s, InitalizeLattice rest3 5 5 (1 / 10) (1 / 50) 2 = some s ∧
        (∀ i, rd s.barrier i ≠ some true) ∧
        Collide s = some s ∧ Stream s = some s ∧ (Collide s).bind Stream = some s) :=
  ⟨⟨rest3_wf, by decide, by decide, one_ne_zero, rest3_cell, rfl,
      Collide_fixes_equilibrium.1 rest3 1 1 0 0 1 (equilibrium 0 0 1) rest3_wf (by decide)
        (by decide) one_ne_zero rest3_cell rfl⟩,
    ⟨by decide, by decide, by decide,
      Collide_fixes_equilibrium.2 rest3 5 5 (1 / 10) (1 / 50) 2 (by decide) (by decide)
        (by decide) (by decide)⟩⟩

/-! ## The row goroutines in the order in which they are started -/

theorem andThen_assoc {α β γ : Type} (o : Option α) (f : α → Option β)
    (g : β → Option γ) :
    andThen (andThen o f) g = andThen o fun a => andThen (f a) g := by
  cases o <;> rfl

theorem andThen_congr {α β : Type} {o : Option α} {f g : α → Option β}
    (h : ∀ a, o = some a → f a = g a) : andThen o f = andThen o g := by
  cases o with
  | none => rfl
  | some a => exact h a rfl

theorem runProgram_nil (s : Solver) (r : Regs) : runProgram [] s r = some (s, r) := rfl

theorem runProgram_cons (m : Micro) (prog : List Micro) (s : Solver) (r : Regs) :
    runProgram (m :: prog) s r = andThen (m.exec s r) fun p => runProgram prog p.1 p.2 := by
  unfold runProgram
  rw [List.foldlM_cons]
  rfl

theorem runProgram_append (p q : List Micro) (s : Solver) (r : Regs) :
    runProgram (p ++ q) s r = andThen (runProgram p s r) fun t => runProgram q t.1 t.2 := by
  unfold runProgram
  rw [List.foldlM_append]
  rfl

theorem runSchedule_cons (k : Nat) (sched : List Nat) (st : Solver × List Worker) :
    runSchedule (k :: sched) st = andThen (microStep st k) (runSchedule sched) := by
  unfold runSchedule
  rw [List.foldlM_cons]
  rfl

theorem runSchedule_append (a b : List Nat) (st : Solver × List Worker) :
    runSchedule (a ++ b) st = andThen (runSchedule a st) (runSchedule b) := by
  unfold runSchedule
  rw [List.foldlM_append]
  rfl

/-- A step that succeeds changes nothing of the solver but moving densities and
accumulators. -/
theorem Micro.exec_quiet {m : Micro} {s : Solver} {r : Regs} {p : Solver × Regs}
    (h : m.exec s r = some p) : quiet p.1 = quiet s := by
  cases m with
  | load d i =>
    obtain ⟨v, _, h⟩ := andThen_eq_some h
    rw [← Option.some.inj h]
  | store d i =>
    obtain ⟨v, _, h⟩ := andThen_eq_some h
    rw [← Option.some.inj h]
    exact quiet_setDens _ _ _
  | plus d i =>
    obtain ⟨v, _, h⟩ := andThen_eq_some h
    rw [← Option.some.inj h]
  | minus d i =>
    obtain ⟨v, _, h⟩ := andThen_eq_some h
    rw [← Option.some.inj h]
  | getCount => rw [← Option.some.inj h]
  | putCount =>
    rw [← Option.some.inj h]
    rfl
  | getXSum => rw [← Option.some.inj h]
  | putXSum x =>
    rw [← Option.some.inj h]
    rfl
  | getYSum => rw [← Option.some.inj h]
  | putYSum y =>
    rw [← Option.some.inj h]
    rfl
  | getFx => rw [← Option.some.inj h]
  | getFy => rw [← Option.some.inj h]
  | putFx =>
    rw [← Option.some.inj h]
    rfl
  | putFy =>
    rw [← Option.some.inj h]
    rfl

theorem runProgram_quiet : ∀ (prog : List Micro) {s : Solver} {r : Regs} {p : Solver × Regs},
    runProgram prog s r = some p → quiet p.1 = quiet s := by
  intro prog
  induction prog with
  | nil =>
    intro s r p h
    rw [← Option.some.inj h]
  | cons m prog ih =>
    intro s r p h
    rw [runProgram_cons] at h
    obtain ⟨q, hq, h⟩ := andThen_eq_some h
    exact (ih h).trans (Micro.exec_quiet hq)

theorem set_self {α : Type} :
    ∀ {l : List α} {k : Nat} {a : α}, l[k]? = some a → l.set k a = l := by
  intro l
  induction l with
  | nil =>
    intro k a h
    rfl
  | cons b l ih =>
    intro k a h
    cases k with
    | zero =>
      rw [List.getElem?_cons_zero] at h
      rw [List.set_cons_zero, Option.some.inj h]
    | succ k =>
      rw [List.getElem?_cons_succ] at h
      rw [List.set_cons_succ, ih h]

/-- A goroutine that makes all its steps in a row, from the solver `s`, runs its program
on `s`. -/
theorem runSchedule_worker (k : Nat) : ∀ (todo : List Micro) (s : Solver) (ws : List Worker)
    (r : Regs), ws[k]? = some { regs := r, todo := todo } →
    runSchedule (List.replicate todo.length k) (s, ws)
      = andThen (runProgram todo s r) fun p =>
          some (p.1, ws.set k { regs := p.2, todo := [] }) := by
  intro todo
  induction todo with
  | nil =>
    intro s ws r h
    show some (s, ws) = some (s, ws.set k { regs := r, todo := [] })
    rw [set_self h]
  | cons m rest ih =>
    intro s ws r h
    rw [List.length_cons, List.replicate_succ, runSchedule_cons, runProgram_cons]
    have hstep : microStep (s, ws) k = andThen (m.exec s r) fun p =>
        some (p.1, ws.set k { regs := p.2, todo := rest }) := by
      unfold microStep
      simp only [h]
    rw [hstep]
    obtain ⟨hk, _⟩ := List.getElem?_eq_some.mp h
    cases hm : m.exec s r with
    | none => rfl
    | some p =>
      rw [andThen_some, andThen_some,
        ih p.1 (ws.set k { regs := p.2, todo := rest }) p.2
          (by rw [List.getElem?_set_self hk])]
      simp only [List.set_set, andThen_some]

/-- The goroutines that run to their end in the order in which they were started run
their programs one after the other. -/
theorem runSchedule_finishFrom : ∀ (rest pre : List Worker) (s : Solver),
    (andThen (runSchedule (finishFrom pre.length rest) (s, pre ++ rest)) fun fin =>
        some fin.1)
      = rest.foldlM (fun st w => andThen (runProgram w.todo st w.regs) fun p => some p.1) s := by
  intro rest
  induction rest with
  | nil =>
    intro pre s
    rfl
  | cons w rest ih =>
    intro pre s
    rw [List.foldlM_cons]
    show (andThen (runSchedule (List.replicate w.todo.length pre.length ++
        finishFrom (pre.length + 1) rest) (s, pre ++ w :: rest)) fun fin => some fin.1) = _
    rw [runSchedule_append, runSchedule_worker pre.length w.todo s (pre ++ w :: rest) w.regs
      (by rw [List.getElem?_append_right (le_refl _), Nat.sub_self, List.getElem?_cons_zero])]
    cases hp : runProgram w.todo s w.regs with
    | none => rfl
    | some p =>
      have hset : (pre ++ w :: rest).set pre.length { regs := p.2, todo := [] }
          = (pre ++ [{ regs := p.2, todo := [] }]) ++ rest := by
        simp
      have h := ih (pre ++ [{ regs := p.2, todo := [] }]) p.1
      rw [List.length_append, List.length_singleton] at h
      simp only [andThen_some, hset]
      exact h

/-- At a barrier site the steps of a goroutine, made one after the other, are the body of
the bounce-back loop. -/
theorem runProgram_site (dim x y : Int) (s : Solver) (r : Regs)
    (hb : rd s.barrier (x + y * dim) = some true) :
    (andThen (runProgram (siteProgram dim x y) s r) fun p => some p.1)
      = bounceSite dim s x y := by
  simp only [siteProgram, runProgram_cons, runProgram_nil, Micro.exec, bounceSite, hb,
    andThen_assoc, andThen_some, dens, setDens, if_true]
  iterate 16 refine andThen_congr fun _ _ => ?_
  refine andThen_congr fun fE _ => ?_
  refine andThen_congr fun fNE hNE => ?_
  refine andThen_congr fun fSE hSE => ?_
  refine andThen_congr fun fW _ => ?_
  refine andThen_congr fun fNW hNW => ?_
  refine andThen_congr fun fSW hSW => ?_
  refine andThen_congr fun fN _ => ?_
  rw [hNE, andThen_some, hNW, andThen_some]
  refine andThen_congr fun fS _ => ?_
  rw [hSE, andThen_some, hSW, andThen_some]
  congr 1
  congr 1 <;> ring

/-- The program of a row over the sites `xs`: it is built, and its steps made one after
the other are the bounce-back loop over `xs`. -/
theorem rowProgram_over (s4 : Solver) (y : Int) {n : Nat} (hn : n = (s4.xdim * s4.ydim).toNat)
    (hb : s4.barrier.length = n) (hy : 1 ≤ y ∧ y ≤ s4.ydim - 2) :
    ∀ (xs : List Int), (∀ x ∈ xs, 1 ≤ x ∧ x ≤ s4.xdim - 2) → ∀ acc : List Micro,
      ∃ prog, xs.foldlM (fun prog x =>
          andThen (rd s4.barrier (x + y * s4.xdim)) fun isBarrier =>
          some (if isBarrier then prog ++ siteProgram s4.xdim x y else prog)) acc
          = some (acc ++ prog) ∧
        ∀ (st : Solver) (r : Regs), st.barrier = s4.barrier →
          (andThen (runProgram prog st r) fun p => some p.1)
            = xs.foldlM (fun st x => bounceSite s4.xdim st x y) st := by
  intro xs
  induction xs with
  | nil =>
    intro _ acc
    exact ⟨[], by rw [List.append_nil]; rfl, fun st r _ => rfl⟩
  | cons x xs ih =>
    intro hxs acc
    have hx := hxs x (List.mem_cons_self _ _)
    have hxs' : ∀ x' ∈ xs, 1 ≤ x' ∧ x' ≤ s4.xdim - 2 :=
      fun x' h' => hxs x' (List.mem_cons_of_mem _ h')
    obtain ⟨k0, k1⟩ := idx_range (w := s4.xdim) (h := s4.ydim) (x := x) (y := y)
      (by omega) (by omega) (by omega) (by omega)
    obtain ⟨b, hbx⟩ := rd_ok (a := s4.barrier) k0 (by rw [hb, hn]; exact k1)
    cases b with
    | false =>
      obtain ⟨prog, hp, hrun⟩ := ih hxs' acc
      refine ⟨prog, ?_, ?_⟩
      · rw [List.foldlM_cons, hbx]
        exact hp
      · intro st r hst
        rw [List.foldlM_cons, bounceSite_fluid st s4.xdim x y (by rw [hst]; exact hbx)]
        exact hrun st r hst
    | true =>
      obtain ⟨prog, hp, hrun⟩ := ih hxs' (acc ++ siteProgram s4.xdim x y)
      refine ⟨siteProgram s4.xdim x y ++ prog, ?_, ?_⟩
      · rw [List.foldlM_cons, hbx, ← List.append_assoc]
        exact hp
      · intro st r hst
        rw [List.foldlM_cons, runProgram_append,
          ← runProgram_site s4.xdim x y st r (by rw [hst]; exact hbx)]
        cases hp' : runProgram (siteProgram s4.xdim x y) st r with
        | none => rfl
        | some p =>
          exact hrun p.1 p.2
            ((quiet_get Solver.barrier rfl rfl (runProgram_quiet _ hp')).trans hst)

/-- The row goroutines over the rows `ys`: they are built, and their programs run one
after the other are the bounce-back loop over `ys`. -/
theorem rowWorkers_over (s4 : Solver) {n : Nat} (hn : n = (s4.xdim * s4.ydim).toNat)
    (hb : s4.barrier.length = n) :
    ∀ (ys : List Int), (∀ y ∈ ys, 1 ≤ y ∧ y ≤ s4.ydim - 2) → ∀ acc : List Worker,
      ∃ ws, ys.foldlM (fun ws yy =>
          andThen (rowProgram s4 yy) fun prog =>
          some (ws ++ [{ regs := { reg := 0, acc := 0, ireg := 0 }, todo := prog }])) acc
          = some (acc ++ ws) ∧
        ∀ st : Solver, st.barrier = s4.barrier →
          ws.foldlM (fun st w => andThen (runProgram w.todo st w.regs) fun p => some p.1) st
            = ys.foldlM (fun st yy =>
                (upTo 1 (s4.xdim - 1)).foldlM (fun st x => bounceSite s4.xdim st x yy) st) st := by
  intro ys
  induction ys with
  | nil =>
    intro _ acc
    exact ⟨[], by rw [List.append_nil]; rfl, fun st _ => rfl⟩
  | cons y ys ih =>
    intro hys acc
    have hy := hys y (List.mem_cons_self _ _)
    have hys' : ∀ y' ∈ ys, 1 ≤ y' ∧ y' ≤ s4.ydim - 2 :=
      fun y' h' => hys y' (List.mem_cons_of_mem _ h')
    obtain ⟨prog, hp, hrun⟩ := rowProgram_over s4 y hn hb hy (upTo 1 (s4.xdim - 1))
      (fun x hx => by rw [mem_upTo] at hx; omega) []
    have hprog : rowProgram s4 y = some prog := hp
    obtain ⟨ws, hws, hall⟩ := ih hys'
      (acc ++ [{ regs := { reg := 0, acc := 0, ireg := 0 }, todo := prog }])
    refine ⟨{ regs := { reg := 0, acc := 0, ireg := 0 }, todo := prog } :: ws, ?_, ?_⟩
    · rw [List.foldlM_cons, hprog]
      rw [List.append_assoc] at hws
      exact hws
    · intro st hst
      rw [List.foldlM_cons, List.foldlM_cons]
      have h1 := hrun st { reg := 0, acc := 0, ireg := 0 } hst
      show (andThen (runProgram prog st { reg := 0, acc := 0, ireg := 0 }) fun p => some p.1)
        >>= _ = _
      rw [h1]
      cases hrow : (upTo 1 (s4.xdim - 1)).foldlM (fun st x => bounceSite s4.xdim st x y) st with
      | none => rfl
      | some st1 =>
        rw [hrow] at h1
        obtain ⟨p, hp1, hp2⟩ := andThen_eq_some h1
        have e : p.1 = st1 := Option.some.inj hp2
        have hq := runProgram_quiet _ hp1
        rw [e] at hq
        exact hall st1 ((quiet_get Solver.barrier rfl rfl hq).trans hst)

/-- With the empty schedule the row goroutines run to their end one after the other, in
the order in which the source starts them: on a well-formed lattice the result is that
of `StreamThreaded` as it is run above, which is that of `Stream`. -/
theorem StreamThreadedUnder_nil {s : Solver} (hwf : WellFormed s) :
    StreamThreadedUnder [] s = StreamThreaded s := by
  have hl0 : ∀ d, (dens (resetForce s) d).length = (s.xdim * s.ydim).toNat := by
    intro d
    have : dens (resetForce s) d = dens s d := by cases d <;> rfl
    rw [this]
    exact hwf.dens_length d
  obtain ⟨s4, hrun4, hst, _⟩ := sweeps_spec (resetForce s) _ rfl hl0
  have ex : s4.xdim = s.xdim := still_get (s := resetForce s) Solver.xdim rfl rfl hst
  have ey : s4.ydim = s.ydim := still_get (s := resetForce s) Solver.ydim rfl rfl hst
  have eb : s4.barrier = s.barrier := still_get (s := resetForce s) Solver.barrier rfl rfl hst
  obtain ⟨ws, hws, hall⟩ := rowWorkers_over s4 (n := (s.xdim * s.ydim).toNat)
    (by rw [ex, ey]) (by rw [eb]; exact hwf.2.2.2.1.2.2.2.2.2.2.2.2.2.2.2.2.2)
    (upTo 1 (s4.ydim - 1)) (fun y hy => by rw [mem_upTo] at hy; omega) []
  have hrows : rowWorkers s4 = some ws := hws
  have hS : StreamThreadedUnder [] s = andThen (streamNW (resetForce s)) fun s1 =>
      andThen (streamNE s1) fun s2 => andThen (streamSE s2) fun s3 =>
      andThen (streamSW s3) fun s4 =>
      andThen (rowWorkers s4) fun ws =>
      andThen (runSchedule [] (s4, ws)) fun st =>
      andThen (runSchedule (finishFrom 0 st.2) st) fun fin => some fin.1 := rfl
  have hT : StreamThreaded s = andThen (streamNW (resetForce s)) fun s1 =>
      andThen (streamNE s1) fun s2 => andThen (streamSE s2) fun s3 =>
      andThen (streamSW s3) fun s4 =>
      (upTo 1 (s4.ydim - 1)).foldlM (fun st yy =>
        (upTo 1 (s4.xdim - 1)).foldlM (fun st x => bounceSite s4.xdim st x yy) st) s4 := rfl
  rw [hS, hT, sweeps_assoc, sweeps_assoc, hrun4, andThen_some, andThen_some, hrows,
    andThen_some, ← hall s4 rfl]
  exact runSchedule_finishFrom ws [] s4

theorem foldlM_congr_inv {σ ι : Type} (f g : σ → ι → Option σ) (I : σ → Prop)
    (hfg : ∀ st i, I st → f st i = g st i)
    (hI : ∀ st i st', I st → g st i = some st' → I st') :
    ∀ (L : List ι) (s : σ), I s → L.foldlM f s = L.foldlM g s := by
  intro L
  induction L with
  | nil => exact fun _ _ => rfl
  | cons i L ih =>
    intro s hs
    rw [List.foldlM_cons, List.foldlM_cons, hfg s i hs]
    cases h : g s i with
    | none => rfl
    | some st' => exact ih st' (hI s i st' hs h)

/-- One pass of the loop of `Simulate` with the row goroutines in the order in which they
are started. -/
theorem subStepUnder_nil {s : Solver} (hwf : WellFormed s) (hx : 2 ≤ s.xdim)
    (drag : DragFluidProperties) : subStepUnder [] drag s = subStep drag s := by
  obtain ⟨s1, hrun1, hwf1, _⟩ := Collide_step hwf hx
  unfold subStepUnder subStep
  rw [CollideThreaded_eq, hrun1, andThen_some, andThen_some, StreamThreadedUnder_nil hwf1]

/-- A frame with the row goroutines of every pass in the order in which they are started:
on a well-formed lattice `SimulateUnder` is `Simulate` as it is run above. -/
theorem SimulateUnder_nil {s : Solver} (props : AppProperties) (hwf : WellFormed s)
    (hx : 2 ≤ s.xdim) : SimulateUnder (fun _ => []) s props = Simulate s props := by
  obtain ⟨s1, hrun1, hwf1, hf1, _⟩ := SetBoundaries_step hwf
  obtain ⟨d, ox, oy, hr⟩ := DragFluidCheck_lattice s1 props
  have hwfr : WellFormed (DragFluidCheck s1 props).1 := by
    rw [hr]
    exact hwf1
  have ex1 : s1.xdim = s.xdim := frame_get Solver.xdim rfl rfl hf1
  have exr : (DragFluidCheck s1 props).1.xdim = s.xdim := by
    rw [hr]
    exact ex1
  unfold SimulateUnder Simulate
  rw [hrun1, andThen_some, andThen_some]
  simp only
  rw [foldlM_congr_inv
    (fun (st : Solver) (_ : Int) => subStepUnder [] (DragFluidCheck s1 props).2 st)
    (fun (st : Solver) (_ : Int) => subStep (DragFluidCheck s1 props).2 st)
    (fun st => WellFormed st ∧ st.xdim = s.xdim)
    (fun st _ h => subStepUnder_nil h.1 (by rw [h.2]; exact hx) _)
    (fun st _ st' h hst' => by
      obtain ⟨t, ht, hw, e1, _⟩ := subStep_step h.1 (by rw [h.2]; exact hx)
        (DragFluidCheck s1 props).2
      have e : t = st' := Option.some.inj (ht.symm.trans hst')
      rw [← e]
      exact ⟨hw, e1.trans h.2⟩)
    _ _ ⟨hwfr, exr⟩]

end LBM
